import Mathlib

/-! # Aggregated-link manager of the switch agent

A shallow embedding of `fboss/agent/hw/sai/switch/SaiLagManager.cpp`: the manager state is an
explicit record, every method is a function from a state to either a failure or a new state,
and the collaborators the manager calls (object store, port manager, bridge manager, VLAN
manager, concurrent index tables) are the record's fields.
-/

set_option autoImplicit false

namespace Fboss

/-! ## Identifiers -/

abbrev PortID := Nat
abbrev PortSaiId := Nat
abbrev LagSaiId := Nat
abbrev AggregatePortID := Nat
abbrev VlanSaiId := Nat

/-- The forwarding state of a sub-port, `AggregatePort::Forwarding`. -/
inductive Forwarding where
  | DISABLED
  | ENABLED
  deriving DecidableEq, Repr

/-- The software descriptor of a port: a physical port or an aggregate port. -/
inductive SaiPortDescriptor where
  | physical (port : PortID)
  | aggregate (aggPort : AggregatePortID)
  deriving DecidableEq, Repr

/-- The hardware descriptor of a port: a hardware port id or a LAG id. -/
inductive PortDescriptorSaiId where
  | physical (port : PortSaiId)
  | aggregate (lag : LagSaiId)
  deriving DecidableEq, Repr

/-- Modelled from the spec: the software aggregate-port entry, whose declaration is not part of
the sources. `subportAndFwdState` is the (sub-port, forwarding state) sequence, kept sorted by
sub-port id by its container; `name` is the sequence of character codes of the name. -/
structure AggregatePort where
  id : AggregatePortID
  name : List Nat
  subportAndFwdState : List (PortID × Forwarding)
  minimumLinkCount : Nat
  deriving DecidableEq, Repr

/-- The sub-ports in ascending order: the keys of `subportAndFwdState`. -/
def AggregatePort.sortedSubports (aggregatePort : AggregatePort) : List PortID :=
  aggregatePort.subportAndFwdState.map Prod.fst

/-! ## Key/value tables

`find`, `emplace` and `erase` of the C++ associative containers, over association lists.
`emplace` never overwrites an existing key. -/

namespace Table

variable {K V : Type} [DecidableEq K]

def find (k : K) : List (K × V) → Option V
  | [] => none
  | (k', v) :: rest => if k' = k then some v else find k rest

def emplace (k : K) (v : V) : List (K × V) → List (K × V)
  | [] => [(k, v)]
  | (k', v') :: rest =>
    if k' = k then (k', v') :: rest else (k', v') :: emplace k v rest

def erase (k : K) (m : List (K × V)) : List (K × V) :=
  m.filter (fun e => decide (e.1 ≠ k))

/-- Overwrites the value stored under an existing key (a write through a reference). -/
def assign (k : K) (v : V) : List (K × V) → List (K × V)
  | [] => []
  | (k', v') :: rest =>
    if k' = k then (k', v) :: rest else (k', v') :: assign k v rest

/-- Inserts an entry before the first entry with a larger key. -/
def insertOrdered {W : Type} (k : Nat) (v : W) : List (Nat × W) → List (Nat × W)
  | [] => [(k, v)]
  | (k', v') :: rest =>
    if k < k' then (k, v) :: (k', v') :: rest else (k', v') :: insertOrdered k v rest

/-- The `emplace` of `std::map`: nothing is inserted when the key is present, and the entries
stay in ascending key order. -/
def orderedEmplace {W : Type} (k : Nat) (v : W) (m : List (Nat × W)) : List (Nat × W) :=
  match find k m with
  | some _ => m
  | none => insertOrdered k v m

end Table

/-! ## Hardware object store -/

/-- Modelled from the spec: an entry of the hardware object store (its implementation is not
part of the sources): the adapter-assigned key, the attribute set last written, and the number
of holders of the handle. -/
structure StoredObject (A : Type) where
  adapterKey : Nat
  attributes : A
  owners : Nat
  deriving DecidableEq, Repr

/-- Modelled from the spec: `setObject` of the hardware object store. If no handle exists for
the identity key an object is created (with the next adapter-assigned key) and cached;
otherwise the attributes of the existing object are updated and the existing handle is
returned, with one more holder. The result is the adapter key, whether an object was created,
and the new store. -/
def setObject {K A : Type} [DecidableEq K] (key : K) (attributes : A) (freshKey : Nat)
    (store : List (K × StoredObject A)) : Nat × Bool × List (K × StoredObject A) :=
  match Table.find key store with
  | some object =>
    (object.adapterKey, false,
      Table.assign key { object with attributes := attributes, owners := object.owners + 1 } store)
  | none =>
    (freshKey, true, Table.emplace key { adapterKey := freshKey, attributes := attributes, owners := 1 } store)

/-- Modelled from the spec: `release` of a handle of the hardware object store. Ownership is
decremented, and the object is destroyed when the last holder releases it. The result says
whether the object was destroyed. -/
def release {K A : Type} [DecidableEq K] (key : K)
    (store : List (K × StoredObject A)) : Bool × List (K × StoredObject A) :=
  match Table.find key store with
  | some object =>
    if object.owners ≤ 1 then (true, Table.erase key store)
    else (false, Table.assign key { object with owners := object.owners - 1 } store)
  | none => (false, store)

/-! ## Handles -/

/-- The create attributes of a LAG object: its label and its VLAN. -/
structure SaiLagAttributes where
  label : List Nat
  vlan : VlanSaiId
  deriving DecidableEq, Repr

/-- A `std::shared_ptr<SaiLag>`: the store key (the label) and the adapter key of the object. -/
structure SaiLag where
  label : List Nat
  adapterKey : LagSaiId
  deriving DecidableEq, Repr

/-- A `std::shared_ptr<SaiLagMember>`: the adapter host key of the object, a (LAG id, hardware
port id) pair. The attributes of the object are held by the store. -/
structure SaiLagMember where
  lag : LagSaiId
  port : PortSaiId
  deriving DecidableEq, Repr

/-- The attributes of a LAG-member object that the manager reads and writes. -/
structure SaiLagMemberAttributes where
  egressDisable : Bool
  deriving DecidableEq, Repr

/-- A bridge port object, as returned by `SaiBridgeManager::addBridgePort`. -/
structure SaiBridgePort where
  portDescriptor : SaiPortDescriptor
  saiId : PortDescriptorSaiId
  deriving DecidableEq, Repr

/-- Modelled from the spec: the aggregate-port handle (its declaration is not part of the
sources): a LAG object, a bridge-port object, a map from member hardware-port-id to member
handle, a minimum link count, and the VLAN the LAG belongs to. -/
structure SaiLagHandle where
  lag : Option SaiLag
  bridgePort : Option SaiBridgePort
  members : List (PortSaiId × SaiLagMember)
  minimumLinkCount : Nat
  vlanId : VlanSaiId
  deriving DecidableEq, Repr

/-- Modelled from the spec: the part of a port handle of the port manager that the LAG manager
uses: the adapter key of the port object and the standalone bridge port, if held. -/
structure SaiPortHandle where
  port : PortSaiId
  bridgePort : Option SaiBridgePort
  deriving DecidableEq, Repr

/-- Modelled from the spec: the concurrent index tables (their declaration is not part of the
sources), mapping between software and hardware identifiers. -/
structure ConcurrentIndices where
  portSaiIds : List (PortID × PortSaiId)
  portIds : List (PortSaiId × PortID)
  vlanIds : List (PortDescriptorSaiId × VlanSaiId)
  aggregatePortIds : List (LagSaiId × AggregatePortID)
  memberPort2AggregatePortIds : List (PortSaiId × AggregatePortID)
  deriving DecidableEq, Repr

/-! ## Observable effects -/

/-- The calls the manager makes to its collaborators, in the order it makes them. For the object
store the call records whether it created or destroyed the object. The bodies of the bridge
manager and of the VLAN manager are not part of the sources: their calls are recorded and taken
to return. -/
inductive Effect where
  | lagSetObject (label : List Nat) (lag : LagSaiId) (created : Bool)
  | lagRelease (lag : LagSaiId) (destroyed : Bool)
  | lagMemberSetObject (lag : LagSaiId) (port : PortSaiId) (created : Bool)
  | lagMemberRelease (lag : LagSaiId) (port : PortSaiId) (destroyed : Bool)
  | lagMemberSetEgressDisable (lag : LagSaiId) (port : PortSaiId) (value : Bool)
  | bridgePortRelease (port : SaiPortDescriptor)
  | addBridgePort (port : SaiPortDescriptor) (saiId : PortDescriptorSaiId)
  | createVlanMember (vlan : VlanSaiId) (port : SaiPortDescriptor)
  | removeVlanMember (vlan : VlanSaiId) (port : SaiPortDescriptor)
  | vlanIdsEmplace (key : PortDescriptorSaiId) (vlan : VlanSaiId)
  | vlanIdsErase (key : PortDescriptorSaiId)
  | aggregatePortIdsEmplace (lag : LagSaiId) (aggPort : AggregatePortID)
  | aggregatePortIdsErase (lag : LagSaiId)
  | memberPort2AggregatePortIdsEmplace (port : PortSaiId) (aggPort : AggregatePortID)
  | memberPort2AggregatePortIdsErase (port : PortSaiId)
  deriving DecidableEq, Repr

/-- The member-level calls that `changeLag` makes. -/
inductive MemberOp where
  | removeMember (subPort : PortID)
  | addMember (subPort : PortID)
  | setMemberState (subPort : PortID) (fwdState : Forwarding)
  deriving DecidableEq, Repr

/-! ## Failures -/

/-- The `CHECK`s of the manager. -/
inductive Check where
  | portSaiIdExists
  | vlanSaiIdExists
  | handleExists
  | portHandleExists
  | portIdExists
  deriving DecidableEq, Repr

/-- The errors the manager throws. -/
inductive FbossError where
  | removeNonExistingLag (aggPort : AggregatePortID)
  | handleNotFound (aggPort : AggregatePortID)
  | portSaiIdNotFound (port : PortID)
  | memberNotFound (port : PortID)
  deriving DecidableEq, Repr

/-- The ways a call can fail to return normally. -/
inductive Failure where
  | checkFailed (check : Check)
  | thrown (error : FbossError)
  | undefinedBehaviour
  | nonTermination
  deriving DecidableEq, Repr

/-! ## The manager -/

/-- The state of `SaiLagManager` together with the collaborators it reaches through
`managerTable_`, `saiStore_` and `concurrentIndices_`. `trace` records the calls made to the
collaborators and `memberOps` the member-level calls made by `changeLag`; neither is read by
the manager. -/
structure SaiLagManager where
  handles : List (AggregatePortID × SaiLagHandle)
  concurrentIndices : ConcurrentIndices
  portHandles : List (PortID × SaiPortHandle)
  lagStore : List (List Nat × StoredObject SaiLagAttributes)
  lagMemberStore : List (SaiLagMember × StoredObject SaiLagMemberAttributes)
  nextAdapterKey : Nat
  trace : List Effect
  memberOps : List MemberOp
  deriving DecidableEq, Repr

/-- The outcome of a call that changes the manager: the value returned, or the failure together
with the state the manager is in when the call fails. -/
abbrev Outcome (α : Type) := Except (Failure × SaiLagManager) α

namespace SaiLagManager

/-- Appends a call to the trace. -/
def emit (effect : Effect) (s : SaiLagManager) : SaiLagManager :=
  { s with trace := s.trace ++ [effect] }

/-- Appends a member-level call of `changeLag` to its record. -/
def issue (op : MemberOp) (s : SaiLagManager) : SaiLagManager :=
  { s with memberOps := s.memberOps ++ [op] }

/-- Writes through the reference to the handle of `aggPort` in `handles_`. -/
def updateHandle (aggPort : AggregatePortID) (handle : SaiLagHandle)
    (s : SaiLagManager) : SaiLagManager :=
  { s with handles := Table.assign aggPort handle s.handles }

/-- Writes through the pointer to the port handle of `subPort`. -/
def updatePortHandle (subPort : PortID) (portHandle : SaiPortHandle)
    (s : SaiLagManager) : SaiLagManager :=
  { s with portHandles := Table.assign subPort portHandle s.portHandles }

/-- Releases a reference to a LAG-member object (`shared_ptr::reset`, or the end of the
lifetime of a holder). -/
def releaseLagMember (member : SaiLagMember) (s : SaiLagManager) : SaiLagManager :=
  let r := release member s.lagMemberStore
  emit (.lagMemberRelease member.lag member.port r.1) { s with lagMemberStore := r.2 }

/-- Releases a reference to a LAG object. -/
def releaseLag (lag : SaiLag) (s : SaiLagManager) : SaiLagManager :=
  let r := release lag.label s.lagStore
  emit (.lagRelease lag.adapterKey r.1) { s with lagStore := r.2 }

/-- Releases a reference to a bridge port, when one is held. -/
def releaseBridgePort (bridgePort : Option SaiBridgePort) (s : SaiLagManager) : SaiLagManager :=
  match bridgePort with
  | some b => emit (.bridgePortRelease b.portDescriptor) s
  | none => s

/-- Modelled from the spec: `SaiBridgeManager::addBridgePort`, declared in
`SaiBridgeManager.h`; its body is not part of the sources. It returns the bridge port object
of the given port. -/
def addBridgePort (portDescriptor : SaiPortDescriptor) (saiId : PortDescriptorSaiId)
    (s : SaiLagManager) : SaiBridgePort × SaiLagManager :=
  ({ portDescriptor := portDescriptor, saiId := saiId }, emit (.addBridgePort portDescriptor saiId) s)

/-- The body of `SaiLagManager::setMemberState`: DISABLED sets the egress-disable attribute of
the member object, ENABLED clears it. Writing through a pointer to no object is undefined. -/
def setMemberState (member : SaiLagMember) (fwdState : Forwarding)
    (s : SaiLagManager) : Outcome SaiLagManager :=
  match Table.find member s.lagMemberStore with
  | none => .error (.undefinedBehaviour, s)
  | some object =>
    let value : Bool :=
      match fwdState with
      | .DISABLED => true
      | .ENABLED => false
    .ok (emit (.lagMemberSetEgressDisable member.lag member.port value)
      { s with lagMemberStore :=
          Table.assign member { object with attributes := { egressDisable := value } } s.lagMemberStore })

/-- The body of `SaiLagManager::addMember`. -/
def addMember (lag : SaiLag) (aggregatePortID : AggregatePortID) (subPort : PortID)
    (s : SaiLagManager) : Outcome ((PortSaiId × SaiLagMember) × SaiLagManager) :=
  match Table.find subPort s.portHandles with
  | none => .error (.checkFailed .portHandleExists, s)
  | some portHandle =>
    -- portHandle->bridgePort.reset()
    let s := releaseBridgePort portHandle.bridgePort s
    let s := updatePortHandle subPort { portHandle with bridgePort := none } s
    let saiPortId := portHandle.port
    let saiLagId := lag.adapterKey
    let adapterHostKey : SaiLagMember := { lag := saiLagId, port := saiPortId }
    -- lagMemberStore.setObject(adapterHostKey, attrs), attrs having EgressDisable{true}
    let r := setObject adapterHostKey ({ egressDisable := true } : SaiLagMemberAttributes)
      s.nextAdapterKey s.lagMemberStore
    let s := emit (.lagMemberSetObject saiLagId saiPortId r.2.1)
      { s with
        lagMemberStore := r.2.2
        nextAdapterKey := if r.2.1 then s.nextAdapterKey + 1 else s.nextAdapterKey }
    -- memberPort2AggregatePortIds.emplace(saiPortId, aggregatePortID)
    let s := emit (.memberPort2AggregatePortIdsEmplace saiPortId aggregatePortID)
      { s with concurrentIndices :=
          { s.concurrentIndices with
            memberPort2AggregatePortIds :=
              Table.emplace saiPortId aggregatePortID s.concurrentIndices.memberPort2AggregatePortIds } }
    .ok ((saiPortId, adapterHostKey), s)

/-- The body of `SaiLagManager::removeMember`. -/
def removeMember (aggPort : AggregatePortID) (subPort : PortID)
    (s : SaiLagManager) : Outcome SaiLagManager :=
  match Table.find aggPort s.handles with
  | none => .error (.checkFailed .handleExists, s)
  | some handle =>
    match Table.find subPort s.portHandles with
    | none => .error (.checkFailed .portHandleExists, s)
    | some portHandle =>
      let saiPortId := portHandle.port
      match Table.find saiPortId handle.members with
      | none =>
        -- the member was already removed
        .ok s
      | some member =>
        -- membersIter->second.reset()
        let s := releaseLagMember member s
        -- members.erase(membersIter)
        let s := updateHandle aggPort { handle with members := Table.erase saiPortId handle.members } s
        -- memberPort2AggregatePortIds.erase(saiPortId)
        let s := emit (.memberPort2AggregatePortIdsErase saiPortId)
          { s with concurrentIndices :=
              { s.concurrentIndices with
                memberPort2AggregatePortIds :=
                  Table.erase saiPortId s.concurrentIndices.memberPort2AggregatePortIds } }
        -- portHandle->bridgePort = addBridgePort(...)
        let r := addBridgePort (.physical subPort) (.physical portHandle.port) s
        let s := releaseBridgePort portHandle.bridgePort r.2
        .ok (updatePortHandle subPort { portHandle with bridgePort := some r.1 } s)

/-- The body of `SaiLagManager::getLagHandleIf`. -/
def getLagHandleIf (aggregatePortID : AggregatePortID) (s : SaiLagManager) : Option SaiLagHandle :=
  Table.find aggregatePortID s.handles

/-- The body of `SaiLagManager::getLagHandle`. -/
def getLagHandle (aggregatePortID : AggregatePortID) (s : SaiLagManager) :
    Except Failure SaiLagHandle :=
  match getLagHandleIf aggregatePortID s with
  | some handle => .ok handle
  | none => .error (.thrown (.handleNotFound aggregatePortID))

/-- The body of `SaiLagManager::getMember`. -/
def getMember (handle : SaiLagHandle) (port : PortID) (s : SaiLagManager) :
    Except Failure SaiLagMember :=
  match Table.find port s.concurrentIndices.portSaiIds with
  | none => .error (.thrown (.portSaiIdNotFound port))
  | some saiPortId =>
    match Table.find saiPortId handle.members with
    | none => .error (.thrown (.memberNotFound port))
    | some member => .ok member

/-- The body of `SaiLagManager::getLagMemberCount`. -/
def getLagMemberCount (aggPort : AggregatePortID) (s : SaiLagManager) : Except Failure Nat :=
  match getLagHandle aggPort s with
  | .error e => .error e
  | .ok handle => .ok handle.members.length

/-- The `std::count_if` of `getActiveMemberCount`: the number of members whose egress-disable
attribute is false. Reading the attributes through a pointer to no object is undefined. -/
def countActive (store : List (SaiLagMember × StoredObject SaiLagMemberAttributes)) :
    List (PortSaiId × SaiLagMember) → Except Failure Nat
  | [] => .ok 0
  | entry :: rest =>
    match Table.find entry.2 store with
    | none => .error .undefinedBehaviour
    | some object =>
      let isEgressDisabled := object.attributes.egressDisable
      match countActive store rest with
      | .error e => .error e
      | .ok n => .ok (if !isEgressDisabled then n + 1 else n)

/-- The body of `SaiLagManager::getActiveMemberCount`. -/
def getActiveMemberCount (aggPort : AggregatePortID) (s : SaiLagManager) : Except Failure Nat :=
  match getLagHandle aggPort s with
  | .error e => .error e
  | .ok handle => countActive s.lagMemberStore handle.members

/-- The body of `SaiLagManager::isMinimumLinkMet`. -/
def isMinimumLinkMet (aggregatePortID : AggregatePortID) (s : SaiLagManager) :
    Except Failure Bool :=
  match getLagHandle aggregatePortID s with
  | .error e => .error e
  | .ok handle =>
    match getActiveMemberCount aggregatePortID s with
    | .error e => .error e
    | .ok active => .ok (decide (handle.minimumLinkCount ≤ active))

/-- The end of the lifetime of a (port id, member pointer) pair after
`members.emplace(std::move(member))`: when the key was already present the map did not take the
pointer, and the reference it holds is released. -/
def dropUnplaced (member : PortSaiId × SaiLagMember) (members : List (PortSaiId × SaiLagMember))
    (s : SaiLagManager) : SaiLagManager :=
  match Table.find member.1 members with
  | some _ => releaseLagMember member.2 s
  | none => s

/-- The loop of `addLag` over `subportAndFwdState`, filling the local `members` map. -/
def addLagMembers (lag : SaiLag) (aggregatePortID : AggregatePortID) :
    List (PortID × Forwarding) → List (PortSaiId × SaiLagMember) → SaiLagManager →
    Outcome (List (PortSaiId × SaiLagMember) × SaiLagManager)
  | [], members, s => .ok (members, s)
  | (subPort, fwdState) :: rest, members, s =>
    match addMember lag aggregatePortID subPort s with
    | .error e => .error e
    | .ok (member, s) =>
      match setMemberState member.2 fwdState s with
      | .error e => .error e
      | .ok s =>
        addLagMembers lag aggregatePortID rest
          (Table.orderedEmplace member.1 member.2 members) (dropUnplaced member members s)

/-- Releases the member pointers of a handle that is destroyed. -/
def releaseLagMembers : List (PortSaiId × SaiLagMember) → SaiLagManager → SaiLagManager
  | [], s => s
  | entry :: rest, s => releaseLagMembers rest (releaseLagMember entry.2 s)

/-- The destruction of a `SaiLagHandle` that `handles_.emplace` did not take: the references
it holds are released. -/
def destroyHandle (handle : SaiLagHandle) (s : SaiLagManager) : SaiLagManager :=
  let s := releaseBridgePort handle.bridgePort s
  let s := releaseLagMembers handle.members s
  match handle.lag with
  | some lag => releaseLag lag s
  | none => s

/-- The body of `SaiLagManager::addLag`. -/
def addLag (aggregatePort : AggregatePort) (s : SaiLagManager) :
    Outcome (LagSaiId × SaiLagManager) :=
  let name := aggregatePort.name
  -- std::array<char, 32> labelValue{}, then the first 32 characters of the name
  let labelValue := name.take 32 ++ List.replicate (32 - (name.take 32).length) 0
  -- aggregatePort->sortedSubports().front()
  match aggregatePort.sortedSubports with
  | [] => .error (.undefinedBehaviour, s)
  | subPort :: _ =>
    match Table.find subPort s.concurrentIndices.portSaiIds with
    | none => .error (.checkFailed .portSaiIdExists, s)
    | some portSaiId =>
      match Table.find (PortDescriptorSaiId.physical portSaiId) s.concurrentIndices.vlanIds with
      | none => .error (.checkFailed .vlanSaiIdExists, s)
      | some vlanID =>
        -- lagStore.setObject(Label{labelValue}, createAttributes)
        let r := setObject labelValue ({ label := labelValue, vlan := vlanID } : SaiLagAttributes)
          s.nextAdapterKey s.lagStore
        let lag : SaiLag := { label := labelValue, adapterKey := r.1 }
        let s := emit (.lagSetObject labelValue r.1 r.2.1)
          { s with
            lagStore := r.2.2
            nextAdapterKey := if r.2.1 then s.nextAdapterKey + 1 else s.nextAdapterKey }
        let lagSaiId := lag.adapterKey
        match addLagMembers lag aggregatePort.id aggregatePort.subportAndFwdState [] s with
        | .error e => .error e
        | .ok (members, s) =>
          -- vlanIds.emplace(PortDescriptorSaiId(lag->adapterKey()), vlanID)
          let s := emit (.vlanIdsEmplace (.aggregate lagSaiId) vlanID)
            { s with concurrentIndices :=
                { s.concurrentIndices with
                  vlanIds := Table.emplace (PortDescriptorSaiId.aggregate lagSaiId) vlanID
                    s.concurrentIndices.vlanIds } }
          -- aggregatePortIds.emplace(lag->adapterKey(), aggregatePort->getID())
          let s := emit (.aggregatePortIdsEmplace lagSaiId aggregatePort.id)
            { s with concurrentIndices :=
                { s.concurrentIndices with
                  aggregatePortIds := Table.emplace lagSaiId aggregatePort.id
                    s.concurrentIndices.aggregatePortIds } }
          -- create bridge port for LAG
          let r := addBridgePort (.aggregate aggregatePort.id) (.aggregate lagSaiId) s
          let handle : SaiLagHandle :=
            { lag := some lag
              bridgePort := some r.1
              members := members
              minimumLinkCount := aggregatePort.minimumLinkCount
              vlanId := vlanID }
          let s := r.2
          -- handles_.emplace(aggregatePort->getID(), std::move(handle))
          let taken := (Table.find aggregatePort.id s.handles).isNone
          let s := { s with handles := Table.emplace aggregatePort.id handle s.handles }
          -- vlanManager().createVlanMember(vlanID, SaiPortDescriptor(aggregatePort->getID()))
          let s := emit (.createVlanMember vlanID (.aggregate aggregatePort.id)) s
          -- a handle that was not taken by handles_ is destroyed when it goes out of scope
          let s := if taken then s else destroyHandle handle s
          .ok (lagSaiId, s)

/-- The member loop of `removeLagHandle`, `while (!handle->members.empty())`. Every iteration
that removes a member shortens the map, so the loop is given as many iterations as the map has
entries; needing more means that an iteration removed nothing, and the loop never ends. -/
def removeLagHandleMembers (aggPort : AggregatePortID) :
    Nat → SaiLagManager → Outcome SaiLagManager
  | fuel, s =>
    match Table.find aggPort s.handles with
    | none => .error (.undefinedBehaviour, s)
    | some handle =>
      match handle.members with
      | [] => .ok s
      | (portSaiId, _) :: _ =>
        match fuel with
        | 0 => .error (.nonTermination, s)
        | fuel + 1 =>
          match Table.find portSaiId s.concurrentIndices.portIds with
          | none => .error (.checkFailed .portIdExists, s)
          | some subPort =>
            match removeMember aggPort subPort s with
            | .error e => .error e
            | .ok s => removeLagHandleMembers aggPort fuel s

/-- The body of `SaiLagManager::removeLagHandle`, for the handle stored under `aggPort`. -/
def removeLagHandle (aggPort : AggregatePortID) (s : SaiLagManager) :
    Outcome SaiLagManager :=
  match Table.find aggPort s.handles with
  | none => .error (.undefinedBehaviour, s)
  | some handle0 =>
    -- remove members
    match removeLagHandleMembers aggPort handle0.members.length s with
    | .error e => .error e
    | .ok s =>
      match Table.find aggPort s.handles with
      | none => .error (.undefinedBehaviour, s)
      | some handle =>
        -- remove bridge port
        let s := releaseBridgePort handle.bridgePort s
        let s := updateHandle aggPort { handle with bridgePort := none } s
        let s := emit (.removeVlanMember handle.vlanId (.aggregate aggPort)) s
        match handle.lag with
        | none => .error (.undefinedBehaviour, s)
        | some lag =>
          let s := emit (.vlanIdsErase (.aggregate lag.adapterKey))
            { s with concurrentIndices :=
                { s.concurrentIndices with
                  vlanIds := Table.erase (PortDescriptorSaiId.aggregate lag.adapterKey)
                    s.concurrentIndices.vlanIds } }
          let s := emit (.aggregatePortIdsErase lag.adapterKey)
            { s with concurrentIndices :=
                { s.concurrentIndices with
                  aggregatePortIds := Table.erase lag.adapterKey
                    s.concurrentIndices.aggregatePortIds } }
          -- remove lag
          let s := releaseLag lag s
          .ok (updateHandle aggPort { handle with bridgePort := none, lag := none } s)

/-- The body of `SaiLagManager::removeLag`. -/
def removeLag (aggregatePort : AggregatePort) (s : SaiLagManager) :
    Outcome SaiLagManager :=
  match Table.find aggregatePort.id s.handles with
  | none => .error (.thrown (.removeNonExistingLag aggregatePort.id), s)
  | some _ =>
    match removeLagHandle aggregatePort.id s with
    | .error e => .error e
    | .ok s => .ok { s with handles := Table.erase aggregatePort.id s.handles }

/-- The statement `saiLagHandle->members.emplace(std::move(member))` of `changeLag`. -/
def emplaceMember (aggPort : AggregatePortID) (member : PortSaiId × SaiLagMember)
    (s : SaiLagManager) : SaiLagManager :=
  match Table.find aggPort s.handles with
  | none => s
  | some handle =>
    dropUnplaced member handle.members
      (updateHandle aggPort
        { handle with members := Table.orderedEmplace member.1 member.2 handle.members } s)

/-- The three statements by which `changeLag` adds a member: `addMember` on the LAG of the
handle, `setMemberState`, and `members.emplace`. -/
def changeLagAdd (oldID newID : AggregatePortID) (entry : PortID × Forwarding)
    (s : SaiLagManager) : Outcome SaiLagManager :=
  match Table.find oldID s.handles with
  | none => .error (.undefinedBehaviour, s)
  | some handle =>
    match handle.lag with
    | none => .error (.undefinedBehaviour, s)
    | some lag =>
      match addMember lag newID entry.1 (issue (.addMember entry.1) s) with
      | .error e => .error e
      | .ok (member, s) =>
        match setMemberState member.2 entry.2 (issue (.setMemberState entry.1 entry.2) s) with
        | .error e => .error e
        | .ok s => .ok (emplaceMember oldID member s)

/-- The loop `while (oldIter != oldPortAndFwdState.end())` of `changeLag`; it returns the
cursor it stops at. -/
def changeLagRemoveRest (oldID : AggregatePortID) :
    List (PortID × Forwarding) → SaiLagManager →
    Outcome (List (PortID × Forwarding) × SaiLagManager)
  | [], s => .ok ([], s)
  | entry :: rest, s =>
    match removeMember oldID entry.1 (issue (.removeMember entry.1) s) with
    | .error e => .error e
    | .ok s => changeLagRemoveRest oldID rest s

/-- The loop `while (newIter != newPortAndFwdState.end())` of `changeLag`; it returns the
cursor it stops at. -/
def changeLagAddRest (oldID newID : AggregatePortID) :
    List (PortID × Forwarding) → SaiLagManager →
    Outcome (List (PortID × Forwarding) × SaiLagManager)
  | [], s => .ok ([], s)
  | entry :: rest, s =>
    match changeLagAdd oldID newID entry s with
    | .error e => .error e
    | .ok s => changeLagAddRest oldID newID rest s

/-- The `if`/`else if` chain at the head of the body of the merge loop of `changeLag`, at
cursors standing on `o` and `n`; it returns the two cursors and the state. -/
def changeLagCompare (oldID newID : AggregatePortID)
    (o : PortID × Forwarding) (oldRest : List (PortID × Forwarding))
    (n : PortID × Forwarding) (newRest : List (PortID × Forwarding)) (s : SaiLagManager) :
    Outcome (List (PortID × Forwarding) × List (PortID × Forwarding) × SaiLagManager) :=
  if o.1 < n.1 then
    match removeMember oldID o.1 (issue (.removeMember o.1) s) with
    | .error e => .error e
    | .ok s => .ok (oldRest, n :: newRest, s)
  else if n.1 < o.1 then
    -- add member
    match changeLagAdd oldID newID n s with
    | .error e => .error e
    | .ok s => .ok (o :: oldRest, newRest, s)
  else if o.2 ≠ n.2 then
    -- forwarding state changed
    match Table.find oldID s.handles with
    | none => .error (.undefinedBehaviour, s)
    | some handle =>
      match getMember handle n.1 s with
      | .error e => .error (e, s)
      | .ok member =>
        match setMemberState member n.2 (issue (.setMemberState n.1 n.2) s) with
        | .error e => .error e
        | .ok s => .ok (oldRest, newRest, s)
  else
    .ok (o :: oldRest, n :: newRest, s)

/-- The merge loop of `changeLag`, `while (oldIter != end && newIter != end)`, whose body is
the `if`/`else if` chain followed by the two inner loops. `fuel` bounds the number of
iterations. -/
def changeLagLoop (oldID newID : AggregatePortID) :
    Nat → List (PortID × Forwarding) → List (PortID × Forwarding) → SaiLagManager →
    Outcome SaiLagManager
  | _, [], _, s => .ok s
  | _, _ :: _, [], s => .ok s
  | 0, _ :: _, _ :: _, s => .error (.nonTermination, s)
  | fuel + 1, o :: oldRest, n :: newRest, s =>
    match changeLagCompare oldID newID o oldRest n newRest s with
    | .error e => .error e
    | .ok (oldIter, newIter, s) =>
      match changeLagRemoveRest oldID oldIter s with
      | .error e => .error e
      | .ok (oldIter, s) =>
        match changeLagAddRest oldID newID newIter s with
        | .error e => .error e
        | .ok (newIter, s) => changeLagLoop oldID newID fuel oldIter newIter s

/-- The body of `SaiLagManager::changeLag`. A merge loop that moves a cursor in every
iteration ends within as many iterations as the two sequences have entries. -/
def changeLag (oldAggregatePort newAggregatePort : AggregatePort) (s : SaiLagManager) :
    Outcome SaiLagManager :=
  match Table.find oldAggregatePort.id s.handles with
  | none => .error (.checkFailed .handleExists, s)
  | some saiLagHandle =>
    let s := updateHandle oldAggregatePort.id
      { saiLagHandle with minimumLinkCount := newAggregatePort.minimumLinkCount } s
    let oldPortAndFwdState := oldAggregatePort.subportAndFwdState
    let newPortAndFwdState := newAggregatePort.subportAndFwdState
    changeLagLoop oldAggregatePort.id newAggregatePort.id
      (oldPortAndFwdState.length + newPortAndFwdState.length)
      oldPortAndFwdState newPortAndFwdState s

/-! ## The classic sorted-merge diff -/

/-- The member operations of the classic sorted-merge diff, as the specification words it:
remove when the old key is smaller, add with the given state when the new key is smaller,
update the state in place when the keys are equal and the states differ, nothing when keys and
states are equal; once a cursor is exhausted the rest of the other side is all removes or all
adds. -/
def classicMergeDiff :
    List (PortID × Forwarding) → List (PortID × Forwarding) → List MemberOp
  | [], newIter => newIter.flatMap (fun n => [.addMember n.1, .setMemberState n.1 n.2])
  | o :: oldRest, [] => (o :: oldRest).map (fun e => MemberOp.removeMember e.1)
  | o :: oldRest, n :: newRest =>
    if o.1 < n.1 then .removeMember o.1 :: classicMergeDiff oldRest (n :: newRest)
    else if n.1 < o.1 then
      .addMember n.1 :: .setMemberState n.1 n.2 :: classicMergeDiff (o :: oldRest) newRest
    else if o.2 ≠ n.2 then .setMemberState n.1 n.2 :: classicMergeDiff oldRest newRest
    else classicMergeDiff oldRest newRest
termination_by oldIter newIter => oldIter.length + newIter.length

end SaiLagManager

/-! ## Views of the state used to state the properties -/

/-- The hardware port id of a port, read from its port handle (`portHandle->port->adapterKey()`),
when the port has a handle. -/
def portSaiIdOf (s : SaiLagManager) (port : PortID) : Option PortSaiId :=
  (Table.find port s.portHandles).map (fun portHandle => portHandle.port)

/-- A member map and a member store hold exactly the membership `cur` of the LAG `lagId`, the
hardware id of port `p` being `sai p`: the keys of the map are distinct and are exactly the
hardware ids of the ports of `cur`, the entry under key `k` points at the member object
(`lagId`, `k`), and the object of every port of `cur` has egress disabled exactly when the
state of the port is DISABLED. -/
structure MembersRep (members : List (PortSaiId × SaiLagMember))
    (store : List (SaiLagMember × StoredObject SaiLagMemberAttributes))
    (lagId : LagSaiId) (sai : PortID → PortSaiId) (cur : List (PortID × Forwarding)) : Prop where
  nodup : (members.map Prod.fst).Nodup
  pointsTo : ∀ e ∈ members, e.2 = { lag := lagId, port := e.1 }
  keys : ∀ k, k ∈ members.map Prod.fst ↔ ∃ e ∈ cur, sai e.1 = k
  objects : ∀ e ∈ cur, ∃ object,
    Table.find ({ lag := lagId, port := sai e.1 } : SaiLagMember) store = some object ∧
    object.attributes.egressDisable = decide (e.2 = Forwarding.DISABLED)

/-- The handle stored under `aggPort` holds the LAG `lag`, and its member map, with the member
store, holds exactly the membership `cur`. -/
def Represents (s : SaiLagManager) (aggPort : AggregatePortID) (lag : SaiLag)
    (sai : PortID → PortSaiId) (cur : List (PortID × Forwarding)) : Prop :=
  ∃ handle, Table.find aggPort s.handles = some handle ∧ handle.lag = some lag ∧
    MembersRep handle.members s.lagMemberStore lag.adapterKey sai cur

/-- Every port of `ports` has a port handle whose adapter key is `sai` of the port, the index
portSaiIds agrees with it, and distinct ports of `ports` have distinct hardware ids. -/
structure PortsOk (s : SaiLagManager) (ports : List PortID) (sai : PortID → PortSaiId) : Prop where
  handleOf : ∀ p ∈ ports, portSaiIdOf s p = some (sai p)
  indexOf : ∀ p ∈ ports, Table.find p s.concurrentIndices.portSaiIds = some (sai p)
  inj : ∀ p ∈ ports, ∀ q ∈ ports, sai p = sai q → p = q

/-- A (sub-port, forwarding state) sequence is sorted by sub-port id, with no sub-port twice,
as the container of `subportAndFwdState` keeps it. -/
def SortedBySubport (l : List (PortID × Forwarding)) : Prop :=
  l.Pairwise (fun x y => x.1 < y.1)

instance (l : List (PortID × Forwarding)) : Decidable (SortedBySubport l) := by
  unfold SortedBySubport
  infer_instance

/-- The calls by which one member is added, in `addLag` and in `changeLag`: the release of the
standalone bridge port the sub-port held (when it held one), `setObject` of the member store,
the emplace into memberPort2AggregatePortIds, the write of the egress attribute, and the
release of the pointer when the member map did not take it. -/
structure MemberAddition where
  lag : LagSaiId
  port : PortSaiId
  aggPort : AggregatePortID
  released : Option SaiPortDescriptor
  created : Bool
  egressDisable : Bool
  dropped : Option Bool
  deriving DecidableEq, Repr

/-- The calls of one member addition, in the order they are made. -/
def MemberAddition.effects (a : MemberAddition) : List Effect :=
  (match a.released with
    | some descriptor => [Effect.bridgePortRelease descriptor]
    | none => []) ++
  [Effect.lagMemberSetObject a.lag a.port a.created,
   Effect.memberPort2AggregatePortIdsEmplace a.port a.aggPort,
   Effect.lagMemberSetEgressDisable a.lag a.port a.egressDisable] ++
  (match a.dropped with
    | some destroyed => [Effect.lagMemberRelease a.lag a.port destroyed]
    | none => [])

/-- The calls by which `removeMember` removes one member: the release of the member object,
the erase from memberPort2AggregatePortIds, `addBridgePort` for the sub-port, and the release of
the bridge port the sub-port held before (when it held one). -/
structure MemberRemoval where
  key : PortSaiId
  member : SaiLagMember
  destroyed : Bool
  subPort : PortID
  released : Option SaiPortDescriptor
  deriving DecidableEq, Repr

/-- The calls of one member removal, in the order they are made. -/
def MemberRemoval.effects (r : MemberRemoval) : List Effect :=
  [Effect.lagMemberRelease r.member.lag r.member.port r.destroyed,
   Effect.memberPort2AggregatePortIdsErase r.key,
   Effect.addBridgePort (SaiPortDescriptor.physical r.subPort)
     (PortDescriptorSaiId.physical r.key)] ++
  (match r.released with
    | some descriptor => [Effect.bridgePortRelease descriptor]
    | none => [])

/-- The label `addLag` gives the LAG object of an aggregate port: the first 32 characters of
the name, padded with zeros. -/
def lagLabel (aggregatePort : AggregatePort) : List Nat :=
  aggregatePort.name.take 32 ++ List.replicate (32 - (aggregatePort.name.take 32).length) 0

/-- The LAG id `addLag` obtains for an aggregate port: the adapter key of the live LAG object
with its label when the store holds one, and the next adapter-assigned key otherwise. -/
def lagSaiIdFor (aggregatePort : AggregatePort) (s : SaiLagManager) : LagSaiId :=
  match Table.find (lagLabel aggregatePort) s.lagStore with
  | some object => object.adapterKey
  | none => s.nextAdapterKey

/-- The port has a port handle, and the port handle holds a standalone bridge port. -/
def holdsBridgePort (s : SaiLagManager) (p : PortID) : Bool :=
  match Table.find p s.portHandles with
  | some portHandle => portHandle.bridgePort.isSome
  | none => false

/-- The standalone bridge port that the port handle of a port holds, by its port descriptor;
none when the port has no port handle or its port handle holds no bridge port. -/
def standaloneBridgePort (s : SaiLagManager) (p : PortID) : Option SaiPortDescriptor :=
  ((Table.find p s.portHandles).bind (fun portHandle => portHandle.bridgePort)).map
    (fun bridgePort => bridgePort.portDescriptor)

/-- The hardware port id `k` is a key of the member map of the handle of `aggPort`. -/
def isMemberOf (s : SaiLagManager) (aggPort : AggregatePortID) (k : PortSaiId) : Bool :=
  match Table.find aggPort s.handles with
  | some handle => (Table.find k handle.members).isSome
  | none => false

/-- The port is a member of no LAG handle other than the handle of `aggPort`. -/
def NotInOtherLag (s : SaiLagManager) (aggPort : AggregatePortID) (p : PortID) : Prop :=
  ∀ k other, portSaiIdOf s p = some k → other ≠ aggPort → isMemberOf s other k = false

/-- Distinct ports have distinct hardware ids, no port that holds a standalone bridge port is
a member of a LAG handle, and no hardware port id is a member of two LAG handles. -/
structure Exclusive (s : SaiLagManager) : Prop where
  distinct : ∀ p q k, portSaiIdOf s p = some k → portSaiIdOf s q = some k → p = q
  exclusive : ∀ p k aggPort, holdsBridgePort s p = true → portSaiIdOf s p = some k →
    isMemberOf s aggPort k = false
  single : ∀ k a b, isMemberOf s a k = true → isMemberOf s b k = true → a = b

/-- The states reached from `s0` by returning calls of `addLag`, `changeLag`, `removeMember`
and `removeLag`, where `addLag` and `changeLag` are only given aggregate ports none of whose
sub-ports is a member of the LAG handle of another aggregate port. -/
inductive ReachableDisjoint (s0 : SaiLagManager) : SaiLagManager → Prop
  | initial : ReachableDisjoint s0 s0
  | addLag {s s1 : SaiLagManager} (aggregatePort : AggregatePort) (lagSaiId : LagSaiId) :
    ReachableDisjoint s0 s →
    (∀ p ∈ aggregatePort.sortedSubports, NotInOtherLag s aggregatePort.id p) →
    SaiLagManager.addLag aggregatePort s = .ok (lagSaiId, s1) →
    ReachableDisjoint s0 s1
  | changeLag {s s1 : SaiLagManager} (oldAggregatePort newAggregatePort : AggregatePort) :
    ReachableDisjoint s0 s →
    (∀ p ∈ newAggregatePort.sortedSubports, NotInOtherLag s oldAggregatePort.id p) →
    SaiLagManager.changeLag oldAggregatePort newAggregatePort s = .ok s1 →
    ReachableDisjoint s0 s1
  | removeMember {s s1 : SaiLagManager} (aggPort : AggregatePortID) (subPort : PortID) :
    ReachableDisjoint s0 s →
    SaiLagManager.removeMember aggPort subPort s = .ok s1 →
    ReachableDisjoint s0 s1
  | removeLag {s s1 : SaiLagManager} (aggregatePort : AggregatePort) :
    ReachableDisjoint s0 s →
    SaiLagManager.removeLag aggregatePort s = .ok s1 →
    ReachableDisjoint s0 s1

/-- Whether a member-level call is a call of `removeMember`. -/
def MemberOp.isRemoveMember : MemberOp → Bool
  | .removeMember _ => true
  | _ => false

/-- Whether a member-level call is a call of `addMember`. -/
def MemberOp.isAddMember : MemberOp → Bool
  | .addMember _ => true
  | _ => false

/-- The state a call ends in: the state it returns, or the state at the failure. -/
def endState {α : Type} (state : α → SaiLagManager) : Outcome α → SaiLagManager
  | .ok a => state a
  | .error e => e.2

/-- From `s` to `s1` the record of member-level calls grew by at most `removes` calls of
`removeMember` and at most `adds` calls of `addMember`. -/
def OpsWithin (removes adds : Nat) (s s1 : SaiLagManager) : Prop :=
  ∃ ops, s1.memberOps = s.memberOps ++ ops ∧
    ops.countP MemberOp.isRemoveMember ≤ removes ∧ ops.countP MemberOp.isAddMember ≤ adds

/-- The index memberPort2AggregatePortIds maps a hardware port id to an aggregate port id
exactly when the hardware port id is a key of the member map of the handle of that aggregate
port. -/
def IndexAgrees (s : SaiLagManager) : Prop :=
  ∀ k aggPort, Table.find k s.concurrentIndices.memberPort2AggregatePortIds = some aggPort ↔
    isMemberOf s aggPort k = true

/-- The states reached from `s0` by returning calls of `addLag` with an id that has no handle,
`changeLag` with an old and a new aggregate port of the same id, `removeMember` and
`removeLag`, where `addLag` and `changeLag` are only given aggregate ports none of whose
sub-ports is a member of the LAG handle of another aggregate port. -/
inductive ReachableFresh (s0 : SaiLagManager) : SaiLagManager → Prop
  | initial : ReachableFresh s0 s0
  | addLag {s s1 : SaiLagManager} (aggregatePort : AggregatePort) (lagSaiId : LagSaiId) :
    ReachableFresh s0 s →
    SaiLagManager.getLagHandleIf aggregatePort.id s = none →
    (∀ p ∈ aggregatePort.sortedSubports, NotInOtherLag s aggregatePort.id p) →
    SaiLagManager.addLag aggregatePort s = .ok (lagSaiId, s1) →
    ReachableFresh s0 s1
  | changeLag {s s1 : SaiLagManager} (oldAggregatePort newAggregatePort : AggregatePort) :
    ReachableFresh s0 s →
    oldAggregatePort.id = newAggregatePort.id →
    (∀ p ∈ newAggregatePort.sortedSubports, NotInOtherLag s oldAggregatePort.id p) →
    SaiLagManager.changeLag oldAggregatePort newAggregatePort s = .ok s1 →
    ReachableFresh s0 s1
  | removeMember {s s1 : SaiLagManager} (aggPort : AggregatePortID) (subPort : PortID) :
    ReachableFresh s0 s →
    SaiLagManager.removeMember aggPort subPort s = .ok s1 →
    ReachableFresh s0 s1
  | removeLag {s s1 : SaiLagManager} (aggregatePort : AggregatePort) :
    ReachableFresh s0 s →
    SaiLagManager.removeLag aggregatePort s = .ok s1 →
    ReachableFresh s0 s1

/-! ## Scenario of the specification -/

/-- A manager with four ports 1 to 4 (hardware ids 101 to 104), each holding its standalone
bridge port and belonging to VLAN 2000, and no aggregate port. -/
def scenarioInitial : SaiLagManager :=
  { handles := []
    concurrentIndices :=
      { portSaiIds := [(1, 101), (2, 102), (3, 103), (4, 104)]
        portIds := [(101, 1), (102, 2), (103, 3), (104, 4)]
        vlanIds := [(.physical 101, 2000), (.physical 102, 2000), (.physical 103, 2000),
          (.physical 104, 2000)]
        aggregatePortIds := []
        memberPort2AggregatePortIds := [] }
    portHandles :=
      [(1, { port := 101, bridgePort := some { portDescriptor := .physical 1, saiId := .physical 101 } }),
       (2, { port := 102, bridgePort := some { portDescriptor := .physical 2, saiId := .physical 102 } }),
       (3, { port := 103, bridgePort := some { portDescriptor := .physical 3, saiId := .physical 103 } }),
       (4, { port := 104, bridgePort := some { portDescriptor := .physical 4, saiId := .physical 104 } })]
    lagStore := []
    lagMemberStore := []
    nextAdapterKey := 500
    trace := []
    memberOps := [] }

/-- Aggregate port A of the scenario: minimum link count 2 and members
(1, ENABLED), (2, ENABLED), (3, DISABLED). -/
def scenarioOld : AggregatePort :=
  { id := 7, name := [65], minimumLinkCount := 2
    subportAndFwdState := [(1, .ENABLED), (2, .ENABLED), (3, .DISABLED)] }

/-- Aggregate port A with the new members (2, ENABLED), (3, ENABLED), (4, DISABLED). -/
def scenarioNew : AggregatePort :=
  { id := 7, name := [65], minimumLinkCount := 2
    subportAndFwdState := [(2, .ENABLED), (3, .ENABLED), (4, .DISABLED)] }

/-- The state of the scenario after `addLag` of aggregate port A. -/
def scenarioAdded : SaiLagManager :=
  match SaiLagManager.addLag scenarioOld scenarioInitial with
  | .ok r => r.2
  | .error e => e.2

/-- The state of the scenario after `changeLag` from the initial to the new members. -/
def scenarioChanged : SaiLagManager :=
  match SaiLagManager.changeLag scenarioOld scenarioNew scenarioAdded with
  | .ok s => s
  | .error e => e.2

/-- The handle of aggregate port A after `addLag`. -/
def scenarioHandle : SaiLagHandle :=
  { lag := some { label := 65 :: List.replicate 31 0, adapterKey := 500 }
    bridgePort := some { portDescriptor := .aggregate 7, saiId := .aggregate 500 }
    members := [(101, { lag := 500, port := 101 }), (102, { lag := 500, port := 102 }),
      (103, { lag := 500, port := 103 })]
    minimumLinkCount := 2
    vlanId := 2000 }

/-- The port handle of port 4 of the scenario, which holds its standalone bridge port. -/
def scenarioPortHandle4 : SaiPortHandle :=
  { port := 104, bridgePort := some { portDescriptor := .physical 4, saiId := .physical 104 } }

/-- The port handle of port 1 of the scenario once it is a LAG member. -/
def scenarioPortHandle1 : SaiPortHandle :=
  { port := 101, bridgePort := none }

/-- Aggregate port A with no sub-port left. -/
def scenarioEmpty : AggregatePort :=
  { id := 7, name := [65], minimumLinkCount := 2, subportAndFwdState := [] }

/-- The state of the scenario after `addLag` and the removal of the three members one by one:
the handle of aggregate port A has no member. -/
def scenarioDrained : SaiLagManager :=
  match SaiLagManager.removeMember 7 1 scenarioAdded with
  | .error e => e.2
  | .ok s1 =>
    match SaiLagManager.removeMember 7 2 s1 with
    | .error e => e.2
    | .ok s2 =>
      match SaiLagManager.removeMember 7 3 s2 with
      | .error e => e.2
      | .ok s3 => s3

/-- The member keys of the handle of an aggregate port, when it has a handle. -/
def memberKeys (aggPort : AggregatePortID) (s : SaiLagManager) : Option (List PortSaiId) :=
  (SaiLagManager.getLagHandleIf aggPort s).map (fun handle => handle.members.map Prod.fst)

/-- An aggregate port of another id that carries the name of aggregate port A, with sub-port
4. -/
def scenarioSameName : AggregatePort :=
  { id := 8, name := [65], minimumLinkCount := 1, subportAndFwdState := [(4, .ENABLED)] }

/-- An aggregate port of another id and another name whose sub-port 1 is also a sub-port of
aggregate port A. -/
def scenarioOverlap : AggregatePort :=
  { id := 9, name := [66], minimumLinkCount := 1, subportAndFwdState := [(1, .ENABLED)] }

/-- The state of the scenario after `addLag` of aggregate port A and `addLag` of the
overlapping aggregate port. -/
def scenarioOverlapAdded : SaiLagManager :=
  match SaiLagManager.addLag scenarioOverlap scenarioAdded with
  | .ok r => r.2
  | .error e => e.2

/-- The state of the scenario after the two calls of `addLag` and `removeMember` of port 1 from
aggregate port A. -/
def scenarioOverlapRemoved : SaiLagManager :=
  match SaiLagManager.removeMember 7 1 scenarioOverlapAdded with
  | .ok s => s
  | .error e => e.2

/-- The state of the scenario after `addLag` and `removeLag` of aggregate port A. -/
def scenarioRemoved : SaiLagManager :=
  match SaiLagManager.removeLag scenarioOld scenarioAdded with
  | .ok s => s
  | .error e => e.2

/-- The state of the scenario after `addLag` of aggregate port A and `addLag` of the aggregate
port of the same name. -/
def scenarioSameNameAdded : SaiLagManager :=
  match SaiLagManager.addLag scenarioSameName scenarioAdded with
  | .ok r => r.2
  | .error e => e.2

/-- The state of the scenario after `addLag` of aggregate port A, `addLag` of the aggregate
port of the same name, and `removeLag` of the latter. -/
def scenarioSameNameRemoved : SaiLagManager :=
  match SaiLagManager.removeLag scenarioSameName scenarioSameNameAdded with
  | .ok s => s
  | .error e => e.2

/-! ## The switch ensemble of the hardware tests -/

/-- An observer of hardware events (`HwSwitchEventObserverIf*`), known by its address. -/
abbrev Observer := Nat

/-- A switch-state snapshot (`SwitchState`) as seen through a `std::shared_ptr`: the address
of the object, what it holds, and whether it is published. Two pointers are equal when they
hold the same address. -/
structure SwitchState where
  address : Nat
  content : Nat
  published : Bool
  deriving DecidableEq, Repr

/-- The effect of `SwitchState::publish` on the snapshot. -/
def SwitchState.publish (state : SwitchState) : SwitchState :=
  { state with published := true }

/-- What a pointer sees after the snapshot at `address` is published: the object it refers to
is published when it is that object. -/
def SwitchState.publishedAt (address : Nat) (state : SwitchState) : SwitchState :=
  if state.address = address then state.publish else state

/-- A route of the routing information base: the network it is for, and whether it is
resolved. -/
structure RibRoute where
  network : Nat
  resolved : Bool
  deriving DecidableEq, Repr

/-- The routing information base, as far as the export reads it. -/
structure RoutingInformationBase where
  routes : List RibRoute
  deriving DecidableEq, Repr

/-- A serialized value (`folly::dynamic`) as the export builds it. -/
inductive Dynamic where
  | switchState (content : Nat)
  | routes (routes : List RibRoute)
  deriving DecidableEq, Repr

/-- The keys of the exported record, `kSwSwitch` and `kRib`; their declarations are not part
of the sources. -/
inductive RecordKey where
  | kSwSwitch
  | kRib
  deriving DecidableEq, Repr

/-- The exported record, a `folly::dynamic` object. -/
abbrev Record := List (RecordKey × Dynamic)

/-- The assignment `record[key] = value` of `folly::dynamic`: the value under an existing key
is replaced, a new key is added. -/
def Record.set (key : RecordKey) (value : Dynamic) (record : Record) : Record :=
  match Table.find key record with
  | some _ => Table.assign key value record
  | none => record ++ [(key, value)]

/-- Modelled from the spec: `SwitchState::toFollyDynamic`, whose body is not part of the
sources. It is the serialization of the full state snapshot. -/
def SwitchState.toFollyDynamic (state : SwitchState) : Dynamic :=
  .switchState state.content

/-- Modelled from the spec: `RoutingInformationBase::unresolvedRoutesFollyDynamic`, whose body
is not part of the sources. It is the serialization of only the unresolved routing entries. -/
def RoutingInformationBase.unresolvedRoutesFollyDynamic (rib : RoutingInformationBase) :
    Dynamic :=
  .routes (rib.routes.filter (fun route => !route.resolved))

/-- The kinds of update of a learned address (`L2EntryUpdateType`). -/
inductive L2EntryUpdateType where
  | L2_ENTRY_UPDATE_TYPE_DELETE
  | L2_ENTRY_UPDATE_TYPE_ADD
  deriving DecidableEq, Repr

/-- The calls the ensemble makes to its collaborators: the link toggler, the observers, the
thrift thread, the function scheduler of the statistics collection and the hardware switch.
`gracefulExitState` marks the call of `gracefulExit` to the serialization. -/
inductive EnsembleEvent where
  | linkTogglerLinkStateChanged (port : PortID) (up : Bool)
  | changeLinkState (observer : Observer) (port : PortID) (up : Bool)
  | receivePacket (observer : Observer) (pkt : Nat)
  | updateL2EntryState (observer : Observer) (l2Entry : Nat) (updateType : L2EntryUpdateType)
  | stopObserving (observer : Observer)
  | thriftThreadJoin
  | functionSchedulerShutdown
  | unregisterCallbacks
  | gracefulExitState
  | hwSwitchGracefulExit (switchState : Record)
  | hwSwitchStateChanged (oldState : Option SwitchState) (newState : SwitchState)
  | hwSwitchStateChangedTransaction (oldState : Option SwitchState) (newState : SwitchState)
  | staticL2UpdaterStateUpdated (oldState : Option SwitchState) (newState : SwitchState)
  deriving DecidableEq, Repr

/-- The `FbossError`s thrown by the ensemble. -/
inductive EnsembleError where
  | observerAlreadyAdded
  | observerEraseFailed
  deriving DecidableEq, Repr

/-- The `FbossHwUpdateError` thrown by `applyNewStateImpl`: the state asked for and the state
the hardware switch applied. -/
structure FbossHwUpdateError where
  desiredState : SwitchState
  appliedState : SwitchState
  deriving DecidableEq, Repr

/-- The ways a call of the ensemble can fail to return normally. -/
inductive EnsembleFailure where
  | checkFailedIsPublished
  | thrown (error : EnsembleError)
  | undefinedBehaviour
  | hwUpdateError (error : FbossHwUpdateError)
  deriving DecidableEq, Repr

/-- The hardware switch behind `getHwSwitch()`, as far as `applyNewStateImpl` calls it: its
class is not part of the sources, so its two entry points are taken as given. Each receives
the old and the new state of the `StateDelta` and returns the pointer to the state it applied,
which may be null as far as its type says. -/
structure HwSwitch where
  stateChanged : Option SwitchState → SwitchState → Option SwitchState
  stateChangedTransaction : Option SwitchState → SwitchState → Option SwitchState

/-- The state of `HwSwitchEnsemble` that the event callbacks, the observer registration and
the export read and write. `thriftThread` and `fs` say whether the pointers `thriftThread_` and
`fs_` are set; `trace` records the calls made to the collaborators and is not read by the
ensemble. -/
structure HwSwitchEnsemble where
  hwEventObservers : List Observer
  programmedState : Option SwitchState
  routingInformationBase : Option RoutingInformationBase
  thriftThread : Bool
  fs : Bool
  trace : List EnsembleEvent
  deriving DecidableEq, Repr

/-- Modelled from the spec: `insert` of the container of `hwEventObservers_`, which is declared
in `HwSwitchEnsemble.h`; the header is not part of the sources. The container is a set of
observers kept in registration order: an observer that is present is not inserted again, a new
one is placed last. It returns the container and whether the observer was inserted. -/
def observersInsert (observer : Observer) (observers : List Observer) :
    List Observer × Bool :=
  if observer ∈ observers then (observers, false) else (observers ++ [observer], true)

/-- Modelled from the spec: `erase` by value of the container of `hwEventObservers_`. It
returns the container without the observer and the number of elements erased. -/
def observersErase (observer : Observer) (observers : List Observer) :
    List Observer × Nat :=
  (observers.filter (fun o => decide (o ≠ observer)), observers.count observer)

namespace HwSwitchEnsemble

/-- Appends a call to the trace. -/
def emit (event : EnsembleEvent) (e : HwSwitchEnsemble) : HwSwitchEnsemble :=
  { e with trace := e.trace ++ [event] }

/-- The body of `HwSwitchEnsemble::getProgrammedState`. Reading through a null
`programmedState_` is undefined. -/
def getProgrammedState (e : HwSwitchEnsemble) : Except EnsembleFailure SwitchState :=
  match e.programmedState with
  | none => .error .undefinedBehaviour
  | some state =>
    -- CHECK(programmedState_->isPublished())
    if state.published then .ok state else .error .checkFailedIsPublished

/-- The `std::for_each` over `hwEventObservers_` that the callbacks and `stopObservers` share:
one call per observer, in the order of the container. -/
def forEachObserver (event : Observer → EnsembleEvent) (e : HwSwitchEnsemble) :
    HwSwitchEnsemble :=
  e.hwEventObservers.foldl (fun e observer => emit (event observer) e) e

/-- The body of `HwSwitchEnsemble::linkStateChanged`. The link toggler is taken to be set. -/
def linkStateChanged (port : PortID) (up : Bool) (e : HwSwitchEnsemble) : HwSwitchEnsemble :=
  let e := emit (.linkTogglerLinkStateChanged port up) e
  forEachObserver (fun observer => .changeLinkState observer port up) e

/-- The body of `HwSwitchEnsemble::packetReceived`. -/
def packetReceived (pkt : Nat) (e : HwSwitchEnsemble) : HwSwitchEnsemble :=
  forEachObserver (fun observer => .receivePacket observer pkt) e

/-- The body of `HwSwitchEnsemble::l2LearningUpdateReceived`. -/
def l2LearningUpdateReceived (l2Entry : Nat) (l2EntryUpdateType : L2EntryUpdateType)
    (e : HwSwitchEnsemble) : HwSwitchEnsemble :=
  forEachObserver (fun observer => .updateL2EntryState observer l2Entry l2EntryUpdateType) e

/-- The body of `HwSwitchEnsemble::addHwEventObserver`. A failure carries the state at the
throw. -/
def addHwEventObserver (observer : Observer) (e : HwSwitchEnsemble) :
    Except (EnsembleFailure × HwSwitchEnsemble) HwSwitchEnsemble :=
  let r := observersInsert observer e.hwEventObservers
  let e := { e with hwEventObservers := r.1 }
  if !r.2 then .error (.thrown .observerAlreadyAdded, e) else .ok e

/-- The body of `HwSwitchEnsemble::removeHwEventObserver`. -/
def removeHwEventObserver (observer : Observer) (e : HwSwitchEnsemble) :
    Except (EnsembleFailure × HwSwitchEnsemble) HwSwitchEnsemble :=
  let r := observersErase observer e.hwEventObservers
  let e := { e with hwEventObservers := r.1 }
  if r.2 = 0 then .error (.thrown .observerEraseFailed, e) else .ok e

/-- A sequence of calls of `addHwEventObserver`, one per observer of the list in order, up to
the first that fails. -/
def addHwEventObservers :
    List Observer → HwSwitchEnsemble →
    Except (EnsembleFailure × HwSwitchEnsemble) HwSwitchEnsemble
  | [], e => .ok e
  | observer :: rest, e =>
    match addHwEventObserver observer e with
    | .error f => .error f
    | .ok e => addHwEventObservers rest e

/-- The body of `HwSwitchEnsemble::gracefulExitState`. -/
def gracefulExitState (e : HwSwitchEnsemble) : Except EnsembleFailure Record :=
  let switchState : Record := []
  match getProgrammedState e with
  | .error f => .error f
  | .ok programmedState =>
    let switchState := Record.set .kSwSwitch programmedState.toFollyDynamic switchState
    match e.routingInformationBase with
    | some rib => .ok (Record.set .kRib rib.unresolvedRoutesFollyDynamic switchState)
    | none => .ok switchState

/-- The body of `HwSwitchEnsemble::stopObservers`. -/
def stopObservers (e : HwSwitchEnsemble) : HwSwitchEnsemble :=
  forEachObserver (fun observer => .stopObserving observer) e

/-- The body of `HwSwitchEnsemble::gracefulExit`. -/
def gracefulExit (e : HwSwitchEnsemble) :
    Except (EnsembleFailure × HwSwitchEnsemble) HwSwitchEnsemble :=
  let e := if e.thriftThread then emit .thriftThreadJoin e else e
  let e := if e.fs then emit .functionSchedulerShutdown e else e
  -- Initiate warm boot
  let e := emit .unregisterCallbacks e
  let e := stopObservers e
  let e := emit .gracefulExitState e
  match gracefulExitState e with
  | .error f => .error (f, e)
  | .ok switchState => .ok (emit (.hwSwitchGracefulExit switchState) e)

/-- The body of `HwSwitchEnsemble::applyNewStateImpl`. The result is the pointer returned,
which is null when `programmedState_` is; a failure carries the state at the throw. Calling
`publish` through a null pointer returned by the hardware switch is undefined. -/
def applyNewStateImpl (hwSwitch : HwSwitch) (newState : Option SwitchState) (transaction : Bool)
    (e : HwSwitchEnsemble) :
    Except (EnsembleFailure × HwSwitchEnsemble) (Option SwitchState × HwSwitchEnsemble) :=
  match newState with
  | none => .ok (e.programmedState, e)
  | some newState =>
    -- newState->publish()
    let newState := newState.publish
    let e := { e with
      programmedState := e.programmedState.map (SwitchState.publishedAt newState.address) }
    -- StateDelta delta(programmedState_, newState)
    let oldState := e.programmedState
    let e := emit (if transaction then .hwSwitchStateChangedTransaction oldState newState
      else .hwSwitchStateChanged oldState newState) e
    match (if transaction then hwSwitch.stateChangedTransaction oldState newState
      else hwSwitch.stateChanged oldState newState) with
    | none => .error (.undefinedBehaviour, { e with programmedState := none })
    | some programmedState =>
      -- programmedState_->publish()
      let programmedState := programmedState.publish
      let e := { e with programmedState := some programmedState }
      let appliedState := programmedState
      let oldState := oldState.map (SwitchState.publishedAt appliedState.address)
      let e := emit (.staticL2UpdaterStateUpdated oldState appliedState) e
      if newState.address ≠ appliedState.address then
        .error (.hwUpdateError { desiredState := newState, appliedState := appliedState }, e)
      else .ok (some appliedState, e)

end HwSwitchEnsemble

/-- An ensemble with a published programmed state, a routing information base of one resolved
and two unresolved routes, a thrift thread and a function scheduler, and no observer. -/
def scenarioEnsemble : HwSwitchEnsemble :=
  { hwEventObservers := []
    programmedState := some { address := 1, content := 42, published := true }
    routingInformationBase := some
      { routes := [{ network := 10, resolved := true }, { network := 20, resolved := false },
          { network := 30, resolved := false }] }
    thriftThread := true
    fs := true
    trace := [] }

/-- The ensemble of the scenario after the observers 5, 3 and 9 are registered in this
order. -/
def scenarioObserved : HwSwitchEnsemble :=
  { scenarioEnsemble with hwEventObservers := [5, 3, 9] }

/-- A hardware switch that applies a state whose content is even and otherwise stays at a
state of its own, at address 9. -/
def scenarioHwSwitch : HwSwitch :=
  { stateChanged := fun _ newState =>
      if newState.content % 2 = 0 then some newState
      else some { address := 9, content := 0, published := false }
    stateChangedTransaction := fun oldState newState =>
      if newState.content % 2 = 0 then some newState else oldState }

/-! ## The MACsec handles -/

/-- The release of the reference that a handle holds to a MACsec object of the store, by the
kind of the object and its adapter key. The object is removed from the hardware when its last
reference is released. -/
inductive MacsecRelease where
  | secureAssoc (id : Nat)
  | secureChannel (id : Nat)
  | flow (id : Nat)
  | port (id : Nat)
  | macsec (id : Nat)
  deriving DecidableEq, Repr

/-- The struct `SaiMacsecSecureChannelHandle`. A `std::shared_ptr` is the adapter key of the
object it refers to, or null; a map is the list of its entries in the order in which the
container destroys them. -/
structure SaiMacsecSecureChannelHandle where
  flow : Option Nat
  secureChannel : Option Nat
  secureAssocs : List (Nat × Option Nat)
  deriving DecidableEq, Repr

/-- The struct `SaiMacsecPortHandle`; a `std::unique_ptr` is the handle it owns, or null. -/
structure SaiMacsecPortHandle where
  port : Option Nat
  secureChannels : List (Nat × Option SaiMacsecSecureChannelHandle)
  deriving DecidableEq, Repr

/-- The struct `SaiMacsecHandle`. -/
structure SaiMacsecHandle where
  macsec : Option Nat
  ports : List (PortID × Option SaiMacsecPortHandle)
  deriving DecidableEq, Repr

/-- The destructor of a `std::shared_ptr`: the reference is released, unless it is null. -/
def destroyShared (kind : Nat → MacsecRelease) : Option Nat → List MacsecRelease
  | none => []
  | some id => [kind id]

/-- The destructor of a `std::unique_ptr`: the handle it owns is destroyed, unless it is
null. -/
def destroyUnique {H : Type} (destroy : H → List MacsecRelease) :
    Option H → List MacsecRelease
  | none => []
  | some handle => destroy handle

/-- The destructor of a map: its entries are destroyed one after the other. -/
def destroyMap {K V : Type} (destroy : V → List MacsecRelease) (map : List (K × V)) :
    List MacsecRelease :=
  map.flatMap (fun entry => destroy entry.2)

/-- The implicit destructor of a struct: the members are destroyed in the reverse of the order
of their declaration. `members` holds, in the order of declaration, what the destruction of
each member releases. -/
def destroyMembers (members : List (List MacsecRelease)) : List MacsecRelease :=
  members.reverse.flatten

/-- The implicit destructor of `SaiMacsecSecureChannelHandle`. -/
def SaiMacsecSecureChannelHandle.destroy (handle : SaiMacsecSecureChannelHandle) :
    List MacsecRelease :=
  destroyMembers
    [destroyShared .flow handle.flow,
     destroyShared .secureChannel handle.secureChannel,
     destroyMap (destroyShared .secureAssoc) handle.secureAssocs]

/-- The implicit destructor of `SaiMacsecPortHandle`. -/
def SaiMacsecPortHandle.destroy (handle : SaiMacsecPortHandle) : List MacsecRelease :=
  destroyMembers
    [destroyShared .port handle.port,
     destroyMap (destroyUnique SaiMacsecSecureChannelHandle.destroy) handle.secureChannels]

/-- The implicit destructor of `SaiMacsecHandle`. -/
def SaiMacsecHandle.destroy (handle : SaiMacsecHandle) : List MacsecRelease :=
  destroyMembers
    [destroyShared .macsec handle.macsec,
     destroyMap (destroyUnique SaiMacsecPortHandle.destroy) handle.ports]

/-- The phase of a release in a teardown by global phases: the secure associations, then the
secure channels with their flows, then the MACsec ports, then the top-level MACsec object. -/
def MacsecRelease.phase : MacsecRelease → Nat
  | .secureAssoc _ => 0
  | .secureChannel _ => 1
  | .flow _ => 1
  | .port _ => 2
  | .macsec _ => 3

/-- A sequence of releases proceeds in global phases: no release is followed by a release of
an earlier phase. -/
def InGlobalPhases (releases : List MacsecRelease) : Prop :=
  (releases.map MacsecRelease.phase).Pairwise (fun a b => a ≤ b)

instance (releases : List MacsecRelease) : Decidable (InGlobalPhases releases) := by
  unfold InGlobalPhases
  exact inferInstance

/-- What the destruction of a secure-channel handle releases, written leaf to root: all its
secure associations, then its secure channel, then its flow. -/
def channelReleases (channel : SaiMacsecSecureChannelHandle) : List MacsecRelease :=
  destroyMap (destroyShared .secureAssoc) channel.secureAssocs ++
    (destroyShared .secureChannel channel.secureChannel ++ destroyShared .flow channel.flow)

/-- A secure channel with the flow 20, the secure channel 10 and the association 1. -/
def scenarioChannelA : SaiMacsecSecureChannelHandle :=
  { flow := some 20, secureChannel := some 10, secureAssocs := [(0, some 1)] }

/-- A secure channel with the flow 21, the secure channel 11 and the association 2. -/
def scenarioChannelB : SaiMacsecSecureChannelHandle :=
  { flow := some 21, secureChannel := some 11, secureAssocs := [(0, some 2)] }

/-- A MACsec port 30 with the two secure channels of the scenario. -/
def scenarioMacsecPort : SaiMacsecPortHandle :=
  { port := some 30, secureChannels := [(1, some scenarioChannelA), (2, some scenarioChannelB)] }

/-- A MACsec handle of the object 40 with one port. -/
def scenarioMacsec : SaiMacsecHandle :=
  { macsec := some 40, ports := [(1, some scenarioMacsecPort)] }

/-! ## The ACL table manager -/

/-- The action of an ACL entry (`cfg::AclActionType`). -/
inductive AclActionType where
  | DENY
  | PERMIT
  deriving DecidableEq, Repr

/-- An ACL table of the switch state (`AclTable`): its priority and its name. -/
structure AclTable where
  priority : Nat
  name : List Nat
  deriving DecidableEq, Repr

/-- An ACL entry of the switch state (`AclEntry`), as far as the tests set it: priority, name,
and the match fields destination MAC and DSCP. -/
structure AclEntry where
  priority : Nat
  name : List Nat
  dstMac : Option (List Nat)
  dscp : Option Nat
  actionType : AclActionType
  deriving DecidableEq, Repr

/-- Modelled from the spec: the handle of an ACL entry, declared in `SaiAclTableManager.h`,
which is not part of the sources: the adapter key of the entry object and the match field it
was created with. -/
structure SaiAclEntryHandle where
  aclEntry : Nat
  fieldDstMac : Option (List Nat)
  deriving DecidableEq, Repr

/-- Modelled from the spec: the handle of an ACL table, declared in `SaiAclTableManager.h`,
which is not part of the sources: the adapter key of the table object, the stage the table
was created for, and the entries of the table by priority. -/
structure SaiAclTableHandle where
  aclTable : Nat
  stage : Nat
  aclTableMembers : List (Nat × SaiAclEntryHandle)
  deriving DecidableEq, Repr

/-- Modelled from the spec: the state of `SaiAclTableManager` (`SaiAclTableManager.h` and
`SaiAclTableManager.cpp` are not part of the sources): the table handles by table name, and
the next adapter key the store hands out. -/
structure SaiAclTableManager where
  handles : List (List Nat × SaiAclTableHandle)
  nextAdapterKey : Nat
  deriving DecidableEq, Repr

/-- The `FbossError`s of the ACL table manager. -/
inductive AclError where
  | duplicateAclTable
  | aclTableMissing
  | duplicateAclEntry
  | unsupportedField
  deriving DecidableEq, Repr

namespace SaiAclTableManager

/-- Modelled from the spec: `SaiAclTableManager::getAclTableHandle`, whose body is not part of
the sources: the handle of the table of that name, or null. -/
def getAclTableHandle (aclTableName : List Nat) (m : SaiAclTableManager) :
    Option SaiAclTableHandle :=
  Table.find aclTableName m.handles

/-- Modelled from the spec: `SaiAclTableManager::getAclEntryHandle`, whose body is not part of
the sources: the handle of the entry of that priority in the table, or null. -/
def getAclEntryHandle (aclTableHandle : SaiAclTableHandle) (priority : Nat) :
    Option SaiAclEntryHandle :=
  Table.find priority aclTableHandle.aclTableMembers

/-- Modelled from the spec: `SaiAclTableManager::addAclTable`, whose body is not part of the
sources. Adding a table under a name that already has a table is a duplicate error;
otherwise the table object is created and its handle is kept under the name. -/
def addAclTable (addedAclTable : AclTable) (aclStage : Nat) (m : SaiAclTableManager) :
    Except AclError (Nat × SaiAclTableManager) :=
  match getAclTableHandle addedAclTable.name m with
  | some _ => .error .duplicateAclTable
  | none =>
    .ok (m.nextAdapterKey,
      { handles := Table.emplace addedAclTable.name
          { aclTable := m.nextAdapterKey, stage := aclStage, aclTableMembers := [] } m.handles
        nextAdapterKey := m.nextAdapterKey + 1 })

/-- Modelled from the spec: `SaiAclTableManager::addAclEntry`, whose body is not part of the
sources. The table must exist; adding an entry under a priority that already has an entry in
the table is a duplicate error, whatever the entry matches on; an entry that matches on DSCP
is not supported; otherwise the entry object is created and its handle is kept under the
priority. -/
def addAclEntry (addedAclEntry : AclEntry) (aclTableName : List Nat) (m : SaiAclTableManager) :
    Except AclError (Nat × SaiAclTableManager) :=
  match getAclTableHandle aclTableName m with
  | none => .error .aclTableMissing
  | some aclTableHandle =>
    match getAclEntryHandle aclTableHandle addedAclEntry.priority with
    | some _ => .error .duplicateAclEntry
    | none =>
      if addedAclEntry.dscp.isSome then .error .unsupportedField
      else
        .ok (m.nextAdapterKey,
          { handles := Table.assign aclTableName
              { aclTableHandle with
                aclTableMembers := Table.emplace addedAclEntry.priority
                  { aclEntry := m.nextAdapterKey, fieldDstMac := addedAclEntry.dstMac }
                  aclTableHandle.aclTableMembers } m.handles
            nextAdapterKey := m.nextAdapterKey + 1 })

end SaiAclTableManager

/-- The name `AclTable1` of the table that the switch adds when it is set up
(`SaiSwitch::kAclTable1`). -/
def kAclTable1 : List Nat := [65, 99, 108, 84, 97, 98, 108, 101, 49]

/-- The manager of the tests after set-up: the table `AclTable1` without entries. -/
def scenarioAcl : SaiAclTableManager :=
  { handles := [(kAclTable1, { aclTable := 1, stage := 0, aclTableMembers := [] })],
    nextAdapterKey := 2 }

/-- The entry `AclEntry1` of priority 1 that matches the destination MAC
01:02:03:04:05:06. -/
def scenarioAclEntry : AclEntry :=
  { priority := 1, name := [65, 99, 108, 69, 110, 116, 114, 121, 49],
    dstMac := some [1, 2, 3, 4, 5, 6], dscp := none, actionType := .DENY }

/-- The entry `AclEntry1` of priority 1 that matches the destination MAC
00:02:03:04:05:06. -/
def scenarioDupAclEntry : AclEntry :=
  { scenarioAclEntry with dstMac := some [0, 2, 3, 4, 5, 6] }

/-- The manager of the tests after `scenarioAclEntry` is added to `AclTable1`. -/
def scenarioAclAdded : SaiAclTableManager :=
  { handles := [(kAclTable1,
      { aclTable := 1, stage := 0,
        aclTableMembers := [(1, { aclEntry := 2, fieldDstMac := some [1, 2, 3, 4, 5, 6] })] })],
    nextAdapterKey := 3 }

/-! ## The statistics updater -/

/-- The kinds of counter of an ACL statistic (`cfg::CounterType`). -/
inductive CounterType where
  | PACKETS
  | BYTES
  deriving DecidableEq, Repr

abbrev BcmAclStatHandle := Nat

/-- The struct `BcmStatUpdater::BcmAclStatDescriptor`. -/
structure BcmAclStatDescriptor where
  handle : BcmAclStatHandle
  aclStatName : List Nat
  deriving DecidableEq, Repr

/-- A counter (`MonotonicCounter`): its name and the value last written to it. -/
structure MonotonicCounter where
  name : List Nat
  value : Nat
  deriving DecidableEq, Repr

/-- The ACL statistics of `BcmStatUpdater`: the two pending queues, front first, and the
committed set `aclStats_`, by statistics handle and counter type. -/
structure BcmStatUpdater where
  toBeRemovedAclStats : List BcmAclStatHandle
  toBeAddedAclStats : List (BcmAclStatDescriptor × CounterType)
  aclStats : List (BcmAclStatHandle × List (CounterType × MonotonicCounter))
  deriving DecidableEq, Repr

namespace BcmStatUpdater

/-- Modelled from the spec: `BcmStatUpdater::toBeAddedAclStat`, whose body (`BcmStatUpdater.cpp`)
is not part of the sources: one pending add per counter type is pushed to the queue. -/
def toBeAddedAclStat (handle : BcmAclStatHandle) (aclStatName : List Nat)
    (counterTypes : List CounterType) (u : BcmStatUpdater) : BcmStatUpdater :=
  { u with
    toBeAddedAclStats := u.toBeAddedAclStats ++
      counterTypes.map (fun counterType =>
        ({ handle := handle, aclStatName := aclStatName }, counterType)) }

/-- Modelled from the spec: `BcmStatUpdater::toBeRemovedAclStat`, whose body is not part of the
sources: the handle is pushed to the queue of pending removes. -/
def toBeRemovedAclStat (handle : BcmAclStatHandle) (u : BcmStatUpdater) : BcmStatUpdater :=
  { u with toBeRemovedAclStats := u.toBeRemovedAclStats ++ [handle] }

/-- Modelled from the spec: what the refresh does with one pending remove: the counters of the
handle leave the committed set. -/
def applyRemove (aclStats : List (BcmAclStatHandle × List (CounterType × MonotonicCounter)))
    (handle : BcmAclStatHandle) :
    List (BcmAclStatHandle × List (CounterType × MonotonicCounter)) :=
  Table.erase handle aclStats

/-- Modelled from the spec: what the refresh does with one pending add: a counter of that type
enters the committed set under the handle, unless there is one. -/
def applyAdd (aclStats : List (BcmAclStatHandle × List (CounterType × MonotonicCounter)))
    (added : BcmAclStatDescriptor × CounterType) :
    List (BcmAclStatHandle × List (CounterType × MonotonicCounter)) :=
  let aclStats := Table.emplace added.1.handle [] aclStats
  let counters := (Table.find added.1.handle aclStats).getD []
  Table.assign added.1.handle
    (Table.emplace added.2 { name := added.1.aclStatName, value := 0 } counters) aclStats

/-- Modelled from the spec: `BcmStatUpdater::refreshAclStats`, the part of the refresh
(`refreshPostBcmStateChange`) for the ACL statistics, whose body is not part of the sources:
the pending removes and then the pending adds are drained into the committed set. -/
def refreshAclStats (u : BcmStatUpdater) : BcmStatUpdater :=
  { toBeRemovedAclStats := []
    toBeAddedAclStats := []
    aclStats := u.toBeAddedAclStats.foldl applyAdd (u.toBeRemovedAclStats.foldl applyRemove u.aclStats) }

/-- Modelled from the spec: `BcmStatUpdater::updateAclStats`, the part of `updateStats` for the
ACL statistics, whose body is not part of the sources: every counter of the committed set is
written the value read from the hardware, given by `getAclTrafficStats`. -/
def updateAclStats (getAclTrafficStats : BcmAclStatHandle → CounterType → Nat)
    (u : BcmStatUpdater) : BcmStatUpdater :=
  { u with
    aclStats := u.aclStats.map (fun entry =>
      (entry.1, entry.2.map (fun counter =>
        (counter.1, { counter.2 with value := getAclTrafficStats entry.1 counter.1 })))) }

/-- The structure of the committed set: the handles, each with its counter types and the
names of its counters. A counter value is not part of it. -/
def structureOf (u : BcmStatUpdater) : List (BcmAclStatHandle × List (CounterType × List Nat)) :=
  u.aclStats.map (fun entry => (entry.1, entry.2.map (fun counter => (counter.1, counter.2.name))))

/-- A committed set has a counter of this type under this handle. -/
def hasCounter (aclStats : List (BcmAclStatHandle × List (CounterType × MonotonicCounter)))
    (handle : BcmAclStatHandle) (counterType : CounterType) : Bool :=
  match Table.find handle aclStats with
  | some counters => (Table.find counterType counters).isSome
  | none => false

end BcmStatUpdater

/-- A statistics updater with the committed counters of the handles 1 and 2, a pending remove
of the handle 1 and pending adds of two counters of the handle 3. -/
def scenarioStats : BcmStatUpdater :=
  { toBeRemovedAclStats := [1]
    toBeAddedAclStats :=
      [({ handle := 3, aclStatName := [99] }, .PACKETS), ({ handle := 3, aclStatName := [99] }, .BYTES)]
    aclStats :=
      [(1, [(.PACKETS, { name := [97], value := 5 })]), (2, [(.BYTES, { name := [98], value := 7 })])] }

/-- The state of the scenario after `addLag` of aggregate port A, with port 4 then moved to
VLAN 3000. -/
def scenarioMoved : SaiLagManager :=
  { scenarioAdded with
    concurrentIndices :=
      { scenarioAdded.concurrentIndices with
        vlanIds := Table.assign (.physical 104) 3000 scenarioAdded.concurrentIndices.vlanIds } }

/-- Aggregate port A given to `addLag` once more, with the sub-port 4 only. -/
def scenarioReadded : AggregatePort :=
  { id := 7, name := [65], minimumLinkCount := 1, subportAndFwdState := [(4, .ENABLED)] }

/-- Aggregate port A with no sub-port and the minimum link count 3. -/
def scenarioRaised : AggregatePort :=
  { id := 7, name := [65], minimumLinkCount := 3, subportAndFwdState := [] }

/-- A new state at address 2 whose content the hardware switch of the scenario does not
apply. -/
def scenarioRefused : SwitchState :=
  { address := 2, content := 43, published := false }

end Fboss

/-! # Theorems -/

namespace Fboss

/-! ## Facts about the tables -/

namespace Table

variable {K V : Type} [DecidableEq K]

theorem find_assign (k k' : K) (v : V) (m : List (K × V)) :
    find k' (assign k v m) = if k' = k then (find k m).map (fun _ => v) else find k' m := by
  induction m with
  | nil => simp [assign, find]
  | cons e rest ih =>
    obtain ⟨ke, ve⟩ := e
    by_cases h : ke = k
    · subst h
      by_cases h' : ke = k'
      · subst h'; simp [assign, find]
      · have h'' : ¬ k' = ke := fun x => h' x.symm
        simp [assign, find, h', h'']
    · by_cases h' : ke = k'
      · subst h'; simp [assign, find, h]
      · simp [assign, find, h, h', ih]

theorem find_erase (k k' : K) (m : List (K × V)) :
    find k' (erase k m) = if k' = k then none else find k' m := by
  induction m with
  | nil => simp [erase, find]
  | cons e rest ih =>
    obtain ⟨ke, ve⟩ := e
    simp only [erase] at ih
    by_cases h : ke = k
    · subst h
      by_cases h' : ke = k'
      · subst h'; simpa [erase, find, List.filter] using ih
      · have h'' : ¬ k' = ke := fun x => h' x.symm
        simpa [erase, find, List.filter, h', h''] using ih
    · by_cases h' : ke = k'
      · subst h'; simp [erase, find, List.filter, h]
      · simpa [erase, find, List.filter, h, h'] using ih

theorem find_emplace (k k' : K) (v : V) (m : List (K × V)) :
    find k' (emplace k v m) = if k' = k then some ((find k m).getD v) else find k' m := by
  induction m with
  | nil =>
    by_cases h : k = k'
    · subst h; simp [emplace, find]
    · have h'' : ¬ k' = k := fun x => h x.symm
      simp [emplace, find, h, h'']
  | cons e rest ih =>
    obtain ⟨ke, ve⟩ := e
    by_cases h : ke = k
    · subst h
      by_cases h' : ke = k'
      · subst h'; simp [emplace, find]
      · have h'' : ¬ k' = ke := fun x => h' x.symm
        simp [emplace, find, h', h'']
    · by_cases h' : ke = k'
      · subst h'; simp [emplace, find, h]
      · simp [emplace, find, h, h', ih]

theorem emplace_of_find_some (k : K) (v v0 : V) (m : List (K × V))
    (h : find k m = some v0) : emplace k v m = m := by
  induction m with
  | nil => simp [find] at h
  | cons e rest ih =>
    obtain ⟨ke, ve⟩ := e
    by_cases hk : ke = k
    · simp [emplace, hk]
    · simp only [find, hk, if_false] at h
      simp [emplace, hk, ih h]

theorem find_eq_none_iff (k : K) (m : List (K × V)) :
    find k m = none ↔ k ∉ m.map Prod.fst := by
  induction m with
  | nil => simp [find]
  | cons e rest ih =>
    obtain ⟨ke, ve⟩ := e
    by_cases h : ke = k
    · subst h; simp [find]
    · have h'' : ¬ k = ke := fun x => h x.symm
      simp [find, h, h'', ih]

theorem mem_of_find (k : K) (v : V) (m : List (K × V)) (h : find k m = some v) :
    (k, v) ∈ m := by
  induction m with
  | nil => simp [find] at h
  | cons e rest ih =>
    obtain ⟨ke, ve⟩ := e
    by_cases hk : ke = k
    · subst hk
      simp only [find, if_true, Option.some.injEq] at h
      subst h
      simp
    · simp only [find, hk, if_false] at h
      exact List.mem_cons_of_mem _ (ih h)

theorem find_isSome_iff (k : K) (m : List (K × V)) :
    (find k m).isSome ↔ k ∈ m.map Prod.fst := by
  have h := find_eq_none_iff k m
  cases hf : find k m with
  | none => simp [hf] at h; simpa using h
  | some v =>
    simp only [Option.isSome_some, true_iff]
    by_contra hc
    rw [← h] at hc
    rw [hf] at hc
    cases hc

theorem keys_assign (k : K) (v : V) (m : List (K × V)) :
    (assign k v m).map Prod.fst = m.map Prod.fst := by
  induction m with
  | nil => rfl
  | cons e rest ih =>
    obtain ⟨ke, ve⟩ := e
    by_cases h : ke = k
    · simp [assign, h]
    · simp [assign, h, ih]

theorem mem_keys_erase (k k' : K) (m : List (K × V)) :
    k' ∈ (erase k m).map Prod.fst ↔ k' ∈ m.map Prod.fst ∧ k' ≠ k := by
  rw [← find_isSome_iff, ← find_isSome_iff, find_erase]
  by_cases h : k' = k <;> simp [h]

theorem mem_erase (k : K) (e : K × V) (m : List (K × V)) :
    e ∈ erase k m ↔ e ∈ m ∧ e.1 ≠ k := by
  simp [erase, List.mem_filter]

theorem nodup_keys_erase (k : K) (m : List (K × V)) (h : (m.map Prod.fst).Nodup) :
    ((erase k m).map Prod.fst).Nodup := by
  unfold erase
  exact (List.Nodup.sublist ((List.filter_sublist m).map Prod.fst) h)

theorem length_erase_of_find {k : K} {v : V} {m : List (K × V)}
    (hn : (m.map Prod.fst).Nodup) (h : find k m = some v) :
    (erase k m).length + 1 = m.length := by
  induction m with
  | nil => simp [find] at h
  | cons e rest ih =>
    obtain ⟨ke, ve⟩ := e
    simp only [List.map_cons, List.nodup_cons] at hn
    by_cases hk : ke = k
    · subst hk
      have hnot : find ke rest = none := (find_eq_none_iff ke rest).2 hn.1
      have hrest : erase ke rest = rest := by
        unfold erase
        rw [List.filter_eq_self]
        intro a ha
        have : a.1 ∈ rest.map Prod.fst := List.mem_map_of_mem _ ha
        have hne : a.1 ≠ ke := fun hx => hn.1 (hx ▸ this)
        simpa using hne
      have : erase ke ((ke, ve) :: rest) = erase ke rest := by
        simp [erase, List.filter]
      rw [this, hrest]
      simp
    · simp only [find, hk, if_false] at h
      have : erase k ((ke, ve) :: rest) = (ke, ve) :: erase k rest := by
        simp [erase, List.filter, hk]
      rw [this]
      simp [ih hn.2 h]

section Ordered

variable {W : Type}

theorem mem_insertOrdered (k : Nat) (v : W) (e : Nat × W) (m : List (Nat × W)) :
    e ∈ insertOrdered k v m ↔ e = (k, v) ∨ e ∈ m := by
  induction m with
  | nil => simp [insertOrdered]
  | cons x rest ih =>
    obtain ⟨kx, vx⟩ := x
    by_cases h : k < kx
    · simp [insertOrdered, h]
    · simp only [insertOrdered, h, if_false, List.mem_cons, ih]
      tauto

theorem find_insertOrdered (k k' : Nat) (v : W) (m : List (Nat × W)) (hk : find k m = none) :
    find k' (insertOrdered k v m) = if k' = k then some v else find k' m := by
  induction m with
  | nil =>
    by_cases h : k = k'
    · subst h; simp [insertOrdered, find]
    · have h'' : ¬ k' = k := fun x => h x.symm
      simp [insertOrdered, find, h, h'']
  | cons x rest ih =>
    obtain ⟨kx, vx⟩ := x
    have hkx : ¬ kx = k := by
      intro hx
      simp [find, hx] at hk
    have hrest : find k rest = none := by
      simpa [find, hkx] using hk
    by_cases h : k < kx
    · by_cases h' : k = k'
      · subst h'; simp [insertOrdered, find, h]
      · have h'' : ¬ k' = k := fun x => h' x.symm
        simp [insertOrdered, find, h, h', h'']
    · by_cases h' : kx = k'
      · subst h'
        have h'' : ¬ kx = k := hkx
        simp [insertOrdered, find, h, h'']
      · simp [insertOrdered, find, h, h', ih hrest]

theorem keys_insertOrdered_perm (k : Nat) (v : W) (m : List (Nat × W)) :
    ((insertOrdered k v m).map Prod.fst).Perm (k :: m.map Prod.fst) := by
  induction m with
  | nil => simp [insertOrdered]
  | cons x rest ih =>
    obtain ⟨kx, vx⟩ := x
    by_cases h : k < kx
    · simp [insertOrdered, h]
    · simp only [insertOrdered, h, if_false, List.map_cons]
      exact (List.Perm.cons kx ih).trans (List.Perm.swap k kx _)

theorem length_insertOrdered (k : Nat) (v : W) (m : List (Nat × W)) :
    (insertOrdered k v m).length = m.length + 1 := by
  have := (keys_insertOrdered_perm k v m).length_eq
  simpa using this

end Ordered

end Table

/-! ## Facts about the object store -/

theorem find_release_of_ne {K A : Type} [DecidableEq K] (k k' : K)
    (store : List (K × StoredObject A)) (h : k' ≠ k) :
    Table.find k' (release k store).2 = Table.find k' store := by
  unfold release
  cases hf : Table.find k store with
  | none => rfl
  | some object =>
    by_cases ho : object.owners ≤ 1
    · simp [ho, Table.find_erase, h]
    · simp [ho, Table.find_assign, h]

theorem find_setObject_of_ne {K A : Type} [DecidableEq K] (k k' : K) (attributes : A)
    (freshKey : Nat) (store : List (K × StoredObject A)) (h : k' ≠ k) :
    Table.find k' (setObject k attributes freshKey store).2.2 = Table.find k' store := by
  unfold setObject
  cases hf : Table.find k store with
  | none => simp [Table.find_emplace, h]
  | some object => simp [Table.find_assign, h]

theorem find_setObject_self {K A : Type} [DecidableEq K] (k : K) (attributes : A)
    (freshKey : Nat) (store : List (K × StoredObject A)) :
    ∃ object, Table.find k (setObject k attributes freshKey store).2.2 = some object ∧
      object.attributes = attributes := by
  unfold setObject
  cases hf : Table.find k store with
  | none => simp [Table.find_emplace, hf]
  | some object => simp [Table.find_assign, hf]

namespace SaiLagManager

/-! ## The effect of `removeMember` -/

theorem removeMember_of_absent {s : SaiLagManager} {aggPort : AggregatePortID} {subPort : PortID}
    {handle : SaiLagHandle} {portHandle : SaiPortHandle}
    (hHandle : Table.find aggPort s.handles = some handle)
    (hPort : Table.find subPort s.portHandles = some portHandle)
    (hAbsent : Table.find portHandle.port handle.members = none) :
    removeMember aggPort subPort s = .ok s := by
  simp [removeMember, hHandle, hPort, hAbsent]

theorem removeMember_of_member {s : SaiLagManager} {aggPort : AggregatePortID} {subPort : PortID}
    {handle : SaiLagHandle} {portHandle : SaiPortHandle} {member : SaiLagMember}
    (hHandle : Table.find aggPort s.handles = some handle)
    (hPort : Table.find subPort s.portHandles = some portHandle)
    (hMember : Table.find portHandle.port handle.members = some member) :
    ∃ s1, removeMember aggPort subPort s = .ok s1 ∧
      s1.handles = Table.assign aggPort
        { handle with members := Table.erase portHandle.port handle.members } s.handles ∧
      s1.portHandles = Table.assign subPort
        { portHandle with
          bridgePort := some { portDescriptor := .physical subPort, saiId := .physical portHandle.port } }
        s.portHandles ∧
      s1.concurrentIndices =
        { s.concurrentIndices with
          memberPort2AggregatePortIds :=
            Table.erase portHandle.port s.concurrentIndices.memberPort2AggregatePortIds } ∧
      s1.lagMemberStore = (release member s.lagMemberStore).2 ∧
      s1.lagStore = s.lagStore ∧
      s1.memberOps = s.memberOps ∧
      s1.trace = (s.trace ++
        [.lagMemberRelease member.lag member.port (release member s.lagMemberStore).1,
         .memberPort2AggregatePortIdsErase portHandle.port,
         .addBridgePort (.physical subPort) (.physical portHandle.port)]) ++
        (match portHandle.bridgePort with
         | some b => [.bridgePortRelease b.portDescriptor]
         | none => []) := by
  simp only [removeMember, hHandle, hPort, hMember]
  refine ⟨_, rfl, ?_, ?_, ?_, ?_, ?_, ?_, ?_⟩
  · cases hb : portHandle.bridgePort <;> rfl
  · cases hb : portHandle.bridgePort <;> rfl
  · cases hb : portHandle.bridgePort <;> rfl
  · cases hb : portHandle.bridgePort <;> rfl
  · cases hb : portHandle.bridgePort <;> rfl
  · cases hb : portHandle.bridgePort <;> rfl
  · cases hb : portHandle.bridgePort <;>
      simp [releaseBridgePort, addBridgePort, updatePortHandle, updateHandle, emit,
        releaseLagMember]

end SaiLagManager

/-! ## Member maps that hold a given membership -/

namespace MembersRep

variable {members : List (PortSaiId × SaiLagMember)}
  {store store1 : List (SaiLagMember × StoredObject SaiLagMemberAttributes)}
  {lagId : LagSaiId} {sai : PortID → PortSaiId} {cur cur1 : List (PortID × Forwarding)}

theorem rep_empty (store : List (SaiLagMember × StoredObject SaiLagMemberAttributes))
    (lagId : LagSaiId) (sai : PortID → PortSaiId) : MembersRep [] store lagId sai [] :=
  { nodup := by simp
    pointsTo := by simp
    keys := by simp
    objects := by simp }

theorem rep_congr (h : MembersRep members store lagId sai cur)
    (hcur : ∀ e, e ∈ cur1 ↔ e ∈ cur) : MembersRep members store lagId sai cur1 :=
  { nodup := h.nodup
    pointsTo := h.pointsTo
    keys := by
      intro k
      rw [h.keys k]
      constructor
      · rintro ⟨e, he, hk⟩; exact ⟨e, (hcur e).2 he, hk⟩
      · rintro ⟨e, he, hk⟩; exact ⟨e, (hcur e).1 he, hk⟩
    objects := fun e he => h.objects e ((hcur e).1 he) }

theorem rep_find_of_mem (h : MembersRep members store lagId sai cur)
    {e : PortID × Forwarding} (he : e ∈ cur) :
    Table.find (sai e.1) members = some { lag := lagId, port := sai e.1 } := by
  have hk : sai e.1 ∈ members.map Prod.fst := (h.keys _).2 ⟨e, he, rfl⟩
  have hs := (Table.find_isSome_iff (sai e.1) members).2 hk
  cases hf : Table.find (sai e.1) members with
  | none => simp [hf] at hs
  | some m =>
    have := h.pointsTo _ (Table.mem_of_find _ _ _ hf)
    simp only at this
    rw [this]

theorem rep_not_mem_of_find_none (h : MembersRep members store lagId sai cur) {p : PortID}
    (hf : Table.find (sai p) members = none) : p ∉ cur.map Prod.fst := by
  intro hp
  obtain ⟨e, he, rfl⟩ := List.mem_map.1 hp
  rw [h.rep_find_of_mem he] at hf
  cases hf

theorem rep_find_none_of_not_mem (h : MembersRep members store lagId sai cur) {ports : List PortID}
    (hinj : ∀ p ∈ ports, ∀ q ∈ ports, sai p = sai q → p = q)
    (hcur : ∀ e ∈ cur, e.1 ∈ ports) {p : PortID} (hp : p ∈ ports)
    (hnot : p ∉ cur.map Prod.fst) : Table.find (sai p) members = none := by
  rw [Table.find_eq_none_iff, h.keys]
  rintro ⟨e, he, hk⟩
  have := hinj e.1 (hcur e he) p hp hk
  exact hnot (List.mem_map.2 ⟨e, he, this⟩)

theorem rep_erase (h : MembersRep members store lagId sai cur) {ports : List PortID}
    (hinj : ∀ p ∈ ports, ∀ q ∈ ports, sai p = sai q → p = q)
    (hcur : ∀ e ∈ cur, e.1 ∈ ports) {p : PortID} (hp : p ∈ ports)
    (hother : ∀ key : SaiLagMember, key ≠ { lag := lagId, port := sai p } →
      Table.find key store1 = Table.find key store) :
    MembersRep (Table.erase (sai p) members) store1 lagId sai
      (cur.filter (fun e => decide (e.1 ≠ p))) :=
  { nodup := Table.nodup_keys_erase _ _ h.nodup
    pointsTo := fun e he => h.pointsTo e ((Table.mem_erase _ _ _).1 he).1
    keys := by
      intro k
      rw [Table.mem_keys_erase, h.keys k]
      constructor
      · rintro ⟨⟨e, he, hk⟩, hne⟩
        refine ⟨e, ?_, hk⟩
        rw [List.mem_filter]
        refine ⟨he, ?_⟩
        have : e.1 ≠ p := fun hx => hne (by rw [← hk, hx])
        simpa using this
      · rintro ⟨e, he, hk⟩
        rw [List.mem_filter] at he
        have hne : e.1 ≠ p := by simpa using he.2
        refine ⟨⟨e, he.1, hk⟩, ?_⟩
        intro hx
        exact hne (hinj e.1 (hcur e he.1) p hp (by rw [hk, hx]))
    objects := by
      intro e he
      rw [List.mem_filter] at he
      have hne : e.1 ≠ p := by simpa using he.2
      obtain ⟨object, hobj, hattr⟩ := h.objects e he.1
      refine ⟨object, ?_, hattr⟩
      rw [hother _ ?_]
      · exact hobj
      · intro hx
        have : sai e.1 = sai p := by simpa using hx
        exact hne (hinj e.1 (hcur e he.1) p hp this) }

theorem rep_add (h : MembersRep members store lagId sai cur) {ports : List PortID}
    (hinj : ∀ p ∈ ports, ∀ q ∈ ports, sai p = sai q → p = q)
    (hcur : ∀ e ∈ cur, e.1 ∈ ports) {p : PortID} (hp : p ∈ ports)
    (hnot : p ∉ cur.map Prod.fst) (fwdState : Forwarding)
    (object : StoredObject SaiLagMemberAttributes)
    (hself : Table.find ({ lag := lagId, port := sai p } : SaiLagMember) store1 = some object)
    (hattr : object.attributes.egressDisable = decide (fwdState = Forwarding.DISABLED))
    (hother : ∀ key : SaiLagMember, key ≠ { lag := lagId, port := sai p } →
      Table.find key store1 = Table.find key store) :
    MembersRep (Table.orderedEmplace (sai p) { lag := lagId, port := sai p } members) store1
      lagId sai ((p, fwdState) :: cur) := by
  have hnone := h.rep_find_none_of_not_mem hinj hcur hp hnot
  have hkey : sai p ∉ members.map Prod.fst := (Table.find_eq_none_iff _ _).1 hnone
  have hperm := Table.keys_insertOrdered_perm (sai p)
    ({ lag := lagId, port := sai p } : SaiLagMember) members
  have hform : Table.orderedEmplace (sai p) ({ lag := lagId, port := sai p } : SaiLagMember)
      members = Table.insertOrdered (sai p) { lag := lagId, port := sai p } members := by
    simp [Table.orderedEmplace, hnone]
  rw [hform]
  refine
    { nodup := (hperm.nodup_iff).2 (List.nodup_cons.2 ⟨hkey, h.nodup⟩)
      pointsTo := ?_
      keys := ?_
      objects := ?_ }
  · intro e he
    rcases (Table.mem_insertOrdered _ _ _ _).1 he with rfl | he
    · rfl
    · exact h.pointsTo e he
  · intro k
    rw [hperm.mem_iff, List.mem_cons, h.keys k]
    constructor
    · rintro (rfl | ⟨e, he, hk⟩)
      · exact ⟨(p, fwdState), List.mem_cons_self _ _, rfl⟩
      · exact ⟨e, List.mem_cons_of_mem _ he, hk⟩
    · rintro ⟨e, he, hk⟩
      rcases List.mem_cons.1 he with rfl | he
      · exact Or.inl hk.symm
      · exact Or.inr ⟨e, he, hk⟩
  · intro e he
    rcases List.mem_cons.1 he with rfl | he
    · exact ⟨object, hself, hattr⟩
    · obtain ⟨object0, hobj, hattr0⟩ := h.objects e he
      refine ⟨object0, ?_, hattr0⟩
      rw [hother _ ?_]
      · exact hobj
      · intro hx
        have hx' : sai e.1 = sai p := by simpa using hx
        have := hinj e.1 (hcur e he) p hp hx'
        exact hnot (List.mem_map.2 ⟨e, he, this⟩)

theorem rep_setState {p : PortID} {fwdState0 : Forwarding} {rest : List (PortID × Forwarding)}
    (h : MembersRep members store lagId sai ((p, fwdState0) :: rest)) {ports : List PortID}
    (hinj : ∀ p ∈ ports, ∀ q ∈ ports, sai p = sai q → p = q)
    (hrest : ∀ e ∈ rest, e.1 ∈ ports) (hp : p ∈ ports)
    (hnot : p ∉ rest.map Prod.fst) (fwdState : Forwarding)
    (object : StoredObject SaiLagMemberAttributes)
    (hself : Table.find ({ lag := lagId, port := sai p } : SaiLagMember) store1 = some object)
    (hattr : object.attributes.egressDisable = decide (fwdState = Forwarding.DISABLED))
    (hother : ∀ key : SaiLagMember, key ≠ { lag := lagId, port := sai p } →
      Table.find key store1 = Table.find key store) :
    MembersRep members store1 lagId sai ((p, fwdState) :: rest) :=
  { nodup := h.nodup
    pointsTo := h.pointsTo
    keys := by
      intro k
      rw [h.keys k]
      constructor
      · rintro ⟨e, he, hk⟩
        rcases List.mem_cons.1 he with rfl | he
        · exact ⟨(p, fwdState), List.mem_cons_self _ _, hk⟩
        · exact ⟨e, List.mem_cons_of_mem _ he, hk⟩
      · rintro ⟨e, he, hk⟩
        rcases List.mem_cons.1 he with rfl | he
        · exact ⟨(p, fwdState0), List.mem_cons_self _ _, hk⟩
        · exact ⟨e, List.mem_cons_of_mem _ he, hk⟩
    objects := by
      intro e he
      rcases List.mem_cons.1 he with rfl | he
      · exact ⟨object, hself, hattr⟩
      · obtain ⟨object0, hobj, hattr0⟩ := h.objects e (List.mem_cons_of_mem _ he)
        refine ⟨object0, ?_, hattr0⟩
        rw [hother _ ?_]
        · exact hobj
        · intro hx
          have hx' : sai e.1 = sai p := by simpa using hx
          have := hinj e.1 (hrest e he) p hp hx'
          exact hnot (List.mem_map.2 ⟨e, he, this⟩) }

end MembersRep

/-- When every entry of the member map points at an object of the store, the count of
`getActiveMemberCount` is the number of entries whose object has egress enabled. -/
theorem countActive_eq_countP
    (store : List (SaiLagMember × StoredObject SaiLagMemberAttributes))
    (members : List (PortSaiId × SaiLagMember))
    (h : ∀ e ∈ members, (Table.find e.2 store).isSome) :
    SaiLagManager.countActive store members =
      .ok (members.countP (fun e =>
        match Table.find e.2 store with
        | some object => !object.attributes.egressDisable
        | none => false)) := by
  induction members with
  | nil => rfl
  | cons e rest ih =>
    have he := h e (List.mem_cons_self _ _)
    have hrest := ih (fun x hx => h x (List.mem_cons_of_mem _ hx))
    cases hf : Table.find e.2 store with
    | none => simp [hf] at he
    | some object =>
      simp only [SaiLagManager.countActive, hf, hrest, List.countP_cons]
      cases hd : object.attributes.egressDisable <;> simp

theorem countActive_of_rep {members : List (PortSaiId × SaiLagMember)}
    {store : List (SaiLagMember × StoredObject SaiLagMemberAttributes)}
    {lagId : LagSaiId} {sai : PortID → PortSaiId} {cur : List (PortID × Forwarding)}
    (h : MembersRep members store lagId sai cur) {ports : List PortID}
    (hinj : ∀ p ∈ ports, ∀ q ∈ ports, sai p = sai q → p = q)
    (hcur : ∀ e ∈ cur, e.1 ∈ ports) (hnodup : (cur.map Prod.fst).Nodup) :
    SaiLagManager.countActive store members =
      .ok (cur.countP (fun e => decide (e.2 = Forwarding.ENABLED))) := by
  have hsome : ∀ e ∈ members, (Table.find e.2 store).isSome := by
    intro e he
    have hk : e.1 ∈ members.map Prod.fst := List.mem_map_of_mem _ he
    obtain ⟨c, hc, hck⟩ := (h.keys e.1).1 hk
    obtain ⟨object, hobj, -⟩ := h.objects c hc
    rw [h.pointsTo e he, ← hck, hobj]
    rfl
  rw [countActive_eq_countP store members hsome]
  congr 1
  -- the count as a count over the keys
  let q : PortSaiId → Bool := fun k =>
    match Table.find ({ lag := lagId, port := k } : SaiLagMember) store with
    | some object => !object.attributes.egressDisable
    | none => false
  have h1 : members.countP (fun e =>
        match Table.find e.2 store with
        | some object => !object.attributes.egressDisable
        | none => false) = (members.map Prod.fst).countP q := by
    rw [List.countP_map]
    apply List.countP_congr
    intro e he
    simp only [Function.comp, q]
    rw [h.pointsTo e he]
  have hkeysNodup : (cur.map (fun e => sai e.1)).Nodup := by
    have : cur.map (fun e => sai e.1) = (cur.map Prod.fst).map sai := by
      rw [List.map_map]; rfl
    rw [this]
    refine List.Nodup.map_on ?_ hnodup
    intro x hx y hy hxy
    obtain ⟨ex, hex, rfl⟩ := List.mem_map.1 hx
    obtain ⟨ey, hey, rfl⟩ := List.mem_map.1 hy
    exact hinj _ (hcur ex hex) _ (hcur ey hey) hxy
  have hperm : (members.map Prod.fst).Perm (cur.map (fun e => sai e.1)) := by
    rw [List.perm_ext_iff_of_nodup h.nodup hkeysNodup]
    intro k
    rw [h.keys k, List.mem_map]
  rw [h1, hperm.countP_eq, List.countP_map]
  apply List.countP_congr
  intro e he
  obtain ⟨object, hobj, hattr⟩ := h.objects e he
  simp only [Function.comp, q, hobj, hattr]
  cases e.2 <;> simp

/-! ## The effect of the member operations on the membership a handle holds -/

namespace SaiLagManager

theorem addMember_of_portHandle {s : SaiLagManager} (lag : SaiLag)
    (aggregatePortID : AggregatePortID) {subPort : PortID} {portHandle : SaiPortHandle}
    (hPort : Table.find subPort s.portHandles = some portHandle) :
    ∃ s1, addMember lag aggregatePortID subPort s =
        .ok ((portHandle.port, { lag := lag.adapterKey, port := portHandle.port }), s1) ∧
      s1.handles = s.handles ∧
      s1.portHandles =
        Table.assign subPort { portHandle with bridgePort := none } s.portHandles ∧
      s1.lagMemberStore =
        (setObject ({ lag := lag.adapterKey, port := portHandle.port } : SaiLagMember)
          ({ egressDisable := true } : SaiLagMemberAttributes)
          s.nextAdapterKey s.lagMemberStore).2.2 ∧
      s1.concurrentIndices =
        { s.concurrentIndices with
          memberPort2AggregatePortIds :=
            Table.emplace portHandle.port aggregatePortID
              s.concurrentIndices.memberPort2AggregatePortIds } ∧
      s1.lagStore = s.lagStore ∧
      s1.memberOps = s.memberOps := by
  simp only [addMember, hPort]
  refine ⟨_, rfl, ?_, ?_, ?_, ?_, ?_, ?_⟩ <;>
    cases hb : portHandle.bridgePort <;> rfl

theorem setMemberState_of_object {s : SaiLagManager} {member : SaiLagMember}
    {object : StoredObject SaiLagMemberAttributes} (fwdState : Forwarding)
    (hObject : Table.find member s.lagMemberStore = some object) :
    setMemberState member fwdState s =
      .ok (emit (.lagMemberSetEgressDisable member.lag member.port
          (decide (fwdState = Forwarding.DISABLED)))
        { s with
          lagMemberStore :=
            Table.assign member
              { object with
                attributes := { egressDisable := decide (fwdState = Forwarding.DISABLED) } }
              s.lagMemberStore }) := by
  cases fwdState <;> simp [setMemberState, hObject]

theorem portSaiIdOf_eq_of_assign {s s1 : SaiLagManager} {subPort : PortID}
    {portHandle : SaiPortHandle} (portHandle1 : SaiPortHandle)
    (hPort : Table.find subPort s.portHandles = some portHandle)
    (hKey : portHandle1.port = portHandle.port)
    (h1 : s1.portHandles = Table.assign subPort portHandle1 s.portHandles) (p : PortID) :
    portSaiIdOf s1 p = portSaiIdOf s p := by
  unfold portSaiIdOf
  rw [h1, Table.find_assign]
  by_cases hp : p = subPort
  · subst hp; simp [hPort, hKey]
  · simp [hp]

theorem portsOk_of_frame {s s1 : SaiLagManager} {ports : List PortID} {sai : PortID → PortSaiId}
    (h : PortsOk s ports sai) (hHandles : ∀ p, portSaiIdOf s1 p = portSaiIdOf s p)
    (hIndex : s1.concurrentIndices.portSaiIds = s.concurrentIndices.portSaiIds) :
    PortsOk s1 ports sai :=
  { handleOf := fun p hp => by rw [hHandles]; exact h.handleOf p hp
    indexOf := fun p hp => by rw [hIndex]; exact h.indexOf p hp
    inj := h.inj }

theorem portHandle_of_portsOk {s : SaiLagManager} {ports : List PortID}
    {sai : PortID → PortSaiId} (h : PortsOk s ports sai) {p : PortID} (hp : p ∈ ports) :
    ∃ portHandle, Table.find p s.portHandles = some portHandle ∧ portHandle.port = sai p := by
  have := h.handleOf p hp
  unfold portSaiIdOf at this
  cases hf : Table.find p s.portHandles with
  | none => simp [hf] at this
  | some portHandle => exact ⟨portHandle, rfl, by simpa [hf] using this⟩

theorem removeMember_represents {s : SaiLagManager} {aggPort : AggregatePortID} {lag : SaiLag}
    {sai : PortID → PortSaiId} {cur : List (PortID × Forwarding)} {ports : List PortID}
    (hRep : Represents s aggPort lag sai cur) (hPorts : PortsOk s ports sai)
    (hcur : ∀ e ∈ cur, e.1 ∈ ports) {p : PortID} (hp : p ∈ ports) :
    ∃ s1, removeMember aggPort p s = .ok s1 ∧
      Represents s1 aggPort lag sai (cur.filter (fun e => decide (e.1 ≠ p))) ∧
      PortsOk s1 ports sai ∧ s1.memberOps = s.memberOps := by
  obtain ⟨handle, hHandle, hLag, hM⟩ := hRep
  obtain ⟨portHandle, hPort, hKey⟩ := portHandle_of_portsOk hPorts hp
  cases hFind : Table.find portHandle.port handle.members with
  | none =>
    refine ⟨s, removeMember_of_absent hHandle hPort hFind, ?_, hPorts, rfl⟩
    have hnot : p ∉ cur.map Prod.fst := hM.rep_not_mem_of_find_none (hKey ▸ hFind)
    have hfilter : cur.filter (fun e => decide (e.1 ≠ p)) = cur := by
      rw [List.filter_eq_self]
      intro e he
      have : e.1 ≠ p := fun hx => hnot (List.mem_map.2 ⟨e, he, hx⟩)
      simpa using this
    rw [hfilter]
    exact ⟨handle, hHandle, hLag, hM⟩
  | some member =>
    obtain ⟨s1, h1, hHandles, hPortHandles, hIdx, hStore, -, hOps, -⟩ :=
      removeMember_of_member hHandle hPort hFind
    have hmember : member = { lag := lag.adapterKey, port := sai p } := by
      have := hM.pointsTo _ (Table.mem_of_find _ _ _ hFind)
      simpa [hKey] using this
    refine ⟨s1, h1, ?_, ?_, hOps⟩
    · refine ⟨{ handle with members := Table.erase portHandle.port handle.members }, ?_, hLag, ?_⟩
      · rw [hHandles, Table.find_assign, hHandle]; simp
      · simp only [hKey]
        refine hM.rep_erase hPorts.inj hcur hp ?_
        intro key hkey
        rw [hStore]
        exact find_release_of_ne member key s.lagMemberStore (hmember ▸ hkey)
    · refine portsOk_of_frame hPorts ?_ (by rw [hIdx])
      exact portSaiIdOf_eq_of_assign { portHandle with
        bridgePort := some { portDescriptor := .physical p, saiId := .physical portHandle.port } }
        hPort rfl hPortHandles

theorem changeLagAdd_represents (newID : AggregatePortID) {s : SaiLagManager}
    {aggPort : AggregatePortID} {lag : SaiLag} {sai : PortID → PortSaiId} {cur : List (PortID × Forwarding)}
    {ports : List PortID}
    (hRep : Represents s aggPort lag sai cur) (hPorts : PortsOk s ports sai)
    (hcur : ∀ e ∈ cur, e.1 ∈ ports) {entry : PortID × Forwarding} (hp : entry.1 ∈ ports)
    (hnot : entry.1 ∉ cur.map Prod.fst) :
    ∃ s1, changeLagAdd aggPort newID entry s = .ok s1 ∧
      Represents s1 aggPort lag sai (entry :: cur) ∧
      PortsOk s1 ports sai ∧
      s1.memberOps = s.memberOps ++ [.addMember entry.1, .setMemberState entry.1 entry.2] := by
  obtain ⟨handle, hHandle, hLag, hM⟩ := hRep
  obtain ⟨portHandle, hPort, hKey⟩ := portHandle_of_portsOk hPorts hp
  obtain ⟨s1, h1, hHandles1, hPortHandles1, hStore1, hIdx1, -, hOps1⟩ :=
    addMember_of_portHandle (s := issue (.addMember entry.1) s) lag newID hPort
  obtain ⟨object, hObject, hAttr⟩ := find_setObject_self
    ({ lag := lag.adapterKey, port := portHandle.port } : SaiLagMember)
    ({ egressDisable := true } : SaiLagMemberAttributes)
    s.nextAdapterKey s.lagMemberStore
  have hObject1 : Table.find ({ lag := lag.adapterKey, port := portHandle.port } : SaiLagMember)
      (issue (.setMemberState entry.1 entry.2) s1).lagMemberStore = some object := by
    show Table.find _ s1.lagMemberStore = some object
    rw [hStore1]; exact hObject
  have h2 := setMemberState_of_object entry.2 hObject1
  have hNone : Table.find portHandle.port handle.members = none := by
    rw [hKey]
    exact hM.rep_find_none_of_not_mem hPorts.inj hcur hp hnot
  have hHandle2 : Table.find aggPort s1.handles = some handle := by
    rw [hHandles1]; exact hHandle
  have hrun : changeLagAdd aggPort newID entry s =
      .ok (updateHandle aggPort
        { handle with
          members := Table.orderedEmplace portHandle.port
            { lag := lag.adapterKey, port := portHandle.port } handle.members }
        (emit (.lagMemberSetEgressDisable lag.adapterKey portHandle.port
            (decide (entry.2 = Forwarding.DISABLED)))
          { issue (.setMemberState entry.1 entry.2) s1 with
            lagMemberStore :=
              Table.assign ({ lag := lag.adapterKey, port := portHandle.port } : SaiLagMember)
                { object with
                  attributes := { egressDisable := decide (entry.2 = Forwarding.DISABLED) } }
                s1.lagMemberStore })) := by
    simp only [changeLagAdd]
    rw [hHandle]
    simp only [hLag, h1, h2, emplaceMember]
    have hH : Table.find aggPort (emit (.lagMemberSetEgressDisable lag.adapterKey portHandle.port
            (decide (entry.2 = Forwarding.DISABLED)))
          { issue (.setMemberState entry.1 entry.2) s1 with
            lagMemberStore :=
              Table.assign ({ lag := lag.adapterKey, port := portHandle.port } : SaiLagMember)
                { object with
                  attributes := { egressDisable := decide (entry.2 = Forwarding.DISABLED) } }
                (issue (.setMemberState entry.1 entry.2) s1).lagMemberStore }).handles
        = some handle := hHandle2
    rw [hH]
    simp only [dropUnplaced, hNone, hLag]
    rfl
  refine ⟨_, hrun, ?_, ?_, ?_⟩
  · refine ⟨{ handle with
        members := Table.orderedEmplace portHandle.port
          { lag := lag.adapterKey, port := portHandle.port } handle.members }, ?_, hLag, ?_⟩
    · show Table.find aggPort (Table.assign aggPort _ s1.handles) = _
      rw [Table.find_assign, hHandle2]; simp
    · have hentry : entry = (entry.1, entry.2) := rfl
      rw [hentry]
      simp only [hKey]
      refine hM.rep_add hPorts.inj hcur hp hnot entry.2
        { object with
          attributes := { egressDisable := decide (entry.2 = Forwarding.DISABLED) } } ?_ rfl ?_
      · show Table.find _ (Table.assign _ _ s1.lagMemberStore) = _
        rw [Table.find_assign]
        have := hObject1
        simp only [hKey] at this
        have h' : Table.find ({ lag := lag.adapterKey, port := sai entry.1 } : SaiLagMember)
            s1.lagMemberStore = some object := this
        simp [hKey, h']
      · intro key hkey
        show Table.find key (Table.assign _ _ s1.lagMemberStore) = _
        rw [Table.find_assign, hStore1]
        have hkey' : key ≠ { lag := lag.adapterKey, port := portHandle.port } := by
          rw [hKey]; exact hkey
        rw [if_neg hkey]
        first
          | exact find_setObject_of_ne _ key _ _ _ hkey
          | exact find_setObject_of_ne _ key _ _ _ hkey'
  · refine portsOk_of_frame hPorts ?_ ?_
    · intro p
      show portSaiIdOf s1 p = portSaiIdOf s p
      exact portSaiIdOf_eq_of_assign (s := s)
        { portHandle with bridgePort := none } hPort rfl hPortHandles1 p
    · show s1.concurrentIndices.portSaiIds = _
      rw [hIdx1]
      rfl
  · show s1.memberOps ++ [MemberOp.setMemberState entry.1 entry.2] = _
    rw [hOps1]
    simp [issue]

/-! ## The loops of `changeLag` -/

theorem represents_congr {s : SaiLagManager} {aggPort : AggregatePortID} {lag : SaiLag}
    {sai : PortID → PortSaiId} {cur cur1 : List (PortID × Forwarding)}
    (h : Represents s aggPort lag sai cur) (hcur : ∀ e, e ∈ cur1 ↔ e ∈ cur) :
    Represents s aggPort lag sai cur1 := by
  obtain ⟨handle, hHandle, hLag, hM⟩ := h
  exact ⟨handle, hHandle, hLag, hM.rep_congr hcur⟩

theorem changeLagRemoveRest_represents {aggPort : AggregatePortID} {lag : SaiLag}
    {sai : PortID → PortSaiId} {ports : List PortID} (xs : List (PortID × Forwarding)) :
    ∀ (s : SaiLagManager) (cur : List (PortID × Forwarding)),
      Represents s aggPort lag sai cur → PortsOk s ports sai →
      (∀ e ∈ cur, e.1 ∈ ports) → (∀ x ∈ xs, x.1 ∈ ports) →
      ∃ s1, changeLagRemoveRest aggPort xs s = .ok ([], s1) ∧
        Represents s1 aggPort lag sai
          (cur.filter (fun e => decide (e.1 ∉ xs.map Prod.fst))) ∧
        PortsOk s1 ports sai ∧
        s1.memberOps = s.memberOps ++ xs.map (fun x => MemberOp.removeMember x.1) := by
  induction xs with
  | nil =>
    intro s cur hRep hPorts _ _
    refine ⟨s, rfl, ?_, hPorts, by simp⟩
    exact represents_congr hRep (by intro e; simp)
  | cons x rest ih =>
    intro s cur hRep hPorts hcur hxs
    have hRep0 : Represents (issue (.removeMember x.1) s) aggPort lag sai cur := hRep
    have hPorts0 : PortsOk (issue (.removeMember x.1) s) ports sai :=
      portsOk_of_frame hPorts (fun _ => rfl) rfl
    obtain ⟨s1, h1, hRep1, hPorts1, hOps1⟩ :=
      removeMember_represents hRep0 hPorts0 hcur (hxs x (List.mem_cons_self _ _))
    have hcur1 : ∀ e ∈ cur.filter (fun e => decide (e.1 ≠ x.1)), e.1 ∈ ports :=
      fun e he => hcur e (List.mem_filter.1 he).1
    obtain ⟨s2, h2, hRep2, hPorts2, hOps2⟩ :=
      ih s1 _ hRep1 hPorts1 hcur1 (fun y hy => hxs y (List.mem_cons_of_mem _ hy))
    refine ⟨s2, ?_, ?_, hPorts2, ?_⟩
    · simp only [changeLagRemoveRest, h1, h2]
    · refine represents_congr hRep2 ?_
      intro e
      simp only [List.mem_filter, List.map_cons, List.mem_cons, decide_eq_true_eq, not_or]
      tauto
    · rw [hOps2, hOps1]
      simp [issue]

theorem changeLagAddRest_represents (newID : AggregatePortID) {aggPort : AggregatePortID}
    {lag : SaiLag} {sai : PortID → PortSaiId} {ports : List PortID}
    (ys : List (PortID × Forwarding)) :
    ∀ (s : SaiLagManager) (cur : List (PortID × Forwarding)),
      Represents s aggPort lag sai cur → PortsOk s ports sai →
      (∀ e ∈ cur, e.1 ∈ ports) → (∀ y ∈ ys, y.1 ∈ ports) →
      (ys.map Prod.fst).Nodup → (∀ y ∈ ys, y.1 ∉ cur.map Prod.fst) →
      ∃ s1, changeLagAddRest aggPort newID ys s = .ok ([], s1) ∧
        Represents s1 aggPort lag sai (ys ++ cur) ∧
        PortsOk s1 ports sai ∧
        s1.memberOps = s.memberOps ++
          ys.flatMap (fun y => [MemberOp.addMember y.1, MemberOp.setMemberState y.1 y.2]) := by
  induction ys with
  | nil =>
    intro s cur hRep hPorts _ _ _ _
    exact ⟨s, rfl, hRep, hPorts, by simp⟩
  | cons y rest ih =>
    intro s cur hRep hPorts hcur hys hnodup hnot
    have hnd : y.1 ∉ rest.map Prod.fst ∧ (rest.map Prod.fst).Nodup := by
      rw [List.map_cons] at hnodup
      exact List.nodup_cons.1 hnodup
    obtain ⟨s1, h1, hRep1, hPorts1, hOps1⟩ :=
      changeLagAdd_represents newID hRep hPorts hcur
        (hys y (List.mem_cons_self _ _)) (hnot y (List.mem_cons_self _ _))
    have hcur1 : ∀ e ∈ y :: cur, e.1 ∈ ports := by
      intro e he
      rcases List.mem_cons.1 he with rfl | he
      · exact hys _ (List.mem_cons_self _ _)
      · exact hcur e he
    have hnot1 : ∀ z ∈ rest, z.1 ∉ (y :: cur).map Prod.fst := by
      intro z hz hmem
      rw [List.map_cons] at hmem
      rcases List.mem_cons.1 hmem with hzy | hzc
      · exact hnd.1 (hzy ▸ List.mem_map_of_mem Prod.fst hz)
      · exact hnot z (List.mem_cons_of_mem _ hz) hzc
    obtain ⟨s2, h2, hRep2, hPorts2, hOps2⟩ :=
      ih s1 _ hRep1 hPorts1 hcur1 (fun z hz => hys z (List.mem_cons_of_mem _ hz)) hnd.2 hnot1
    refine ⟨s2, ?_, ?_, hPorts2, ?_⟩
    · simp only [changeLagAddRest, h1, h2]
    · refine represents_congr hRep2 ?_
      intro e
      simp only [List.mem_append, List.mem_cons]
      tauto
    · rw [hOps2, hOps1]
      simp

end SaiLagManager

theorem SortedBySubport.nodup {l : List (PortID × Forwarding)} (h : SortedBySubport l) :
    (l.map Prod.fst).Nodup := by
  unfold SortedBySubport at h
  unfold List.Nodup
  rw [List.pairwise_map]
  exact h.imp (fun hxy => Nat.ne_of_lt hxy)

theorem SortedBySubport.tail {e : PortID × Forwarding} {l : List (PortID × Forwarding)}
    (h : SortedBySubport (e :: l)) : SortedBySubport l :=
  (List.pairwise_cons.1 h).2

theorem SortedBySubport.head_lt {e : PortID × Forwarding} {l : List (PortID × Forwarding)}
    (h : SortedBySubport (e :: l)) : ∀ x ∈ l, e.1 < x.1 :=
  (List.pairwise_cons.1 h).1

namespace SaiLagManager

theorem changeLagLoop_represents (newID : AggregatePortID) {aggPort : AggregatePortID}
    {lag : SaiLag} {sai : PortID → PortSaiId} {ports : List PortID} (fuel : Nat)
    (o : PortID × Forwarding) (oldRest : List (PortID × Forwarding))
    (n : PortID × Forwarding) (newRest : List (PortID × Forwarding)) (s : SaiLagManager)
    (hRep : Represents s aggPort lag sai (o :: oldRest)) (hPorts : PortsOk s ports sai)
    (hold : ∀ e ∈ o :: oldRest, e.1 ∈ ports) (hnew : ∀ e ∈ n :: newRest, e.1 ∈ ports)
    (hsOld : SortedBySubport (o :: oldRest)) (hsNew : SortedBySubport (n :: newRest)) :
    ∃ s1, changeLagLoop aggPort newID (fuel + 1) (o :: oldRest) (n :: newRest) s = .ok s1 ∧
      Represents s1 aggPort lag sai (n :: newRest) ∧ PortsOk s1 ports sai := by
  have hndOld := hsOld.nodup
  have hndNew := hsNew.nodup
  rw [List.map_cons, List.nodup_cons] at hndOld hndNew
  have hoP : o.1 ∈ ports := hold o (List.mem_cons_self _ _)
  have hnP : n.1 ∈ ports := hnew n (List.mem_cons_self _ _)
  have holdRest : ∀ e ∈ oldRest, e.1 ∈ ports := fun e he => hold e (List.mem_cons_of_mem _ he)
  have hnewRest : ∀ e ∈ newRest, e.1 ∈ ports := fun e he => hnew e (List.mem_cons_of_mem _ he)
  -- what remains to do once the comparison has left the membership `cur`
  have finish : ∀ (oi ni : List (PortID × Forwarding)) (cur : List (PortID × Forwarding))
      (s1 : SaiLagManager),
      changeLagCompare aggPort newID o oldRest n newRest s = .ok (oi, ni, s1) →
      Represents s1 aggPort lag sai cur → PortsOk s1 ports sai →
      (∀ e ∈ cur, e.1 ∈ ports) → (∀ e ∈ oi, e.1 ∈ ports) → (∀ e ∈ ni, e.1 ∈ ports) →
      (ni.map Prod.fst).Nodup →
      (∀ y ∈ ni, y.1 ∉ (cur.filter (fun e => decide (e.1 ∉ oi.map Prod.fst))).map Prod.fst) →
      (∀ e, e ∈ ni ++ cur.filter (fun e => decide (e.1 ∉ oi.map Prod.fst)) ↔ e ∈ n :: newRest) →
      ∃ s4, changeLagLoop aggPort newID (fuel + 1) (o :: oldRest) (n :: newRest) s = .ok s4 ∧
        Represents s4 aggPort lag sai (n :: newRest) ∧ PortsOk s4 ports sai := by
    intro oi ni cur s1 hcmp hRep1 hPorts1 hcur hoi hni hnd hdisj hfinal
    obtain ⟨s2, h2, hRep2, hPorts2, -⟩ :=
      changeLagRemoveRest_represents oi s1 cur hRep1 hPorts1 hcur hoi
    have hcur2 : ∀ e ∈ cur.filter (fun e => decide (e.1 ∉ oi.map Prod.fst)), e.1 ∈ ports :=
      fun e he => hcur e (List.mem_filter.1 he).1
    obtain ⟨s3, h3, hRep3, hPorts3, -⟩ :=
      changeLagAddRest_represents newID ni s2 _ hRep2 hPorts2 hcur2 hni hnd hdisj
    refine ⟨s3, ?_, represents_congr hRep3 (fun e => (hfinal e).symm), hPorts3⟩
    simp only [changeLagLoop, hcmp, h2, h3]
  by_cases hlt : o.1 < n.1
  · -- the old key is smaller: the member is removed
    have hRep0 : Represents (issue (.removeMember o.1) s) aggPort lag sai (o :: oldRest) := hRep
    have hPorts0 : PortsOk (issue (.removeMember o.1) s) ports sai :=
      portsOk_of_frame hPorts (fun _ => rfl) rfl
    obtain ⟨s1, h1, hRep1, hPorts1, -⟩ := removeMember_represents hRep0 hPorts0 hold hoP
    refine finish oldRest (n :: newRest) _ s1 ?_ hRep1 hPorts1 ?_ holdRest hnew
      hsNew.nodup ?_ ?_
    · simp only [changeLagCompare, hlt, if_true, h1]
    · intro e he; exact hold e (List.mem_filter.1 he).1
    · intro y _ hy
      obtain ⟨e, he, -⟩ := List.mem_map.1 hy
      simp only [List.mem_filter, List.mem_cons, decide_eq_true_eq] at he
      rcases he.1.1 with rfl | hmem
      · exact he.1.2 rfl
      · exact he.2 (List.mem_map_of_mem _ hmem)
    · intro e
      simp only [List.mem_append, List.mem_filter, List.mem_cons, decide_eq_true_eq]
      constructor
      · rintro (h | ⟨⟨h | h, hne⟩, hno⟩)
        · exact h
        · exact absurd (congrArg Prod.fst h) hne
        · exact absurd (List.mem_map_of_mem Prod.fst h) hno
      · intro h; exact Or.inl h
  · by_cases hgt : n.1 < o.1
    · -- the new key is smaller: the member is added
      have hnotOld : n.1 ∉ (o :: oldRest).map Prod.fst := by
        intro hmem
        obtain ⟨e, he, hen⟩ := List.mem_map.1 hmem
        rcases List.mem_cons.1 he with rfl | he
        · rw [hen] at hgt
          exact Nat.lt_irrefl _ hgt
        · have := hsOld.head_lt e he
          rw [hen] at this
          exact Nat.lt_asymm hgt this
      obtain ⟨s1, h1, hRep1, hPorts1, -⟩ :=
        changeLagAdd_represents newID hRep hPorts hold hnP hnotOld
      have hcur1 : ∀ e ∈ n :: o :: oldRest, e.1 ∈ ports := by
        intro e he
        rcases List.mem_cons.1 he with rfl | he
        · exact hnP
        · exact hold e he
      refine finish (o :: oldRest) newRest _ s1 ?_ hRep1 hPorts1 hcur1 hold hnewRest
        hndNew.2 ?_ ?_
      · simp only [changeLagCompare, hlt, hgt, if_true, if_false, h1]
      · intro y hy hy'
        obtain ⟨e, he, hey⟩ := List.mem_map.1 hy'
        simp only [List.mem_filter, List.mem_cons, decide_eq_true_eq] at he
        rcases he.1 with rfl | hmem
        · exact hndNew.1 (hey ▸ List.mem_map_of_mem Prod.fst hy)
        · exact he.2 (List.mem_map.2 ⟨e, List.mem_cons.2 hmem, rfl⟩)
      · intro e
        simp only [List.mem_append, List.mem_filter, List.mem_cons, decide_eq_true_eq]
        constructor
        · rintro (h | ⟨h | h, hno⟩)
          · exact Or.inr h
          · exact Or.inl h
          · exact absurd (List.mem_map.2 ⟨e, List.mem_cons.2 h, rfl⟩) hno
        · rintro (h | h)
          · refine Or.inr ⟨Or.inl h, ?_⟩
            rw [h]; exact hnotOld
          · exact Or.inl h
    · have hkey : o.1 = n.1 :=
        Nat.le_antisymm (Nat.le_of_not_lt hgt) (Nat.le_of_not_lt hlt)
      by_cases hst : o.2 ≠ n.2
      · -- the forwarding state changed: it is set on the existing member
        obtain ⟨handle, hHandle, hLag, hM⟩ := hRep
        have hidx : Table.find n.1 s.concurrentIndices.portSaiIds = some (sai n.1) :=
          hPorts.indexOf n.1 hnP
        have hfind : Table.find (sai n.1) handle.members =
            some { lag := lag.adapterKey, port := sai n.1 } := by
          have := hM.rep_find_of_mem (List.mem_cons_self o oldRest)
          rwa [hkey] at this
        obtain ⟨object, hObject, -⟩ := hM.objects o (List.mem_cons_self _ _)
        rw [hkey] at hObject
        have hObject0 : Table.find ({ lag := lag.adapterKey, port := sai n.1 } : SaiLagMember)
            (issue (.setMemberState n.1 n.2) s).lagMemberStore = some object := hObject
        have h2 := setMemberState_of_object n.2 hObject0
        have ho : o = (n.1, o.2) := by rw [← hkey]
        have hM0 : MembersRep handle.members s.lagMemberStore lag.adapterKey sai
            ((n.1, o.2) :: oldRest) := by rw [← ho]; exact hM
        have hnotRest : n.1 ∉ oldRest.map Prod.fst := by rw [← hkey]; exact hndOld.1
        refine finish oldRest newRest (n :: oldRest)
          (emit (.lagMemberSetEgressDisable lag.adapterKey (sai n.1)
              (decide (n.2 = Forwarding.DISABLED)))
            { issue (.setMemberState n.1 n.2) s with
              lagMemberStore :=
                Table.assign ({ lag := lag.adapterKey, port := sai n.1 } : SaiLagMember)
                  { object with
                    attributes := { egressDisable := decide (n.2 = Forwarding.DISABLED) } }
                  s.lagMemberStore })
          ?_ ?_ ?_ ?_ holdRest hnewRest hndNew.2 ?_ ?_
        · simp only [changeLagCompare, hlt, hgt, hst, if_true, if_false, hHandle, getMember,
            hidx, hfind, h2, ne_eq, not_false_eq_true]
          rfl
        · refine ⟨handle, hHandle, hLag, ?_⟩
          have hn : n = (n.1, n.2) := rfl
          rw [hn]
          refine hM0.rep_setState hPorts.inj holdRest hnP hnotRest n.2
            { object with
              attributes := { egressDisable := decide (n.2 = Forwarding.DISABLED) } } ?_ rfl ?_
          · show Table.find _ (Table.assign _ _ s.lagMemberStore) = _
            rw [Table.find_assign, hObject]; simp
          · intro key hkey'
            show Table.find key (Table.assign _ _ s.lagMemberStore) = _
            rw [Table.find_assign, if_neg hkey']
        · exact portsOk_of_frame hPorts (fun _ => rfl) rfl
        · intro e he
          rcases List.mem_cons.1 he with rfl | he
          · exact hnP
          · exact holdRest e he
        · intro y hy hy'
          obtain ⟨e, he, hey⟩ := List.mem_map.1 hy'
          simp only [List.mem_filter, List.mem_cons, decide_eq_true_eq] at he
          rcases he.1 with rfl | hmem
          · exact hndNew.1 (hey ▸ List.mem_map_of_mem Prod.fst hy)
          · exact he.2 (List.mem_map_of_mem Prod.fst hmem)
        · intro e
          simp only [List.mem_append, List.mem_filter, List.mem_cons, decide_eq_true_eq]
          constructor
          · rintro (h | ⟨h | h, hno⟩)
            · exact Or.inr h
            · exact Or.inl h
            · exact absurd (List.mem_map_of_mem Prod.fst h) hno
          · rintro (h | h)
            · refine Or.inr ⟨Or.inl h, ?_⟩
              rw [h]; exact hnotRest
            · exact Or.inl h
      · -- keys and states are equal: the comparison moves no cursor
        refine finish (o :: oldRest) (n :: newRest) (o :: oldRest) s ?_ hRep hPorts hold hold
          hnew hsNew.nodup ?_ ?_
        · simp only [changeLagCompare, hlt, hgt, hst, if_false]
        · intro y _ hy
          obtain ⟨e, he, -⟩ := List.mem_map.1 hy
          simp only [List.mem_filter, decide_eq_true_eq] at he
          exact he.2 (List.mem_map_of_mem Prod.fst he.1)
        · intro e
          simp only [List.mem_append, List.mem_filter, decide_eq_true_eq]
          constructor
          · rintro (h | ⟨h, hno⟩)
            · exact h
            · exact absurd (List.mem_map_of_mem Prod.fst h) hno
          · intro h; exact Or.inl h

/-! ## The membership after `addLag` and after `changeLag` -/

theorem addLagMembers_rep (lag : SaiLag) (aggregatePortID : AggregatePortID)
    {sai : PortID → PortSaiId} {ports : List PortID} (xs : List (PortID × Forwarding)) :
    ∀ (members : List (PortSaiId × SaiLagMember)) (s : SaiLagManager)
      (cur : List (PortID × Forwarding)),
      MembersRep members s.lagMemberStore lag.adapterKey sai cur → PortsOk s ports sai →
      (∀ e ∈ cur, e.1 ∈ ports) → (∀ x ∈ xs, x.1 ∈ ports) →
      (xs.map Prod.fst).Nodup → (∀ x ∈ xs, x.1 ∉ cur.map Prod.fst) →
      ∃ members1 s1, addLagMembers lag aggregatePortID xs members s = .ok (members1, s1) ∧
        MembersRep members1 s1.lagMemberStore lag.adapterKey sai (xs ++ cur) ∧
        PortsOk s1 ports sai ∧
        s1.handles = s.handles ∧ s1.lagStore = s.lagStore ∧
        s1.concurrentIndices.vlanIds = s.concurrentIndices.vlanIds ∧
        s1.concurrentIndices.aggregatePortIds = s.concurrentIndices.aggregatePortIds ∧
        s1.memberOps = s.memberOps := by
  induction xs with
  | nil =>
    intro members s cur hM hPorts _ _ _ _
    exact ⟨members, s, rfl, hM, hPorts, rfl, rfl, rfl, rfl, rfl⟩
  | cons x rest ih =>
    intro members s cur hM hPorts hcur hxs hnodup hnot
    obtain ⟨p, fwdState⟩ := x
    have hnd : p ∉ rest.map Prod.fst ∧ (rest.map Prod.fst).Nodup := by
      rw [List.map_cons] at hnodup
      exact List.nodup_cons.1 hnodup
    have hp : p ∈ ports := hxs (p, fwdState) (List.mem_cons_self _ _)
    have hpnot : p ∉ cur.map Prod.fst := hnot (p, fwdState) (List.mem_cons_self _ _)
    obtain ⟨portHandle, hPort, hKey⟩ := portHandle_of_portsOk hPorts hp
    obtain ⟨s1, h1, hHandles1, hPortHandles1, hStore1, hIdx1, hLagStore1, hOps1⟩ :=
      addMember_of_portHandle (s := s) lag aggregatePortID hPort
    obtain ⟨object, hObject, -⟩ := find_setObject_self
      ({ lag := lag.adapterKey, port := portHandle.port } : SaiLagMember)
      ({ egressDisable := true } : SaiLagMemberAttributes)
      s.nextAdapterKey s.lagMemberStore
    have hObject1 : Table.find ({ lag := lag.adapterKey, port := portHandle.port } : SaiLagMember)
        s1.lagMemberStore = some object := by
      rw [hStore1]; exact hObject
    have h2 := setMemberState_of_object fwdState hObject1
    have hNone : Table.find portHandle.port members = none := by
      rw [hKey]
      exact hM.rep_find_none_of_not_mem hPorts.inj hcur hp hpnot
    -- the membership after this iteration
    have hM2 : MembersRep
        (Table.orderedEmplace portHandle.port
          { lag := lag.adapterKey, port := portHandle.port } members)
        (Table.assign ({ lag := lag.adapterKey, port := portHandle.port } : SaiLagMember)
          { object with
            attributes := { egressDisable := decide (fwdState = Forwarding.DISABLED) } }
          s1.lagMemberStore)
        lag.adapterKey sai ((p, fwdState) :: cur) := by
      rw [hKey] at hObject1 ⊢
      refine hM.rep_add hPorts.inj hcur hp hpnot fwdState
        { object with
          attributes := { egressDisable := decide (fwdState = Forwarding.DISABLED) } } ?_ rfl ?_
      · rw [Table.find_assign, hObject1]; simp
      · intro key hkey
        rw [Table.find_assign, if_neg hkey, hStore1, hKey]
        exact find_setObject_of_ne _ key _ _ _ hkey
    have hPorts2 : PortsOk
        (emit (.lagMemberSetEgressDisable lag.adapterKey portHandle.port
            (decide (fwdState = Forwarding.DISABLED)))
          { s1 with
            lagMemberStore :=
              Table.assign ({ lag := lag.adapterKey, port := portHandle.port } : SaiLagMember)
                { object with
                  attributes := { egressDisable := decide (fwdState = Forwarding.DISABLED) } }
                s1.lagMemberStore }) ports sai := by
      refine portsOk_of_frame hPorts ?_ ?_
      · intro q
        show portSaiIdOf s1 q = portSaiIdOf s q
        exact portSaiIdOf_eq_of_assign (s := s)
          { portHandle with bridgePort := none } hPort rfl hPortHandles1 q
      · show s1.concurrentIndices.portSaiIds = _
        rw [hIdx1]
    have hcur1 : ∀ e ∈ (p, fwdState) :: cur, e.1 ∈ ports := by
      intro e he
      rcases List.mem_cons.1 he with rfl | he
      · exact hp
      · exact hcur e he
    have hnot1 : ∀ z ∈ rest, z.1 ∉ ((p, fwdState) :: cur).map Prod.fst := by
      intro z hz hmem
      rw [List.map_cons] at hmem
      rcases List.mem_cons.1 hmem with hzy | hzc
      · have hzp : z.1 = p := hzy
        exact hnd.1 (hzp ▸ List.mem_map_of_mem Prod.fst hz)
      · exact hnot z (List.mem_cons_of_mem _ hz) hzc
    obtain ⟨members3, s3, h3, hM3, hPorts3, hHandles3, hLagStore3, hVlan3, hAgg3, hOps3⟩ :=
      ih _ _ _ hM2 hPorts2 hcur1 (fun z hz => hxs z (List.mem_cons_of_mem _ hz)) hnd.2 hnot1
    refine ⟨members3, s3, ?_, ?_, hPorts3, ?_, ?_, ?_, ?_, ?_⟩
    · simp only [addLagMembers, h1, h2, dropUnplaced, hNone]
      exact h3
    · refine hM3.rep_congr ?_
      intro e
      simp only [List.mem_append, List.mem_cons]
      tauto
    · rw [hHandles3]; exact hHandles1
    · rw [hLagStore3]; exact hLagStore1
    · rw [hVlan3]; show s1.concurrentIndices.vlanIds = _; rw [hIdx1]
    · rw [hAgg3]; show s1.concurrentIndices.aggregatePortIds = _; rw [hIdx1]
    · rw [hOps3]; exact hOps1

theorem addLag_represents (aggregatePort : AggregatePort) {s : SaiLagManager}
    {sai : PortID → PortSaiId} {ports : List PortID}
    (hAbsent : Table.find aggregatePort.id s.handles = none)
    (hNodup : (aggregatePort.subportAndFwdState.map Prod.fst).Nodup)
    (hPorts : PortsOk s ports sai)
    (hsub : ∀ e ∈ aggregatePort.subportAndFwdState, e.1 ∈ ports)
    {first : PortID × Forwarding} {rest : List (PortID × Forwarding)}
    (hfirst : aggregatePort.subportAndFwdState = first :: rest) {vlanID : VlanSaiId}
    (hVlan : Table.find (PortDescriptorSaiId.physical (sai first.1))
      s.concurrentIndices.vlanIds = some vlanID) :
    ∃ s1 lag handle, addLag aggregatePort s = .ok (lag.adapterKey, s1) ∧
      Represents s1 aggregatePort.id lag sai aggregatePort.subportAndFwdState ∧
      PortsOk s1 ports sai ∧
      Table.find aggregatePort.id s1.handles = some handle ∧
      handle.minimumLinkCount = aggregatePort.minimumLinkCount ∧
      handle.vlanId = vlanID ∧
      s1.memberOps = s.memberOps := by
  have hidx : Table.find first.1 s.concurrentIndices.portSaiIds = some (sai first.1) :=
    hPorts.indexOf first.1 (hsub first (by rw [hfirst]; exact List.mem_cons_self _ _))
  have hsorted : aggregatePort.sortedSubports = first.1 :: rest.map Prod.fst := by
    simp [AggregatePort.sortedSubports, hfirst]
  -- the LAG object
  let labelValue : List Nat := aggregatePort.name.take 32 ++
    List.replicate (32 - (aggregatePort.name.take 32).length) 0
  let r := setObject labelValue ({ label := labelValue, vlan := vlanID } : SaiLagAttributes)
    s.nextAdapterKey s.lagStore
  let lag : SaiLag := { label := labelValue, adapterKey := r.1 }
  let s0 : SaiLagManager := emit (.lagSetObject labelValue r.1 r.2.1)
    { s with
      lagStore := r.2.2
      nextAdapterKey := if r.2.1 then s.nextAdapterKey + 1 else s.nextAdapterKey }
  have hPorts0 : PortsOk s0 ports sai := portsOk_of_frame hPorts (fun _ => rfl) rfl
  obtain ⟨members1, s1, h1, hM1, hPorts1, hHandles1, -, -, -, hOps1⟩ :=
    addLagMembers_rep lag aggregatePort.id
      aggregatePort.subportAndFwdState [] s0 []
      (MembersRep.rep_empty _ _ _) hPorts0 (by simp) hsub hNodup (by simp)
  have hAbsent1 : Table.find aggregatePort.id s1.handles = none := by
    rw [hHandles1]; exact hAbsent
  have hrun : addLag aggregatePort s = .ok (lag.adapterKey,
      emit (.createVlanMember vlanID (.aggregate aggregatePort.id))
        { (emit (.addBridgePort (.aggregate aggregatePort.id) (.aggregate lag.adapterKey))
            (emit (.aggregatePortIdsEmplace lag.adapterKey aggregatePort.id)
              { (emit (.vlanIdsEmplace (.aggregate lag.adapterKey) vlanID)
                  { s1 with
                    concurrentIndices :=
                      { s1.concurrentIndices with
                        vlanIds := Table.emplace (PortDescriptorSaiId.aggregate lag.adapterKey)
                          vlanID s1.concurrentIndices.vlanIds } }) with
                concurrentIndices :=
                  { s1.concurrentIndices with
                    vlanIds := Table.emplace (PortDescriptorSaiId.aggregate lag.adapterKey)
                      vlanID s1.concurrentIndices.vlanIds
                    aggregatePortIds := Table.emplace lag.adapterKey aggregatePort.id
                      s1.concurrentIndices.aggregatePortIds } })) with
          handles := Table.emplace aggregatePort.id
            { lag := some lag
              bridgePort := some { portDescriptor := .aggregate aggregatePort.id,
                                   saiId := .aggregate lag.adapterKey }
              members := members1
              minimumLinkCount := aggregatePort.minimumLinkCount
              vlanId := vlanID } s1.handles }) := by
    simp only [addLag, hsorted, hidx, hVlan]
    have h1' : addLagMembers lag aggregatePort.id aggregatePort.subportAndFwdState [] s0 =
      .ok (members1, s1) := h1
    simp only [lag, s0, r, labelValue] at h1'
    simp only [h1']
    simp only [addBridgePort, emit, hAbsent1, Option.isNone_none, if_true]
  refine ⟨_, lag,
    { lag := some lag
      bridgePort := some { portDescriptor := .aggregate aggregatePort.id,
                           saiId := .aggregate lag.adapterKey }
      members := members1
      minimumLinkCount := aggregatePort.minimumLinkCount
      vlanId := vlanID }, hrun, ?_, ?_, ?_, rfl, rfl, hOps1⟩
  · refine ⟨{ lag := some lag
              bridgePort := some { portDescriptor := .aggregate aggregatePort.id,
                                   saiId := .aggregate lag.adapterKey }
              members := members1
              minimumLinkCount := aggregatePort.minimumLinkCount
              vlanId := vlanID }, ?_, rfl, ?_⟩
    · show Table.find aggregatePort.id (Table.emplace aggregatePort.id _ s1.handles) = _
      rw [Table.find_emplace, hAbsent1]
      simp
    · rw [← List.append_nil aggregatePort.subportAndFwdState]
      exact hM1
  · exact portsOk_of_frame hPorts1 (fun _ => rfl) rfl
  · show Table.find aggregatePort.id (Table.emplace aggregatePort.id _ s1.handles) = _
    rw [Table.find_emplace, hAbsent1]
    simp

theorem represents_updateHandle {s : SaiLagManager} {aggPort : AggregatePortID} {lag : SaiLag}
    {sai : PortID → PortSaiId} {cur : List (PortID × Forwarding)} {handle : SaiLagHandle}
    (h : Represents s aggPort lag sai cur) (hHandle : Table.find aggPort s.handles = some handle)
    (minimumLinkCount : Nat) :
    Represents (updateHandle aggPort { handle with minimumLinkCount := minimumLinkCount } s)
      aggPort lag sai cur := by
  obtain ⟨handle0, hHandle0, hLag, hM⟩ := h
  rw [hHandle] at hHandle0
  cases hHandle0
  refine ⟨{ handle with minimumLinkCount := minimumLinkCount }, ?_, hLag, hM⟩
  show Table.find aggPort (Table.assign aggPort _ s.handles) = _
  rw [Table.find_assign, hHandle]
  simp

theorem changeLag_represents (newAggregatePort : AggregatePort) {s : SaiLagManager}
    {oldAggregatePort : AggregatePort} {lag : SaiLag}
    {sai : PortID → PortSaiId} {ports : List PortID}
    (hRep : Represents s oldAggregatePort.id lag sai oldAggregatePort.subportAndFwdState)
    (hPorts : PortsOk s ports sai)
    (hold : ∀ e ∈ oldAggregatePort.subportAndFwdState, e.1 ∈ ports)
    (hnew : ∀ e ∈ newAggregatePort.subportAndFwdState, e.1 ∈ ports)
    (hsOld : SortedBySubport oldAggregatePort.subportAndFwdState)
    (hsNew : SortedBySubport newAggregatePort.subportAndFwdState)
    (hneOld : oldAggregatePort.subportAndFwdState ≠ [])
    (hneNew : newAggregatePort.subportAndFwdState ≠ []) :
    ∃ s1, changeLag oldAggregatePort newAggregatePort s = .ok s1 ∧
      Represents s1 oldAggregatePort.id lag sai newAggregatePort.subportAndFwdState ∧
      PortsOk s1 ports sai := by
  obtain ⟨handle, hHandle, -, -⟩ := id hRep
  have hRep0 := represents_updateHandle hRep hHandle newAggregatePort.minimumLinkCount
  have hPorts0 : PortsOk (updateHandle oldAggregatePort.id
      { handle with minimumLinkCount := newAggregatePort.minimumLinkCount } s) ports sai :=
    portsOk_of_frame hPorts (fun _ => rfl) rfl
  cases hO : oldAggregatePort.subportAndFwdState with
  | nil => exact absurd hO hneOld
  | cons o oldRest =>
    cases hN : newAggregatePort.subportAndFwdState with
    | nil => exact absurd hN hneNew
    | cons n newRest =>
      rw [hO] at hRep0 hold hsOld
      rw [hN] at hnew hsNew
      obtain ⟨s1, h1, hRep1, hPorts1⟩ :=
        changeLagLoop_represents newAggregatePort.id
          (oldRest.length + newRest.length + 1) o oldRest n newRest _ hRep0 hPorts0 hold hnew
          hsOld hsNew
      refine ⟨s1, ?_, hRep1, hPorts1⟩
      simp only [changeLag, hHandle, hO, hN, List.length_cons]
      have hfuel : oldRest.length + 1 + (newRest.length + 1) =
          oldRest.length + newRest.length + 1 + 1 := by omega
      rw [hfuel]
      exact h1

/-- C5: in a state in which the aggregate port has a handle, the sub-port has a port handle and
the sub-port is not among the members of the handle, `removeMember` returns without error and
returns the state it was given, so that the members of the handle, every index table and the
bridge port of the port are unchanged; and whenever a call of `removeMember` returns, the same
call made again returns the state unchanged. -/
theorem removeMember_absent_is_noop (s : SaiLagManager) (aggPort : AggregatePortID)
    (subPort : PortID) (handle : SaiLagHandle) (portHandle : SaiPortHandle)
    (hHandle : Table.find aggPort s.handles = some handle)
    (hPort : Table.find subPort s.portHandles = some portHandle)
    (hAbsent : Table.find portHandle.port handle.members = none) :
    removeMember aggPort subPort s = .ok s ∧
    (∀ s0 s1, removeMember aggPort subPort s0 = .ok s1 →
      removeMember aggPort subPort s1 = .ok s1) := by
  refine ⟨removeMember_of_absent hHandle hPort hAbsent, ?_⟩
  intro s0 s1 h
  cases hH : Table.find aggPort s0.handles with
  | none => simp [removeMember, hH] at h
  | some handle0 =>
    cases hP : Table.find subPort s0.portHandles with
    | none => simp [removeMember, hH, hP] at h
    | some portHandle0 =>
      cases hM : Table.find portHandle0.port handle0.members with
      | none =>
        have h0 := removeMember_of_absent hH hP hM
        rw [h0] at h
        cases h
        exact h0
      | some member =>
        obtain ⟨s2, h2, hHandles, hPorts, -⟩ := removeMember_of_member hH hP hM
        rw [h2] at h
        cases h
        have hH1 : Table.find aggPort s1.handles =
            some { handle0 with members := Table.erase portHandle0.port handle0.members } := by
          rw [hHandles, Table.find_assign, hH]; simp
        have hP1 : Table.find subPort s1.portHandles =
            some { portHandle0 with
              bridgePort := some { portDescriptor := .physical subPort,
                                   saiId := .physical portHandle0.port } } := by
          rw [hPorts, Table.find_assign, hP]; simp
        exact removeMember_of_absent hH1 hP1 (by simp [Table.find_erase])

/-- C6: in a state in which the sub-port is a member of the handle of the aggregate port,
`removeMember` returns; afterwards the handle has no member under the hardware id of the port
and the same member under every other id, its other fields and every other handle are as
before, the attributes of every other member object are as before, memberPort2AggregatePortIds
has no entry for the hardware id of the port and the same entry for every other id, vlanIds
and aggregatePortIds are as before, and the port holds a bridge port obtained by a new call of
`addBridgePort` for the port. -/
theorem removeMember_removes_exactly_member (s : SaiLagManager) (aggPort : AggregatePortID)
    (subPort : PortID) (handle : SaiLagHandle) (portHandle : SaiPortHandle)
    (member : SaiLagMember)
    (hHandle : Table.find aggPort s.handles = some handle)
    (hPort : Table.find subPort s.portHandles = some portHandle)
    (hMember : Table.find portHandle.port handle.members = some member) :
    ∃ s1 handle1 portHandle1 released,
      removeMember aggPort subPort s = .ok s1 ∧
      Table.find aggPort s1.handles = some handle1 ∧
      Table.find portHandle.port handle1.members = none ∧
      (∀ k, k ≠ portHandle.port → Table.find k handle1.members = Table.find k handle.members) ∧
      handle1.lag = handle.lag ∧ handle1.bridgePort = handle.bridgePort ∧
      handle1.minimumLinkCount = handle.minimumLinkCount ∧ handle1.vlanId = handle.vlanId ∧
      (∀ a, a ≠ aggPort → Table.find a s1.handles = Table.find a s.handles) ∧
      (∀ m, m ≠ member → Table.find m s1.lagMemberStore = Table.find m s.lagMemberStore) ∧
      Table.find portHandle.port s1.concurrentIndices.memberPort2AggregatePortIds = none ∧
      (∀ k, k ≠ portHandle.port →
        Table.find k s1.concurrentIndices.memberPort2AggregatePortIds =
          Table.find k s.concurrentIndices.memberPort2AggregatePortIds) ∧
      s1.concurrentIndices.vlanIds = s.concurrentIndices.vlanIds ∧
      s1.concurrentIndices.aggregatePortIds = s.concurrentIndices.aggregatePortIds ∧
      s1.concurrentIndices.portSaiIds = s.concurrentIndices.portSaiIds ∧
      s1.concurrentIndices.portIds = s.concurrentIndices.portIds ∧
      Table.find subPort s1.portHandles = some portHandle1 ∧
      portHandle1.port = portHandle.port ∧
      portHandle1.bridgePort =
        some { portDescriptor := .physical subPort, saiId := .physical portHandle.port } ∧
      (∀ p, p ≠ subPort → Table.find p s1.portHandles = Table.find p s.portHandles) ∧
      s1.trace = s.trace ++
        [.lagMemberRelease member.lag member.port (release member s.lagMemberStore).1,
         .memberPort2AggregatePortIdsErase portHandle.port,
         .addBridgePort (.physical subPort) (.physical portHandle.port)] ++ released := by
  obtain ⟨s1, h1, hHandles, hPorts, hIdx, hStore, -, -, hTrace⟩ :=
    removeMember_of_member hHandle hPort hMember
  refine ⟨s1, { handle with members := Table.erase portHandle.port handle.members },
    { portHandle with
      bridgePort := some { portDescriptor := .physical subPort, saiId := .physical portHandle.port } },
    _, h1, ?_, ?_, ?_, rfl, rfl, rfl, rfl, ?_, ?_, ?_, ?_, ?_, ?_, ?_, ?_, ?_, rfl, rfl, ?_,
    hTrace⟩
  · rw [hHandles, Table.find_assign, hHandle]; simp
  · simp [Table.find_erase]
  · intro k hk; simp [Table.find_erase, hk]
  · intro a ha; rw [hHandles, Table.find_assign]; simp [ha]
  · intro m hm; rw [hStore]; exact find_release_of_ne member m s.lagMemberStore hm
  · rw [hIdx]; simp [Table.find_erase]
  · intro k hk; rw [hIdx]; simp [Table.find_erase, hk]
  · rw [hIdx]
  · rw [hIdx]
  · rw [hIdx]
  · rw [hIdx]
  · rw [hPorts, Table.find_assign, hPort]; simp
  · intro p hp; rw [hPorts, Table.find_assign]; simp [hp]

/-- C10: for an aggregate port that has a handle, `isMinimumLinkMet` returns true if and only
if the value `getActiveMemberCount` returns in the same state is at least the
`minimumLinkCount` of the handle stored in that state, and it fails exactly as
`getActiveMemberCount` fails. -/
theorem isMinimumLinkMet_iff (s : SaiLagManager) (aggregatePortID : AggregatePortID)
    (handle : SaiLagHandle) (hHandle : getLagHandleIf aggregatePortID s = some handle) :
    (∀ active, getActiveMemberCount aggregatePortID s = .ok active →
      ∃ met, isMinimumLinkMet aggregatePortID s = .ok met ∧
        (met = true ↔ active ≥ handle.minimumLinkCount)) ∧
    (∀ e, getActiveMemberCount aggregatePortID s = .error e →
      isMinimumLinkMet aggregatePortID s = .error e) := by
  constructor
  · intro active h
    refine ⟨decide (handle.minimumLinkCount ≤ active), ?_, by simp⟩
    simp [isMinimumLinkMet, getLagHandle, hHandle, h]
  · intro e h
    simp [isMinimumLinkMet, getLagHandle, hHandle, h]

/-- The hardware id of each port, read from the port handles of a state in which every port of
`ports` has a handle with its own hardware id and an agreeing portSaiIds entry. -/
theorem portsOk_of_state {s : SaiLagManager} {ports : List PortID}
    (hHandles : ∀ p ∈ ports, (portSaiIdOf s p).isSome ∧
      Table.find p s.concurrentIndices.portSaiIds = portSaiIdOf s p)
    (hDistinct : ∀ p ∈ ports, ∀ q ∈ ports, portSaiIdOf s p = portSaiIdOf s q → p = q) :
    PortsOk s ports (fun p => (portSaiIdOf s p).getD 0) := by
  have hsome : ∀ p ∈ ports, portSaiIdOf s p = some ((portSaiIdOf s p).getD 0) := by
    intro p hp
    have := (hHandles p hp).1
    cases h : portSaiIdOf s p with
    | none => simp [h] at this
    | some k => rfl
  refine { handleOf := hsome, indexOf := ?_, inj := ?_ }
  · intro p hp
    rw [(hHandles p hp).2]
    exact hsome p hp
  · intro p hp q hq hpq
    apply hDistinct p hp q hq
    rw [hsome p hp, hsome q hq]
    exact congrArg some hpq

theorem count_enabled_eq (l : List (PortID × Forwarding)) :
    l.countP (fun e => decide (e.2 = Forwarding.ENABLED)) =
      l.length - l.countP (fun e => decide (e.2 = Forwarding.DISABLED)) := by
  induction l with
  | nil => rfl
  | cons e rest ih =>
    have hle : rest.countP (fun e => decide (e.2 = Forwarding.DISABLED)) ≤ rest.length :=
      List.countP_le_length _
    obtain ⟨p, fwdState⟩ := e
    cases fwdState with
    | DISABLED => simp [List.countP_cons, ih]
    | ENABLED => simp [List.countP_cons, ih]; omega

/-- C2: an aggregate port is created by `addLag` from a non-empty sorted sub-port list in a
state without a handle for its id, every sub-port of the old and new lists having a port handle
with its own hardware id (and the agreeing portSaiIds entry) and the first sub-port being in a
VLAN; then `changeLag` to a non-empty sorted new list returns, the member map of the handle has
exactly the hardware ids of the sub-ports of the new list as keys, the member object of each
sub-port has egress enabled exactly when the new list gives it state ENABLED, and
`getActiveMemberCount` returns the number of ENABLED entries of the new list. -/
theorem changeLag_after_addLag_members_and_active_count (s : SaiLagManager)
    (oldAggregatePort newAggregatePort : AggregatePort)
    (hAbsent : getLagHandleIf oldAggregatePort.id s = none)
    (hOld : oldAggregatePort.subportAndFwdState ≠ [])
    (hNew : newAggregatePort.subportAndFwdState ≠ [])
    (hOldSorted : SortedBySubport oldAggregatePort.subportAndFwdState)
    (hNewSorted : SortedBySubport newAggregatePort.subportAndFwdState)
    (hHandles : ∀ p ∈ oldAggregatePort.sortedSubports ++ newAggregatePort.sortedSubports,
      (portSaiIdOf s p).isSome ∧
        Table.find p s.concurrentIndices.portSaiIds = portSaiIdOf s p)
    (hDistinct : ∀ p ∈ oldAggregatePort.sortedSubports ++ newAggregatePort.sortedSubports,
      ∀ q ∈ oldAggregatePort.sortedSubports ++ newAggregatePort.sortedSubports,
        portSaiIdOf s p = portSaiIdOf s q → p = q)
    (hVlan : ∀ p ∈ oldAggregatePort.sortedSubports.head?, ∀ k ∈ portSaiIdOf s p,
      (Table.find (PortDescriptorSaiId.physical k) s.concurrentIndices.vlanIds).isSome) :
    ∃ lagSaiId s1 s2 handle,
      addLag oldAggregatePort s = .ok (lagSaiId, s1) ∧
      changeLag oldAggregatePort newAggregatePort s1 = .ok s2 ∧
      getLagHandleIf oldAggregatePort.id s2 = some handle ∧
      (handle.members.map Prod.fst).Nodup ∧
      (∀ k, k ∈ handle.members.map Prod.fst ↔
        ∃ p ∈ newAggregatePort.sortedSubports, portSaiIdOf s p = some k) ∧
      (∀ e ∈ newAggregatePort.subportAndFwdState, ∃ k member object,
        portSaiIdOf s e.1 = some k ∧ Table.find k handle.members = some member ∧
        Table.find member s2.lagMemberStore = some object ∧
        (object.attributes.egressDisable = false ↔ e.2 = Forwarding.ENABLED)) ∧
      getActiveMemberCount oldAggregatePort.id s2 =
        .ok (newAggregatePort.subportAndFwdState.countP
          (fun e => decide (e.2 = Forwarding.ENABLED))) := by
  have hPorts := portsOk_of_state hHandles hDistinct
  have holdP : ∀ e ∈ oldAggregatePort.subportAndFwdState,
      e.1 ∈ oldAggregatePort.sortedSubports ++ newAggregatePort.sortedSubports :=
    fun e he => List.mem_append_left _ (List.mem_map_of_mem Prod.fst he)
  have hnewP : ∀ e ∈ newAggregatePort.subportAndFwdState,
      e.1 ∈ oldAggregatePort.sortedSubports ++ newAggregatePort.sortedSubports :=
    fun e he => List.mem_append_right _ (List.mem_map_of_mem Prod.fst he)
  cases hO : oldAggregatePort.subportAndFwdState with
  | nil => exact absurd hO hOld
  | cons first rest =>
    have hfirstP := holdP first (by rw [hO]; exact List.mem_cons_self _ _)
    have hv := hVlan first.1 (by simp [AggregatePort.sortedSubports, hO]) _
      (hPorts.handleOf first.1 hfirstP)
    cases hvl : Table.find (PortDescriptorSaiId.physical ((portSaiIdOf s first.1).getD 0))
        s.concurrentIndices.vlanIds with
    | none => simp [hvl] at hv
    | some vlanID =>
      obtain ⟨s1, lag, -, h1, hRep1, hPorts1, -, -, -, -⟩ :=
        addLag_represents oldAggregatePort hAbsent hOldSorted.nodup hPorts
          holdP hO hvl
      obtain ⟨s2, h2, hRep2, hPorts2⟩ :=
        changeLag_represents newAggregatePort hRep1 hPorts1 holdP hnewP
          hOldSorted hNewSorted hOld hNew
      obtain ⟨handle, hHandle, -, hM⟩ := hRep2
      refine ⟨lag.adapterKey, s1, s2, handle, h1, h2, hHandle, hM.nodup, ?_, ?_, ?_⟩
      · intro k
        rw [hM.keys k]
        constructor
        · rintro ⟨e, he, hk⟩
          refine ⟨e.1, List.mem_map_of_mem Prod.fst he, ?_⟩
          rw [hPorts.handleOf e.1 (hnewP e he), ← hk]
        · rintro ⟨p, hp, hk⟩
          obtain ⟨e, he, rfl⟩ := List.mem_map.1 hp
          refine ⟨e, he, ?_⟩
          rw [hPorts.handleOf e.1 (hnewP e he)] at hk
          exact Option.some.inj hk
      · intro e he
        obtain ⟨object, hObject, hAttr⟩ := hM.objects e he
        refine ⟨_, _, object, hPorts.handleOf e.1 (hnewP e he), hM.rep_find_of_mem he,
          hObject, ?_⟩
        rw [hAttr]
        cases e.2 <;> simp
      · simp only [getActiveMemberCount, getLagHandle, getLagHandleIf, hHandle]
        exact countActive_of_rep hM hPorts.inj hnewP hNewSorted.nodup

/-- C9: an aggregate port with n distinct sub-ports, of which k have forwarding state
DISABLED, is added by `addLag` in a state without a handle for its id, every sub-port having a
port handle with its own hardware id (and the agreeing portSaiIds entry) and the first sub-port
being in a VLAN; then `addLag` returns and `getActiveMemberCount` returns n − k. -/
theorem addLag_active_member_count (s : SaiLagManager) (aggregatePort : AggregatePort)
    (hAbsent : getLagHandleIf aggregatePort.id s = none)
    (hNonEmpty : aggregatePort.subportAndFwdState ≠ [])
    (hNodup : aggregatePort.sortedSubports.Nodup)
    (hHandles : ∀ p ∈ aggregatePort.sortedSubports,
      (portSaiIdOf s p).isSome ∧
        Table.find p s.concurrentIndices.portSaiIds = portSaiIdOf s p)
    (hDistinct : ∀ p ∈ aggregatePort.sortedSubports, ∀ q ∈ aggregatePort.sortedSubports,
      portSaiIdOf s p = portSaiIdOf s q → p = q)
    (hVlan : ∀ p ∈ aggregatePort.sortedSubports.head?, ∀ k ∈ portSaiIdOf s p,
      (Table.find (PortDescriptorSaiId.physical k) s.concurrentIndices.vlanIds).isSome) :
    ∃ lagSaiId s1,
      addLag aggregatePort s = .ok (lagSaiId, s1) ∧
      getActiveMemberCount aggregatePort.id s1 =
        .ok (aggregatePort.subportAndFwdState.length -
          aggregatePort.subportAndFwdState.countP
            (fun e => decide (e.2 = Forwarding.DISABLED))) := by
  have hPorts := portsOk_of_state hHandles hDistinct
  have hP : ∀ e ∈ aggregatePort.subportAndFwdState, e.1 ∈ aggregatePort.sortedSubports :=
    fun e he => List.mem_map_of_mem Prod.fst he
  cases hO : aggregatePort.subportAndFwdState with
  | nil => exact absurd hO hNonEmpty
  | cons first rest =>
    have hfirstP := hP first (by rw [hO]; exact List.mem_cons_self _ _)
    have hv := hVlan first.1 (by simp [AggregatePort.sortedSubports, hO]) _
      (hPorts.handleOf first.1 hfirstP)
    cases hvl : Table.find (PortDescriptorSaiId.physical ((portSaiIdOf s first.1).getD 0))
        s.concurrentIndices.vlanIds with
    | none => simp [hvl] at hv
    | some vlanID =>
      obtain ⟨s1, lag, -, h1, hRep1, -, -, -, -, -⟩ :=
        addLag_represents aggregatePort hAbsent hNodup hPorts hP hO hvl
      obtain ⟨handle, hHandle, -, hM⟩ := hRep1
      refine ⟨lag.adapterKey, s1, h1, ?_⟩
      simp only [getActiveMemberCount, getLagHandle, getLagHandleIf, hHandle]
      rw [countActive_of_rep hM hPorts.inj hP hNodup, count_enabled_eq, hO]

/-! ## `removeLag` and `addLag` on an existing id -/

theorem removeMember_error_is_check {aggPort : AggregatePortID} {subPort : PortID}
    {s s1 : SaiLagManager} {failure : Failure}
    (h : removeMember aggPort subPort s = .error (failure, s1)) :
    ∃ check, failure = .checkFailed check := by
  cases hH : Table.find aggPort s.handles with
  | none =>
    simp only [removeMember, hH] at h
    cases h
    exact ⟨_, rfl⟩
  | some handle =>
    cases hP : Table.find subPort s.portHandles with
    | none =>
      simp only [removeMember, hH, hP] at h
      cases h
      exact ⟨_, rfl⟩
    | some portHandle =>
      cases hM : Table.find portHandle.port handle.members with
      | none => rw [removeMember_of_absent hH hP hM] at h; cases h
      | some member =>
        obtain ⟨s2, h2, -⟩ := removeMember_of_member hH hP hM
        rw [h2] at h; cases h

theorem removeLagHandleMembers_error_not_thrown (aggPort : AggregatePortID) (fuel : Nat) :
    ∀ (s s1 : SaiLagManager) (failure : Failure),
      removeLagHandleMembers aggPort fuel s = .error (failure, s1) →
      ∀ error, failure ≠ .thrown error := by
  induction fuel with
  | zero =>
    intro s s1 failure h error
    unfold removeLagHandleMembers at h
    cases hH : Table.find aggPort s.handles with
    | none => simp only [hH] at h; cases h; simp
    | some handle =>
      cases hM : handle.members with
      | nil => simp only [hH, hM] at h; cases h
      | cons e rest => simp only [hH, hM] at h; cases h; simp
  | succ fuel ih =>
    intro s s1 failure h error
    unfold removeLagHandleMembers at h
    cases hH : Table.find aggPort s.handles with
    | none => simp only [hH] at h; cases h; simp
    | some handle =>
      cases hM : handle.members with
      | nil => simp only [hH, hM] at h; cases h
      | cons e rest =>
        cases hI : Table.find e.1 s.concurrentIndices.portIds with
        | none => simp only [hH, hM, hI] at h; cases h; simp
        | some subPort =>
          cases hR : removeMember aggPort subPort s with
          | error f =>
            simp only [hH, hM, hI, hR] at h
            cases h
            obtain ⟨check, hc⟩ := removeMember_error_is_check hR
            rw [hc]; simp
          | ok s2 =>
            simp only [hH, hM, hI, hR] at h
            exact ih s2 s1 failure h error

theorem removeLagHandleMembers_terminates (aggPort : AggregatePortID) (fuel : Nat) :
    ∀ (s : SaiLagManager) (handle : SaiLagHandle),
      Table.find aggPort s.handles = some handle →
      handle.members.length ≤ fuel →
      (∀ k ∈ handle.members.map Prod.fst,
        (Table.find k s.concurrentIndices.portIds).bind (portSaiIdOf s) = some k) →
      ∃ s1, removeLagHandleMembers aggPort fuel s = .ok s1 ∧
        Table.find aggPort s1.handles = some { handle with members := [] } ∧
        (∀ a, a ≠ aggPort → Table.find a s1.handles = Table.find a s.handles) ∧
        s1.lagStore = s.lagStore ∧
        s1.concurrentIndices.vlanIds = s.concurrentIndices.vlanIds ∧
        s1.concurrentIndices.aggregatePortIds = s.concurrentIndices.aggregatePortIds := by
  induction fuel with
  | zero =>
    intro s handle hH hlen _
    have hnil : handle.members = [] := List.length_eq_zero.1 (Nat.le_zero.1 hlen)
    refine ⟨s, ?_, ?_, fun _ _ => rfl, rfl, rfl, rfl⟩
    · unfold removeLagHandleMembers
      simp only [hH, hnil]
    · rw [hH, ← hnil]
  | succ fuel ih =>
    intro s handle hH hlen hWF
    cases hM : handle.members with
    | nil =>
      refine ⟨s, ?_, ?_, fun _ _ => rfl, rfl, rfl, rfl⟩
      · unfold removeLagHandleMembers
        simp only [hH, hM]
      · rw [hH, ← hM]
    | cons e rest =>
      obtain ⟨k, member⟩ := e
      have hk := hWF k (by rw [hM]; simp)
      cases hI : Table.find k s.concurrentIndices.portIds with
      | none => simp [hI] at hk
      | some subPort =>
        rw [hI] at hk
        simp only [Option.bind_some, portSaiIdOf] at hk
        cases hP : Table.find subPort s.portHandles with
        | none => simp [hP] at hk
        | some portHandle =>
          have hKey : portHandle.port = k := by simpa [hP] using hk
          have hFind : Table.find portHandle.port handle.members = some member := by
            rw [hKey, hM]; simp [Table.find]
          obtain ⟨s1, h1, hHandles1, hPortHandles1, hIdx1, -, hLagStore1, -, -⟩ :=
            removeMember_of_member hH hP hFind
          have hH1 : Table.find aggPort s1.handles =
              some { handle with members := Table.erase portHandle.port handle.members } := by
            rw [hHandles1, Table.find_assign, hH]; simp
          have hlen1 : (Table.erase portHandle.port handle.members).length ≤ fuel := by
            have hle : (Table.erase portHandle.port rest).length ≤ rest.length := by
              unfold Table.erase
              exact List.length_filter_le _ _
            have : Table.erase portHandle.port handle.members =
                Table.erase portHandle.port rest := by
              rw [hM, hKey]; simp [Table.erase, List.filter]
            rw [this]
            rw [hM] at hlen
            simp only [List.length_cons] at hlen
            omega
          have hWF1 : ∀ k' ∈ (Table.erase portHandle.port handle.members).map Prod.fst,
              (Table.find k' s1.concurrentIndices.portIds).bind (portSaiIdOf s1) = some k' := by
            intro k' hk'
            have hmem := ((Table.mem_keys_erase _ _ _).1 hk').1
            have hold := hWF k' hmem
            have hsame : ∀ q, portSaiIdOf s1 q = portSaiIdOf s q :=
              portSaiIdOf_eq_of_assign { portHandle with
                bridgePort := some { portDescriptor := .physical subPort,
                                     saiId := .physical portHandle.port } }
                hP rfl hPortHandles1
            have hfun : portSaiIdOf s1 = portSaiIdOf s := funext hsame
            rw [hIdx1, hfun]
            exact hold
          obtain ⟨s2, h2, hH2, hOther2, hLagStore2, hVlan2, hAgg2⟩ :=
            ih s1 _ hH1 hlen1 hWF1
          refine ⟨s2, ?_, hH2, ?_, ?_, ?_, ?_⟩
          · unfold removeLagHandleMembers
            simp only [hH, hM, hI, h1]
            exact h2
          · intro a ha
            rw [hOther2 a ha, hHandles1, Table.find_assign]
            simp [ha]
          · rw [hLagStore2, hLagStore1]
          · rw [hVlan2, hIdx1]
          · rw [hAgg2, hIdx1]

/-- C8: when no handle exists for the id, `removeLag` fails with the error thrown for a
non-existing LAG, in the state it was called in (the handle table and every index table are
unchanged); when a handle exists, `removeLag` throws no error, whenever it returns no handle
exists for the id, and it does return when the handle holds a LAG object and the index portIds
maps every member key to a port whose port handle has that key. -/
theorem removeLag_absent_fails_present_removes (s : SaiLagManager)
    (aggregatePort : AggregatePort) :
    (getLagHandleIf aggregatePort.id s = none →
      removeLag aggregatePort s =
        .error (.thrown (.removeNonExistingLag aggregatePort.id), s)) ∧
    (∀ handle, getLagHandleIf aggregatePort.id s = some handle →
      (∀ failure s1, removeLag aggregatePort s = .error (failure, s1) →
        ∀ error, failure ≠ .thrown error) ∧
      (∀ s1, removeLag aggregatePort s = .ok s1 →
        getLagHandleIf aggregatePort.id s1 = none) ∧
      (handle.lag.isSome →
        (∀ k ∈ handle.members.map Prod.fst,
          (Table.find k s.concurrentIndices.portIds).bind (portSaiIdOf s) = some k) →
        ∃ s1, removeLag aggregatePort s = .ok s1 ∧
          getLagHandleIf aggregatePort.id s1 = none)) := by
  constructor
  · intro h
    simp only [getLagHandleIf] at h
    simp only [removeLag, h]
  · intro handle hH
    simp only [getLagHandleIf] at hH
    have hret : ∀ s1, removeLag aggregatePort s = .ok s1 →
        getLagHandleIf aggregatePort.id s1 = none := by
      intro s1 h
      simp only [removeLag, hH] at h
      cases hR : removeLagHandle aggregatePort.id s with
      | error e => simp only [hR] at h; cases h
      | ok s2 =>
        simp only [hR] at h
        cases h
        simp [getLagHandleIf, Table.find_erase]
    refine ⟨?_, hret, ?_⟩
    · intro failure s1 h error
      simp only [removeLag, hH] at h
      cases hR : removeLagHandle aggregatePort.id s with
      | ok s2 => simp only [hR] at h; cases h
      | error e =>
        simp only [hR] at h
        cases h
        simp only [removeLagHandle, hH] at hR
        cases hL : removeLagHandleMembers aggregatePort.id handle.members.length s with
        | error e2 =>
          simp only [hL] at hR
          cases hR
          exact removeLagHandleMembers_error_not_thrown _ _ _ _ _ hL error
        | ok s3 =>
          simp only [hL] at hR
          cases hH3 : Table.find aggregatePort.id s3.handles with
          | none => simp only [hH3] at hR; cases hR; simp
          | some handle3 =>
            cases hLag : handle3.lag with
            | none => simp only [hH3, hLag] at hR; cases hR; simp
            | some lag => simp only [hH3, hLag] at hR; cases hR
    · intro hLag hWF
      obtain ⟨s1, h1, hH1, -⟩ :=
        removeLagHandleMembers_terminates aggregatePort.id handle.members.length s handle hH
          (Nat.le_refl _) hWF
      cases hl : handle.lag with
      | none => simp [hl] at hLag
      | some lag =>
        have hrun : ∃ s2, removeLag aggregatePort s = .ok s2 := by
          simp only [removeLag, hH, removeLagHandle, h1, hH1, hl]
          exact ⟨_, rfl⟩
        obtain ⟨s2, h2⟩ := hrun
        exact ⟨s2, h2, hret s2 h2⟩

theorem releaseLagMembers_handles (members : List (PortSaiId × SaiLagMember)) :
    ∀ s : SaiLagManager, (releaseLagMembers members s).handles = s.handles := by
  induction members with
  | nil => intro s; rfl
  | cons e rest ih =>
    intro s
    simp only [releaseLagMembers]
    rw [ih]
    rfl

theorem destroyHandle_handles (handle : SaiLagHandle) (s : SaiLagManager) :
    (destroyHandle handle s).handles = s.handles := by
  unfold destroyHandle
  cases hl : handle.lag with
  | none =>
    simp only []
    rw [releaseLagMembers_handles]
    cases handle.bridgePort <;> rfl
  | some lag =>
    simp only []
    show (releaseLagMembers handle.members (releaseBridgePort handle.bridgePort s)).handles = _
    rw [releaseLagMembers_handles]
    cases handle.bridgePort <;> rfl

theorem dropUnplaced_frame (member : PortSaiId × SaiLagMember)
    (members : List (PortSaiId × SaiLagMember)) (s : SaiLagManager) :
    (dropUnplaced member members s).handles = s.handles ∧
    (dropUnplaced member members s).portHandles = s.portHandles ∧
    (dropUnplaced member members s).concurrentIndices = s.concurrentIndices := by
  unfold dropUnplaced
  cases Table.find member.1 members <;> exact ⟨rfl, rfl, rfl⟩

theorem addLagMembers_returns (lag : SaiLag) (aggregatePortID : AggregatePortID)
    (xs : List (PortID × Forwarding)) :
    ∀ (members : List (PortSaiId × SaiLagMember)) (s : SaiLagManager),
      (∀ x ∈ xs, (Table.find x.1 s.portHandles).isSome) →
      ∃ members1 s1, addLagMembers lag aggregatePortID xs members s = .ok (members1, s1) ∧
        s1.handles = s.handles := by
  induction xs with
  | nil =>
    intro members s _
    exact ⟨members, s, rfl, rfl⟩
  | cons x rest ih =>
    intro members s hxs
    obtain ⟨p, fwdState⟩ := x
    have hp := hxs (p, fwdState) (List.mem_cons_self _ _)
    cases hPort : Table.find p s.portHandles with
    | none => simp [hPort] at hp
    | some portHandle =>
      obtain ⟨s1, h1, hHandles1, hPortHandles1, hStore1, -, -, -⟩ :=
        addMember_of_portHandle (s := s) lag aggregatePortID hPort
      obtain ⟨object, hObject, -⟩ := find_setObject_self
        ({ lag := lag.adapterKey, port := portHandle.port } : SaiLagMember)
        ({ egressDisable := true } : SaiLagMemberAttributes)
        s.nextAdapterKey s.lagMemberStore
      have hObject1 : Table.find
          ({ lag := lag.adapterKey, port := portHandle.port } : SaiLagMember)
          s1.lagMemberStore = some object := by
        rw [hStore1]; exact hObject
      have h2 := setMemberState_of_object fwdState hObject1
      have hsame : ∀ q, portSaiIdOf s1 q = portSaiIdOf s q :=
        portSaiIdOf_eq_of_assign { portHandle with bridgePort := none }
          hPort rfl hPortHandles1
      have hrest : ∀ z ∈ rest, (Table.find z.1
          (dropUnplaced (portHandle.port, { lag := lag.adapterKey, port := portHandle.port })
            members
            (emit (.lagMemberSetEgressDisable lag.adapterKey portHandle.port
                (decide (fwdState = Forwarding.DISABLED)))
              { s1 with
                lagMemberStore :=
                  Table.assign
                    ({ lag := lag.adapterKey, port := portHandle.port } : SaiLagMember)
                    { object with
                      attributes :=
                        { egressDisable := decide (fwdState = Forwarding.DISABLED) } }
                    s1.lagMemberStore })).portHandles).isSome := by
        intro z hz
        rw [(dropUnplaced_frame _ _ _).2.1]
        show (Table.find z.1 s1.portHandles).isSome
        have h0 := hxs z (List.mem_cons_of_mem _ hz)
        have hz' := hsame z.1
        unfold portSaiIdOf at hz'
        cases hf : Table.find z.1 s.portHandles with
        | none => simp [hf] at h0
        | some ph =>
          rw [hf] at hz'
          cases hf1 : Table.find z.1 s1.portHandles with
          | none => simp [hf1] at hz'
          | some ph1 => rfl
      obtain ⟨members3, s3, h3, hHandles3⟩ := ih _ _ hrest
      refine ⟨members3, s3, ?_, ?_⟩
      · simp only [addLagMembers, h1, h2]
        exact h3
      · rw [hHandles3, (dropUnplaced_frame _ _ _).1]
        exact hHandles1

/-- C7, as the code has it: `addLag` makes no duplicate check. In a state in which a handle
already exists for the id, `addLag` on an aggregate port with that id, whose first sub-port has
a portSaiIds entry with a vlanIds entry and whose sub-ports all have port handles, returns a
LAG id without error, and the handle table is as before: the existing handle is kept and no
handle is recorded for the call. -/
theorem addLag_existing_id_returns (s : SaiLagManager) (aggregatePort : AggregatePort)
    (existing : SaiLagHandle)
    (hExisting : getLagHandleIf aggregatePort.id s = some existing)
    (hNonEmpty : aggregatePort.subportAndFwdState ≠ [])
    (hFirst : ∀ p ∈ aggregatePort.sortedSubports.head?,
      ((Table.find p s.concurrentIndices.portSaiIds).bind
        (fun k => Table.find (PortDescriptorSaiId.physical k)
          s.concurrentIndices.vlanIds)).isSome)
    (hPortHandles : ∀ p ∈ aggregatePort.sortedSubports, (Table.find p s.portHandles).isSome) :
    ∃ lagSaiId s1, addLag aggregatePort s = .ok (lagSaiId, s1) ∧ s1.handles = s.handles := by
  simp only [getLagHandleIf] at hExisting
  cases hO : aggregatePort.subportAndFwdState with
  | nil => exact absurd hO hNonEmpty
  | cons first rest =>
    have hsorted : aggregatePort.sortedSubports = first.1 :: rest.map Prod.fst := by
      simp [AggregatePort.sortedSubports, hO]
    have hf := hFirst first.1 (by simp [hsorted])
    cases hidx : Table.find first.1 s.concurrentIndices.portSaiIds with
    | none => simp [hidx] at hf
    | some portSaiId =>
      rw [hidx] at hf
      have hf : (Table.find (PortDescriptorSaiId.physical portSaiId)
          s.concurrentIndices.vlanIds).isSome := hf
      cases hVlan : Table.find (PortDescriptorSaiId.physical portSaiId)
          s.concurrentIndices.vlanIds with
      | none => simp [hVlan] at hf
      | some vlanID =>
        let labelValue : List Nat := aggregatePort.name.take 32 ++
          List.replicate (32 - (aggregatePort.name.take 32).length) 0
        let r := setObject labelValue
          ({ label := labelValue, vlan := vlanID } : SaiLagAttributes)
          s.nextAdapterKey s.lagStore
        let lag : SaiLag := { label := labelValue, adapterKey := r.1 }
        let s0 : SaiLagManager := emit (.lagSetObject labelValue r.1 r.2.1)
          { s with
            lagStore := r.2.2
            nextAdapterKey := if r.2.1 then s.nextAdapterKey + 1 else s.nextAdapterKey }
        have hxs : ∀ x ∈ aggregatePort.subportAndFwdState,
            (Table.find x.1 s0.portHandles).isSome :=
          fun x hx => hPortHandles x.1 (List.mem_map_of_mem Prod.fst hx)
        obtain ⟨members1, s1, h1, hHandles1⟩ :=
          addLagMembers_returns lag aggregatePort.id
            aggregatePort.subportAndFwdState [] s0 hxs
        have hExisting1 : Table.find aggregatePort.id s1.handles = some existing := by
          rw [hHandles1]; exact hExisting
        have h1' : addLagMembers lag aggregatePort.id aggregatePort.subportAndFwdState [] s0 =
          .ok (members1, s1) := h1
        simp only [lag, s0, r, labelValue] at h1'
        simp only [addLag, hsorted, hidx, hVlan]
        simp only [h1']
        refine ⟨_, _, rfl, ?_⟩
        simp only [addBridgePort, emit, hExisting1, Option.isNone_some, Bool.false_eq_true,
          if_false]
        rw [destroyHandle_handles]
        show Table.emplace aggregatePort.id _ s1.handles = s.handles
        rw [Table.emplace_of_find_some _ _ _ _ hExisting1, hHandles1]
        rfl

theorem countActive_error_is_undefined
    (store : List (SaiLagMember × StoredObject SaiLagMemberAttributes))
    (members : List (PortSaiId × SaiLagMember)) (failure : Failure)
    (h : countActive store members = .error failure) : failure = .undefinedBehaviour := by
  induction members with
  | nil => simp [countActive] at h
  | cons e rest ih =>
    cases hf : Table.find e.2 store with
    | none =>
      simp only [countActive, hf] at h
      cases h
      rfl
    | some object =>
      cases hr : countActive store rest with
      | error f =>
        simp only [countActive, hf, hr] at h
        cases h
        exact ih hr
      | ok n => simp only [countActive, hf, hr] at h; cases h

/-- C16: `getLagHandle` fails exactly when `getLagHandleIf` returns nothing, the failure being
the error thrown for a handle that is not found, and otherwise it returns the handle
`getLagHandleIf` returns; each of `getLagMemberCount`, `getActiveMemberCount` and
`isMinimumLinkMet` fails with that error exactly when the id has no handle. -/
theorem getLagHandle_fails_iff_absent (s : SaiLagManager) (aggregatePortID : AggregatePortID) :
    ((∃ failure, getLagHandle aggregatePortID s = .error failure) ↔
      getLagHandleIf aggregatePortID s = none) ∧
    (getLagHandleIf aggregatePortID s = none →
      getLagHandle aggregatePortID s = .error (.thrown (.handleNotFound aggregatePortID))) ∧
    (∀ handle, getLagHandleIf aggregatePortID s = some handle ↔
      getLagHandle aggregatePortID s = .ok handle) ∧
    (getLagMemberCount aggregatePortID s = .error (.thrown (.handleNotFound aggregatePortID)) ↔
      getLagHandleIf aggregatePortID s = none) ∧
    (getActiveMemberCount aggregatePortID s =
        .error (.thrown (.handleNotFound aggregatePortID)) ↔
      getLagHandleIf aggregatePortID s = none) ∧
    (isMinimumLinkMet aggregatePortID s = .error (.thrown (.handleNotFound aggregatePortID)) ↔
      getLagHandleIf aggregatePortID s = none) := by
  cases hIf : getLagHandleIf aggregatePortID s with
  | none =>
    have hGet : getLagHandle aggregatePortID s =
        .error (.thrown (.handleNotFound aggregatePortID)) := by
      simp [getLagHandle, hIf]
    refine ⟨⟨fun _ => rfl, fun _ => ⟨_, hGet⟩⟩, fun _ => hGet, ?_, ?_, ?_, ?_⟩
    · intro handle
      constructor
      · intro h; cases h
      · intro h; rw [hGet] at h; cases h
    · simp [getLagMemberCount, hGet]
    · simp [getActiveMemberCount, hGet]
    · simp [isMinimumLinkMet, hGet]
  | some handle0 =>
    have hGet : getLagHandle aggregatePortID s = .ok handle0 := by
      simp [getLagHandle, hIf]
    refine ⟨⟨?_, fun h => (by cases h)⟩, fun h => (by cases h), ?_, ?_, ?_, ?_⟩
    · rintro ⟨failure, h⟩
      rw [hGet] at h
      cases h
    · intro handle
      rw [hGet]
      constructor
      · intro h; cases h; rfl
      · intro h; cases h; rfl
    · simp [getLagMemberCount, hGet]
    · constructor
      · intro h
        simp only [getActiveMemberCount, hGet] at h
        have := countActive_error_is_undefined _ _ _ h
        cases this
      · intro h; cases h
    · constructor
      · intro h
        simp only [isMinimumLinkMet, hGet] at h
        cases hA : getActiveMemberCount aggregatePortID s with
        | ok n => simp only [hA] at h; cases h
        | error f =>
          simp only [hA] at h
          cases h
          simp only [getActiveMemberCount, hGet] at hA
          have := countActive_error_is_undefined _ _ _ hA
          cases this
      · intro h; cases h

/-- C13: an aggregate port with a non-empty list of distinct sub-ports is added by `addLag` in
a state without a handle for its id, every sub-port having a port handle with its own hardware
id (and the agreeing portSaiIds entry) and the first sub-port being in a VLAN; then `addLag`
returns, the keys of the member map of the new handle are distinct and are exactly the hardware
port ids of the sub-ports, and `getLagMemberCount` returns the number of sub-ports. -/
theorem addLag_member_keys_and_count (s : SaiLagManager) (aggregatePort : AggregatePort)
    (hAbsent : getLagHandleIf aggregatePort.id s = none)
    (hNonEmpty : aggregatePort.subportAndFwdState ≠ [])
    (hNodup : aggregatePort.sortedSubports.Nodup)
    (hHandles : ∀ p ∈ aggregatePort.sortedSubports,
      (portSaiIdOf s p).isSome ∧
        Table.find p s.concurrentIndices.portSaiIds = portSaiIdOf s p)
    (hDistinct : ∀ p ∈ aggregatePort.sortedSubports, ∀ q ∈ aggregatePort.sortedSubports,
      portSaiIdOf s p = portSaiIdOf s q → p = q)
    (hVlan : ∀ p ∈ aggregatePort.sortedSubports.head?, ∀ k ∈ portSaiIdOf s p,
      (Table.find (PortDescriptorSaiId.physical k) s.concurrentIndices.vlanIds).isSome) :
    ∃ lagSaiId s1 handle,
      addLag aggregatePort s = .ok (lagSaiId, s1) ∧
      getLagHandleIf aggregatePort.id s1 = some handle ∧
      (handle.members.map Prod.fst).Nodup ∧
      (∀ k, k ∈ handle.members.map Prod.fst ↔
        ∃ p ∈ aggregatePort.sortedSubports, portSaiIdOf s p = some k) ∧
      getLagMemberCount aggregatePort.id s1 = .ok aggregatePort.sortedSubports.length := by
  have hPorts := portsOk_of_state hHandles hDistinct
  have hP : ∀ e ∈ aggregatePort.subportAndFwdState, e.1 ∈ aggregatePort.sortedSubports :=
    fun e he => List.mem_map_of_mem Prod.fst he
  cases hO : aggregatePort.subportAndFwdState with
  | nil => exact absurd hO hNonEmpty
  | cons first rest =>
    have hfirstP := hP first (by rw [hO]; exact List.mem_cons_self _ _)
    have hv := hVlan first.1 (by simp [AggregatePort.sortedSubports, hO]) _
      (hPorts.handleOf first.1 hfirstP)
    cases hvl : Table.find (PortDescriptorSaiId.physical ((portSaiIdOf s first.1).getD 0))
        s.concurrentIndices.vlanIds with
    | none => simp [hvl] at hv
    | some vlanID =>
      obtain ⟨s1, lag, -, h1, hRep1, -, -, -, -, -⟩ :=
        addLag_represents aggregatePort hAbsent hNodup hPorts hP hO hvl
      obtain ⟨handle, hHandle, -, hM⟩ := hRep1
      have hkeys : ∀ k, k ∈ handle.members.map Prod.fst ↔
          ∃ p ∈ aggregatePort.sortedSubports, portSaiIdOf s p = some k := by
        intro k
        rw [hM.keys k]
        constructor
        · rintro ⟨e, he, hk⟩
          refine ⟨e.1, hP e he, ?_⟩
          rw [hPorts.handleOf e.1 (hP e he), ← hk]
        · rintro ⟨p, hp, hk⟩
          obtain ⟨e, he, rfl⟩ := List.mem_map.1 hp
          refine ⟨e, he, ?_⟩
          rw [hPorts.handleOf e.1 (hP e he)] at hk
          exact Option.some.inj hk
      refine ⟨lag.adapterKey, s1, handle, h1, hHandle, hM.nodup, hkeys, ?_⟩
      simp only [getLagMemberCount, getLagHandle, getLagHandleIf, hHandle]
      congr 1
      have hsaiNodup : (aggregatePort.sortedSubports.map
          (fun p => (portSaiIdOf s p).getD 0)).Nodup :=
        List.Nodup.map_on (fun x hx y hy hxy => hPorts.inj x hx y hy hxy) hNodup
      have hperm : (handle.members.map Prod.fst).Perm
          (aggregatePort.sortedSubports.map (fun p => (portSaiIdOf s p).getD 0)) := by
        rw [List.perm_ext_iff_of_nodup hM.nodup hsaiNodup]
        intro k
        rw [hM.keys k, List.mem_map]
        constructor
        · rintro ⟨e, he, hk⟩
          exact ⟨e.1, hP e he, hk⟩
        · rintro ⟨p, hp, hk⟩
          obtain ⟨e, he, rfl⟩ := List.mem_map.1 hp
          exact ⟨e, he, hk⟩
      have := hperm.length_eq
      simpa using this

/-! ## The order of the calls of `removeLag` and of `addLag` -/

theorem removeMember_inv {aggPort : AggregatePortID} {subPort : PortID}
    {s s1 : SaiLagManager} {handle : SaiLagHandle}
    (hHandle : Table.find aggPort s.handles = some handle)
    (h : removeMember aggPort subPort s = .ok s1) :
    s1 = s ∨
    ∃ portHandle member, Table.find subPort s.portHandles = some portHandle ∧
      Table.find portHandle.port handle.members = some member ∧
      s1.handles = Table.assign aggPort
        { handle with members := Table.erase portHandle.port handle.members } s.handles ∧
      s1.portHandles = Table.assign subPort
        { portHandle with
          bridgePort := some { portDescriptor := .physical subPort,
                               saiId := .physical portHandle.port } }
        s.portHandles ∧
      s1.concurrentIndices =
        { s.concurrentIndices with
          memberPort2AggregatePortIds :=
            Table.erase portHandle.port s.concurrentIndices.memberPort2AggregatePortIds } ∧
      s1.lagMemberStore = (release member s.lagMemberStore).2 ∧
      s1.lagStore = s.lagStore ∧
      s1.memberOps = s.memberOps ∧
      s1.trace = s.trace ++ MemberRemoval.effects
        { key := portHandle.port, member := member,
          destroyed := (release member s.lagMemberStore).1, subPort := subPort,
          released := portHandle.bridgePort.map (fun b => b.portDescriptor) } := by
  cases hP : Table.find subPort s.portHandles with
  | none => simp [removeMember, hHandle, hP] at h
  | some portHandle =>
    cases hM : Table.find portHandle.port handle.members with
    | none =>
      rw [removeMember_of_absent hHandle hP hM] at h
      cases h
      exact Or.inl rfl
    | some member =>
      obtain ⟨s2, h2, hHandles, hPortHandles, hIdx, hStore, hLagStore, hOps, hTrace⟩ :=
        removeMember_of_member hHandle hP hM
      rw [h2] at h
      cases h
      refine Or.inr ⟨portHandle, member, rfl, hM, hHandles, hPortHandles, hIdx, hStore,
        hLagStore, hOps, ?_⟩
      rw [hTrace]
      cases portHandle.bridgePort <;> simp [MemberRemoval.effects]

theorem removeLagHandleMembers_trace (aggPort : AggregatePortID) (fuel : Nat) :
    ∀ (s s1 : SaiLagManager) (handle : SaiLagHandle),
      Table.find aggPort s.handles = some handle →
      removeLagHandleMembers aggPort fuel s = .ok s1 →
      ∃ removals : List MemberRemoval,
        s1.trace = s.trace ++ removals.flatMap MemberRemoval.effects ∧
        (∀ r ∈ removals, (r.key, r.member) ∈ handle.members) ∧
        (∀ k ∈ handle.members.map Prod.fst, ∃ r ∈ removals, r.key = k) ∧
        Table.find aggPort s1.handles = some { handle with members := [] } ∧
        s1.lagStore = s.lagStore := by
  induction fuel with
  | zero =>
    intro s s1 handle hH h
    unfold removeLagHandleMembers at h
    cases hM : handle.members with
    | nil =>
      simp only [hH, hM] at h
      cases h
      refine ⟨[], by simp, by simp, by simp, ?_, rfl⟩
      rw [hH, ← hM]
    | cons e rest => simp only [hH, hM] at h; cases h
  | succ fuel ih =>
    intro s s1 handle hH h
    unfold removeLagHandleMembers at h
    cases hM : handle.members with
    | nil =>
      simp only [hH, hM] at h
      cases h
      refine ⟨[], by simp, by simp, by simp, ?_, rfl⟩
      rw [hH, ← hM]
    | cons e rest =>
      cases hI : Table.find e.1 s.concurrentIndices.portIds with
      | none => simp only [hH, hM, hI] at h; cases h
      | some subPort =>
        cases hR : removeMember aggPort subPort s with
        | error f => simp only [hH, hM, hI, hR] at h; cases h
        | ok s2 =>
          simp only [hH, hM, hI, hR] at h
          rcases removeMember_inv hH hR with hsame | ⟨portHandle, member, -, hFind, hHandles,
            -, -, -, hLagStore, -, hTrace⟩
          · subst hsame
            obtain ⟨removals, h1, h2, h3, h4, h5⟩ := ih s2 s1 handle hH h
            rw [hM] at h2 h3
            exact ⟨removals, h1, h2, h3, h4, h5⟩
          · have hH2 : Table.find aggPort s2.handles =
                some { handle with members := Table.erase portHandle.port handle.members } := by
              rw [hHandles, Table.find_assign, hH]; simp
            obtain ⟨removals, h1, h2, h3, h4, h5⟩ := ih s2 s1 _ hH2 h
            refine ⟨{ key := portHandle.port, member := member,
                      destroyed := (release member s.lagMemberStore).1, subPort := subPort,
                      released := portHandle.bridgePort.map (fun b => b.portDescriptor) }
                    :: removals, ?_, ?_, ?_, h4, ?_⟩
            · rw [h1, hTrace]; simp [List.flatMap_cons]
            · intro r hr
              rcases List.mem_cons.1 hr with rfl | hr
              · rw [← hM]; exact Table.mem_of_find _ _ _ hFind
              · rw [← hM]; exact ((Table.mem_erase _ _ _).1 (h2 r hr)).1
            · intro k hk
              rw [← hM] at hk
              by_cases hkk : k = portHandle.port
              · exact ⟨_, List.mem_cons_self _ _, hkk.symm⟩
              · obtain ⟨r, hr, hrk⟩ := h3 k ((Table.mem_keys_erase _ _ _).2 ⟨hk, hkk⟩)
                exact ⟨r, List.mem_cons_of_mem _ hr, hrk⟩
            · rw [h5, hLagStore]

end SaiLagManager

/-! ## `addLag` followed by `removeLag` -/

namespace Table

variable {K V : Type} [DecidableEq K]

theorem filter_emplace_of_mem (keys : List K) (k : K) (v : V) (t : List (K × V))
    (hk : k ∈ keys) :
    (emplace k v t).filter (fun e => decide (e.1 ∉ keys)) =
      t.filter (fun e => decide (e.1 ∉ keys)) := by
  induction t with
  | nil => simp [emplace, List.filter, hk]
  | cons e rest ih =>
    obtain ⟨ke, ve⟩ := e
    by_cases h : ke = k
    · simp [emplace, h]
    · simp only [emplace, h, if_false, List.filter_cons, ih]

theorem filter_erase_of_mem (keys : List K) (k : K) (t : List (K × V)) (hk : k ∈ keys) :
    (erase k t).filter (fun e => decide (e.1 ∉ keys)) =
      t.filter (fun e => decide (e.1 ∉ keys)) := by
  unfold erase
  rw [List.filter_filter]
  apply List.filter_congr
  intro e _
  by_cases he : e.1 ∈ keys
  · simp [he]
  · have : e.1 ≠ k := fun hx => he (hx ▸ hk)
    simp [he, this]

theorem erase_emplace_of_absent (k : K) (v : V) (t : List (K × V)) (h : find k t = none) :
    erase k (emplace k v t) = t := by
  induction t with
  | nil => simp [emplace, erase, List.filter]
  | cons e rest ih =>
    obtain ⟨ke, ve⟩ := e
    have hne : ¬ ke = k := by
      intro hx
      simp [find, hx] at h
    have hrest : find k rest = none := by simpa [find, hne] using h
    have := ih hrest
    unfold erase at this ⊢
    simpa [emplace, hne, List.filter_cons] using this

theorem filter_eq_self_of_find_none (keys : List K) (t : List (K × V))
    (h : ∀ k ∈ keys, find k t = none) :
    t.filter (fun e => decide (e.1 ∉ keys)) = t := by
  rw [List.filter_eq_self]
  intro e he
  have : e.1 ∉ keys := by
    intro hk
    have hn := (find_eq_none_iff e.1 t).1 (h e.1 hk)
    exact hn (List.mem_map_of_mem Prod.fst he)
  simpa using this

end Table

theorem setObject_adapterKey {K A : Type} [DecidableEq K] (key : K) (attributes : A)
    (freshKey : Nat) (store : List (K × StoredObject A)) :
    (setObject key attributes freshKey store).1 =
      match Table.find key store with
      | some object => object.adapterKey
      | none => freshKey := by
  unfold setObject
  cases Table.find key store <;> rfl

namespace SaiLagManager

theorem addLagMembers_indices (lag : SaiLag) (aggregatePortID : AggregatePortID)
    (keys : List PortSaiId) (xs : List (PortID × Forwarding)) :
    ∀ (members members1 : List (PortSaiId × SaiLagMember)) (s s1 : SaiLagManager),
      addLagMembers lag aggregatePortID xs members s = .ok (members1, s1) →
      (∀ x ∈ xs, ∀ k ∈ portSaiIdOf s x.1, k ∈ keys) →
      s1.concurrentIndices.portSaiIds = s.concurrentIndices.portSaiIds ∧
      s1.concurrentIndices.portIds = s.concurrentIndices.portIds ∧
      s1.concurrentIndices.vlanIds = s.concurrentIndices.vlanIds ∧
      s1.concurrentIndices.aggregatePortIds = s.concurrentIndices.aggregatePortIds ∧
      s1.concurrentIndices.memberPort2AggregatePortIds.filter
          (fun e => decide (e.1 ∉ keys)) =
        s.concurrentIndices.memberPort2AggregatePortIds.filter
          (fun e => decide (e.1 ∉ keys)) ∧
      s1.lagStore = s.lagStore := by
  induction xs with
  | nil =>
    intro members members1 s s1 h _
    simp only [addLagMembers] at h
    cases h
    exact ⟨rfl, rfl, rfl, rfl, rfl, rfl⟩
  | cons x rest ih =>
    intro members members1 s s1 h hkeys
    obtain ⟨p, fwdState⟩ := x
    cases hPort : Table.find p s.portHandles with
    | none => simp [addLagMembers, addMember, hPort] at h
    | some portHandle =>
      obtain ⟨s2, h2, -, hPortHandles2, hStore2, hIdx2, hLagStore2, -⟩ :=
        addMember_of_portHandle (s := s) lag aggregatePortID hPort
      obtain ⟨object, hObject, -⟩ := find_setObject_self
        ({ lag := lag.adapterKey, port := portHandle.port } : SaiLagMember)
        ({ egressDisable := true } : SaiLagMemberAttributes)
        s.nextAdapterKey s.lagMemberStore
      have hObject2 : Table.find
          ({ lag := lag.adapterKey, port := portHandle.port } : SaiLagMember)
          s2.lagMemberStore = some object := by
        rw [hStore2]; exact hObject
      have h3 := setMemberState_of_object fwdState hObject2
      simp only [addLagMembers, h2, h3] at h
      have hsame : ∀ q, portSaiIdOf s2 q = portSaiIdOf s q :=
        portSaiIdOf_eq_of_assign { portHandle with bridgePort := none } hPort rfl hPortHandles2
      have hk : portHandle.port ∈ keys :=
        hkeys (p, fwdState) (List.mem_cons_self _ _) portHandle.port
          (by simp [portSaiIdOf, hPort])
      obtain ⟨i1, i2, i3, i4, i5, i6⟩ := ih _ _ _ _ h (by
        intro x hx k hkx
        refine hkeys x (List.mem_cons_of_mem _ hx) k ?_
        rw [← hsame x.1]
        unfold portSaiIdOf at hkx ⊢
        rw [(dropUnplaced_frame _ _ _).2.1] at hkx
        exact hkx)
      rw [(dropUnplaced_frame _ _ _).2.2] at i1 i2 i3 i4 i5
      have hdrop : ∀ (member : PortSaiId × SaiLagMember) (t : SaiLagManager),
          (dropUnplaced member members t).lagStore = t.lagStore := by
        intro member t
        unfold dropUnplaced
        cases Table.find member.1 members <;> rfl
      rw [hdrop] at i6
      refine ⟨?_, ?_, ?_, ?_, ?_, ?_⟩
      · rw [i1]; show s2.concurrentIndices.portSaiIds = _; rw [hIdx2]
      · rw [i2]; show s2.concurrentIndices.portIds = _; rw [hIdx2]
      · rw [i3]; show s2.concurrentIndices.vlanIds = _; rw [hIdx2]
      · rw [i4]; show s2.concurrentIndices.aggregatePortIds = _; rw [hIdx2]
      · rw [i5]
        show s2.concurrentIndices.memberPort2AggregatePortIds.filter _ = _
        rw [hIdx2]
        exact Table.filter_emplace_of_mem keys _ _ _ hk
      · rw [i6]; exact hLagStore2

theorem destroyHandle_frame (handle : SaiLagHandle) (s : SaiLagManager) :
    (destroyHandle handle s).concurrentIndices = s.concurrentIndices ∧
    (destroyHandle handle s).portHandles = s.portHandles := by
  have hm : ∀ (members : List (PortSaiId × SaiLagMember)) (t : SaiLagManager),
      (releaseLagMembers members t).concurrentIndices = t.concurrentIndices ∧
      (releaseLagMembers members t).portHandles = t.portHandles := by
    intro members
    induction members with
    | nil => intro t; exact ⟨rfl, rfl⟩
    | cons e rest ih =>
      intro t
      simp only [releaseLagMembers]
      rw [(ih _).1, (ih _).2]
      exact ⟨rfl, rfl⟩
  unfold destroyHandle
  cases handle.lag with
  | none =>
    simp only []
    rw [(hm _ _).1, (hm _ _).2]
    cases handle.bridgePort <;> exact ⟨rfl, rfl⟩
  | some lag =>
    simp only []
    show (releaseLagMembers handle.members (releaseBridgePort handle.bridgePort s)).concurrentIndices = _ ∧
      (releaseLagMembers handle.members (releaseBridgePort handle.bridgePort s)).portHandles = _
    rw [(hm _ _).1, (hm _ _).2]
    cases handle.bridgePort <;> exact ⟨rfl, rfl⟩

/-- What `addLag` leaves in the index tables whenever it returns. -/
theorem addLag_indices (s s1 : SaiLagManager) (aggregatePort : AggregatePort)
    (lagSaiId : LagSaiId) (keys : List PortSaiId)
    (h : addLag aggregatePort s = .ok (lagSaiId, s1))
    (hkeys : ∀ p ∈ aggregatePort.sortedSubports, ∀ k ∈ portSaiIdOf s p, k ∈ keys) :
    lagSaiId = lagSaiIdFor aggregatePort s ∧
    (∃ vlanID, s1.concurrentIndices.vlanIds =
      Table.emplace (PortDescriptorSaiId.aggregate lagSaiId) vlanID
        s.concurrentIndices.vlanIds) ∧
    s1.concurrentIndices.aggregatePortIds =
      Table.emplace lagSaiId aggregatePort.id s.concurrentIndices.aggregatePortIds ∧
    s1.concurrentIndices.portIds = s.concurrentIndices.portIds ∧
    s1.concurrentIndices.portSaiIds = s.concurrentIndices.portSaiIds ∧
    s1.concurrentIndices.memberPort2AggregatePortIds.filter
        (fun e => decide (e.1 ∉ keys)) =
      s.concurrentIndices.memberPort2AggregatePortIds.filter
        (fun e => decide (e.1 ∉ keys)) := by
  cases hS : aggregatePort.sortedSubports with
  | nil => simp [addLag, hS] at h
  | cons subPort others =>
    cases hidx : Table.find subPort s.concurrentIndices.portSaiIds with
    | none => simp [addLag, hS, hidx] at h
    | some portSaiId =>
      cases hVlan : Table.find (PortDescriptorSaiId.physical portSaiId)
          s.concurrentIndices.vlanIds with
      | none => simp [addLag, hS, hidx, hVlan] at h
      | some vlanID =>
        simp only [addLag, hS, hidx, hVlan] at h
        have hid0 : (setObject (aggregatePort.name.take 32 ++
            List.replicate (32 - (aggregatePort.name.take 32).length) 0)
            ({ label := aggregatePort.name.take 32 ++
                List.replicate (32 - (aggregatePort.name.take 32).length) 0,
               vlan := vlanID } : SaiLagAttributes)
            s.nextAdapterKey s.lagStore).1 = lagSaiIdFor aggregatePort s := by
          rw [setObject_adapterKey]
          unfold lagSaiIdFor lagLabel
          generalize Table.find _ s.lagStore = o
          cases o <;> rfl
        generalize aggregatePort.name.take 32 ++
          List.replicate (32 - (aggregatePort.name.take 32).length) 0 = label at h hid0
        generalize setObject label ({ label := label, vlan := vlanID } : SaiLagAttributes)
          s.nextAdapterKey s.lagStore = r at h hid0
        generalize hrun : addLagMembers _ aggregatePort.id aggregatePort.subportAndFwdState []
          _ = run at h
        cases run with
        | error e => simp only [] at h; cases h
        | ok res =>
          obtain ⟨members1, s2⟩ := res
          obtain ⟨i1, i2, i3, i4, i5, -⟩ :=
            addLagMembers_indices _ _ keys _ _ _ _ _ hrun (by
              intro x hx k hk
              exact hkeys x.1 (List.mem_map_of_mem Prod.fst hx) k hk)
          simp only [Except.ok.injEq, Prod.mk.injEq] at h
          obtain ⟨hid, hs1⟩ := h
          subst hid
          have hci : s1.concurrentIndices =
              { s2.concurrentIndices with
                vlanIds := Table.emplace (PortDescriptorSaiId.aggregate r.1)
                  vlanID s2.concurrentIndices.vlanIds
                aggregatePortIds := Table.emplace r.1 aggregatePort.id
                  s2.concurrentIndices.aggregatePortIds } := by
            have hite : ∀ (b : Bool) (handle : SaiLagHandle) (t : SaiLagManager),
                (if b = true then t else destroyHandle handle t).concurrentIndices =
                  t.concurrentIndices := by
              intro b handle t
              cases b
              · exact (destroyHandle_frame handle t).1
              · rfl
            rw [← hs1, hite]
            rfl
          refine ⟨?_, ⟨vlanID, ?_⟩, ?_, ?_, ?_, ?_⟩
          · exact hid0
          · rw [hci]; show Table.emplace _ _ s2.concurrentIndices.vlanIds = _; rw [i3]; rfl
          · rw [hci]
            show Table.emplace _ _ s2.concurrentIndices.aggregatePortIds = _
            rw [i4]; rfl
          · rw [hci]; show s2.concurrentIndices.portIds = _; rw [i2]; rfl
          · rw [hci]; show s2.concurrentIndices.portSaiIds = _; rw [i1]; rfl
          · rw [hci]
            show s2.concurrentIndices.memberPort2AggregatePortIds.filter _ = _
            rw [i5]; rfl

theorem holdsBridgePort_of_assign {s s1 : SaiLagManager} {subPort : PortID}
    {portHandle portHandle1 : SaiPortHandle}
    (hPort : Table.find subPort s.portHandles = some portHandle)
    (hB : portHandle1.bridgePort.isSome)
    (h1 : s1.portHandles = Table.assign subPort portHandle1 s.portHandles) :
    holdsBridgePort s1 subPort = true ∧
    ∀ p, holdsBridgePort s p = true → holdsBridgePort s1 p = true := by
  constructor
  · unfold holdsBridgePort
    rw [h1, Table.find_assign]
    simp [hPort, hB]
  · intro p hp
    unfold holdsBridgePort at hp ⊢
    rw [h1, Table.find_assign]
    by_cases hq : p = subPort
    · subst hq; simp [hPort, hB]
    · simpa [hq] using hp

/-- The member loop of `removeLagHandle`, when the index portIds maps every member key to a
port whose port handle has that key: every member key leaves memberPort2AggregatePortIds, no
other entry of that table changes, and every member port holds a bridge port afterwards. -/
theorem removeLagHandleMembers_restores (aggPort : AggregatePortID) (fuel : Nat) :
    ∀ (s : SaiLagManager) (handle : SaiLagHandle),
      Table.find aggPort s.handles = some handle →
      handle.members.length ≤ fuel →
      (∀ k ∈ handle.members.map Prod.fst,
        (Table.find k s.concurrentIndices.portIds).bind (portSaiIdOf s) = some k) →
      ∃ s1, removeLagHandleMembers aggPort fuel s = .ok s1 ∧
        Table.find aggPort s1.handles = some { handle with members := [] } ∧
        s1.concurrentIndices.vlanIds = s.concurrentIndices.vlanIds ∧
        s1.concurrentIndices.aggregatePortIds = s.concurrentIndices.aggregatePortIds ∧
        (∀ keys : List PortSaiId, (∀ k ∈ handle.members.map Prod.fst, k ∈ keys) →
          s1.concurrentIndices.memberPort2AggregatePortIds.filter
              (fun e => decide (e.1 ∉ keys)) =
            s.concurrentIndices.memberPort2AggregatePortIds.filter
              (fun e => decide (e.1 ∉ keys))) ∧
        (∀ k ∈ handle.members.map Prod.fst,
          Table.find k s1.concurrentIndices.memberPort2AggregatePortIds = none) ∧
        (∀ k, Table.find k s.concurrentIndices.memberPort2AggregatePortIds = none →
          Table.find k s1.concurrentIndices.memberPort2AggregatePortIds = none) ∧
        (∀ k ∈ handle.members.map Prod.fst, ∀ p,
          Table.find k s.concurrentIndices.portIds = some p → holdsBridgePort s1 p = true) ∧
        (∀ p, holdsBridgePort s p = true → holdsBridgePort s1 p = true) := by
  induction fuel with
  | zero =>
    intro s handle hH hlen _
    have hnil : handle.members = [] := List.length_eq_zero.1 (Nat.le_zero.1 hlen)
    refine ⟨s, ?_, ?_, rfl, rfl, fun _ _ => rfl, ?_, fun _ h => h, ?_, fun _ h => h⟩
    · unfold removeLagHandleMembers
      simp only [hH, hnil]
    · rw [hH, ← hnil]
    · intro k hk; rw [hnil] at hk; cases hk
    · intro k hk; rw [hnil] at hk; cases hk
  | succ fuel ih =>
    intro s handle hH hlen hWF
    cases hM : handle.members with
    | nil =>
      refine ⟨s, ?_, ?_, rfl, rfl, fun _ _ => rfl, ?_, fun _ h => h, ?_, fun _ h => h⟩
      · unfold removeLagHandleMembers
        simp only [hH, hM]
      · rw [hH, ← hM]
      · intro k hk; cases hk
      · intro k hk; cases hk
    | cons e rest =>
      obtain ⟨k, member⟩ := e
      have hk := hWF k (by rw [hM]; simp)
      cases hI : Table.find k s.concurrentIndices.portIds with
      | none => simp [hI] at hk
      | some subPort =>
        rw [hI] at hk
        simp only [Option.bind_some, portSaiIdOf] at hk
        cases hP : Table.find subPort s.portHandles with
        | none => simp [hP] at hk
        | some portHandle =>
          have hKey : portHandle.port = k := by simpa [hP] using hk
          have hFind : Table.find portHandle.port handle.members = some member := by
            rw [hKey, hM]; simp [Table.find]
          obtain ⟨s1, h1, hHandles1, hPortHandles1, hIdx1, -, -, -, -⟩ :=
            removeMember_of_member hH hP hFind
          have hH1 : Table.find aggPort s1.handles =
              some { handle with members := Table.erase portHandle.port handle.members } := by
            rw [hHandles1, Table.find_assign, hH]; simp
          have hErase : Table.erase portHandle.port handle.members =
              Table.erase portHandle.port rest := by
            rw [hM, hKey]; simp [Table.erase, List.filter]
          have hlen1 : (Table.erase portHandle.port handle.members).length ≤ fuel := by
            have hle : (Table.erase portHandle.port rest).length ≤ rest.length := by
              unfold Table.erase
              exact List.length_filter_le _ _
            rw [hErase]
            rw [hM] at hlen
            simp only [List.length_cons] at hlen
            omega
          have hWF1 : ∀ k' ∈ (Table.erase portHandle.port handle.members).map Prod.fst,
              (Table.find k' s1.concurrentIndices.portIds).bind (portSaiIdOf s1) = some k' := by
            intro k' hk'
            have hmem := ((Table.mem_keys_erase _ _ _).1 hk').1
            have hold := hWF k' hmem
            have hsame : ∀ q, portSaiIdOf s1 q = portSaiIdOf s q :=
              portSaiIdOf_eq_of_assign { portHandle with
                bridgePort := some { portDescriptor := .physical subPort,
                                     saiId := .physical portHandle.port } }
                hP rfl hPortHandles1
            have hfun : portSaiIdOf s1 = portSaiIdOf s := funext hsame
            rw [hIdx1, hfun]
            exact hold
          obtain ⟨hB1, hMono1⟩ := holdsBridgePort_of_assign hP (by rfl) hPortHandles1
          obtain ⟨s2, h2, hH2, hVlan2, hAgg2, hFilter2, hGone2, hKeep2, hBridge2, hMono2⟩ :=
            ih s1 _ hH1 hlen1 hWF1
          have hm2a1 : s1.concurrentIndices.memberPort2AggregatePortIds =
              Table.erase k s.concurrentIndices.memberPort2AggregatePortIds := by
            rw [hIdx1, hKey]
          have hportIds1 : s1.concurrentIndices.portIds = s.concurrentIndices.portIds := by
            rw [hIdx1]
          refine ⟨s2, ?_, hH2, ?_, ?_, ?_, ?_, ?_, ?_, ?_⟩
          · unfold removeLagHandleMembers
            simp only [hH, hM, hI, h1]
            exact h2
          · rw [hVlan2, hIdx1]
          · rw [hAgg2, hIdx1]
          · intro keys hkeys
            rw [hFilter2 keys (fun k' hk' =>
              hkeys k' (by rw [← hM]; exact ((Table.mem_keys_erase _ _ _).1 hk').1)), hm2a1]
            exact Table.filter_erase_of_mem keys k _ (hkeys k (by simp))
          · intro k' hk'
            by_cases hkk : k' = k
            · subst hkk
              apply hKeep2
              rw [hm2a1, Table.find_erase]; simp
            · apply hGone2
              rw [Table.mem_keys_erase, hKey]
              refine ⟨by rw [hM]; exact hk', hkk⟩
          · intro k' hk'
            apply hKeep2
            rw [hm2a1, Table.find_erase]
            by_cases hkk : k' = k
            · simp [hkk]
            · simp [hkk, hk']
          · intro k' hk' p hp
            by_cases hkk : k' = k
            · subst hkk
              rw [hI] at hp
              cases hp
              exact hMono2 _ hB1
            · apply hBridge2 k' _ p (by rw [hportIds1]; exact hp)
              rw [Table.mem_keys_erase, hKey]
              refine ⟨by rw [hM]; exact hk', hkk⟩
          · intro p hp
            exact hMono2 p (hMono1 p hp)

/-- The state `removeLag` returns, given the state its member loop returns. -/
theorem removeLag_of_members {aggregatePort : AggregatePort} {s s2 : SaiLagManager}
    {handle handle2 : SaiLagHandle} {lag : SaiLag}
    (hH : Table.find aggregatePort.id s.handles = some handle)
    (hLoop : removeLagHandleMembers aggregatePort.id handle.members.length s = .ok s2)
    (hH2 : Table.find aggregatePort.id s2.handles = some handle2)
    (hLag : handle2.lag = some lag) :
    ∃ s3, removeLag aggregatePort s = .ok s3 ∧
      Table.find aggregatePort.id s3.handles = none ∧
      s3.portHandles = s2.portHandles ∧
      s3.concurrentIndices =
        { s2.concurrentIndices with
          vlanIds := Table.erase (PortDescriptorSaiId.aggregate lag.adapterKey)
            s2.concurrentIndices.vlanIds
          aggregatePortIds := Table.erase lag.adapterKey
            s2.concurrentIndices.aggregatePortIds } := by
  simp only [removeLag, hH, removeLagHandle, hLoop, hH2, hLag]
  refine ⟨_, rfl, ?_, ?_, ?_⟩
  · simp [Table.find_erase]
  · cases handle2.bridgePort <;> rfl
  · cases handle2.bridgePort <;> rfl

/-- C15 (amended): in a state in which the aggregate port id has no handle, the sub-ports are
distinct ports with port handles of distinct hardware ids known to the indices portSaiIds and
portIds, the first sub-port is in a VLAN, no sub-port has a memberPort2AggregatePortIds entry,
and the LAG id that `addLag` obtains for the label of the aggregate port has no vlanIds and no
aggregatePortIds entry yet, `addLag` followed by `removeLag` of the same aggregate port both
return, and afterwards the id has no handle, the tables vlanIds, aggregatePortIds and
memberPort2AggregatePortIds equal their values before `addLag`, and every sub-port holds a
standalone bridge port. -/
theorem addLag_removeLag_restores (s : SaiLagManager) (aggregatePort : AggregatePort)
    (hAbsent : getLagHandleIf aggregatePort.id s = none)
    (hNonEmpty : aggregatePort.subportAndFwdState ≠ [])
    (hNodup : aggregatePort.sortedSubports.Nodup)
    (hHandles : ∀ p ∈ aggregatePort.sortedSubports,
      (portSaiIdOf s p).isSome ∧
        Table.find p s.concurrentIndices.portSaiIds = portSaiIdOf s p)
    (hDistinct : ∀ p ∈ aggregatePort.sortedSubports, ∀ q ∈ aggregatePort.sortedSubports,
      portSaiIdOf s p = portSaiIdOf s q → p = q)
    (hVlan : ∀ p ∈ aggregatePort.sortedSubports.head?, ∀ k ∈ portSaiIdOf s p,
      (Table.find (PortDescriptorSaiId.physical k) s.concurrentIndices.vlanIds).isSome)
    (hPortIds : ∀ p ∈ aggregatePort.sortedSubports, ∀ k ∈ portSaiIdOf s p,
      Table.find k s.concurrentIndices.portIds = some p)
    (hNoOther : ∀ p ∈ aggregatePort.sortedSubports, ∀ k ∈ portSaiIdOf s p,
      Table.find k s.concurrentIndices.memberPort2AggregatePortIds = none)
    (hFreshVlan : Table.find (PortDescriptorSaiId.aggregate (lagSaiIdFor aggregatePort s))
      s.concurrentIndices.vlanIds = none)
    (hFreshAgg : Table.find (lagSaiIdFor aggregatePort s)
      s.concurrentIndices.aggregatePortIds = none) :
    ∃ lagSaiId s1 s2,
      addLag aggregatePort s = .ok (lagSaiId, s1) ∧
      removeLag aggregatePort s1 = .ok s2 ∧
      getLagHandleIf aggregatePort.id s2 = none ∧
      s2.concurrentIndices.vlanIds = s.concurrentIndices.vlanIds ∧
      s2.concurrentIndices.aggregatePortIds = s.concurrentIndices.aggregatePortIds ∧
      s2.concurrentIndices.memberPort2AggregatePortIds =
        s.concurrentIndices.memberPort2AggregatePortIds ∧
      ∀ p ∈ aggregatePort.sortedSubports, holdsBridgePort s2 p = true := by
  have hPorts := portsOk_of_state hHandles hDistinct
  have hP : ∀ e ∈ aggregatePort.subportAndFwdState, e.1 ∈ aggregatePort.sortedSubports :=
    fun e he => List.mem_map_of_mem Prod.fst he
  cases hO : aggregatePort.subportAndFwdState with
  | nil => exact absurd hO hNonEmpty
  | cons first rest =>
    have hfirstP := hP first (by rw [hO]; exact List.mem_cons_self _ _)
    have hv := hVlan first.1 (by simp [AggregatePort.sortedSubports, hO]) _
      (hPorts.handleOf first.1 hfirstP)
    cases hvl : Table.find (PortDescriptorSaiId.physical ((portSaiIdOf s first.1).getD 0))
        s.concurrentIndices.vlanIds with
    | none => simp [hvl] at hv
    | some vlanID =>
      obtain ⟨s1, lag, -, h1, hRep1, hPorts1, -, -, -, -⟩ :=
        addLag_represents aggregatePort hAbsent hNodup hPorts hP hO hvl
      obtain ⟨handle, hHandle, hLag, hM⟩ := hRep1
      -- the index tables after addLag
      obtain ⟨hId, ⟨vlan1, hVlan1⟩, hAgg1, hPortIds1, -, hFilter1⟩ :=
        addLag_indices s s1 aggregatePort lag.adapterKey
          (aggregatePort.sortedSubports.map (fun p => (portSaiIdOf s p).getD 0)) h1
          (by
            intro p hp k hk
            rw [hPorts.handleOf p hp] at hk
            cases hk
            exact List.mem_map_of_mem _ hp)
      -- the member loop of removeLag
      have hWF : ∀ k ∈ handle.members.map Prod.fst,
          (Table.find k s1.concurrentIndices.portIds).bind (portSaiIdOf s1) = some k := by
        intro k hk
        obtain ⟨e, he, rfl⟩ := (hM.keys k).1 hk
        rw [hPortIds1, hPortIds e.1 (hP e he) _ (hPorts.handleOf e.1 (hP e he))]
        exact hPorts1.handleOf e.1 (hP e he)
      obtain ⟨s2, h2, hH2, hVlan2, hAgg2, hFilter2, hGone2, -, hBridge2, -⟩ :=
        removeLagHandleMembers_restores aggregatePort.id handle.members.length s1 handle
          hHandle (Nat.le_refl _) hWF
      obtain ⟨s3, h3, hH3, hPortHandles3, hIdx3⟩ :=
        removeLag_of_members hHandle h2 hH2 hLag
      have hkeysMem : ∀ k ∈ handle.members.map Prod.fst,
          k ∈ aggregatePort.sortedSubports.map (fun p => (portSaiIdOf s p).getD 0) := by
        intro k hk
        obtain ⟨e, he, rfl⟩ := (hM.keys k).1 hk
        exact List.mem_map_of_mem _ (hP e he)
      have hmemKeys : ∀ p ∈ aggregatePort.sortedSubports,
          (portSaiIdOf s p).getD 0 ∈ handle.members.map Prod.fst := by
        intro p hp
        obtain ⟨e, he, rfl⟩ := List.mem_map.1 hp
        exact (hM.keys _).2 ⟨e, he, rfl⟩
      refine ⟨lag.adapterKey, s1, s3, h1, h3, hH3, ?_, ?_, ?_, ?_⟩
      · rw [hIdx3]
        show Table.erase _ s2.concurrentIndices.vlanIds = _
        rw [hVlan2, hVlan1, hId]
        exact Table.erase_emplace_of_absent _ _ _ hFreshVlan
      · rw [hIdx3]
        show Table.erase _ s2.concurrentIndices.aggregatePortIds = _
        rw [hAgg2, hAgg1, hId]
        exact Table.erase_emplace_of_absent _ _ _ hFreshAgg
      · rw [hIdx3]
        show s2.concurrentIndices.memberPort2AggregatePortIds = _
        have hA := Table.filter_eq_self_of_find_none
          (aggregatePort.sortedSubports.map (fun p => (portSaiIdOf s p).getD 0))
          s2.concurrentIndices.memberPort2AggregatePortIds (by
            intro k hk
            obtain ⟨p, hp, rfl⟩ := List.mem_map.1 hk
            exact hGone2 _ (hmemKeys p hp))
        have hB := Table.filter_eq_self_of_find_none
          (aggregatePort.sortedSubports.map (fun p => (portSaiIdOf s p).getD 0))
          s.concurrentIndices.memberPort2AggregatePortIds (by
            intro k hk
            obtain ⟨p, hp, rfl⟩ := List.mem_map.1 hk
            exact hNoOther p hp _ (hPorts.handleOf p hp))
        rw [← hA, hFilter2 _ hkeysMem, hFilter1, hB]
      · intro p hp
        have hb := hBridge2 _ (hmemKeys p hp) p (by
          rw [hPortIds1]
          exact hPortIds p hp _ (hPorts.handleOf p hp))
        unfold holdsBridgePort at hb ⊢
        rw [hPortHandles3]
        exact hb

end SaiLagManager

/-! ## Standalone bridge port or LAG member -/

theorem isMemberOf_iff (s : SaiLagManager) (a : AggregatePortID) (k : PortSaiId) :
    isMemberOf s a k = true ↔
      ∃ handle, Table.find a s.handles = some handle ∧
        (Table.find k handle.members).isSome = true := by
  unfold isMemberOf
  cases Table.find a s.handles with
  | none => simp
  | some handle => simp

theorem isMemberOf_congr {s s1 : SaiLagManager} (h : s1.handles = s.handles)
    (a : AggregatePortID) (k : PortSaiId) : isMemberOf s1 a k = isMemberOf s a k := by
  unfold isMemberOf
  rw [h]

theorem holdsBridgePort_congr {s s1 : SaiLagManager} (h : s1.portHandles = s.portHandles)
    (p : PortID) : holdsBridgePort s1 p = holdsBridgePort s p := by
  unfold holdsBridgePort
  rw [h]

theorem portSaiIdOf_congr {s s1 : SaiLagManager} (h : s1.portHandles = s.portHandles)
    (p : PortID) : portSaiIdOf s1 p = portSaiIdOf s p := by
  unfold portSaiIdOf
  rw [h]

theorem exclusive_weaken {s s1 : SaiLagManager}
    (hSai : ∀ q, portSaiIdOf s1 q = portSaiIdOf s q)
    (hB : ∀ q, holdsBridgePort s1 q = true → holdsBridgePort s q = true)
    (hM : ∀ b k, isMemberOf s1 b k = true → isMemberOf s b k = true)
    (h : Exclusive s) : Exclusive s1 := by
  refine ⟨?_, ?_, ?_⟩
  · intro p q k hp hq
    rw [hSai] at hp hq
    exact h.distinct p q k hp hq
  · intro p k a hb hp
    rw [hSai] at hp
    have := h.exclusive p k a (hB p hb) hp
    cases hx : isMemberOf s1 a k with
    | false => rfl
    | true => rw [hM a k hx] at this; cases this
  · intro k a b ha hb
    exact h.single k a b (hM a k ha) (hM b k hb)

theorem notInOtherLag_weaken {s s1 : SaiLagManager} {a : AggregatePortID} {p : PortID}
    (hSai : ∀ q, portSaiIdOf s1 q = portSaiIdOf s q)
    (hM : ∀ b k, b ≠ a → isMemberOf s1 b k = true → isMemberOf s b k = true)
    (h : NotInOtherLag s a p) : NotInOtherLag s1 a p := by
  intro k b hk hb
  rw [hSai] at hk
  have := h k b hk hb
  cases hx : isMemberOf s1 b k with
  | false => rfl
  | true => rw [hM b k hb hx] at this; cases this

theorem exclusive_congr {s s1 : SaiLagManager} (hH : s1.handles = s.handles)
    (hP : s1.portHandles = s.portHandles) (h : Exclusive s) : Exclusive s1 :=
  exclusive_weaken (portSaiIdOf_congr hP)
    (fun q hq => by rw [← holdsBridgePort_congr hP]; exact hq)
    (fun b k hx => by rw [← isMemberOf_congr hH]; exact hx) h

namespace SaiLagManager

/-- A returning `removeMember` keeps the hardware ids of the ports, enlarges no member map, and
keeps the exclusion of bridge port and membership. -/
theorem removeMember_exclusive {aggPort : AggregatePortID} {subPort : PortID}
    {s s1 : SaiLagManager} (h : removeMember aggPort subPort s = .ok s1)
    (hE : Exclusive s) :
    Exclusive s1 ∧ (∀ q, portSaiIdOf s1 q = portSaiIdOf s q) ∧
      (∀ b k, isMemberOf s1 b k = true → isMemberOf s b k = true) := by
  cases hH : Table.find aggPort s.handles with
  | none => simp [removeMember, hH] at h
  | some handle =>
    rcases removeMember_inv hH h with hs | ⟨portHandle, member, hP, hM, hHandles, hPorts, -⟩
    · subst hs
      exact ⟨hE, fun _ => rfl, fun _ _ hx => hx⟩
    · have hSai : ∀ q, portSaiIdOf s1 q = portSaiIdOf s q :=
        portSaiIdOf_eq_of_assign { portHandle with
          bridgePort := some { portDescriptor := .physical subPort,
                               saiId := .physical portHandle.port } }
          hP rfl hPorts
      have hMem : ∀ b k, isMemberOf s1 b k = true →
          isMemberOf s b k = true ∧ ¬ (b = aggPort ∧ k = portHandle.port) := by
        intro b k hx
        rw [isMemberOf_iff] at hx
        obtain ⟨handle1, hF, hK⟩ := hx
        rw [hHandles, Table.find_assign] at hF
        by_cases hb : b = aggPort
        · subst hb
          simp only [if_true, hH, Option.map_some', Option.some.injEq] at hF
          subst hF
          simp only [Table.find_erase] at hK
          by_cases hk : k = portHandle.port
          · simp [hk] at hK
          · simp only [hk, if_false] at hK
            refine ⟨(isMemberOf_iff _ _ _).2 ⟨handle, hH, hK⟩, fun hx => hk hx.2⟩
        · simp only [hb, if_false] at hF
          exact ⟨(isMemberOf_iff _ _ _).2 ⟨handle1, hF, hK⟩, fun hx => hb hx.1⟩
      have hHold : ∀ q, holdsBridgePort s1 q = true →
          q = subPort ∨ holdsBridgePort s q = true := by
        intro q hq
        by_cases hqp : q = subPort
        · exact Or.inl hqp
        · right
          unfold holdsBridgePort at hq ⊢
          rw [hPorts, Table.find_assign] at hq
          simpa [hqp] using hq
      refine ⟨⟨?_, ?_, ?_⟩, hSai, fun b k hx => (hMem b k hx).1⟩
      · intro p q k hp hq
        rw [hSai] at hp hq
        exact hE.distinct p q k hp hq
      · intro q k b hq hk
        rw [hSai] at hk
        cases hx : isMemberOf s1 b k with
        | false => rfl
        | true =>
          exfalso
          obtain ⟨hb, hne⟩ := hMem b k hx
          rcases hHold q hq with hqp | hqs
          · subst hqp
            have hkk : k = portHandle.port := by
              unfold portSaiIdOf at hk
              rw [hP] at hk
              simpa using hk.symm
            have ha : isMemberOf s aggPort k = true :=
              (isMemberOf_iff _ _ _).2 ⟨handle, hH, by rw [hkk, hM]; rfl⟩
            exact hne ⟨hE.single k b aggPort hb ha, hkk⟩
          · rw [hE.exclusive q k b hqs hk] at hb
            cases hb
      · intro k a b ha hb
        exact hE.single k a b (hMem a k ha).1 (hMem b k hb).1

end SaiLagManager

theorem Table.find_orderedEmplace_isSome {W : Type} (k k' : Nat) (v : W) (m : List (Nat × W))
    (h : (Table.find k' (Table.orderedEmplace k v m)).isSome = true) :
    (Table.find k' m).isSome = true ∨ k' = k := by
  unfold Table.orderedEmplace at h
  cases hk : Table.find k m with
  | some x =>
    simp only [hk] at h
    exact Or.inl h
  | none =>
    simp only [hk] at h
    rw [Table.find_insertOrdered k k' v m hk] at h
    by_cases hkk : k' = k
    · exact Or.inr hkk
    · simp only [hkk, if_false] at h
      exact Or.inl h

namespace SaiLagManager

theorem addMember_inv {lag : SaiLag} {aggregatePortID : AggregatePortID} {subPort : PortID}
    {s s1 : SaiLagManager} {member : PortSaiId × SaiLagMember}
    (h : addMember lag aggregatePortID subPort s = .ok (member, s1)) :
    ∃ portHandle, Table.find subPort s.portHandles = some portHandle ∧
      member.1 = portHandle.port ∧
      s1.handles = s.handles ∧
      s1.portHandles =
        Table.assign subPort { portHandle with bridgePort := none } s.portHandles := by
  cases hP : Table.find subPort s.portHandles with
  | none => simp [addMember, hP] at h
  | some portHandle =>
    obtain ⟨s2, h2, hH2, hP2, -⟩ := addMember_of_portHandle (s := s) lag aggregatePortID hP
    rw [h2] at h
    simp only [Except.ok.injEq, Prod.mk.injEq] at h
    obtain ⟨hm, hs⟩ := h
    subst hs
    subst hm
    exact ⟨portHandle, rfl, rfl, hH2, hP2⟩

theorem setMemberState_frame {member : SaiLagMember} {fwdState : Forwarding}
    {s s1 : SaiLagManager} (h : setMemberState member fwdState s = .ok s1) :
    s1.handles = s.handles ∧ s1.portHandles = s.portHandles := by
  cases hO : Table.find member s.lagMemberStore with
  | none => simp [setMemberState, hO] at h
  | some object =>
    rw [setMemberState_of_object fwdState hO] at h
    simp only [Except.ok.injEq] at h
    subst h
    exact ⟨rfl, rfl⟩

/-- A returning `addMember` clears the bridge port of the sub-port and changes neither the
hardware ids nor any member map. -/
theorem addMember_observed {lag : SaiLag} {aggregatePortID : AggregatePortID}
    {subPort : PortID} {s s1 : SaiLagManager} {member : PortSaiId × SaiLagMember}
    (h : addMember lag aggregatePortID subPort s = .ok (member, s1)) :
    portSaiIdOf s subPort = some member.1 ∧
    s1.handles = s.handles ∧
    (∀ q, portSaiIdOf s1 q = portSaiIdOf s q) ∧
    holdsBridgePort s1 subPort = false ∧
    (∀ q, holdsBridgePort s1 q = true → holdsBridgePort s q = true) := by
  obtain ⟨portHandle, hP, hm, hH, hPorts⟩ := addMember_inv h
  refine ⟨?_, hH, ?_, ?_, ?_⟩
  · unfold portSaiIdOf
    rw [hP, hm]; rfl
  · exact portSaiIdOf_eq_of_assign { portHandle with bridgePort := none } hP rfl hPorts
  · unfold holdsBridgePort
    rw [hPorts, Table.find_assign]
    simp [hP]
  · intro q hq
    unfold holdsBridgePort at hq ⊢
    rw [hPorts, Table.find_assign] at hq
    by_cases hqp : q = subPort
    · simp [hqp, hP] at hq
    · simpa [hqp] using hq

theorem emplaceMember_observed (aggPort : AggregatePortID)
    (member : PortSaiId × SaiLagMember) (s : SaiLagManager) :
    (emplaceMember aggPort member s).portHandles = s.portHandles ∧
    (∀ b k, isMemberOf (emplaceMember aggPort member s) b k = true →
      isMemberOf s b k = true ∨ (b = aggPort ∧ k = member.1)) := by
  unfold emplaceMember
  cases hH : Table.find aggPort s.handles with
  | none => exact ⟨rfl, fun b k hx => Or.inl hx⟩
  | some handle =>
    simp only []
    refine ⟨by rw [(dropUnplaced_frame _ _ _).2.1]; rfl, ?_⟩
    intro b k hx
    rw [isMemberOf_iff, (dropUnplaced_frame _ _ _).1] at hx
    obtain ⟨handle1, hF, hK⟩ := hx
    simp only [updateHandle, Table.find_assign] at hF
    by_cases hb : b = aggPort
    · subst hb
      simp only [if_true, hH, Option.map_some', Option.some.injEq] at hF
      subst hF
      rcases Table.find_orderedEmplace_isSome _ _ _ _ hK with hk | hk
      · exact Or.inl ((isMemberOf_iff _ _ _).2 ⟨handle, hH, hk⟩)
      · exact Or.inr ⟨rfl, hk⟩
    · simp only [hb, if_false] at hF
      exact Or.inl ((isMemberOf_iff _ _ _).2 ⟨handle1, hF, hK⟩)

/-- The exclusion of bridge port and membership, together with the sub-ports `ports` being
members of no handle other than the handle of `aggPort`. -/
theorem changeLagAdd_exclusive {oldID newID : AggregatePortID} {entry : PortID × Forwarding}
    {s s1 : SaiLagManager} (h : changeLagAdd oldID newID entry s = .ok s1)
    (hE : Exclusive s) (hN : NotInOtherLag s oldID entry.1) :
    Exclusive s1 ∧ (∀ q, portSaiIdOf s1 q = portSaiIdOf s q) ∧
      (∀ b k, b ≠ oldID → isMemberOf s1 b k = true → isMemberOf s b k = true) := by
  unfold changeLagAdd at h
  cases hH : Table.find oldID s.handles with
  | none => simp [hH] at h
  | some handle =>
    cases hL : handle.lag with
    | none => simp [hH, hL] at h
    | some lag =>
      simp only [hH, hL] at h
      cases hA : addMember lag newID entry.1 (issue (.addMember entry.1) s) with
      | error e => simp [hA] at h
      | ok r =>
        obtain ⟨member, sA⟩ := r
        simp only [hA] at h
        cases hS : setMemberState member.2 entry.2 (issue (.setMemberState entry.1 entry.2) sA) with
        | error e => simp [hS] at h
        | ok sB =>
          simp only [hS, Except.ok.injEq] at h
          obtain ⟨hKey, hHA, hSaiA, hClear, hMonoA⟩ := addMember_observed hA
          obtain ⟨hHB, hPB⟩ := setMemberState_frame hS
          obtain ⟨hPC, hMC⟩ := emplaceMember_observed oldID member sB
          rw [h] at hPC hMC
          have hPorts1 : s1.portHandles = sA.portHandles := by rw [hPC, hPB]; rfl
          have hSai : ∀ q, portSaiIdOf s1 q = portSaiIdOf s q := by
            intro q
            rw [portSaiIdOf_congr hPorts1, hSaiA]; rfl
          have hKey0 : portSaiIdOf s entry.1 = some member.1 := hKey
          have hMemB : ∀ b k, isMemberOf sB b k = isMemberOf s b k := by
            intro b k
            rw [isMemberOf_congr hHB]
            show isMemberOf sA b k = _
            rw [isMemberOf_congr hHA]; rfl
          have hMem : ∀ b k, isMemberOf s1 b k = true →
              isMemberOf s b k = true ∨ (b = oldID ∧ k = member.1) := by
            intro b k hx
            rcases hMC b k hx with hy | hy
            · rw [hMemB] at hy; exact Or.inl hy
            · exact Or.inr hy
          have hHold : ∀ q, holdsBridgePort s1 q = true →
              holdsBridgePort s q = true ∧ q ≠ entry.1 := by
            intro q hq
            rw [holdsBridgePort_congr hPorts1] at hq
            refine ⟨hMonoA q hq, ?_⟩
            intro hqe
            rw [hqe, hClear] at hq
            cases hq
          refine ⟨⟨?_, ?_, ?_⟩, hSai, ?_⟩
          · intro p q k hp hq
            rw [hSai] at hp hq
            exact hE.distinct p q k hp hq
          · intro q k b hq hk
            rw [hSai] at hk
            obtain ⟨hqs, hne⟩ := hHold q hq
            cases hx : isMemberOf s1 b k with
            | false => rfl
            | true =>
              exfalso
              rcases hMem b k hx with hy | ⟨-, hy⟩
              · rw [hE.exclusive q k b hqs hk] at hy; cases hy
              · rw [hy] at hk
                exact hne (hE.distinct q entry.1 member.1 hk hKey0)
          · intro k a b ha hb
            rcases hMem a k ha with hya | ⟨hya, hka⟩ <;>
              rcases hMem b k hb with hyb | ⟨hyb, hkb⟩
            · exact hE.single k a b hya hyb
            · by_contra hab
              have := hN k a (by rw [hkb]; exact hKey0) (by rw [← hyb]; exact hab)
              rw [this] at hya; cases hya
            · by_contra hab
              have := hN k b (by rw [hka]; exact hKey0)
                (by rw [← hya]; exact fun hx => hab hx.symm)
              rw [this] at hyb; cases hyb
            · rw [hya, hyb]
          · intro b k hb hx
            rcases hMem b k hx with hy | ⟨hy, -⟩
            · exact hy
            · exact absurd hy hb

theorem removeMember_disjoint {aggPort : AggregatePortID} {subPort : PortID}
    {ports : List PortID} {s s1 : SaiLagManager}
    (h : removeMember aggPort subPort s = .ok s1)
    (hQ : Exclusive s ∧ ∀ p ∈ ports, NotInOtherLag s aggPort p) :
    Exclusive s1 ∧ ∀ p ∈ ports, NotInOtherLag s1 aggPort p := by
  obtain ⟨hE1, hSai, hM⟩ := removeMember_exclusive h hQ.1
  exact ⟨hE1, fun p hp => notInOtherLag_weaken hSai (fun b k _ hx => hM b k hx) (hQ.2 p hp)⟩

theorem changeLagAdd_disjoint {oldID newID : AggregatePortID} {entry : PortID × Forwarding}
    {ports : List PortID} {s s1 : SaiLagManager}
    (h : changeLagAdd oldID newID entry s = .ok s1) (hp : entry.1 ∈ ports)
    (hQ : Exclusive s ∧ ∀ p ∈ ports, NotInOtherLag s oldID p) :
    Exclusive s1 ∧ ∀ p ∈ ports, NotInOtherLag s1 oldID p := by
  obtain ⟨hE1, hSai, hM⟩ := changeLagAdd_exclusive h hQ.1 (hQ.2 _ hp)
  exact ⟨hE1, fun p hp => notInOtherLag_weaken hSai hM (hQ.2 p hp)⟩

theorem disjoint_congr {aggPort : AggregatePortID} {ports : List PortID}
    {s s1 : SaiLagManager} (hH : s1.handles = s.handles)
    (hP : s1.portHandles = s.portHandles)
    (hQ : Exclusive s ∧ ∀ p ∈ ports, NotInOtherLag s aggPort p) :
    Exclusive s1 ∧ ∀ p ∈ ports, NotInOtherLag s1 aggPort p :=
  ⟨exclusive_congr hH hP hQ.1, fun p hp => notInOtherLag_weaken (portSaiIdOf_congr hP)
    (fun b k _ hx => by rw [← isMemberOf_congr hH]; exact hx) (hQ.2 p hp)⟩

theorem changeLagRemoveRest_disjoint (oldID : AggregatePortID) (ports : List PortID)
    (xs : List (PortID × Forwarding)) :
    ∀ (s s1 : SaiLagManager) (cursor : List (PortID × Forwarding)),
      changeLagRemoveRest oldID xs s = .ok (cursor, s1) →
      (Exclusive s ∧ ∀ p ∈ ports, NotInOtherLag s oldID p) →
      Exclusive s1 ∧ ∀ p ∈ ports, NotInOtherLag s1 oldID p := by
  induction xs with
  | nil =>
    intro s s1 cursor h hQ
    simp only [changeLagRemoveRest, Except.ok.injEq, Prod.mk.injEq] at h
    rw [← h.2]; exact hQ
  | cons x rest ih =>
    intro s s1 cursor h hQ
    simp only [changeLagRemoveRest] at h
    cases hR : removeMember oldID x.1 (issue (.removeMember x.1) s) with
    | error e => simp [hR] at h
    | ok s2 =>
      simp only [hR] at h
      exact ih _ _ _ h (removeMember_disjoint hR
        (disjoint_congr (s := s) rfl rfl hQ))

theorem changeLagAddRest_disjoint (oldID newID : AggregatePortID) (ports : List PortID)
    (xs : List (PortID × Forwarding)) :
    ∀ (s s1 : SaiLagManager) (cursor : List (PortID × Forwarding)),
      changeLagAddRest oldID newID xs s = .ok (cursor, s1) →
      (∀ x ∈ xs, x.1 ∈ ports) →
      (Exclusive s ∧ ∀ p ∈ ports, NotInOtherLag s oldID p) →
      cursor = [] ∧ Exclusive s1 ∧ ∀ p ∈ ports, NotInOtherLag s1 oldID p := by
  induction xs with
  | nil =>
    intro s s1 cursor h _ hQ
    simp only [changeLagAddRest, Except.ok.injEq, Prod.mk.injEq] at h
    rw [← h.2, ← h.1]; exact ⟨rfl, hQ⟩
  | cons x rest ih =>
    intro s s1 cursor h hxs hQ
    simp only [changeLagAddRest] at h
    cases hR : changeLagAdd oldID newID x s with
    | error e => simp [hR] at h
    | ok s2 =>
      simp only [hR] at h
      exact ih _ _ _ h (fun y hy => hxs y (List.mem_cons_of_mem _ hy))
        (changeLagAdd_disjoint hR (hxs x (List.mem_cons_self _ _)) hQ)

theorem changeLagCompare_disjoint {oldID newID : AggregatePortID} {ports : List PortID}
    {o n : PortID × Forwarding} {oldRest newRest oldIter newIter : List (PortID × Forwarding)}
    {s s1 : SaiLagManager}
    (h : changeLagCompare oldID newID o oldRest n newRest s = .ok (oldIter, newIter, s1))
    (hnew : ∀ x ∈ n :: newRest, x.1 ∈ ports)
    (hQ : Exclusive s ∧ ∀ p ∈ ports, NotInOtherLag s oldID p) :
    (∀ x ∈ newIter, x.1 ∈ ports) ∧
      Exclusive s1 ∧ ∀ p ∈ ports, NotInOtherLag s1 oldID p := by
  unfold changeLagCompare at h
  have hrest : ∀ x ∈ newRest, x.1 ∈ ports := fun x hx => hnew x (List.mem_cons_of_mem _ hx)
  by_cases h1 : o.1 < n.1
  · simp only [h1, if_true] at h
    cases hR : removeMember oldID o.1 (issue (.removeMember o.1) s) with
    | error e => simp [hR] at h
    | ok s2 =>
      simp only [hR, Except.ok.injEq, Prod.mk.injEq] at h
      obtain ⟨-, hn, hs⟩ := h
      subst hn; subst hs
      exact ⟨hnew, removeMember_disjoint hR (disjoint_congr (s := s) rfl rfl hQ)⟩
  · by_cases h2 : n.1 < o.1
    · simp only [h1, h2, if_true, if_false] at h
      cases hR : changeLagAdd oldID newID n s with
      | error e => simp [hR] at h
      | ok s2 =>
        simp only [hR, Except.ok.injEq, Prod.mk.injEq] at h
        obtain ⟨-, hn, hs⟩ := h
        subst hn; subst hs
        exact ⟨hrest, changeLagAdd_disjoint hR (hnew n (List.mem_cons_self _ _)) hQ⟩
    · by_cases h3 : o.2 ≠ n.2
      · rw [if_neg h1, if_neg h2, if_pos h3] at h
        cases hH : Table.find oldID s.handles with
        | none => simp [hH] at h
        | some handle =>
          simp only [hH] at h
          cases hG : getMember handle n.1 s with
          | error e => simp [hG] at h
          | ok member =>
            simp only [hG] at h
            cases hS : setMemberState member n.2 (issue (.setMemberState n.1 n.2) s) with
            | error e => simp [hS] at h
            | ok s2 =>
              simp only [hS, Except.ok.injEq, Prod.mk.injEq] at h
              obtain ⟨-, hn, hs⟩ := h
              subst hn; subst hs
              obtain ⟨hH2, hP2⟩ := setMemberState_frame hS
              exact ⟨hrest, disjoint_congr (s := s) hH2 hP2 hQ⟩
      · rw [if_neg h1, if_neg h2, if_neg h3] at h
        simp only [Except.ok.injEq, Prod.mk.injEq] at h
        obtain ⟨-, hn, hs⟩ := h
        subst hn; subst hs
        exact ⟨hnew, hQ⟩

theorem changeLagLoop_disjoint (oldID newID : AggregatePortID) (ports : List PortID)
    (fuel : Nat) :
    ∀ (oldIter newIter : List (PortID × Forwarding)) (s s1 : SaiLagManager),
      changeLagLoop oldID newID fuel oldIter newIter s = .ok s1 →
      (∀ x ∈ newIter, x.1 ∈ ports) →
      (Exclusive s ∧ ∀ p ∈ ports, NotInOtherLag s oldID p) →
      Exclusive s1 ∧ ∀ p ∈ ports, NotInOtherLag s1 oldID p := by
  induction fuel with
  | zero =>
    intro oldIter newIter s s1 h _ hQ
    cases oldIter with
    | nil => simp only [changeLagLoop, Except.ok.injEq] at h; rw [← h]; exact hQ
    | cons o oldRest =>
      cases newIter with
      | nil => simp only [changeLagLoop, Except.ok.injEq] at h; rw [← h]; exact hQ
      | cons n newRest => simp [changeLagLoop] at h
  | succ fuel ih =>
    intro oldIter newIter s s1 h hnew hQ
    cases oldIter with
    | nil => simp only [changeLagLoop, Except.ok.injEq] at h; rw [← h]; exact hQ
    | cons o oldRest =>
      cases newIter with
      | nil => simp only [changeLagLoop, Except.ok.injEq] at h; rw [← h]; exact hQ
      | cons n newRest =>
        simp only [changeLagLoop] at h
        cases hC : changeLagCompare oldID newID o oldRest n newRest s with
        | error e => simp [hC] at h
        | ok r =>
          obtain ⟨oldIter1, newIter1, sC⟩ := r
          simp only [hC] at h
          obtain ⟨hnew1, hQC⟩ := changeLagCompare_disjoint hC hnew hQ
          cases hR : changeLagRemoveRest oldID oldIter1 sC with
          | error e => simp [hR] at h
          | ok r2 =>
            obtain ⟨oldIter2, sR⟩ := r2
            simp only [hR] at h
            have hQR := changeLagRemoveRest_disjoint oldID ports _ _ _ _ hR hQC
            cases hA : changeLagAddRest oldID newID newIter1 sR with
            | error e => simp [hA] at h
            | ok r3 =>
              obtain ⟨newIter2, sA⟩ := r3
              simp only [hA] at h
              obtain ⟨hnil, hQA⟩ :=
                changeLagAddRest_disjoint oldID newID ports _ _ _ _ hA hnew1 hQR
              exact ih _ _ _ _ h (by rw [hnil]; intro x hx; cases hx) hQA

/-- A returning `changeLag` keeps the exclusion of bridge port and membership when no sub-port
of the new aggregate port is a member of another LAG handle. -/
theorem changeLag_exclusive {oldAggregatePort newAggregatePort : AggregatePort}
    {s s1 : SaiLagManager}
    (h : changeLag oldAggregatePort newAggregatePort s = .ok s1) (hE : Exclusive s)
    (hN : ∀ p ∈ newAggregatePort.sortedSubports, NotInOtherLag s oldAggregatePort.id p) :
    Exclusive s1 := by
  unfold changeLag at h
  cases hH : Table.find oldAggregatePort.id s.handles with
  | none => simp [hH] at h
  | some handle =>
    simp only [hH] at h
    have hMem : ∀ b k, isMemberOf (updateHandle oldAggregatePort.id
        { handle with minimumLinkCount := newAggregatePort.minimumLinkCount } s) b k = true →
        isMemberOf s b k = true := by
      intro b k hx
      rw [isMemberOf_iff] at hx ⊢
      obtain ⟨handle1, hF, hK⟩ := hx
      simp only [updateHandle, Table.find_assign] at hF
      by_cases hb : b = oldAggregatePort.id
      · subst hb
        simp only [if_true, hH, Option.map_some', Option.some.injEq] at hF
        subst hF
        exact ⟨handle, hH, hK⟩
      · simp only [hb, if_false] at hF
        exact ⟨handle1, hF, hK⟩
    have hQ0 : Exclusive (updateHandle oldAggregatePort.id
        { handle with minimumLinkCount := newAggregatePort.minimumLinkCount } s) ∧
        ∀ p ∈ newAggregatePort.sortedSubports,
          NotInOtherLag (updateHandle oldAggregatePort.id
            { handle with minimumLinkCount := newAggregatePort.minimumLinkCount } s)
            oldAggregatePort.id p :=
      ⟨exclusive_weaken (s := s) (fun _ => rfl) (fun _ hq => hq) hMem hE,
        fun p hp => notInOtherLag_weaken (s := s) (fun _ => rfl)
          (fun b k _ hx => hMem b k hx) (hN p hp)⟩
    exact (changeLagLoop_disjoint _ _ _ _ _ _ _ _ h
      (fun x hx => List.mem_map_of_mem Prod.fst hx) hQ0).1

theorem removeLagHandleMembers_exclusive (aggPort : AggregatePortID) (fuel : Nat) :
    ∀ (s s1 : SaiLagManager),
      removeLagHandleMembers aggPort fuel s = .ok s1 → Exclusive s →
      Exclusive s1 ∧ (∀ q, portSaiIdOf s1 q = portSaiIdOf s q) ∧
        (∀ b k, isMemberOf s1 b k = true → isMemberOf s b k = true) := by
  induction fuel with
  | zero =>
    intro s s1 h hE
    unfold removeLagHandleMembers at h
    cases hH : Table.find aggPort s.handles with
    | none => simp [hH] at h
    | some handle =>
      cases hM : handle.members with
      | nil =>
        simp only [hH, hM, Except.ok.injEq] at h
        subst h
        exact ⟨hE, fun _ => rfl, fun _ _ hx => hx⟩
      | cons e rest => simp [hH, hM] at h
  | succ fuel ih =>
    intro s s1 h hE
    unfold removeLagHandleMembers at h
    cases hH : Table.find aggPort s.handles with
    | none => simp [hH] at h
    | some handle =>
      cases hM : handle.members with
      | nil =>
        simp only [hH, hM, Except.ok.injEq] at h
        subst h
        exact ⟨hE, fun _ => rfl, fun _ _ hx => hx⟩
      | cons e rest =>
        obtain ⟨k, member⟩ := e
        simp only [hH, hM] at h
        cases hI : Table.find k s.concurrentIndices.portIds with
        | none => simp [hI] at h
        | some subPort =>
          simp only [hI] at h
          cases hR : removeMember aggPort subPort s with
          | error e => simp [hR] at h
          | ok s2 =>
            simp only [hR] at h
            obtain ⟨hE2, hSai2, hM2⟩ := removeMember_exclusive hR hE
            obtain ⟨hE1, hSai1, hM1⟩ := ih s2 s1 h hE2
            exact ⟨hE1, fun q => (hSai1 q).trans (hSai2 q),
              fun b k hx => hM2 b k (hM1 b k hx)⟩

/-- A returning `removeLag` keeps the exclusion of bridge port and membership. -/
theorem removeLag_exclusive {aggregatePort : AggregatePort} {s s1 : SaiLagManager}
    (h : removeLag aggregatePort s = .ok s1) (hE : Exclusive s) : Exclusive s1 := by
  unfold removeLag at h
  cases hH : Table.find aggregatePort.id s.handles with
  | none => simp [hH] at h
  | some handle =>
    simp only [hH, removeLagHandle] at h
    cases hL : removeLagHandleMembers aggregatePort.id handle.members.length s with
    | error e => simp [hL] at h
    | ok s2 =>
      simp only [hL] at h
      obtain ⟨hE2, -, -⟩ := removeLagHandleMembers_exclusive _ _ _ _ hL hE
      cases hH2 : Table.find aggregatePort.id s2.handles with
      | none => simp [hH2] at h
      | some handle2 =>
        simp only [hH2] at h
        cases hLag : handle2.lag with
        | none => simp [hLag] at h
        | some lag =>
          simp only [hLag, Except.ok.injEq] at h
          have hPorts : s1.portHandles = s2.portHandles := by
            rw [← h]
            cases handle2.bridgePort <;> rfl
          have hHandles : ∀ b, b ≠ aggregatePort.id →
              Table.find b s1.handles = Table.find b s2.handles := by
            intro b hb
            rw [← h]
            cases handle2.bridgePort <;>
              simp [updateHandle, releaseLag, releaseBridgePort, emit, Table.find_erase,
                Table.find_assign, hb]
          have hGone : Table.find aggregatePort.id s1.handles = none := by
            rw [← h]
            simp [Table.find_erase]
          refine exclusive_weaken (s := s2) (portSaiIdOf_congr hPorts)
            (fun q hq => by rw [← holdsBridgePort_congr hPorts]; exact hq) ?_ hE2
          intro b k hx
          by_cases hb : b = aggregatePort.id
          · subst hb
            unfold isMemberOf at hx
            rw [hGone] at hx
            cases hx
          · unfold isMemberOf at hx ⊢
            rw [hHandles b hb] at hx
            exact hx

theorem addLagMembers_observed (lag : SaiLag) (aggregatePortID : AggregatePortID)
    (xs : List (PortID × Forwarding)) :
    ∀ (members members1 : List (PortSaiId × SaiLagMember)) (s s1 : SaiLagManager),
      addLagMembers lag aggregatePortID xs members s = .ok (members1, s1) →
      s1.handles = s.handles ∧
      (∀ q, portSaiIdOf s1 q = portSaiIdOf s q) ∧
      (∀ q, holdsBridgePort s1 q = true → holdsBridgePort s q = true) ∧
      (∀ x ∈ xs, holdsBridgePort s1 x.1 = false) ∧
      (∀ k, (Table.find k members1).isSome = true →
        (Table.find k members).isSome = true ∨ ∃ x ∈ xs, portSaiIdOf s x.1 = some k) := by
  induction xs with
  | nil =>
    intro members members1 s s1 h
    simp only [addLagMembers, Except.ok.injEq, Prod.mk.injEq] at h
    obtain ⟨hm, hs⟩ := h
    subst hm; subst hs
    exact ⟨rfl, fun _ => rfl, fun _ hq => hq, fun x hx => (by cases hx),
      fun k hk => Or.inl hk⟩
  | cons x rest ih =>
    intro members members1 s s1 h
    obtain ⟨p, fwdState⟩ := x
    simp only [addLagMembers] at h
    cases hA : addMember lag aggregatePortID p s with
    | error e => simp [hA] at h
    | ok r =>
      obtain ⟨member, sA⟩ := r
      simp only [hA] at h
      cases hS : setMemberState member.2 fwdState sA with
      | error e => simp [hS] at h
      | ok sB =>
        simp only [hS] at h
        obtain ⟨hKey, hHA, hSaiA, hClear, hMonoA⟩ := addMember_observed hA
        obtain ⟨hHB, hPB⟩ := setMemberState_frame hS
        obtain ⟨hH1, hSai1, hMono1, hClear1, hKeys1⟩ := ih _ _ _ _ h
        have hHD : (dropUnplaced member members sB).handles = s.handles := by
          rw [(dropUnplaced_frame _ _ _).1, hHB, hHA]
        have hPD : (dropUnplaced member members sB).portHandles = sA.portHandles := by
          rw [(dropUnplaced_frame _ _ _).2.1, hPB]
        have hSaiD : ∀ q, portSaiIdOf (dropUnplaced member members sB) q = portSaiIdOf s q :=
          fun q => (portSaiIdOf_congr hPD q).trans (hSaiA q)
        refine ⟨hH1.trans hHD, fun q => (hSai1 q).trans (hSaiD q), ?_, ?_, ?_⟩
        · intro q hq
          have := hMono1 q hq
          rw [holdsBridgePort_congr hPD] at this
          exact hMonoA q this
        · intro x hx
          rcases List.mem_cons.1 hx with hx | hx
          · subst hx
            cases hb : holdsBridgePort s1 p with
            | false => rfl
            | true =>
              have := hMono1 p hb
              rw [holdsBridgePort_congr hPD, hClear] at this
              cases this
          · exact hClear1 x hx
        · intro k hk
          rcases hKeys1 k hk with hk1 | ⟨x, hx, hk1⟩
          · rcases Table.find_orderedEmplace_isSome _ _ _ _ hk1 with hk2 | hk2
            · exact Or.inl hk2
            · refine Or.inr ⟨(p, fwdState), List.mem_cons_self _ _, ?_⟩
              rw [hk2]; exact hKey
          · refine Or.inr ⟨x, List.mem_cons_of_mem _ hx, ?_⟩
            rw [← hSaiD]; exact hk1

/-- A returning `addLag` keeps the exclusion of bridge port and membership when no sub-port of
the aggregate port is a member of another LAG handle. -/
theorem addLag_exclusive {aggregatePort : AggregatePort} {lagSaiId : LagSaiId}
    {s s1 : SaiLagManager} (h : addLag aggregatePort s = .ok (lagSaiId, s1))
    (hE : Exclusive s)
    (hN : ∀ p ∈ aggregatePort.sortedSubports, NotInOtherLag s aggregatePort.id p) :
    Exclusive s1 := by
  cases hS : aggregatePort.sortedSubports with
  | nil => simp [addLag, hS] at h
  | cons subPort others =>
    cases hidx : Table.find subPort s.concurrentIndices.portSaiIds with
    | none => simp [addLag, hS, hidx] at h
    | some portSaiId =>
      cases hVlan : Table.find (PortDescriptorSaiId.physical portSaiId)
          s.concurrentIndices.vlanIds with
      | none => simp [addLag, hS, hidx, hVlan] at h
      | some vlanID =>
        simp only [addLag, hS, hidx, hVlan] at h
        generalize aggregatePort.name.take 32 ++
          List.replicate (32 - (aggregatePort.name.take 32).length) 0 = label at h
        generalize setObject label ({ label := label, vlan := vlanID } : SaiLagAttributes)
          s.nextAdapterKey s.lagStore = r at h
        generalize hrun : addLagMembers _ aggregatePort.id aggregatePort.subportAndFwdState []
          _ = run at h
        cases run with
        | error e => simp only [] at h; cases h
        | ok res =>
          obtain ⟨members1, s2⟩ := res
          obtain ⟨hH2, hSai2, hMono2, hClear2, hKeys2⟩ :=
            addLagMembers_observed _ _ _ _ _ _ _ hrun
          simp only [Except.ok.injEq, Prod.mk.injEq] at h
          obtain ⟨-, hs1⟩ := h
          have hite : ∀ (b : Bool) (handle : SaiLagHandle) (t : SaiLagManager),
              (if b = true then t else destroyHandle handle t).portHandles = t.portHandles ∧
              (if b = true then t else destroyHandle handle t).handles = t.handles := by
            intro b handle t
            cases b
            · exact ⟨(destroyHandle_frame handle t).2, destroyHandle_handles handle t⟩
            · exact ⟨rfl, rfl⟩
          have hPorts1 : s1.portHandles = s2.portHandles := by
            rw [← hs1, (hite _ _ _).1]; rfl
          have hHandles1 : s1.handles = Table.emplace aggregatePort.id
              ({ lag := some { label := label, adapterKey := r.1 }
                 bridgePort := some { portDescriptor := .aggregate aggregatePort.id,
                                      saiId := .aggregate r.1 }
                 members := members1
                 minimumLinkCount := aggregatePort.minimumLinkCount
                 vlanId := vlanID } : SaiLagHandle) s.handles := by
            rw [← hs1, (hite _ _ _).2]
            show Table.emplace _ _ s2.handles = _
            rw [hH2]; rfl
          have hSai1 : ∀ q, portSaiIdOf s1 q = portSaiIdOf s q :=
            fun q => (portSaiIdOf_congr hPorts1 q).trans (hSai2 q)
          have hHold1 : ∀ q, holdsBridgePort s1 q = true →
              holdsBridgePort s q = true ∧ q ∉ aggregatePort.sortedSubports := by
            intro q hq
            rw [holdsBridgePort_congr hPorts1] at hq
            refine ⟨hMono2 q hq, ?_⟩
            intro hmem
            obtain ⟨x, hx, rfl⟩ := List.mem_map.1 hmem
            rw [hClear2 x hx] at hq
            cases hq
          have hMem1 : ∀ b k, isMemberOf s1 b k = true →
              isMemberOf s b k = true ∨
                (b = aggregatePort.id ∧
                  ∃ p ∈ aggregatePort.sortedSubports, portSaiIdOf s p = some k) := by
            intro b k hx
            rw [isMemberOf_iff] at hx
            obtain ⟨handle1, hF, hK⟩ := hx
            rw [hHandles1, Table.find_emplace] at hF
            by_cases hb : b = aggregatePort.id
            · subst hb
              simp only [if_true, Option.some.injEq] at hF
              cases hOld : Table.find aggregatePort.id s.handles with
              | some handle0 =>
                rw [hOld] at hF
                simp only [Option.getD_some] at hF
                subst hF
                exact Or.inl ((isMemberOf_iff _ _ _).2 ⟨handle0, hOld, hK⟩)
              | none =>
                rw [hOld] at hF
                simp only [Option.getD_none] at hF
                subst hF
                rcases hKeys2 k hK with hk | ⟨x, hx, hk⟩
                · simp [Table.find] at hk
                · exact Or.inr ⟨rfl, x.1, List.mem_map_of_mem Prod.fst hx, hk⟩
            · simp only [hb, if_false] at hF
              exact Or.inl ((isMemberOf_iff _ _ _).2 ⟨handle1, hF, hK⟩)
          refine ⟨?_, ?_, ?_⟩
          · intro p q k hp hq
            rw [hSai1] at hp hq
            exact hE.distinct p q k hp hq
          · intro q k b hq hk
            rw [hSai1] at hk
            obtain ⟨hqs, hq2⟩ := hHold1 q hq
            cases hx : isMemberOf s1 b k with
            | false => rfl
            | true =>
              exfalso
              rcases hMem1 b k hx with hy | ⟨-, p, hp, hpk⟩
              · rw [hE.exclusive q k b hqs hk] at hy; cases hy
              · rw [hS] at hp
                have := hE.distinct q p k hk hpk
                rw [hS] at hq2
                exact hq2 (this ▸ hp)
          · intro k a b ha hb
            rcases hMem1 a k ha with hya | ⟨hya, pa, hpa, hka⟩ <;>
              rcases hMem1 b k hb with hyb | ⟨hyb, pb, hpb, hkb⟩
            · exact hE.single k a b hya hyb
            · by_contra hab
              have := hN pb hpb k a hkb (by rw [← hyb]; exact hab)
              rw [this] at hya; cases hya
            · by_contra hab
              have := hN pa hpa k b hka (by rw [← hya]; exact fun hx => hab hx.symm)
              rw [this] at hyb; cases hyb
            · rw [hya, hyb]

theorem exclusive_of_initial {s : SaiLagManager} (hInit : s.handles = [])
    (hDistinct : (s.portHandles.map (fun e => e.2.port)).Nodup) : Exclusive s := by
  have hNone : ∀ a k, isMemberOf s a k = false := by
    intro a k
    unfold isMemberOf
    rw [hInit]
    rfl
  refine ⟨?_, fun _ k a _ _ => hNone a k, ?_⟩
  · intro p q k hp hq
    unfold portSaiIdOf at hp hq
    cases hP : Table.find p s.portHandles with
    | none => simp [hP] at hp
    | some ph =>
      cases hQ : Table.find q s.portHandles with
      | none => simp [hQ] at hq
      | some qh =>
        have hpk : ph.port = k := by simpa [hP] using hp
        have hqk : qh.port = k := by simpa [hQ] using hq
        have := List.inj_on_of_nodup_map hDistinct
          (Table.mem_of_find p ph _ hP) (Table.mem_of_find q qh _ hQ)
          (by show ph.port = qh.port; rw [hpk, hqk])
        exact congrArg Prod.fst this
  · intro k a b ha
    rw [hNone a k] at ha
    cases ha

/-- C14 (amended): from a state with no aggregate port, whose port handles have pairwise
distinct hardware ids, every state reached by returning calls of `addLag`, `changeLag`,
`removeMember` and `removeLag`, in which `addLag` and `changeLag` are only given aggregate
ports none of whose sub-ports is a member of the LAG handle of another aggregate port, has no
port that holds a standalone bridge port while its hardware id is a key of the member map of a
LAG handle. -/
theorem reachable_bridgePort_excludes_member (s0 s : SaiLagManager)
    (hInit : s0.handles = [])
    (hDistinct : (s0.portHandles.map (fun e => e.2.port)).Nodup)
    (hReach : ReachableDisjoint s0 s) :
    ∀ p k aggPort, holdsBridgePort s p = true → portSaiIdOf s p = some k →
      isMemberOf s aggPort k = false := by
  have hE : Exclusive s := by
    induction hReach with
    | initial => exact exclusive_of_initial hInit hDistinct
    | addLag aggregatePort lagSaiId _ hN h ih => exact addLag_exclusive h ih hN
    | changeLag oldAggregatePort newAggregatePort _ hN h ih =>
      exact changeLag_exclusive h ih hN
    | removeMember aggPort subPort _ h ih => exact (removeMember_exclusive h ih).1
    | removeLag aggregatePort _ h ih => exact removeLag_exclusive h ih
  exact hE.exclusive

end SaiLagManager

/-! ## The switch ensemble: observers and export -/

namespace HwSwitchEnsemble

theorem forEachObserver_fold (event : Observer → EnsembleEvent) (observers : List Observer) :
    ∀ e : HwSwitchEnsemble,
      observers.foldl (fun e observer => emit (event observer) e) e =
        { e with trace := e.trace ++ observers.map event } := by
  induction observers with
  | nil => intro e; simp
  | cons o rest ih =>
    intro e
    rw [List.foldl_cons, ih]
    simp [emit]

theorem forEachObserver_eq (event : Observer → EnsembleEvent) (e : HwSwitchEnsemble) :
    forEachObserver event e = { e with trace := e.trace ++ e.hwEventObservers.map event } :=
  forEachObserver_fold event e.hwEventObservers e

theorem addHwEventObserver_ok_iff (observer : Observer) (e e1 : HwSwitchEnsemble) :
    addHwEventObserver observer e = .ok e1 ↔
      observer ∉ e.hwEventObservers ∧
        e1 = { e with hwEventObservers := e.hwEventObservers ++ [observer] } := by
  unfold addHwEventObserver observersInsert
  by_cases h : observer ∈ e.hwEventObservers
  · simp [h]
  · simp only [h, if_false, Bool.not_true, Bool.false_eq_true, Except.ok.injEq,
      not_false_eq_true, true_and]
    exact ⟨fun hx => hx.symm, fun hx => hx.symm⟩

theorem addHwEventObservers_ok (observers : List Observer) :
    ∀ (e e1 : HwSwitchEnsemble), addHwEventObservers observers e = .ok e1 →
      e1 = { e with hwEventObservers := e.hwEventObservers ++ observers } ∧
      (∀ o ∈ observers, o ∉ e.hwEventObservers) ∧ observers.Nodup := by
  induction observers with
  | nil =>
    intro e e1 h
    simp only [addHwEventObservers, Except.ok.injEq] at h
    subst h
    simp
  | cons o rest ih =>
    intro e e1 h
    simp only [addHwEventObservers] at h
    cases hA : addHwEventObserver o e with
    | error f => simp [hA] at h
    | ok e2 =>
      simp only [hA] at h
      obtain ⟨hno, he2⟩ := (addHwEventObserver_ok_iff o e e2).1 hA
      obtain ⟨he1, hfresh, hnodup⟩ := ih e2 e1 h
      subst he2
      refine ⟨?_, ?_, ?_⟩
      · rw [he1]; simp
      · intro x hx
        rcases List.mem_cons.1 hx with hx | hx
        · rw [hx]; exact hno
        · intro hmem
          exact hfresh x hx (List.mem_append_left _ hmem)
      · refine List.nodup_cons.2 ⟨?_, hnodup⟩
        intro hmem
        exact hfresh o hmem (List.mem_append_right _ (List.mem_singleton_self o))

/-- C17: `addHwEventObserver` fails exactly when the observer is registered and
`removeHwEventObserver` fails exactly when it is not; a failing call throws its `FbossError` in
the unchanged state; after a successful add the observer is registered and the other observers
are as before; after a successful remove it is not registered and the other observers are as
before. -/
theorem observer_add_remove_failures (e : HwSwitchEnsemble) (observer : Observer) :
    ((∃ failure e1, addHwEventObserver observer e = .error (failure, e1)) ↔
      observer ∈ e.hwEventObservers) ∧
    (∀ failure e1, addHwEventObserver observer e = .error (failure, e1) →
      failure = .thrown .observerAlreadyAdded ∧ e1 = e) ∧
    (∀ e1, addHwEventObserver observer e = .ok e1 →
      observer ∈ e1.hwEventObservers ∧
        ∀ o, o ≠ observer → (o ∈ e1.hwEventObservers ↔ o ∈ e.hwEventObservers)) ∧
    ((∃ failure e1, removeHwEventObserver observer e = .error (failure, e1)) ↔
      observer ∉ e.hwEventObservers) ∧
    (∀ failure e1, removeHwEventObserver observer e = .error (failure, e1) →
      failure = .thrown .observerEraseFailed ∧ e1 = e) ∧
    (∀ e1, removeHwEventObserver observer e = .ok e1 →
      observer ∉ e1.hwEventObservers ∧
        ∀ o, o ≠ observer → (o ∈ e1.hwEventObservers ↔ o ∈ e.hwEventObservers)) := by
  have hfilter : observer ∉ e.hwEventObservers →
      e.hwEventObservers.filter (fun o => decide (o ≠ observer)) = e.hwEventObservers := by
    intro h
    rw [List.filter_eq_self]
    intro o ho
    have : o ≠ observer := fun hx => h (hx ▸ ho)
    simpa using this
  refine ⟨?_, ?_, ?_, ?_, ?_, ?_⟩
  · unfold addHwEventObserver observersInsert
    by_cases h : observer ∈ e.hwEventObservers
    · simp [h]
    · simp [h]
  · intro failure e1 hx
    unfold addHwEventObserver observersInsert at hx
    by_cases h : observer ∈ e.hwEventObservers
    · simp only [h, if_true, Bool.not_false, Except.error.injEq, Prod.mk.injEq] at hx
      exact ⟨hx.1.symm, hx.2.symm⟩
    · simp [h] at hx
  · intro e1 hx
    obtain ⟨-, he1⟩ := (addHwEventObserver_ok_iff observer e e1).1 hx
    subst he1
    refine ⟨by simp, ?_⟩
    intro o ho
    simp [ho]
  · unfold removeHwEventObserver observersErase
    by_cases h : observer ∈ e.hwEventObservers
    · have hc : ¬ List.count observer e.hwEventObservers = 0 := by
        rw [List.count_eq_zero]; exact fun hx => hx h
      simp [h, hc]
    · have hc : List.count observer e.hwEventObservers = 0 := List.count_eq_zero.2 h
      simp [h, hc]
  · intro failure e1 hx
    unfold removeHwEventObserver observersErase at hx
    by_cases h : observer ∈ e.hwEventObservers
    · have hc : ¬ List.count observer e.hwEventObservers = 0 := by
        rw [List.count_eq_zero]; exact fun hy => hy h
      simp [hc] at hx
    · have hc : List.count observer e.hwEventObservers = 0 := List.count_eq_zero.2 h
      simp only [hc, if_true, Except.error.injEq, Prod.mk.injEq] at hx
      refine ⟨hx.1.symm, ?_⟩
      rw [← hx.2, hfilter h]
  · intro e1 hx
    unfold removeHwEventObserver observersErase at hx
    by_cases hc : List.count observer e.hwEventObservers = 0
    · simp [hc] at hx
    · simp only [hc, if_false, Except.ok.injEq] at hx
      subst hx
      refine ⟨by simp, ?_⟩
      intro o ho
      simp [ho]

/-- C18: after the observers of a list are registered one by one by returning calls of
`addHwEventObserver` on an ensemble without observers, the registered observers are those of
the list, no observer is in it twice, and each of `linkStateChanged`, `packetReceived` and
`l2LearningUpdateReceived` calls the observers once each, in the order of the list (after the
call to the link toggler in `linkStateChanged`). -/
theorem callbacks_notify_in_registration_order (e0 e : HwSwitchEnsemble)
    (observers : List Observer) (port : PortID) (up : Bool) (pkt l2Entry : Nat)
    (l2EntryUpdateType : L2EntryUpdateType)
    (hNone : e0.hwEventObservers = [])
    (hAdded : addHwEventObservers observers e0 = .ok e) :
    e.hwEventObservers = observers ∧ observers.Nodup ∧
    (linkStateChanged port up e).trace =
      e.trace ++ [.linkTogglerLinkStateChanged port up] ++
        observers.map (fun observer => .changeLinkState observer port up) ∧
    (packetReceived pkt e).trace =
      e.trace ++ observers.map (fun observer => .receivePacket observer pkt) ∧
    (l2LearningUpdateReceived l2Entry l2EntryUpdateType e).trace =
      e.trace ++
        observers.map (fun observer =>
          .updateL2EntryState observer l2Entry l2EntryUpdateType) := by
  obtain ⟨he, -, hnodup⟩ := addHwEventObservers_ok observers e0 e hAdded
  have hobs : e.hwEventObservers = observers := by
    rw [he]
    simp [hNone]
  refine ⟨hobs, hnodup, ?_, ?_, ?_⟩
  · unfold linkStateChanged
    rw [forEachObserver_eq]
    show (e.trace ++ [_]) ++ e.hwEventObservers.map _ = _
    rw [hobs]
  · unfold packetReceived
    rw [forEachObserver_eq]
    show e.trace ++ e.hwEventObservers.map _ = _
    rw [hobs]
  · unfold l2LearningUpdateReceived
    rw [forEachObserver_eq]
    show e.trace ++ e.hwEventObservers.map _ = _
    rw [hobs]

/-- C20: whenever `gracefulExitState` returns, the record holds the serialization of the
programmed state under the key kSwSwitch, it has an entry under the key kRib exactly when a
routing information base is present, that entry is the serialization of the unresolved routes
only, and the record has no other entry; `gracefulExitState` returns whenever the programmed
state is set and published. -/
theorem gracefulExitState_record (e : HwSwitchEnsemble) :
    (∀ record, gracefulExitState e = .ok record →
      (∃ state, e.programmedState = some state ∧ state.published = true ∧
        Table.find RecordKey.kSwSwitch record = some state.toFollyDynamic) ∧
      ((Table.find RecordKey.kRib record).isSome = e.routingInformationBase.isSome) ∧
      (∀ rib, e.routingInformationBase = some rib →
        Table.find RecordKey.kRib record =
          some (Dynamic.routes (rib.routes.filter (fun route => route.resolved = false)))) ∧
      (∀ key, key ∈ record.map Prod.fst → key = RecordKey.kSwSwitch ∨ key = RecordKey.kRib)) ∧
    (∀ state, e.programmedState = some state → state.published = true →
      ∃ record, gracefulExitState e = .ok record) := by
  constructor
  · intro record h
    unfold gracefulExitState getProgrammedState at h
    cases hP : e.programmedState with
    | none => simp [hP] at h
    | some state =>
      cases hpub : state.published with
      | false => simp [hP, hpub] at h
      | true =>
        simp only [hP, hpub, if_true] at h
        cases hR : e.routingInformationBase with
        | none =>
          simp only [hR, Except.ok.injEq] at h
          subst h
          refine ⟨⟨state, rfl, hpub, ?_⟩, ?_, ?_, ?_⟩
          · simp [Record.set, Table.find]
          · simp [Record.set, Table.find]
          · intro rib hrib; cases hrib
          · intro key hkey
            simp [Record.set, Table.find] at hkey
            exact Or.inl hkey
        | some rib =>
          simp only [hR, Except.ok.injEq] at h
          subst h
          refine ⟨⟨state, rfl, hpub, ?_⟩, ?_, ?_, ?_⟩
          · simp [Record.set, Table.find]
          · simp [Record.set, Table.find]
          · intro rib1 hrib
            cases hrib
            simp [Record.set, Table.find,
              RoutingInformationBase.unresolvedRoutesFollyDynamic]
          · intro key hkey
            simp [Record.set, Table.find] at hkey
            exact hkey
  · intro state hP hpub
    unfold gracefulExitState getProgrammedState
    simp only [hP, hpub, if_true]
    cases e.routingInformationBase <;> exact ⟨_, rfl⟩

theorem gracefulExit_eq (e : HwSwitchEnsemble) :
    ∀ pre : List EnsembleEvent,
      pre = e.trace ++ (if e.thriftThread then [EnsembleEvent.thriftThreadJoin] else []) ++
        (if e.fs then [EnsembleEvent.functionSchedulerShutdown] else []) ++
        [EnsembleEvent.unregisterCallbacks] ++
        e.hwEventObservers.map EnsembleEvent.stopObserving →
      gracefulExit e =
        match gracefulExitState e with
        | .error f => .error (f, { e with trace := pre ++ [EnsembleEvent.gracefulExitState] })
        | .ok record => .ok { e with trace :=
            pre ++ [EnsembleEvent.gracefulExitState, EnsembleEvent.hwSwitchGracefulExit record] } := by
  obtain ⟨observers, programmedState, rib, thriftThread, fs, trace⟩ := e
  intro pre hpre
  subst hpre
  have hstate : ∀ (e2 : HwSwitchEnsemble), e2.programmedState = programmedState →
      e2.routingInformationBase = rib →
      gracefulExitState e2 = gracefulExitState
        { hwEventObservers := observers, programmedState := programmedState,
          routingInformationBase := rib, thriftThread := thriftThread, fs := fs,
          trace := trace } := by
    intro e2 h1 h2
    unfold gracefulExitState getProgrammedState
    rw [h1, h2]
  unfold gracefulExit stopObservers
  simp only [forEachObserver_eq]
  cases thriftThread <;> cases fs <;>
    (rw [hstate _ rfl rfl]
     cases gracefulExitState
        { hwEventObservers := observers, programmedState := programmedState,
          routingInformationBase := rib, thriftThread := _, fs := _,
          trace := trace } <;> simp [emit])

/-- C19: in every returning run of `gracefulExit` the calls are, in this order: the join of the
thrift thread when there is one, the shutdown of the function scheduler of the statistics
collection when there is one, `unregisterCallbacks` of the hardware switch, `stopObserving` of
every observer, the serialization by `gracefulExitState`, and `gracefulExit` of the hardware
switch with the record that `gracefulExitState` returned; nothing but the trace changes, and
the run returns whenever the programmed state is set and published. -/
theorem gracefulExit_order_of_calls (e : HwSwitchEnsemble) :
    (∀ e1, gracefulExit e = .ok e1 →
      ∃ record, gracefulExitState e = .ok record ∧
        e1 = { e with trace :=
          e.trace ++ (if e.thriftThread then [EnsembleEvent.thriftThreadJoin] else []) ++
            (if e.fs then [EnsembleEvent.functionSchedulerShutdown] else []) ++
            [EnsembleEvent.unregisterCallbacks] ++
            e.hwEventObservers.map EnsembleEvent.stopObserving ++
            [EnsembleEvent.gracefulExitState, EnsembleEvent.hwSwitchGracefulExit record] }) ∧
    (∀ state, e.programmedState = some state → state.published = true →
      ∃ e1, gracefulExit e = .ok e1) := by
  have hrun := gracefulExit_eq e
  constructor
  · intro e1 h
    rw [hrun _ rfl] at h
    cases hG : gracefulExitState e with
    | error f => simp [hG] at h
    | ok record =>
      simp only [hG, Except.ok.injEq] at h
      exact ⟨record, rfl, h.symm⟩
  · intro state hP hpub
    have hrec : ∃ record, gracefulExitState e = .ok record := by
      unfold gracefulExitState getProgrammedState
      simp only [hP, hpub, if_true]
      cases e.routingInformationBase <;> exact ⟨_, rfl⟩
    obtain ⟨record, hrec⟩ := hrec
    rw [hrun _ rfl, hrec]
    exact ⟨_, rfl⟩

end HwSwitchEnsemble

/-! ## Termination of `changeLag` -/

namespace SaiLagManager

theorem opsWithin_refl (s : SaiLagManager) : OpsWithin 0 0 s s :=
  ⟨[], by simp, by simp, by simp⟩

theorem opsWithin_of_memberOps {s s1 : SaiLagManager} (h : s1.memberOps = s.memberOps) :
    OpsWithin 0 0 s s1 :=
  ⟨[], by simp [h], by simp, by simp⟩

theorem opsWithin_trans {r1 a1 r2 a2 : Nat} {s s1 s2 : SaiLagManager}
    (h1 : OpsWithin r1 a1 s s1) (h2 : OpsWithin r2 a2 s1 s2) :
    OpsWithin (r1 + r2) (a1 + a2) s s2 := by
  obtain ⟨ops1, e1, hr1, ha1⟩ := h1
  obtain ⟨ops2, e2, hr2, ha2⟩ := h2
  refine ⟨ops1 ++ ops2, by rw [e2, e1, List.append_assoc], ?_, ?_⟩
  · rw [List.countP_append]; omega
  · rw [List.countP_append]; omega

theorem opsWithin_mono {r1 a1 r2 a2 : Nat} {s s1 : SaiLagManager}
    (h : OpsWithin r1 a1 s s1) (hr : r1 ≤ r2) (ha : a1 ≤ a2) : OpsWithin r2 a2 s s1 := by
  obtain ⟨ops, e, hr1, ha1⟩ := h
  exact ⟨ops, e, by omega, by omega⟩

theorem removeMember_memberOps (aggPort : AggregatePortID) (subPort : PortID)
    (s : SaiLagManager) :
    (endState id (removeMember aggPort subPort s)).memberOps = s.memberOps := by
  cases hH : Table.find aggPort s.handles with
  | none => simp only [removeMember, hH]; rfl
  | some handle =>
    cases hP : Table.find subPort s.portHandles with
    | none => simp only [removeMember, hH, hP]; rfl
    | some portHandle =>
      cases hM : Table.find portHandle.port handle.members with
      | none => simp only [removeMember, hH, hP, hM]; rfl
      | some member =>
        simp only [removeMember, hH, hP, hM]
        cases portHandle.bridgePort <;> rfl

theorem addMember_memberOps (lag : SaiLag) (aggregatePortID : AggregatePortID)
    (subPort : PortID) (s : SaiLagManager) :
    (endState Prod.snd (addMember lag aggregatePortID subPort s)).memberOps = s.memberOps := by
  cases hP : Table.find subPort s.portHandles with
  | none => simp only [addMember, hP]; rfl
  | some portHandle =>
    simp only [addMember, hP]
    cases portHandle.bridgePort <;> rfl

theorem setMemberState_memberOps (member : SaiLagMember) (fwdState : Forwarding)
    (s : SaiLagManager) :
    (endState id (setMemberState member fwdState s)).memberOps = s.memberOps := by
  cases hO : Table.find member s.lagMemberStore with
  | none => simp only [setMemberState, hO]; rfl
  | some object => simp only [setMemberState, hO]; rfl

theorem emplaceMember_memberOps (aggPort : AggregatePortID)
    (member : PortSaiId × SaiLagMember) (s : SaiLagManager) :
    (emplaceMember aggPort member s).memberOps = s.memberOps := by
  cases hH : Table.find aggPort s.handles with
  | none => simp only [emplaceMember, hH]
  | some handle =>
    simp only [emplaceMember, hH, dropUnplaced]
    cases Table.find member.1 handle.members <;> rfl

theorem opsWithin_issue_removeMember (p : PortID) (s : SaiLagManager) :
    OpsWithin 1 0 s (issue (.removeMember p) s) :=
  ⟨[.removeMember p], rfl, by simp [MemberOp.isRemoveMember],
    by simp [MemberOp.isAddMember]⟩

theorem opsWithin_issue_addMember (p : PortID) (s : SaiLagManager) :
    OpsWithin 0 1 s (issue (.addMember p) s) :=
  ⟨[.addMember p], rfl, by simp [MemberOp.isRemoveMember],
    by simp [MemberOp.isAddMember]⟩

theorem opsWithin_issue_setMemberState (p : PortID) (fwdState : Forwarding)
    (s : SaiLagManager) :
    OpsWithin 0 0 s (issue (.setMemberState p fwdState) s) :=
  ⟨[.setMemberState p fwdState], rfl, by simp [MemberOp.isRemoveMember],
    by simp [MemberOp.isAddMember]⟩

theorem changeLagAdd_ops (oldID newID : AggregatePortID) (entry : PortID × Forwarding)
    (s : SaiLagManager) :
    OpsWithin 0 1 s (endState id (changeLagAdd oldID newID entry s)) := by
  cases hH : Table.find oldID s.handles with
  | none =>
    simp only [changeLagAdd, hH]
    exact opsWithin_mono (opsWithin_refl s) (Nat.le_refl _) (Nat.zero_le _)
  | some handle =>
    cases hL : handle.lag with
    | none =>
      simp only [changeLagAdd, hH, hL]
      exact opsWithin_mono (opsWithin_refl s) (Nat.le_refl _) (Nat.zero_le _)
    | some lag =>
      simp only [changeLagAdd, hH, hL]
      have hA := addMember_memberOps lag newID entry.1 (issue (.addMember entry.1) s)
      cases hAdd : addMember lag newID entry.1 (issue (.addMember entry.1) s) with
      | error e =>
        rw [hAdd] at hA
        exact opsWithin_trans (opsWithin_issue_addMember entry.1 s)
          (opsWithin_of_memberOps hA)
      | ok r =>
        obtain ⟨member, sA⟩ := r
        rw [hAdd] at hA
        simp only []
        have hS := setMemberState_memberOps member.2 entry.2
          (issue (.setMemberState entry.1 entry.2) sA)
        have h1 : OpsWithin 0 1 s (issue (.setMemberState entry.1 entry.2) sA) :=
          opsWithin_trans
            (opsWithin_trans (opsWithin_issue_addMember entry.1 s) (opsWithin_of_memberOps hA))
            (opsWithin_issue_setMemberState entry.1 entry.2 sA)
        cases hSet : setMemberState member.2 entry.2
            (issue (.setMemberState entry.1 entry.2) sA) with
        | error e =>
          rw [hSet] at hS
          exact opsWithin_trans h1 (opsWithin_of_memberOps hS)
        | ok sB =>
          rw [hSet] at hS
          exact opsWithin_trans h1 (opsWithin_of_memberOps
            ((emplaceMember_memberOps oldID member sB).trans hS))

theorem changeLagRemoveRest_ops (oldID : AggregatePortID) (xs : List (PortID × Forwarding)) :
    ∀ s : SaiLagManager,
      OpsWithin xs.length 0 s (endState Prod.snd (changeLagRemoveRest oldID xs s)) ∧
      ∀ cursor s1, changeLagRemoveRest oldID xs s = .ok (cursor, s1) → cursor = [] := by
  induction xs with
  | nil =>
    intro s
    refine ⟨opsWithin_refl s, ?_⟩
    intro cursor s1 h
    simp only [changeLagRemoveRest, Except.ok.injEq, Prod.mk.injEq] at h
    exact h.1.symm
  | cons x rest ih =>
    intro s
    simp only [changeLagRemoveRest]
    have hR := removeMember_memberOps oldID x.1 (issue (.removeMember x.1) s)
    cases hRem : removeMember oldID x.1 (issue (.removeMember x.1) s) with
    | error e =>
      rw [hRem] at hR
      refine ⟨?_, fun _ _ h => (by cases h)⟩
      exact opsWithin_mono
        (opsWithin_trans (opsWithin_issue_removeMember x.1 s) (opsWithin_of_memberOps hR))
        (by simp) (Nat.le_refl _)
    | ok s2 =>
      rw [hRem] at hR
      obtain ⟨h1, h2⟩ := ih s2
      refine ⟨?_, h2⟩
      exact opsWithin_mono
        (opsWithin_trans
          (opsWithin_trans (opsWithin_issue_removeMember x.1 s) (opsWithin_of_memberOps hR))
          h1)
        (by simp; omega) (Nat.le_refl _)

theorem changeLagAddRest_ops (oldID newID : AggregatePortID)
    (xs : List (PortID × Forwarding)) :
    ∀ s : SaiLagManager,
      OpsWithin 0 xs.length s (endState Prod.snd (changeLagAddRest oldID newID xs s)) ∧
      ∀ cursor s1, changeLagAddRest oldID newID xs s = .ok (cursor, s1) → cursor = [] := by
  induction xs with
  | nil =>
    intro s
    refine ⟨opsWithin_refl s, ?_⟩
    intro cursor s1 h
    simp only [changeLagAddRest, Except.ok.injEq, Prod.mk.injEq] at h
    exact h.1.symm
  | cons x rest ih =>
    intro s
    simp only [changeLagAddRest]
    have hA := changeLagAdd_ops oldID newID x s
    cases hAdd : changeLagAdd oldID newID x s with
    | error e =>
      rw [hAdd] at hA
      refine ⟨?_, fun _ _ h => (by cases h)⟩
      exact opsWithin_mono hA (Nat.le_refl _) (by simp)
    | ok s2 =>
      rw [hAdd] at hA
      obtain ⟨h1, h2⟩ := ih s2
      refine ⟨?_, h2⟩
      exact opsWithin_mono (opsWithin_trans hA h1) (Nat.le_refl _) (by simp; omega)

theorem addMember_error_is_check {lag : SaiLag} {aggregatePortID : AggregatePortID}
    {subPort : PortID} {s s1 : SaiLagManager} {failure : Failure}
    (h : addMember lag aggregatePortID subPort s = .error (failure, s1)) :
    failure ≠ .nonTermination := by
  cases hP : Table.find subPort s.portHandles with
  | none =>
    simp only [addMember, hP, Except.error.injEq, Prod.mk.injEq] at h
    rw [← h.1]; intro hx; cases hx
  | some portHandle => simp [addMember, hP] at h

theorem setMemberState_error_is_undefined {member : SaiLagMember} {fwdState : Forwarding}
    {s s1 : SaiLagManager} {failure : Failure}
    (h : setMemberState member fwdState s = .error (failure, s1)) :
    failure ≠ .nonTermination := by
  cases hO : Table.find member s.lagMemberStore with
  | none =>
    simp only [setMemberState, hO, Except.error.injEq, Prod.mk.injEq] at h
    rw [← h.1]; intro hx; cases hx
  | some object => simp [setMemberState, hO] at h

theorem removeMember_error_terminates {aggPort : AggregatePortID} {subPort : PortID}
    {s s1 : SaiLagManager} {failure : Failure}
    (h : removeMember aggPort subPort s = .error (failure, s1)) :
    failure ≠ .nonTermination := by
  cases hH : Table.find aggPort s.handles with
  | none =>
    simp only [removeMember, hH, Except.error.injEq, Prod.mk.injEq] at h
    rw [← h.1]; intro hx; cases hx
  | some handle =>
    cases hP : Table.find subPort s.portHandles with
    | none =>
      simp only [removeMember, hH, hP, Except.error.injEq, Prod.mk.injEq] at h
      rw [← h.1]; intro hx; cases hx
    | some portHandle =>
      cases hM : Table.find portHandle.port handle.members with
      | none => simp [removeMember, hH, hP, hM] at h
      | some member => simp [removeMember, hH, hP, hM] at h

theorem changeLagAdd_error_terminates {oldID newID : AggregatePortID}
    {entry : PortID × Forwarding} {s s1 : SaiLagManager} {failure : Failure}
    (h : changeLagAdd oldID newID entry s = .error (failure, s1)) :
    failure ≠ .nonTermination := by
  cases hH : Table.find oldID s.handles with
  | none =>
    simp only [changeLagAdd, hH, Except.error.injEq, Prod.mk.injEq] at h
    rw [← h.1]; intro hx; cases hx
  | some handle =>
    cases hL : handle.lag with
    | none =>
      simp only [changeLagAdd, hH, hL, Except.error.injEq, Prod.mk.injEq] at h
      rw [← h.1]; intro hx; cases hx
    | some lag =>
      simp only [changeLagAdd, hH, hL] at h
      cases hAdd : addMember lag newID entry.1 (issue (.addMember entry.1) s) with
      | error e =>
        obtain ⟨f, t⟩ := e
        simp only [hAdd, Except.error.injEq, Prod.mk.injEq] at h
        rw [← h.1]; exact addMember_error_is_check hAdd
      | ok r =>
        obtain ⟨member, sA⟩ := r
        simp only [hAdd] at h
        cases hSet : setMemberState member.2 entry.2
            (issue (.setMemberState entry.1 entry.2) sA) with
        | error e =>
          obtain ⟨f, t⟩ := e
          simp only [hSet, Except.error.injEq, Prod.mk.injEq] at h
          rw [← h.1]; exact setMemberState_error_is_undefined hSet
        | ok sB => simp [hSet] at h

theorem changeLagRemoveRest_error_terminates (oldID : AggregatePortID)
    (xs : List (PortID × Forwarding)) :
    ∀ (s s1 : SaiLagManager) (failure : Failure),
      changeLagRemoveRest oldID xs s = .error (failure, s1) → failure ≠ .nonTermination := by
  induction xs with
  | nil => intro s s1 failure h; simp [changeLagRemoveRest] at h
  | cons x rest ih =>
    intro s s1 failure h
    simp only [changeLagRemoveRest] at h
    cases hRem : removeMember oldID x.1 (issue (.removeMember x.1) s) with
    | error e =>
      obtain ⟨f, t⟩ := e
      simp only [hRem, Except.error.injEq, Prod.mk.injEq] at h
      rw [← h.1]; exact removeMember_error_terminates hRem
    | ok s2 =>
      simp only [hRem] at h
      exact ih _ _ _ h

theorem changeLagAddRest_error_terminates (oldID newID : AggregatePortID)
    (xs : List (PortID × Forwarding)) :
    ∀ (s s1 : SaiLagManager) (failure : Failure),
      changeLagAddRest oldID newID xs s = .error (failure, s1) →
      failure ≠ .nonTermination := by
  induction xs with
  | nil => intro s s1 failure h; simp [changeLagAddRest] at h
  | cons x rest ih =>
    intro s s1 failure h
    simp only [changeLagAddRest] at h
    cases hAdd : changeLagAdd oldID newID x s with
    | error e =>
      obtain ⟨f, t⟩ := e
      simp only [hAdd, Except.error.injEq, Prod.mk.injEq] at h
      rw [← h.1]; exact changeLagAdd_error_terminates hAdd
    | ok s2 =>
      simp only [hAdd] at h
      exact ih _ _ _ h

/-- The `if`/`else if` chain of `changeLag`: the calls it issues, the cursors it returns, and
that it fails by a check or an error only. -/
theorem changeLagCompare_ops (oldID newID : AggregatePortID)
    (o : PortID × Forwarding) (oldRest : List (PortID × Forwarding))
    (n : PortID × Forwarding) (newRest : List (PortID × Forwarding)) (s : SaiLagManager) :
    (∀ failure s1, changeLagCompare oldID newID o oldRest n newRest s = .error (failure, s1) →
      failure ≠ .nonTermination ∧ OpsWithin 1 1 s s1) ∧
    (∀ oldIter newIter s1,
      changeLagCompare oldID newID o oldRest n newRest s = .ok (oldIter, newIter, s1) →
      ∃ removes adds, OpsWithin removes adds s s1 ∧
        removes + oldIter.length ≤ oldRest.length + 1 ∧
        adds + newIter.length ≤ newRest.length + 1) := by
  unfold changeLagCompare
  by_cases h1 : o.1 < n.1
  · rw [if_pos h1]
    have hR := removeMember_memberOps oldID o.1 (issue (.removeMember o.1) s)
    cases hRem : removeMember oldID o.1 (issue (.removeMember o.1) s) with
    | error e =>
      obtain ⟨f, t⟩ := e
      rw [hRem] at hR
      refine ⟨?_, fun _ _ _ h => (by cases h)⟩
      intro failure s1 h
      simp only [Except.error.injEq, Prod.mk.injEq] at h
      rw [← h.1, ← h.2]
      exact ⟨removeMember_error_terminates hRem,
        opsWithin_mono
          (opsWithin_trans (opsWithin_issue_removeMember o.1 s) (opsWithin_of_memberOps hR))
          (Nat.le_refl _) (Nat.zero_le _)⟩
    | ok s2 =>
      rw [hRem] at hR
      refine ⟨fun _ _ h => (by cases h), ?_⟩
      intro oldIter newIter s1 h
      simp only [Except.ok.injEq, Prod.mk.injEq] at h
      obtain ⟨ho, hn, hs⟩ := h
      subst ho; subst hn; subst hs
      exact ⟨1, 0,
        opsWithin_trans (opsWithin_issue_removeMember o.1 s) (opsWithin_of_memberOps hR),
        by omega, by simp⟩
  · rw [if_neg h1]
    by_cases h2 : n.1 < o.1
    · rw [if_pos h2]
      have hA := changeLagAdd_ops oldID newID n s
      cases hAdd : changeLagAdd oldID newID n s with
      | error e =>
        obtain ⟨f, t⟩ := e
        rw [hAdd] at hA
        refine ⟨?_, fun _ _ _ h => (by cases h)⟩
        intro failure s1 h
        simp only [Except.error.injEq, Prod.mk.injEq] at h
        rw [← h.1, ← h.2]
        exact ⟨changeLagAdd_error_terminates hAdd,
          opsWithin_mono hA (Nat.zero_le _) (Nat.le_refl _)⟩
      | ok s2 =>
        rw [hAdd] at hA
        refine ⟨fun _ _ h => (by cases h), ?_⟩
        intro oldIter newIter s1 h
        simp only [Except.ok.injEq, Prod.mk.injEq] at h
        obtain ⟨ho, hn, hs⟩ := h
        subst ho; subst hn; subst hs
        exact ⟨0, 1, hA, by simp, by omega⟩
    · rw [if_neg h2]
      by_cases h3 : o.2 ≠ n.2
      · rw [if_pos h3]
        cases hH : Table.find oldID s.handles with
        | none =>
          refine ⟨?_, fun _ _ _ h => (by cases h)⟩
          intro failure s1 h
          simp only [Except.error.injEq, Prod.mk.injEq] at h
          rw [← h.1, ← h.2]
          exact ⟨fun hx => (by cases hx),
            opsWithin_mono (opsWithin_refl s) (Nat.zero_le _) (Nat.zero_le _)⟩
        | some handle =>
          simp only []
          cases hG : getMember handle n.1 s with
          | error e =>
            refine ⟨?_, fun _ _ _ h => (by cases h)⟩
            intro failure s1 h
            simp only [Except.error.injEq, Prod.mk.injEq] at h
            rw [← h.1, ← h.2]
            refine ⟨?_, opsWithin_mono (opsWithin_refl s) (Nat.zero_le _) (Nat.zero_le _)⟩
            intro hx
            subst hx
            unfold getMember at hG
            cases hI : Table.find n.1 s.concurrentIndices.portSaiIds with
            | none => simp [hI] at hG
            | some k =>
              cases hF : Table.find k handle.members with
              | none => simp [hI, hF] at hG
              | some m => simp [hI, hF] at hG
          | ok member =>
            simp only []
            have hS := setMemberState_memberOps member n.2
              (issue (.setMemberState n.1 n.2) s)
            cases hSet : setMemberState member n.2 (issue (.setMemberState n.1 n.2) s) with
            | error e =>
              obtain ⟨f, t⟩ := e
              rw [hSet] at hS
              refine ⟨?_, fun _ _ _ h => (by cases h)⟩
              intro failure s1 h
              simp only [Except.error.injEq, Prod.mk.injEq] at h
              rw [← h.1, ← h.2]
              exact ⟨setMemberState_error_is_undefined hSet,
                opsWithin_mono
                  (opsWithin_trans (opsWithin_issue_setMemberState n.1 n.2 s)
                    (opsWithin_of_memberOps hS))
                  (Nat.zero_le _) (Nat.zero_le _)⟩
            | ok s2 =>
              rw [hSet] at hS
              refine ⟨fun _ _ h => (by cases h), ?_⟩
              intro oldIter newIter s1 h
              simp only [Except.ok.injEq, Prod.mk.injEq] at h
              obtain ⟨ho, hn, hs⟩ := h
              subst ho; subst hn; subst hs
              exact ⟨0, 0,
                opsWithin_trans (opsWithin_issue_setMemberState n.1 n.2 s)
                  (opsWithin_of_memberOps hS),
                by omega, by omega⟩
      · rw [if_neg h3]
        refine ⟨fun _ _ h => (by cases h), ?_⟩
        intro oldIter newIter s1 h
        simp only [Except.ok.injEq, Prod.mk.injEq] at h
        obtain ⟨ho, hn, hs⟩ := h
        subst ho; subst hn; subst hs
        exact ⟨0, 0, opsWithin_refl s, by simp, by simp⟩

theorem changeLagLoop_nil (oldID newID : AggregatePortID) (fuel : Nat)
    (newIter : List (PortID × Forwarding)) (s : SaiLagManager) :
    changeLagLoop oldID newID fuel [] newIter s = .ok s := by
  cases fuel <;> simp [changeLagLoop]

/-- One execution of the body of the merge loop of `changeLag` leaves both cursors at the end:
with fuel for one iteration the loop gives what it gives with any more. -/
theorem changeLagLoop_once (oldID newID : AggregatePortID) (fuel : Nat)
    (oldIter newIter : List (PortID × Forwarding)) (s : SaiLagManager) :
    changeLagLoop oldID newID (fuel + 1) oldIter newIter s =
      changeLagLoop oldID newID 1 oldIter newIter s := by
  cases oldIter with
  | nil => rw [changeLagLoop_nil, changeLagLoop_nil]
  | cons o oldRest =>
    cases newIter with
    | nil => simp [changeLagLoop]
    | cons n newRest =>
      simp only [changeLagLoop]
      cases hC : changeLagCompare oldID newID o oldRest n newRest s with
      | error e => rfl
      | ok r =>
        obtain ⟨oldIter1, newIter1, sC⟩ := r
        simp only []
        cases hR : changeLagRemoveRest oldID oldIter1 sC with
        | error e => rfl
        | ok r2 =>
          obtain ⟨oldIter2, sR⟩ := r2
          simp only []
          have hnil := (changeLagRemoveRest_ops oldID oldIter1 sC).2 _ _ hR
          subst hnil
          cases hA : changeLagAddRest oldID newID newIter1 sR with
          | error e => rfl
          | ok r3 =>
            obtain ⟨newIter2, sA⟩ := r3
            simp only []
            rw [changeLagLoop_nil, changeLagLoop_nil]

theorem changeLagLoop_one_ops (oldID newID : AggregatePortID)
    (oldIter newIter : List (PortID × Forwarding)) (s : SaiLagManager) :
    (∀ failure s1, changeLagLoop oldID newID 1 oldIter newIter s = .error (failure, s1) →
      failure ≠ .nonTermination) ∧
    OpsWithin oldIter.length newIter.length s
      (endState id (changeLagLoop oldID newID 1 oldIter newIter s)) := by
  cases oldIter with
  | nil =>
    rw [changeLagLoop_nil]
    exact ⟨fun _ _ h => (by cases h),
      opsWithin_mono (opsWithin_refl s) (Nat.zero_le _) (Nat.zero_le _)⟩
  | cons o oldRest =>
    cases newIter with
    | nil =>
      simp only [changeLagLoop]
      exact ⟨fun _ _ h => (by cases h),
        opsWithin_mono (opsWithin_refl s) (Nat.zero_le _) (Nat.zero_le _)⟩
    | cons n newRest =>
      simp only [changeLagLoop]
      obtain ⟨hCe, hCo⟩ := changeLagCompare_ops oldID newID o oldRest n newRest s
      cases hC : changeLagCompare oldID newID o oldRest n newRest s with
      | error e =>
        obtain ⟨f, t⟩ := e
        obtain ⟨hf, hops⟩ := hCe f t hC
        refine ⟨?_, opsWithin_mono hops (by simp) (by simp)⟩
        intro failure s1 h
        simp only [Except.error.injEq, Prod.mk.injEq] at h
        rw [← h.1]; exact hf
      | ok r =>
        obtain ⟨oldIter1, newIter1, sC⟩ := r
        obtain ⟨removes, adds, hops, hr, ha⟩ := hCo _ _ _ hC
        simp only []
        have hRops := (changeLagRemoveRest_ops oldID oldIter1 sC).1
        cases hR : changeLagRemoveRest oldID oldIter1 sC with
        | error e =>
          obtain ⟨f, t⟩ := e
          rw [hR] at hRops
          refine ⟨?_, opsWithin_mono (opsWithin_trans hops hRops)
            (by simp only [List.length_cons]; omega)
            (by simp only [List.length_cons]; omega)⟩
          intro failure s1 h
          simp only [Except.error.injEq, Prod.mk.injEq] at h
          rw [← h.1]; exact changeLagRemoveRest_error_terminates _ _ _ _ _ hR
        | ok r2 =>
          obtain ⟨oldIter2, sR⟩ := r2
          rw [hR] at hRops
          simp only []
          have hAops := (changeLagAddRest_ops oldID newID newIter1 sR).1
          cases hA : changeLagAddRest oldID newID newIter1 sR with
          | error e =>
            obtain ⟨f, t⟩ := e
            rw [hA] at hAops
            refine ⟨?_, opsWithin_mono (opsWithin_trans (opsWithin_trans hops hRops) hAops)
              (by simp only [List.length_cons]; omega)
              (by simp only [List.length_cons]; omega)⟩
            intro failure s1 h
            simp only [Except.error.injEq, Prod.mk.injEq] at h
            rw [← h.1]; exact changeLagAddRest_error_terminates _ _ _ _ _ _ hA
          | ok r3 =>
            obtain ⟨newIter2, sA⟩ := r3
            rw [hA] at hAops
            simp only []
            have hnil := (changeLagRemoveRest_ops oldID oldIter1 sC).2 _ _ hR
            subst hnil
            rw [changeLagLoop_nil]
            exact ⟨fun _ _ h => (by cases h),
              opsWithin_mono (opsWithin_trans (opsWithin_trans hops hRops) hAops)
                (by simp only [List.length_cons]; omega)
                (by simp only [List.length_cons]; omega)⟩

/-- C25: `changeLag` terminates for every pair of sequences: the body of the merge loop is
executed at most once (the loop with fuel for one iteration gives what it gives with any more,
at every pair of cursors, also when the entries under the cursors are equal), `changeLag` never
runs out of iterations, and whether it returns or fails it has made at most as many calls of
`removeMember` as the old sequence has entries and at most as many calls of `addMember` as the
new sequence has entries. -/
theorem changeLag_terminates_within_bounds (oldAggregatePort newAggregatePort : AggregatePort)
    (s : SaiLagManager) :
    (∀ (fuel : Nat) (oldIter newIter : List (PortID × Forwarding)) (t : SaiLagManager),
      changeLagLoop oldAggregatePort.id newAggregatePort.id (fuel + 1) oldIter newIter t =
        changeLagLoop oldAggregatePort.id newAggregatePort.id 1 oldIter newIter t) ∧
    (∀ failure s1, changeLag oldAggregatePort newAggregatePort s = .error (failure, s1) →
      failure ≠ .nonTermination) ∧
    OpsWithin oldAggregatePort.subportAndFwdState.length
      newAggregatePort.subportAndFwdState.length s
      (endState id (changeLag oldAggregatePort newAggregatePort s)) := by
  refine ⟨fun fuel oldIter newIter t => changeLagLoop_once _ _ fuel oldIter newIter t, ?_⟩
  cases hH : Table.find oldAggregatePort.id s.handles with
  | none =>
    simp only [changeLag, hH]
    refine ⟨?_, opsWithin_mono (opsWithin_refl s) (Nat.zero_le _) (Nat.zero_le _)⟩
    intro failure s1 h
    simp only [Except.error.injEq, Prod.mk.injEq] at h
    rw [← h.1]; intro hx; cases hx
  | some handle =>
    simp only [changeLag, hH]
    have hloop : ∀ t, changeLagLoop oldAggregatePort.id newAggregatePort.id
        (oldAggregatePort.subportAndFwdState.length +
          newAggregatePort.subportAndFwdState.length)
        oldAggregatePort.subportAndFwdState newAggregatePort.subportAndFwdState t =
        changeLagLoop oldAggregatePort.id newAggregatePort.id 1
          oldAggregatePort.subportAndFwdState newAggregatePort.subportAndFwdState t := by
      intro t
      cases hO : oldAggregatePort.subportAndFwdState with
      | nil => rw [changeLagLoop_nil, changeLagLoop_nil]
      | cons o oldRest =>
        have : (o :: oldRest).length + newAggregatePort.subportAndFwdState.length =
            (oldRest.length + newAggregatePort.subportAndFwdState.length) + 1 := by
          simp only [List.length_cons]; omega
        rw [this, changeLagLoop_once]
    rw [hloop]
    obtain ⟨h1, h2⟩ := changeLagLoop_one_ops oldAggregatePort.id newAggregatePort.id
      oldAggregatePort.subportAndFwdState newAggregatePort.subportAndFwdState
      (updateHandle oldAggregatePort.id
        { handle with minimumLinkCount := newAggregatePort.minimumLinkCount } s)
    have h0 : OpsWithin 0 0 s (updateHandle oldAggregatePort.id
        { handle with minimumLinkCount := newAggregatePort.minimumLinkCount } s) :=
      opsWithin_of_memberOps rfl
    exact ⟨h1, opsWithin_mono (opsWithin_trans h0 h2) (by omega) (by omega)⟩

end SaiLagManager

/-! ## Termination of `removeLagHandle` -/

theorem Table.erase_head_of_nodup {K V : Type} [DecidableEq K] (k : K) (v : V)
    (rest : List (K × V)) (h : (((k, v) :: rest).map Prod.fst).Nodup) :
    Table.erase k ((k, v) :: rest) = rest := by
  have hk : k ∉ rest.map Prod.fst := (List.nodup_cons.1 h).1
  unfold Table.erase
  simp only [List.filter_cons, ne_eq, not_true_eq_false, decide_False, Bool.false_eq_true,
    if_false]
  rw [List.filter_eq_self]
  intro e he
  have : e.1 ≠ k := fun hx => hk (hx ▸ List.mem_map_of_mem Prod.fst he)
  simpa using this

namespace SaiLagManager

/-- The member loop of `removeLagHandle` on a member map of `n` entries: `n` iterations end
it, fewer do not, and every iteration removes one member. -/
theorem removeLagHandleMembers_exact (aggPort : AggregatePortID) (n : Nat) :
    ∀ (s : SaiLagManager) (handle : SaiLagHandle),
      Table.find aggPort s.handles = some handle →
      handle.members.length = n →
      (handle.members.map Prod.fst).Nodup →
      (∀ k ∈ handle.members.map Prod.fst,
        (Table.find k s.concurrentIndices.portIds).bind (portSaiIdOf s) = some k) →
      ∃ (s1 : SaiLagManager) (removals : List MemberRemoval),
        (∀ fuel, n ≤ fuel → removeLagHandleMembers aggPort fuel s = .ok s1) ∧
        (∀ fuel, fuel < n →
          ∃ s2, removeLagHandleMembers aggPort fuel s = .error (.nonTermination, s2)) ∧
        removals.length = n ∧
        removals.map (fun r => r.key) = handle.members.map Prod.fst ∧
        s1.trace = s.trace ++ removals.flatMap MemberRemoval.effects ∧
        Table.find aggPort s1.handles = some { handle with members := [] } := by
  induction n with
  | zero =>
    intro s handle hH hlen _ _
    have hnil : handle.members = [] := List.length_eq_zero.1 hlen
    refine ⟨s, [], ?_, ?_, rfl, by simp [hnil], by simp, ?_⟩
    · intro fuel _
      unfold removeLagHandleMembers
      simp only [hH, hnil]
    · intro fuel hf
      exact absurd hf (Nat.not_lt_zero _)
    · rw [hH, ← hnil]
  | succ n ih =>
    intro s handle hH hlen hNodup hWF
    cases hM : handle.members with
    | nil => rw [hM] at hlen; cases hlen
    | cons e rest =>
      obtain ⟨k, member⟩ := e
      have hk := hWF k (by rw [hM]; simp)
      cases hI : Table.find k s.concurrentIndices.portIds with
      | none => simp [hI] at hk
      | some subPort =>
        rw [hI] at hk
        simp only [Option.bind_some, portSaiIdOf] at hk
        cases hP : Table.find subPort s.portHandles with
        | none => simp [hP] at hk
        | some portHandle =>
          have hKey : portHandle.port = k := by simpa [hP] using hk
          have hFind : Table.find portHandle.port handle.members = some member := by
            rw [hKey, hM]; simp [Table.find]
          obtain ⟨s1, h1, hHandles1, hPortHandles1, hIdx1, -, -, -, hTrace1⟩ :=
            removeMember_of_member hH hP hFind
          have hErase : Table.erase portHandle.port handle.members = rest := by
            rw [hM, hKey]
            exact Table.erase_head_of_nodup k member rest (by rw [← hM]; exact hNodup)
          have hH1 : Table.find aggPort s1.handles =
              some { handle with members := rest } := by
            rw [hHandles1, Table.find_assign, hH, hErase]; simp
          have hlen1 : rest.length = n := by
            rw [hM] at hlen
            simpa using hlen
          have hNodup1 : (rest.map Prod.fst).Nodup := by
            rw [hM] at hNodup
            exact (List.nodup_cons.1 hNodup).2
          have hWF1 : ∀ k' ∈ rest.map Prod.fst,
              (Table.find k' s1.concurrentIndices.portIds).bind (portSaiIdOf s1) = some k' := by
            intro k' hk'
            have hold := hWF k' (by rw [hM]; exact List.mem_cons_of_mem _ hk')
            have hsame : ∀ q, portSaiIdOf s1 q = portSaiIdOf s q :=
              portSaiIdOf_eq_of_assign { portHandle with
                bridgePort := some { portDescriptor := .physical subPort,
                                     saiId := .physical portHandle.port } }
                hP rfl hPortHandles1
            have hfun : portSaiIdOf s1 = portSaiIdOf s := funext hsame
            rw [hIdx1, hfun]
            exact hold
          obtain ⟨s2, removals, hOk, hShort, hCount, hKeys, hTrace2, hH2⟩ :=
            ih s1 { handle with members := rest } hH1 hlen1 hNodup1 hWF1
          refine ⟨s2,
            { key := portHandle.port, member := member,
              destroyed := (release member s.lagMemberStore).1, subPort := subPort,
              released := portHandle.bridgePort.map (fun b => b.portDescriptor) } :: removals,
            ?_, ?_, by simp [hCount], ?_, ?_, hH2⟩
          · intro fuel hf
            cases fuel with
            | zero => exact absurd hf (Nat.not_succ_le_zero _)
            | succ fuel =>
              unfold removeLagHandleMembers
              simp only [hH, hM, hI, h1]
              exact hOk fuel (Nat.le_of_succ_le_succ hf)
          · intro fuel hf
            cases fuel with
            | zero =>
              unfold removeLagHandleMembers
              simp only [hH, hM]
              exact ⟨s, rfl⟩
            | succ fuel =>
              unfold removeLagHandleMembers
              simp only [hH, hM, hI, h1]
              exact hShort fuel (Nat.lt_of_succ_lt_succ hf)
          · simp only [List.map_cons, hKeys, hKey]
          · rw [hTrace2, hTrace1]
            cases portHandle.bridgePort <;>
              simp [MemberRemoval.effects, List.flatMap_cons]

/-- C26: when the handle of `aggPort` holds a LAG object, its member map has each key once,
and the index portIds maps every member key to a port whose port handle has that key,
`removeLagHandle` returns and leaves the handle with an empty member map; the member loop runs
exactly as many times as the handle has members (that many iterations end it, fewer do not),
and every iteration removes one member, in the order of the keys. -/
theorem removeLagHandle_terminates (s : SaiLagManager) (aggPort : AggregatePortID)
    (handle : SaiLagHandle) (lag : SaiLag)
    (hHandle : Table.find aggPort s.handles = some handle)
    (hLag : handle.lag = some lag)
    (hKeys : (handle.members.map Prod.fst).Nodup)
    (hPortIds : ∀ k ∈ handle.members.map Prod.fst,
      (Table.find k s.concurrentIndices.portIds).bind (portSaiIdOf s) = some k) :
    ∃ (s1 s2 : SaiLagManager) (removals : List MemberRemoval),
      (∀ fuel, handle.members.length ≤ fuel →
        removeLagHandleMembers aggPort fuel s = .ok s1) ∧
      (∀ fuel, fuel < handle.members.length →
        ∃ s3, removeLagHandleMembers aggPort fuel s = .error (.nonTermination, s3)) ∧
      removals.length = handle.members.length ∧
      removals.map (fun r => r.key) = handle.members.map Prod.fst ∧
      s1.trace = s.trace ++ removals.flatMap MemberRemoval.effects ∧
      Table.find aggPort s1.handles = some { handle with members := [] } ∧
      removeLagHandle aggPort s = .ok s2 ∧
      Table.find aggPort s2.handles =
        some { handle with members := [], bridgePort := none, lag := none } := by
  obtain ⟨s1, removals, hOk, hShort, hCount, hOrder, hTrace, hH1⟩ :=
    removeLagHandleMembers_exact aggPort handle.members.length s handle hHandle rfl hKeys
      hPortIds
  have hrun := hOk handle.members.length (Nat.le_refl _)
  have hlast : ∃ s2, removeLagHandle aggPort s = .ok s2 ∧
      Table.find aggPort s2.handles =
        some { handle with members := [], bridgePort := none, lag := none } := by
    simp only [removeLagHandle, hHandle, hrun, hH1, hLag]
    refine ⟨_, rfl, ?_⟩
    cases handle.bridgePort <;>
      simp [updateHandle, releaseLag, releaseBridgePort, emit, Table.find_assign, hH1]
  obtain ⟨s2, hs2, hH2⟩ := hlast
  exact ⟨s1, s2, removals, hOk, hShort, hCount, hOrder, hTrace, hH1, hs2, hH2⟩

/-! ## The minimum link count after `changeLag` -/

theorem removeMember_minimumLinkCount {aggPort : AggregatePortID} {subPort : PortID}
    {s s1 : SaiLagManager} {count : Nat}
    (h : removeMember aggPort subPort s = .ok s1)
    (hC : ∃ handle, Table.find aggPort s.handles = some handle ∧
      handle.minimumLinkCount = count) :
    ∃ handle, Table.find aggPort s1.handles = some handle ∧
      handle.minimumLinkCount = count := by
  obtain ⟨handle, hH, hc⟩ := hC
  rcases removeMember_inv hH h with hs | ⟨portHandle, member, -, -, hHandles, -⟩
  · subst hs; exact ⟨handle, hH, hc⟩
  · refine ⟨{ handle with members := Table.erase portHandle.port handle.members }, ?_, hc⟩
    rw [hHandles, Table.find_assign, hH]; simp

theorem emplaceMember_minimumLinkCount (aggPort : AggregatePortID)
    (member : PortSaiId × SaiLagMember) {s : SaiLagManager} {count : Nat}
    (hC : ∃ handle, Table.find aggPort s.handles = some handle ∧
      handle.minimumLinkCount = count) :
    ∃ handle, Table.find aggPort (emplaceMember aggPort member s).handles = some handle ∧
      handle.minimumLinkCount = count := by
  obtain ⟨handle, hH, hc⟩ := hC
  simp only [emplaceMember, hH]
  rw [(dropUnplaced_frame _ _ _).1]
  refine ⟨{ handle with
    members := Table.orderedEmplace member.1 member.2 handle.members }, ?_, hc⟩
  simp [updateHandle, Table.find_assign, hH]

theorem changeLagAdd_minimumLinkCount {oldID newID : AggregatePortID}
    {entry : PortID × Forwarding} {s s1 : SaiLagManager} {count : Nat}
    (h : changeLagAdd oldID newID entry s = .ok s1)
    (hC : ∃ handle, Table.find oldID s.handles = some handle ∧
      handle.minimumLinkCount = count) :
    ∃ handle, Table.find oldID s1.handles = some handle ∧
      handle.minimumLinkCount = count := by
  unfold changeLagAdd at h
  cases hH : Table.find oldID s.handles with
  | none => simp [hH] at h
  | some handle =>
    cases hL : handle.lag with
    | none => simp [hH, hL] at h
    | some lag =>
      simp only [hH, hL] at h
      cases hA : addMember lag newID entry.1 (issue (.addMember entry.1) s) with
      | error e => simp [hA] at h
      | ok r =>
        obtain ⟨member, sA⟩ := r
        simp only [hA] at h
        cases hS : setMemberState member.2 entry.2
            (issue (.setMemberState entry.1 entry.2) sA) with
        | error e => simp [hS] at h
        | ok sB =>
          simp only [hS, Except.ok.injEq] at h
          obtain ⟨portHandle, -, -, hHA, -⟩ := addMember_inv hA
          obtain ⟨hHB, -⟩ := setMemberState_frame hS
          rw [← h]
          apply emplaceMember_minimumLinkCount
          rw [hHB]
          show ∃ handle, Table.find oldID sA.handles = some handle ∧ _
          rw [hHA]
          exact hC

theorem changeLagRemoveRest_minimumLinkCount (oldID : AggregatePortID) (count : Nat)
    (xs : List (PortID × Forwarding)) :
    ∀ (s s1 : SaiLagManager) (cursor : List (PortID × Forwarding)),
      changeLagRemoveRest oldID xs s = .ok (cursor, s1) →
      (∃ handle, Table.find oldID s.handles = some handle ∧
        handle.minimumLinkCount = count) →
      ∃ handle, Table.find oldID s1.handles = some handle ∧
        handle.minimumLinkCount = count := by
  induction xs with
  | nil =>
    intro s s1 cursor h hC
    simp only [changeLagRemoveRest, Except.ok.injEq, Prod.mk.injEq] at h
    rw [← h.2]; exact hC
  | cons x rest ih =>
    intro s s1 cursor h hC
    simp only [changeLagRemoveRest] at h
    cases hR : removeMember oldID x.1 (issue (.removeMember x.1) s) with
    | error e => simp [hR] at h
    | ok s2 =>
      simp only [hR] at h
      exact ih _ _ _ h (removeMember_minimumLinkCount hR hC)

theorem changeLagAddRest_minimumLinkCount (oldID newID : AggregatePortID) (count : Nat)
    (xs : List (PortID × Forwarding)) :
    ∀ (s s1 : SaiLagManager) (cursor : List (PortID × Forwarding)),
      changeLagAddRest oldID newID xs s = .ok (cursor, s1) →
      (∃ handle, Table.find oldID s.handles = some handle ∧
        handle.minimumLinkCount = count) →
      ∃ handle, Table.find oldID s1.handles = some handle ∧
        handle.minimumLinkCount = count := by
  induction xs with
  | nil =>
    intro s s1 cursor h hC
    simp only [changeLagAddRest, Except.ok.injEq, Prod.mk.injEq] at h
    rw [← h.2]; exact hC
  | cons x rest ih =>
    intro s s1 cursor h hC
    simp only [changeLagAddRest] at h
    cases hR : changeLagAdd oldID newID x s with
    | error e => simp [hR] at h
    | ok s2 =>
      simp only [hR] at h
      exact ih _ _ _ h (changeLagAdd_minimumLinkCount hR hC)

theorem changeLagCompare_minimumLinkCount {oldID newID : AggregatePortID} {count : Nat}
    {o n : PortID × Forwarding} {oldRest newRest oldIter newIter : List (PortID × Forwarding)}
    {s s1 : SaiLagManager}
    (h : changeLagCompare oldID newID o oldRest n newRest s = .ok (oldIter, newIter, s1))
    (hC : ∃ handle, Table.find oldID s.handles = some handle ∧
      handle.minimumLinkCount = count) :
    ∃ handle, Table.find oldID s1.handles = some handle ∧
      handle.minimumLinkCount = count := by
  unfold changeLagCompare at h
  by_cases h1 : o.1 < n.1
  · rw [if_pos h1] at h
    cases hR : removeMember oldID o.1 (issue (.removeMember o.1) s) with
    | error e => simp [hR] at h
    | ok s2 =>
      simp only [hR, Except.ok.injEq, Prod.mk.injEq] at h
      rw [← h.2.2]
      exact removeMember_minimumLinkCount hR hC
  · rw [if_neg h1] at h
    by_cases h2 : n.1 < o.1
    · rw [if_pos h2] at h
      cases hR : changeLagAdd oldID newID n s with
      | error e => simp [hR] at h
      | ok s2 =>
        simp only [hR, Except.ok.injEq, Prod.mk.injEq] at h
        rw [← h.2.2]
        exact changeLagAdd_minimumLinkCount hR hC
    · rw [if_neg h2] at h
      by_cases h3 : o.2 ≠ n.2
      · rw [if_pos h3] at h
        cases hH : Table.find oldID s.handles with
        | none => simp [hH] at h
        | some handle =>
          simp only [hH] at h
          cases hG : getMember handle n.1 s with
          | error e => simp [hG] at h
          | ok member =>
            simp only [hG] at h
            cases hS : setMemberState member n.2 (issue (.setMemberState n.1 n.2) s) with
            | error e => simp [hS] at h
            | ok s2 =>
              simp only [hS, Except.ok.injEq, Prod.mk.injEq] at h
              rw [← h.2.2]
              obtain ⟨hH2, -⟩ := setMemberState_frame hS
              rw [hH2]
              exact hC
      · rw [if_neg h3] at h
        simp only [Except.ok.injEq, Prod.mk.injEq] at h
        rw [← h.2.2]
        exact hC

theorem changeLagLoop_minimumLinkCount (oldID newID : AggregatePortID) (count : Nat)
    (fuel : Nat) :
    ∀ (oldIter newIter : List (PortID × Forwarding)) (s s1 : SaiLagManager),
      changeLagLoop oldID newID fuel oldIter newIter s = .ok s1 →
      (∃ handle, Table.find oldID s.handles = some handle ∧
        handle.minimumLinkCount = count) →
      ∃ handle, Table.find oldID s1.handles = some handle ∧
        handle.minimumLinkCount = count := by
  induction fuel with
  | zero =>
    intro oldIter newIter s s1 h hC
    cases oldIter with
    | nil => simp only [changeLagLoop, Except.ok.injEq] at h; rw [← h]; exact hC
    | cons o oldRest =>
      cases newIter with
      | nil => simp only [changeLagLoop, Except.ok.injEq] at h; rw [← h]; exact hC
      | cons n newRest => simp [changeLagLoop] at h
  | succ fuel ih =>
    intro oldIter newIter s s1 h hC
    cases oldIter with
    | nil => simp only [changeLagLoop, Except.ok.injEq] at h; rw [← h]; exact hC
    | cons o oldRest =>
      cases newIter with
      | nil => simp only [changeLagLoop, Except.ok.injEq] at h; rw [← h]; exact hC
      | cons n newRest =>
        simp only [changeLagLoop] at h
        cases hCmp : changeLagCompare oldID newID o oldRest n newRest s with
        | error e => simp [hCmp] at h
        | ok r =>
          obtain ⟨oldIter1, newIter1, sC⟩ := r
          simp only [hCmp] at h
          have hC1 := changeLagCompare_minimumLinkCount hCmp hC
          cases hR : changeLagRemoveRest oldID oldIter1 sC with
          | error e => simp [hR] at h
          | ok r2 =>
            obtain ⟨oldIter2, sR⟩ := r2
            simp only [hR] at h
            have hC2 := changeLagRemoveRest_minimumLinkCount oldID count _ _ _ _ hR hC1
            cases hA : changeLagAddRest oldID newID newIter1 sR with
            | error e => simp [hA] at h
            | ok r3 =>
              obtain ⟨newIter2, sA⟩ := r3
              simp only [hA] at h
              have hC3 := changeLagAddRest_minimumLinkCount oldID newID count _ _ _ _ hA hC2
              exact ih _ _ _ _ h hC3

/-- C29: for an aggregate port that has a handle, `changeLag` with an old or a new sequence
without sub-ports returns at once, with only the minimum link count of the handle changed; and
after every returning `changeLag` the handle has the minimum link count of the new aggregate
port, so that `isMinimumLinkMet` returns whether that count is at most the active member
count. -/
theorem changeLag_sets_minimumLinkCount (s : SaiLagManager)
    (oldAggregatePort newAggregatePort : AggregatePort) (handle : SaiLagHandle)
    (hHandle : getLagHandleIf oldAggregatePort.id s = some handle) :
    ((oldAggregatePort.subportAndFwdState = [] ∨ newAggregatePort.subportAndFwdState = []) →
      changeLag oldAggregatePort newAggregatePort s =
        .ok (updateHandle oldAggregatePort.id
          { handle with minimumLinkCount := newAggregatePort.minimumLinkCount } s)) ∧
    (∀ s1, changeLag oldAggregatePort newAggregatePort s = .ok s1 →
      ∃ handle1, getLagHandleIf oldAggregatePort.id s1 = some handle1 ∧
        handle1.minimumLinkCount = newAggregatePort.minimumLinkCount ∧
        (∀ active, getActiveMemberCount oldAggregatePort.id s1 = .ok active →
          isMinimumLinkMet oldAggregatePort.id s1 =
            .ok (decide (newAggregatePort.minimumLinkCount ≤ active)))) := by
  simp only [getLagHandleIf] at hHandle
  constructor
  · intro hEmpty
    simp only [changeLag, hHandle]
    rcases hEmpty with hO | hN
    · rw [hO]; exact changeLagLoop_nil _ _ _ _ _
    · rw [hN]
      cases oldAggregatePort.subportAndFwdState with
      | nil => exact changeLagLoop_nil _ _ _ _ _
      | cons o oldRest => cases oldRest <;> simp [changeLagLoop]
  · intro s1 h
    simp only [changeLag, hHandle] at h
    obtain ⟨handle1, hH1, hc1⟩ := changeLagLoop_minimumLinkCount _ _
      newAggregatePort.minimumLinkCount _ _ _ _ _ h
      ⟨{ handle with minimumLinkCount := newAggregatePort.minimumLinkCount },
        by simp [updateHandle, Table.find_assign, hHandle], rfl⟩
    refine ⟨handle1, hH1, hc1, ?_⟩
    intro active hA
    simp only [isMinimumLinkMet, getLagHandle, getLagHandleIf, hH1, hA, hc1]

/-! ## The checks of `addLag` -/

/-- C28 (amended): when the sub-port list is not empty, the first sub-port has an entry in
portSaiIds whose hardware id has an entry in vlanIds, and every sub-port has a port handle,
`addLag` returns (it fails no check and takes the first element of no empty list) with the LAG
id obtained for the label; when the id had no handle the handle stored for it holds the VLAN of
the first sub-port, and when the LAG id had no vlanIds entry the entry recorded for it is that
VLAN. -/
theorem addLag_checks_pass (s : SaiLagManager) (aggregatePort : AggregatePort)
    (hNonEmpty : aggregatePort.subportAndFwdState ≠ [])
    (hFirst : ∀ p ∈ aggregatePort.sortedSubports.head?,
      ((Table.find p s.concurrentIndices.portSaiIds).bind
        (fun k => Table.find (PortDescriptorSaiId.physical k)
          s.concurrentIndices.vlanIds)).isSome)
    (hPortHandles : ∀ p ∈ aggregatePort.sortedSubports, (Table.find p s.portHandles).isSome) :
    ∃ (lagSaiId : LagSaiId) (s1 : SaiLagManager) (first : PortID) (portSaiId : PortSaiId)
      (vlanID : VlanSaiId),
      aggregatePort.sortedSubports.head? = some first ∧
      Table.find first s.concurrentIndices.portSaiIds = some portSaiId ∧
      Table.find (PortDescriptorSaiId.physical portSaiId) s.concurrentIndices.vlanIds =
        some vlanID ∧
      addLag aggregatePort s = .ok (lagSaiId, s1) ∧
      lagSaiId = lagSaiIdFor aggregatePort s ∧
      (getLagHandleIf aggregatePort.id s = none →
        ∃ handle, getLagHandleIf aggregatePort.id s1 = some handle ∧
          handle.vlanId = vlanID) ∧
      (Table.find (PortDescriptorSaiId.aggregate lagSaiId) s.concurrentIndices.vlanIds = none →
        Table.find (PortDescriptorSaiId.aggregate lagSaiId) s1.concurrentIndices.vlanIds =
          some vlanID) := by
  cases hO : aggregatePort.subportAndFwdState with
  | nil => exact absurd hO hNonEmpty
  | cons first rest =>
    have hsorted : aggregatePort.sortedSubports = first.1 :: rest.map Prod.fst := by
      simp [AggregatePort.sortedSubports, hO]
    have hf := hFirst first.1 (by simp [hsorted])
    cases hidx : Table.find first.1 s.concurrentIndices.portSaiIds with
    | none => simp [hidx] at hf
    | some portSaiId =>
      rw [hidx] at hf
      have hf : (Table.find (PortDescriptorSaiId.physical portSaiId)
          s.concurrentIndices.vlanIds).isSome := hf
      cases hVlan : Table.find (PortDescriptorSaiId.physical portSaiId)
          s.concurrentIndices.vlanIds with
      | none => simp [hVlan] at hf
      | some vlanID =>
        let labelValue : List Nat := aggregatePort.name.take 32 ++
          List.replicate (32 - (aggregatePort.name.take 32).length) 0
        let r := setObject labelValue
          ({ label := labelValue, vlan := vlanID } : SaiLagAttributes)
          s.nextAdapterKey s.lagStore
        let lag : SaiLag := { label := labelValue, adapterKey := r.1 }
        let s0 : SaiLagManager := emit (.lagSetObject labelValue r.1 r.2.1)
          { s with
            lagStore := r.2.2
            nextAdapterKey := if r.2.1 then s.nextAdapterKey + 1 else s.nextAdapterKey }
        have hxs : ∀ x ∈ aggregatePort.subportAndFwdState,
            (Table.find x.1 s0.portHandles).isSome :=
          fun x hx => hPortHandles x.1 (List.mem_map_of_mem Prod.fst hx)
        obtain ⟨members1, s1, h1, hHandles1⟩ :=
          addLagMembers_returns lag aggregatePort.id
            aggregatePort.subportAndFwdState [] s0 hxs
        have hVlanIds1 : s1.concurrentIndices.vlanIds = s.concurrentIndices.vlanIds :=
          (addLagMembers_indices lag aggregatePort.id
            (aggregatePort.subportAndFwdState.map (fun x => (portSaiIdOf s0 x.1).getD 0))
            _ _ _ _ _ h1
            (fun x hx k hk => by
              have hk2 : portSaiIdOf s0 x.1 = some k := hk
              exact List.mem_map.2 ⟨x, hx, by rw [hk2]; rfl⟩)).2.2.1
        have h1' : addLagMembers lag aggregatePort.id aggregatePort.subportAndFwdState [] s0 =
          .ok (members1, s1) := h1
        simp only [lag, s0, r, labelValue] at h1'
        have hrun : ∃ s2, addLag aggregatePort s = .ok (r.1, s2) ∧
            s2.handles = Table.emplace aggregatePort.id
              ({ lag := some lag
                 bridgePort := some { portDescriptor := .aggregate aggregatePort.id,
                                      saiId := .aggregate r.1 }
                 members := members1
                 minimumLinkCount := aggregatePort.minimumLinkCount
                 vlanId := vlanID } : SaiLagHandle) s.handles ∧
            s2.concurrentIndices.vlanIds =
              Table.emplace (PortDescriptorSaiId.aggregate r.1) vlanID
                s.concurrentIndices.vlanIds := by
          simp only [addLag, hsorted, hidx, hVlan]
          simp only [h1']
          have hite : ∀ (b : Bool) (handle : SaiLagHandle) (t : SaiLagManager),
              (if b = true then t else destroyHandle handle t).handles = t.handles ∧
              (if b = true then t else destroyHandle handle t).concurrentIndices =
                t.concurrentIndices := by
            intro b handle t
            cases b
            · exact ⟨destroyHandle_handles handle t, (destroyHandle_frame handle t).1⟩
            · exact ⟨rfl, rfl⟩
          refine ⟨_, rfl, ?_, ?_⟩
          · rw [(hite _ _ _).1]
            show Table.emplace _ _ s1.handles = _
            rw [hHandles1]; rfl
          · rw [(hite _ _ _).2]
            show Table.emplace _ _ s1.concurrentIndices.vlanIds = _
            rw [hVlanIds1]
        obtain ⟨s2, hs2, hHandles2, hVlanIds2⟩ := hrun
        have hid : r.1 = lagSaiIdFor aggregatePort s := by
          show (setObject labelValue _ s.nextAdapterKey s.lagStore).1 = _
          rw [setObject_adapterKey]
          unfold lagSaiIdFor lagLabel
          generalize Table.find _ s.lagStore = o
          cases o <;> rfl
        refine ⟨r.1, s2, first.1, portSaiId, vlanID, by simp [hsorted], hidx, hVlan, hs2, hid,
          ?_, ?_⟩
        · intro hAbsent
          simp only [getLagHandleIf] at hAbsent ⊢
          rw [hHandles2, Table.find_emplace, hAbsent]
          simp only [if_true, Option.getD_none]
          exact ⟨_, rfl, rfl⟩
        · intro hFresh
          rw [hVlanIds2, Table.find_emplace, hFresh]
          simp

end SaiLagManager

/-! ## The index of member ports -/

theorem Table.find_orderedEmplace_isSome_iff {W : Type} (k k' : Nat) (v : W)
    (m : List (Nat × W)) :
    (Table.find k' (Table.orderedEmplace k v m)).isSome = true ↔
      ((Table.find k' m).isSome = true ∨ k' = k) := by
  constructor
  · exact Table.find_orderedEmplace_isSome k k' v m
  · intro h
    unfold Table.orderedEmplace
    cases hk : Table.find k m with
    | some x =>
      simp only []
      rcases h with h | h
      · exact h
      · rw [h, hk]; rfl
    | none =>
      simp only []
      rw [Table.find_insertOrdered k k' v m hk]
      by_cases hkk : k' = k
      · simp [hkk]
      · simp only [hkk, if_false]
        rcases h with h | h
        · exact h
        · exact absurd h hkk

namespace SaiLagManager

/-- What a returning `removeMember` changes: nothing, or the member key of the sub-port in the
handle and in the index memberPort2AggregatePortIds. -/
theorem removeMember_effect {aggPort : AggregatePortID} {subPort : PortID}
    {s s1 : SaiLagManager} (h : removeMember aggPort subPort s = .ok s1) :
    s1 = s ∨
    ∃ k, isMemberOf s aggPort k = true ∧
      (∀ q, portSaiIdOf s1 q = portSaiIdOf s q) ∧
      s1.concurrentIndices.memberPort2AggregatePortIds =
        Table.erase k s.concurrentIndices.memberPort2AggregatePortIds ∧
      (∀ b k', isMemberOf s1 b k' = true ↔
        (isMemberOf s b k' = true ∧ ¬ (b = aggPort ∧ k' = k))) := by
  cases hH : Table.find aggPort s.handles with
  | none => simp [removeMember, hH] at h
  | some handle =>
    rcases removeMember_inv hH h with hs | ⟨portHandle, member, hP, hM, hHandles, hPorts, hIdx, -⟩
    · exact Or.inl hs
    · right
      refine ⟨portHandle.port, (isMemberOf_iff _ _ _).2 ⟨handle, hH, by rw [hM]; rfl⟩,
        portSaiIdOf_eq_of_assign { portHandle with
          bridgePort := some { portDescriptor := .physical subPort,
                               saiId := .physical portHandle.port } } hP rfl hPorts,
        by rw [hIdx], ?_⟩
      intro b k'
      rw [isMemberOf_iff, isMemberOf_iff, hHandles]
      constructor
      · rintro ⟨handle1, hF, hK⟩
        rw [Table.find_assign] at hF
        by_cases hb : b = aggPort
        · subst hb
          simp only [if_true, hH, Option.map_some', Option.some.injEq] at hF
          subst hF
          simp only [Table.find_erase] at hK
          by_cases hk : k' = portHandle.port
          · simp [hk] at hK
          · simp only [hk, if_false] at hK
            exact ⟨⟨handle, hH, hK⟩, fun hx => hk hx.2⟩
        · simp only [hb, if_false] at hF
          exact ⟨⟨handle1, hF, hK⟩, fun hx => hb hx.1⟩
      · rintro ⟨⟨handle0, hF, hK⟩, hne⟩
        rw [Table.find_assign]
        by_cases hb : b = aggPort
        · subst hb
          rw [hH] at hF
          cases hF
          have hk : k' ≠ portHandle.port := fun hx => hne ⟨rfl, hx⟩
          refine ⟨{ handle with members := Table.erase portHandle.port handle.members },
            by simp [hH], ?_⟩
          simp only [Table.find_erase, hk, if_false]
          exact hK
        · exact ⟨handle0, by simp [hb, hF], hK⟩

theorem removeMember_agrees {aggPort : AggregatePortID} {subPort : PortID}
    {s s1 : SaiLagManager} (h : removeMember aggPort subPort s = .ok s1)
    (hI : IndexAgrees s) : IndexAgrees s1 := by
  rcases removeMember_effect h with hs | ⟨k, hk, -, hIdx, hMem⟩
  · subst hs; exact hI
  · intro k' b
    rw [hIdx, Table.find_erase, hMem]
    by_cases hkk : k' = k
    · subst hkk
      rw [if_pos rfl]
      constructor
      · intro hx; cases hx
      · rintro ⟨hb, hne⟩
        exfalso
        have h1 := (hI k' b).2 hb
        have h2 := (hI k' aggPort).2 hk
        rw [h1] at h2
        exact hne ⟨Option.some.inj h2, rfl⟩
    · rw [if_neg hkk, hI k' b]
      constructor
      · intro hx; exact ⟨hx, fun hy => hkk hy.2⟩
      · intro hx; exact hx.1

theorem removeMember_notInOtherLag {aggPort a : AggregatePortID} {subPort p : PortID}
    {s s1 : SaiLagManager} (h : removeMember aggPort subPort s = .ok s1)
    (hN : NotInOtherLag s a p) : NotInOtherLag s1 a p := by
  rcases removeMember_effect h with hs | ⟨k, -, hSai, -, hMem⟩
  · subst hs; exact hN
  · exact notInOtherLag_weaken hSai (fun b k' _ hx => ((hMem b k').1 hx).1) hN

theorem setMemberState_indices {member : SaiLagMember} {fwdState : Forwarding}
    {s s1 : SaiLagManager} (h : setMemberState member fwdState s = .ok s1) :
    s1.concurrentIndices = s.concurrentIndices := by
  cases hO : Table.find member s.lagMemberStore with
  | none => simp [setMemberState, hO] at h
  | some object =>
    rw [setMemberState_of_object fwdState hO] at h
    simp only [Except.ok.injEq] at h
    subst h
    rfl

theorem emplaceMember_effect (aggPort : AggregatePortID)
    (member : PortSaiId × SaiLagMember) (s : SaiLagManager) (handle : SaiLagHandle)
    (hH : Table.find aggPort s.handles = some handle) :
    (emplaceMember aggPort member s).portHandles = s.portHandles ∧
    (emplaceMember aggPort member s).concurrentIndices = s.concurrentIndices ∧
    (∀ b k, isMemberOf (emplaceMember aggPort member s) b k = true ↔
      (isMemberOf s b k = true ∨ (b = aggPort ∧ k = member.1))) := by
  simp only [emplaceMember, hH]
  refine ⟨by rw [(dropUnplaced_frame _ _ _).2.1]; rfl,
    by rw [(dropUnplaced_frame _ _ _).2.2]; rfl, ?_⟩
  intro b k
  rw [isMemberOf_iff, isMemberOf_iff, (dropUnplaced_frame _ _ _).1]
  simp only [updateHandle, Table.find_assign]
  by_cases hb : b = aggPort
  · subst hb
    simp only [if_true, hH, Option.map_some', Option.some.injEq, true_and]
    constructor
    · rintro ⟨handle1, hF, hK⟩
      subst hF
      rcases (Table.find_orderedEmplace_isSome_iff _ _ _ _).1 hK with hk | hk
      · exact Or.inl ⟨handle, rfl, hk⟩
      · exact Or.inr hk
    · intro hx
      refine ⟨_, rfl, (Table.find_orderedEmplace_isSome_iff _ _ _ _).2 ?_⟩
      rcases hx with ⟨handle0, hF, hK⟩ | hk
      · subst hF; exact Or.inl hK
      · exact Or.inr hk
  · simp only [hb, if_false, false_and, or_false]

/-- What a returning member addition of `changeLag` changes: the bridge port of the sub-port,
its key in the member map of the handle, and its entry of memberPort2AggregatePortIds. -/
theorem changeLagAdd_effect {oldID newID : AggregatePortID} {entry : PortID × Forwarding}
    {s s1 : SaiLagManager} (h : changeLagAdd oldID newID entry s = .ok s1) :
    ∃ k, portSaiIdOf s entry.1 = some k ∧
      (∀ q, portSaiIdOf s1 q = portSaiIdOf s q) ∧
      s1.concurrentIndices.memberPort2AggregatePortIds =
        Table.emplace k newID s.concurrentIndices.memberPort2AggregatePortIds ∧
      (∀ b k', isMemberOf s1 b k' = true ↔
        (isMemberOf s b k' = true ∨ (b = oldID ∧ k' = k))) := by
  unfold changeLagAdd at h
  cases hH : Table.find oldID s.handles with
  | none => simp [hH] at h
  | some handle =>
    cases hL : handle.lag with
    | none => simp [hH, hL] at h
    | some lag =>
      simp only [hH, hL] at h
      cases hP : Table.find entry.1 s.portHandles with
      | none => simp [addMember, issue, hP] at h
      | some portHandle =>
        have hP0 : Table.find entry.1 (issue (.addMember entry.1) s).portHandles =
            some portHandle := hP
        obtain ⟨sA, hA, hHA, hPA, -, hIdxA, -, -⟩ :=
          addMember_of_portHandle lag newID hP0
        simp only [hA] at h
        cases hS : setMemberState ({ lag := lag.adapterKey, port := portHandle.port } : SaiLagMember)
            entry.2 (issue (.setMemberState entry.1 entry.2) sA) with
        | error e => simp [hS] at h
        | ok sB =>
          simp only [hS, Except.ok.injEq] at h
          obtain ⟨hHB, hPB⟩ := setMemberState_frame hS
          have hIdxB := setMemberState_indices hS
          have hHB0 : Table.find oldID sB.handles = some handle := by
            rw [hHB]
            show Table.find oldID sA.handles = _
            rw [hHA]; exact hH
          obtain ⟨hPC, hIdxC, hMC⟩ := emplaceMember_effect oldID
            (portHandle.port, { lag := lag.adapterKey, port := portHandle.port }) sB handle hHB0
          rw [h] at hPC hIdxC hMC
          refine ⟨portHandle.port, by simp [portSaiIdOf, hP], ?_, ?_, ?_⟩
          · intro q
            rw [portSaiIdOf_congr hPC, portSaiIdOf_congr hPB]
            exact portSaiIdOf_eq_of_assign { portHandle with bridgePort := none } hP0 rfl hPA q
          · rw [hIdxC, hIdxB]
            show sA.concurrentIndices.memberPort2AggregatePortIds = _
            rw [hIdxA]; rfl
          · intro b k'
            rw [hMC, isMemberOf_congr hHB]
            show (isMemberOf sA b k' = true ∨ _) ↔ _
            rw [isMemberOf_congr hHA]
            rfl

theorem changeLagAdd_agrees {aggPort : AggregatePortID} {entry : PortID × Forwarding}
    {s s1 : SaiLagManager} (h : changeLagAdd aggPort aggPort entry s = .ok s1)
    (hI : IndexAgrees s) (hN : NotInOtherLag s aggPort entry.1) : IndexAgrees s1 := by
  obtain ⟨k, hk, -, hIdx, hMem⟩ := changeLagAdd_effect h
  intro k' b
  rw [hIdx, Table.find_emplace, hMem]
  by_cases hkk : k' = k
  · subst hkk
    rw [if_pos rfl]
    have hval : (Table.find k' s.concurrentIndices.memberPort2AggregatePortIds).getD aggPort =
        aggPort := by
      cases hF : Table.find k' s.concurrentIndices.memberPort2AggregatePortIds with
      | none => rfl
      | some c =>
        simp only [Option.getD_some]
        by_contra hc
        have := hN k' c hk hc
        rw [(hI k' c).1 hF] at this
        cases this
    rw [hval]
    constructor
    · intro hx
      exact Or.inr ⟨(Option.some.inj hx).symm, rfl⟩
    · rintro (hx | ⟨hb, -⟩)
      · by_cases hb : b = aggPort
        · rw [hb]
        · have := hN k' b hk hb
          rw [hx] at this
          cases this
      · rw [hb]
  · rw [if_neg hkk, hI k' b]
    constructor
    · intro hx; exact Or.inl hx
    · rintro (hx | ⟨-, hx⟩)
      · exact hx
      · exact absurd hx hkk

theorem changeLagAdd_notInOtherLag {oldID newID : AggregatePortID}
    {entry : PortID × Forwarding} {p : PortID}
    {s s1 : SaiLagManager} (h : changeLagAdd oldID newID entry s = .ok s1)
    (hN : NotInOtherLag s oldID p) : NotInOtherLag s1 oldID p := by
  obtain ⟨k, -, hSai, -, hMem⟩ := changeLagAdd_effect h
  refine notInOtherLag_weaken hSai ?_ hN
  intro b k' hb hx
  rcases (hMem b k').1 hx with hy | ⟨hy, -⟩
  · exact hy
  · exact absurd hy hb

theorem agrees_congr {aggPort : AggregatePortID} {ports : List PortID}
    {s s1 : SaiLagManager} (hH : s1.handles = s.handles)
    (hP : s1.portHandles = s.portHandles)
    (hC : s1.concurrentIndices = s.concurrentIndices)
    (hQ : IndexAgrees s ∧ ∀ p ∈ ports, NotInOtherLag s aggPort p) :
    IndexAgrees s1 ∧ ∀ p ∈ ports, NotInOtherLag s1 aggPort p := by
  refine ⟨?_, fun p hp => notInOtherLag_weaken (portSaiIdOf_congr hP)
    (fun b k _ hx => by rw [← isMemberOf_congr hH]; exact hx) (hQ.2 p hp)⟩
  intro k b
  rw [hC, isMemberOf_congr hH]
  exact hQ.1 k b

theorem removeMember_agrees_disjoint {aggPort : AggregatePortID} {subPort : PortID}
    {ports : List PortID} {s s1 : SaiLagManager}
    (h : removeMember aggPort subPort s = .ok s1)
    (hQ : IndexAgrees s ∧ ∀ p ∈ ports, NotInOtherLag s aggPort p) :
    IndexAgrees s1 ∧ ∀ p ∈ ports, NotInOtherLag s1 aggPort p :=
  ⟨removeMember_agrees h hQ.1, fun p hp => removeMember_notInOtherLag h (hQ.2 p hp)⟩

theorem changeLagAdd_agrees_disjoint {aggPort : AggregatePortID}
    {entry : PortID × Forwarding} {ports : List PortID} {s s1 : SaiLagManager}
    (h : changeLagAdd aggPort aggPort entry s = .ok s1) (hp : entry.1 ∈ ports)
    (hQ : IndexAgrees s ∧ ∀ p ∈ ports, NotInOtherLag s aggPort p) :
    IndexAgrees s1 ∧ ∀ p ∈ ports, NotInOtherLag s1 aggPort p :=
  ⟨changeLagAdd_agrees h hQ.1 (hQ.2 _ hp),
    fun p hp => changeLagAdd_notInOtherLag h (hQ.2 p hp)⟩

theorem changeLagRemoveRest_agrees (aggPort : AggregatePortID) (ports : List PortID)
    (xs : List (PortID × Forwarding)) :
    ∀ (s s1 : SaiLagManager) (cursor : List (PortID × Forwarding)),
      changeLagRemoveRest aggPort xs s = .ok (cursor, s1) →
      (IndexAgrees s ∧ ∀ p ∈ ports, NotInOtherLag s aggPort p) →
      IndexAgrees s1 ∧ ∀ p ∈ ports, NotInOtherLag s1 aggPort p := by
  induction xs with
  | nil =>
    intro s s1 cursor h hQ
    simp only [changeLagRemoveRest, Except.ok.injEq, Prod.mk.injEq] at h
    rw [← h.2]; exact hQ
  | cons x rest ih =>
    intro s s1 cursor h hQ
    simp only [changeLagRemoveRest] at h
    cases hR : removeMember aggPort x.1 (issue (.removeMember x.1) s) with
    | error e => simp [hR] at h
    | ok s2 =>
      simp only [hR] at h
      exact ih _ _ _ h (removeMember_agrees_disjoint hR
        (agrees_congr (s := s) rfl rfl rfl hQ))

theorem changeLagAddRest_agrees (aggPort : AggregatePortID) (ports : List PortID)
    (xs : List (PortID × Forwarding)) :
    ∀ (s s1 : SaiLagManager) (cursor : List (PortID × Forwarding)),
      changeLagAddRest aggPort aggPort xs s = .ok (cursor, s1) →
      (∀ x ∈ xs, x.1 ∈ ports) →
      (IndexAgrees s ∧ ∀ p ∈ ports, NotInOtherLag s aggPort p) →
      IndexAgrees s1 ∧ ∀ p ∈ ports, NotInOtherLag s1 aggPort p := by
  induction xs with
  | nil =>
    intro s s1 cursor h _ hQ
    simp only [changeLagAddRest, Except.ok.injEq, Prod.mk.injEq] at h
    rw [← h.2]; exact hQ
  | cons x rest ih =>
    intro s s1 cursor h hxs hQ
    simp only [changeLagAddRest] at h
    cases hR : changeLagAdd aggPort aggPort x s with
    | error e => simp [hR] at h
    | ok s2 =>
      simp only [hR] at h
      exact ih _ _ _ h (fun y hy => hxs y (List.mem_cons_of_mem _ hy))
        (changeLagAdd_agrees_disjoint hR (hxs x (List.mem_cons_self _ _)) hQ)

theorem changeLagCompare_agrees {aggPort : AggregatePortID} {ports : List PortID}
    {o n : PortID × Forwarding} {oldRest newRest oldIter newIter : List (PortID × Forwarding)}
    {s s1 : SaiLagManager}
    (h : changeLagCompare aggPort aggPort o oldRest n newRest s = .ok (oldIter, newIter, s1))
    (hnew : ∀ x ∈ n :: newRest, x.1 ∈ ports)
    (hQ : IndexAgrees s ∧ ∀ p ∈ ports, NotInOtherLag s aggPort p) :
    (∀ x ∈ newIter, x.1 ∈ ports) ∧
      IndexAgrees s1 ∧ ∀ p ∈ ports, NotInOtherLag s1 aggPort p := by
  unfold changeLagCompare at h
  have hrest : ∀ x ∈ newRest, x.1 ∈ ports := fun x hx => hnew x (List.mem_cons_of_mem _ hx)
  by_cases h1 : o.1 < n.1
  · rw [if_pos h1] at h
    cases hR : removeMember aggPort o.1 (issue (.removeMember o.1) s) with
    | error e => simp [hR] at h
    | ok s2 =>
      simp only [hR, Except.ok.injEq, Prod.mk.injEq] at h
      obtain ⟨-, hn, hs⟩ := h
      subst hn; subst hs
      exact ⟨hnew, removeMember_agrees_disjoint hR (agrees_congr (s := s) rfl rfl rfl hQ)⟩
  · by_cases h2 : n.1 < o.1
    · rw [if_neg h1, if_pos h2] at h
      cases hR : changeLagAdd aggPort aggPort n s with
      | error e => simp [hR] at h
      | ok s2 =>
        simp only [hR, Except.ok.injEq, Prod.mk.injEq] at h
        obtain ⟨-, hn, hs⟩ := h
        subst hn; subst hs
        exact ⟨hrest, changeLagAdd_agrees_disjoint hR (hnew n (List.mem_cons_self _ _)) hQ⟩
    · by_cases h3 : o.2 ≠ n.2
      · rw [if_neg h1, if_neg h2, if_pos h3] at h
        cases hH : Table.find aggPort s.handles with
        | none => simp [hH] at h
        | some handle =>
          simp only [hH] at h
          cases hG : getMember handle n.1 s with
          | error e => simp [hG] at h
          | ok member =>
            simp only [hG] at h
            cases hS : setMemberState member n.2 (issue (.setMemberState n.1 n.2) s) with
            | error e => simp [hS] at h
            | ok s2 =>
              simp only [hS, Except.ok.injEq, Prod.mk.injEq] at h
              obtain ⟨-, hn, hs⟩ := h
              subst hn; subst hs
              obtain ⟨hH2, hP2⟩ := setMemberState_frame hS
              have hC2 := setMemberState_indices hS
              exact ⟨hrest, agrees_congr (s := s) hH2 hP2 hC2 hQ⟩
      · rw [if_neg h1, if_neg h2, if_neg h3] at h
        simp only [Except.ok.injEq, Prod.mk.injEq] at h
        obtain ⟨-, hn, hs⟩ := h
        subst hn; subst hs
        exact ⟨hnew, hQ⟩

theorem changeLagLoop_agrees (aggPort : AggregatePortID) (ports : List PortID)
    (fuel : Nat) :
    ∀ (oldIter newIter : List (PortID × Forwarding)) (s s1 : SaiLagManager),
      changeLagLoop aggPort aggPort fuel oldIter newIter s = .ok s1 →
      (∀ x ∈ newIter, x.1 ∈ ports) →
      (IndexAgrees s ∧ ∀ p ∈ ports, NotInOtherLag s aggPort p) →
      IndexAgrees s1 ∧ ∀ p ∈ ports, NotInOtherLag s1 aggPort p := by
  induction fuel with
  | zero =>
    intro oldIter newIter s s1 h _ hQ
    cases oldIter with
    | nil => simp only [changeLagLoop, Except.ok.injEq] at h; rw [← h]; exact hQ
    | cons o oldRest =>
      cases newIter with
      | nil => simp only [changeLagLoop, Except.ok.injEq] at h; rw [← h]; exact hQ
      | cons n newRest => simp [changeLagLoop] at h
  | succ fuel ih =>
    intro oldIter newIter s s1 h hnew hQ
    cases oldIter with
    | nil => simp only [changeLagLoop, Except.ok.injEq] at h; rw [← h]; exact hQ
    | cons o oldRest =>
      cases newIter with
      | nil => simp only [changeLagLoop, Except.ok.injEq] at h; rw [← h]; exact hQ
      | cons n newRest =>
        simp only [changeLagLoop] at h
        cases hC : changeLagCompare aggPort aggPort o oldRest n newRest s with
        | error e => simp [hC] at h
        | ok r =>
          obtain ⟨oldIter1, newIter1, sC⟩ := r
          simp only [hC] at h
          obtain ⟨hnew1, hQC⟩ := changeLagCompare_agrees hC hnew hQ
          cases hR : changeLagRemoveRest aggPort oldIter1 sC with
          | error e => simp [hR] at h
          | ok r2 =>
            obtain ⟨oldIter2, sR⟩ := r2
            simp only [hR] at h
            have hQR := changeLagRemoveRest_agrees aggPort ports _ _ _ _ hR hQC
            cases hA : changeLagAddRest aggPort aggPort newIter1 sR with
            | error e => simp [hA] at h
            | ok r3 =>
              obtain ⟨newIter2, sA⟩ := r3
              simp only [hA] at h
              have hQA := changeLagAddRest_agrees aggPort ports _ _ _ _ hA hnew1 hQR
              have hnil := (changeLagAddRest_ops aggPort aggPort newIter1 sR).2 _ _ hA
              exact ih _ _ _ _ h (by rw [hnil]; intro x hx; cases hx) hQA

/-- A returning `changeLag` between aggregate ports of the same id keeps the agreement of the
index with the member maps when no sub-port of the new aggregate port is a member of another
LAG handle. -/
theorem changeLag_agrees {oldAggregatePort newAggregatePort : AggregatePort}
    {s s1 : SaiLagManager}
    (h : changeLag oldAggregatePort newAggregatePort s = .ok s1)
    (hId : oldAggregatePort.id = newAggregatePort.id) (hI : IndexAgrees s)
    (hN : ∀ p ∈ newAggregatePort.sortedSubports, NotInOtherLag s oldAggregatePort.id p) :
    IndexAgrees s1 := by
  unfold changeLag at h
  rw [← hId] at h
  cases hH : Table.find oldAggregatePort.id s.handles with
  | none => simp [hH] at h
  | some handle =>
    simp only [hH] at h
    have hMem : ∀ b k, isMemberOf (updateHandle oldAggregatePort.id
        { handle with minimumLinkCount := newAggregatePort.minimumLinkCount } s) b k =
        isMemberOf s b k := by
      intro b k
      unfold isMemberOf
      simp only [updateHandle, Table.find_assign]
      by_cases hb : b = oldAggregatePort.id
      · subst hb
        simp [hH]
      · simp [hb]
    have hQ0 : IndexAgrees (updateHandle oldAggregatePort.id
        { handle with minimumLinkCount := newAggregatePort.minimumLinkCount } s) ∧
        ∀ p ∈ newAggregatePort.sortedSubports,
          NotInOtherLag (updateHandle oldAggregatePort.id
            { handle with minimumLinkCount := newAggregatePort.minimumLinkCount } s)
            oldAggregatePort.id p := by
      refine ⟨?_, fun p hp => notInOtherLag_weaken (s := s) (fun _ => rfl)
        (fun b k _ hx => by rw [← hMem]; exact hx) (hN p hp)⟩
      intro k b
      rw [hMem]
      exact hI k b
    exact (changeLagLoop_agrees _ _ _ _ _ _ _ h
      (fun x hx => List.mem_map_of_mem Prod.fst hx) hQ0).1

theorem removeLagHandleMembers_agrees (aggPort : AggregatePortID) (fuel : Nat) :
    ∀ (s s1 : SaiLagManager),
      removeLagHandleMembers aggPort fuel s = .ok s1 → IndexAgrees s → IndexAgrees s1 := by
  induction fuel with
  | zero =>
    intro s s1 h hI
    unfold removeLagHandleMembers at h
    cases hH : Table.find aggPort s.handles with
    | none => simp [hH] at h
    | some handle =>
      cases hM : handle.members with
      | nil =>
        simp only [hH, hM, Except.ok.injEq] at h
        subst h
        exact hI
      | cons e rest => simp [hH, hM] at h
  | succ fuel ih =>
    intro s s1 h hI
    unfold removeLagHandleMembers at h
    cases hH : Table.find aggPort s.handles with
    | none => simp [hH] at h
    | some handle =>
      cases hM : handle.members with
      | nil =>
        simp only [hH, hM, Except.ok.injEq] at h
        subst h
        exact hI
      | cons e rest =>
        obtain ⟨k, member⟩ := e
        simp only [hH, hM] at h
        cases hIdx : Table.find k s.concurrentIndices.portIds with
        | none => simp [hIdx] at h
        | some subPort =>
          simp only [hIdx] at h
          cases hR : removeMember aggPort subPort s with
          | error e => simp [hR] at h
          | ok s2 =>
            simp only [hR] at h
            exact ih s2 s1 h (removeMember_agrees hR hI)

/-- A returning `removeLag` keeps the agreement of the index with the member maps. -/
theorem removeLag_agrees {aggregatePort : AggregatePort} {s s1 : SaiLagManager}
    (h : removeLag aggregatePort s = .ok s1) (hI : IndexAgrees s) : IndexAgrees s1 := by
  unfold removeLag at h
  cases hH : Table.find aggregatePort.id s.handles with
  | none => simp [hH] at h
  | some handle =>
    simp only [hH, removeLagHandle] at h
    cases hL : removeLagHandleMembers aggregatePort.id handle.members.length s with
    | error e => simp [hL] at h
    | ok s2 =>
      simp only [hL] at h
      have hI2 := removeLagHandleMembers_agrees _ _ _ _ hL hI
      obtain ⟨-, -, -, -, hH2, -⟩ := removeLagHandleMembers_trace _ _ _ _ _ hH hL
      simp only [hH2] at h
      cases hLag : handle.lag with
      | none => simp [hLag] at h
      | some lag =>
        simp only [hLag, Except.ok.injEq] at h
        have hIdx : s1.concurrentIndices.memberPort2AggregatePortIds =
            s2.concurrentIndices.memberPort2AggregatePortIds := by
          rw [← h]
          cases handle.bridgePort <;> rfl
        have hHandles : ∀ b, b ≠ aggregatePort.id →
            Table.find b s1.handles = Table.find b s2.handles := by
          intro b hb
          rw [← h]
          cases handle.bridgePort <;>
            simp [updateHandle, releaseLag, releaseBridgePort, emit, Table.find_erase,
              Table.find_assign, hb]
        have hGone : Table.find aggregatePort.id s1.handles = none := by
          rw [← h]
          simp [Table.find_erase]
        have hEmpty : ∀ k, isMemberOf s2 aggregatePort.id k = false := by
          intro k
          unfold isMemberOf
          rw [hH2]
          rfl
        intro k b
        rw [hIdx, hI2 k b]
        by_cases hb : b = aggregatePort.id
        · subst hb
          rw [hEmpty k]
          unfold isMemberOf
          rw [hGone]
        · unfold isMemberOf
          rw [hHandles b hb]

theorem addLagMembers_index (lag : SaiLag) (aggregatePortID : AggregatePortID)
    (xs : List (PortID × Forwarding)) :
    ∀ (members members1 : List (PortSaiId × SaiLagMember)) (s s1 : SaiLagManager),
      addLagMembers lag aggregatePortID xs members s = .ok (members1, s1) →
      s1.handles = s.handles ∧
      (∀ k, (∃ x ∈ xs, portSaiIdOf s x.1 = some k) →
        Table.find k s1.concurrentIndices.memberPort2AggregatePortIds =
          some ((Table.find k s.concurrentIndices.memberPort2AggregatePortIds).getD
            aggregatePortID)) ∧
      (∀ k, (¬ ∃ x ∈ xs, portSaiIdOf s x.1 = some k) →
        Table.find k s1.concurrentIndices.memberPort2AggregatePortIds =
          Table.find k s.concurrentIndices.memberPort2AggregatePortIds) ∧
      (∀ k, (Table.find k members1).isSome = true ↔
        ((Table.find k members).isSome = true ∨ ∃ x ∈ xs, portSaiIdOf s x.1 = some k)) := by
  induction xs with
  | nil =>
    intro members members1 s s1 h
    simp only [addLagMembers, Except.ok.injEq, Prod.mk.injEq] at h
    obtain ⟨hm, hs⟩ := h
    subst hm; subst hs
    refine ⟨rfl, ?_, fun _ _ => rfl, ?_⟩
    · rintro k ⟨x, hx, -⟩; cases hx
    · intro k
      constructor
      · intro hk; exact Or.inl hk
      · rintro (hk | ⟨x, hx, -⟩)
        · exact hk
        · cases hx
  | cons x rest ih =>
    intro members members1 s s1 h
    obtain ⟨p, fwdState⟩ := x
    cases hP : Table.find p s.portHandles with
    | none => simp [addLagMembers, addMember, hP] at h
    | some portHandle =>
      obtain ⟨sA, hA, hHA, hPA, -, hIdxA, -, -⟩ :=
        addMember_of_portHandle (s := s) lag aggregatePortID hP
      simp only [addLagMembers, hA] at h
      cases hS : setMemberState ({ lag := lag.adapterKey, port := portHandle.port } : SaiLagMember)
          fwdState sA with
      | error e => simp [hS] at h
      | ok sB =>
        simp only [hS] at h
        obtain ⟨hHB, hPB⟩ := setMemberState_frame hS
        have hIdxB := setMemberState_indices hS
        obtain ⟨hH1, hIn1, hOut1, hKeys1⟩ := ih _ _ _ _ h
        have hKey : portSaiIdOf s p = some portHandle.port := by simp [portSaiIdOf, hP]
        have hSaiD : ∀ q, portSaiIdOf (dropUnplaced
            (portHandle.port, ({ lag := lag.adapterKey, port := portHandle.port } : SaiLagMember))
            members sB) q = portSaiIdOf s q := by
          intro q
          rw [portSaiIdOf_congr (dropUnplaced_frame _ _ _).2.1, portSaiIdOf_congr hPB]
          exact portSaiIdOf_eq_of_assign { portHandle with bridgePort := none } hP rfl hPA q
        have hIdxD : ∀ k, Table.find k (dropUnplaced
            (portHandle.port, ({ lag := lag.adapterKey, port := portHandle.port } : SaiLagMember))
            members sB).concurrentIndices.memberPort2AggregatePortIds =
            if k = portHandle.port then
              some ((Table.find portHandle.port
                s.concurrentIndices.memberPort2AggregatePortIds).getD aggregatePortID)
            else Table.find k s.concurrentIndices.memberPort2AggregatePortIds := by
          intro k
          rw [(dropUnplaced_frame _ _ _).2.2, hIdxB, hIdxA]
          exact Table.find_emplace _ _ _ _
        have hrestIff : ∀ k, (∃ x ∈ rest, portSaiIdOf (dropUnplaced
            (portHandle.port, ({ lag := lag.adapterKey, port := portHandle.port } : SaiLagMember))
            members sB) x.1 = some k) ↔ ∃ x ∈ rest, portSaiIdOf s x.1 = some k := by
          intro k
          constructor
          · rintro ⟨x, hx, hk⟩; exact ⟨x, hx, by rw [← hSaiD]; exact hk⟩
          · rintro ⟨x, hx, hk⟩; exact ⟨x, hx, by rw [hSaiD]; exact hk⟩
        refine ⟨?_, ?_, ?_, ?_⟩
        · rw [hH1, (dropUnplaced_frame _ _ _).1, hHB, hHA]
        · rintro k ⟨x, hx, hk⟩
          by_cases hr : ∃ y ∈ rest, portSaiIdOf s y.1 = some k
          · rw [hIn1 k ((hrestIff k).2 hr), hIdxD k]
            by_cases hkk : k = portHandle.port
            · simp [hkk]
            · simp [hkk]
          · rw [hOut1 k (fun hc => hr ((hrestIff k).1 hc)), hIdxD k]
            rcases List.mem_cons.1 hx with hx | hx
            · subst hx
              have hkk : k = portHandle.port := by
                rw [hKey] at hk; exact (Option.some.inj hk).symm
              simp [hkk]
            · exact absurd ⟨x, hx, hk⟩ hr
        · intro k hno
          have hr : ¬ ∃ y ∈ rest, portSaiIdOf s y.1 = some k :=
            fun ⟨y, hy, hk⟩ => hno ⟨y, List.mem_cons_of_mem _ hy, hk⟩
          have hkk : k ≠ portHandle.port := by
            intro hc
            exact hno ⟨(p, fwdState), List.mem_cons_self _ _, by rw [hc]; exact hKey⟩
          rw [hOut1 k (fun hc => hr ((hrestIff k).1 hc)), hIdxD k, if_neg hkk]
        · intro k
          rw [hKeys1 k, Table.find_orderedEmplace_isSome_iff, hrestIff k]
          constructor
          · rintro ((hk | hk) | ⟨y, hy, hk⟩)
            · exact Or.inl hk
            · exact Or.inr ⟨(p, fwdState), List.mem_cons_self _ _, by rw [hk]; exact hKey⟩
            · exact Or.inr ⟨y, List.mem_cons_of_mem _ hy, hk⟩
          · rintro (hk | ⟨y, hy, hk⟩)
            · exact Or.inl (Or.inl hk)
            · rcases List.mem_cons.1 hy with hy | hy
              · subst hy
                rw [hKey] at hk
                exact Or.inl (Or.inr (Option.some.inj hk).symm)
              · exact Or.inr ⟨y, hy, hk⟩

/-- A returning `addLag` of an aggregate port whose id has no handle keeps the agreement of
the index with the member maps when no sub-port is a member of another LAG handle. -/
theorem addLag_agrees {aggregatePort : AggregatePort} {lagSaiId : LagSaiId}
    {s s1 : SaiLagManager} (h : addLag aggregatePort s = .ok (lagSaiId, s1))
    (hAbsent : Table.find aggregatePort.id s.handles = none) (hI : IndexAgrees s)
    (hN : ∀ p ∈ aggregatePort.sortedSubports, NotInOtherLag s aggregatePort.id p) :
    IndexAgrees s1 := by
  cases hS : aggregatePort.sortedSubports with
  | nil => simp [addLag, hS] at h
  | cons subPort others =>
    cases hidx : Table.find subPort s.concurrentIndices.portSaiIds with
    | none => simp [addLag, hS, hidx] at h
    | some portSaiId =>
      cases hVlan : Table.find (PortDescriptorSaiId.physical portSaiId)
          s.concurrentIndices.vlanIds with
      | none => simp [addLag, hS, hidx, hVlan] at h
      | some vlanID =>
        simp only [addLag, hS, hidx, hVlan] at h
        generalize aggregatePort.name.take 32 ++
          List.replicate (32 - (aggregatePort.name.take 32).length) 0 = label at h
        generalize setObject label ({ label := label, vlan := vlanID } : SaiLagAttributes)
          s.nextAdapterKey s.lagStore = r at h
        generalize hrun : addLagMembers _ aggregatePort.id aggregatePort.subportAndFwdState []
          _ = run at h
        cases run with
        | error e => simp only [] at h; cases h
        | ok res =>
          obtain ⟨members1, s2⟩ := res
          obtain ⟨hH2, hIn2, hOut2, hKeys2⟩ := addLagMembers_index _ _ _ _ _ _ _ hrun
          simp only [Except.ok.injEq, Prod.mk.injEq] at h
          obtain ⟨-, hs1⟩ := h
          have hite : ∀ (b : Bool) (handle : SaiLagHandle) (t : SaiLagManager),
              (if b = true then t else destroyHandle handle t).concurrentIndices =
                t.concurrentIndices ∧
              (if b = true then t else destroyHandle handle t).handles = t.handles := by
            intro b handle t
            cases b
            · exact ⟨(destroyHandle_frame handle t).1, destroyHandle_handles handle t⟩
            · exact ⟨rfl, rfl⟩
          have hIdx1 : s1.concurrentIndices.memberPort2AggregatePortIds =
              s2.concurrentIndices.memberPort2AggregatePortIds := by
            rw [← hs1, (hite _ _ _).1]; rfl
          have hHandles1 : s1.handles = Table.emplace aggregatePort.id
              ({ lag := some { label := label, adapterKey := r.1 }
                 bridgePort := some { portDescriptor := .aggregate aggregatePort.id,
                                      saiId := .aggregate r.1 }
                 members := members1
                 minimumLinkCount := aggregatePort.minimumLinkCount
                 vlanId := vlanID } : SaiLagHandle) s.handles := by
            rw [← hs1, (hite _ _ _).2]
            show Table.emplace _ _ s2.handles = _
            rw [hH2]; rfl
          have hNotMember : ∀ k, isMemberOf s aggregatePort.id k = false := by
            intro k
            unfold isMemberOf
            rw [hAbsent]
          have hMem1 : ∀ b k, isMemberOf s1 b k = true ↔
              if b = aggregatePort.id then
                ∃ x ∈ aggregatePort.subportAndFwdState, portSaiIdOf s x.1 = some k
              else isMemberOf s b k = true := by
            intro b k
            unfold isMemberOf
            rw [hHandles1, Table.find_emplace]
            by_cases hb : b = aggregatePort.id
            · subst hb
              simp only [if_true, hAbsent, Option.getD_none]
              rw [hKeys2 k]
              constructor
              · rintro (hk | hk)
                · simp [Table.find] at hk
                · exact hk
              · intro hk; exact Or.inr hk
            · simp only [hb, if_false]
          intro k b
          rw [hIdx1, hMem1]
          by_cases hin : ∃ x ∈ aggregatePort.subportAndFwdState, portSaiIdOf s x.1 = some k
          · have hval : Table.find k s.concurrentIndices.memberPort2AggregatePortIds =
                none := by
              cases hF : Table.find k s.concurrentIndices.memberPort2AggregatePortIds with
              | none => rfl
              | some c =>
                exfalso
                obtain ⟨x, hx, hk⟩ := hin
                have hc := (hI k c).1 hF
                by_cases hca : c = aggregatePort.id
                · rw [hca, hNotMember] at hc; cases hc
                · have := hN x.1 (List.mem_map_of_mem Prod.fst hx) k c hk hca
                  rw [hc] at this; cases this
            rw [hIn2 k hin]
            show some ((Table.find k s.concurrentIndices.memberPort2AggregatePortIds).getD
              aggregatePort.id) = some b ↔ _
            rw [hval]
            by_cases hb : b = aggregatePort.id
            · rw [if_pos hb, hb]
              simp only [Option.getD_none, true_iff]
              exact hin
            · rw [if_neg hb]
              simp only [Option.getD_none, Option.some.injEq]
              constructor
              · intro hx; exact absurd hx.symm hb
              · intro hx
                exfalso
                obtain ⟨x, hx2, hk⟩ := hin
                have := hN x.1 (List.mem_map_of_mem Prod.fst hx2) k b hk hb
                rw [hx] at this; cases this
          · rw [hOut2 k hin]
            show Table.find k s.concurrentIndices.memberPort2AggregatePortIds = some b ↔ _
            rw [hI k b]
            by_cases hb : b = aggregatePort.id
            · rw [if_pos hb, hb, hNotMember]
              constructor
              · intro hx; cases hx
              · intro hx; exact absurd hx hin
            · rw [if_neg hb]

/-- C27: from a manager with no handle and an empty memberPort2AggregatePortIds, every state
reached by returning calls of `addLag` with an id that has no handle, `changeLag` with an old
and a new aggregate port of the same id, `removeMember` and `removeLag`, where `addLag` and
`changeLag` are only given aggregate ports none of whose sub-ports is a member of the LAG
handle of another aggregate port, has memberPort2AggregatePortIds mapping a hardware port id to
an aggregate port id exactly when the hardware port id is a key of the member map of the handle
of that aggregate port. -/
theorem reachable_index_agrees (s0 s : SaiLagManager)
    (hHandles : s0.handles = [])
    (hIndex : s0.concurrentIndices.memberPort2AggregatePortIds = [])
    (hReach : ReachableFresh s0 s) :
    ∀ k aggPort, Table.find k s.concurrentIndices.memberPort2AggregatePortIds = some aggPort ↔
      isMemberOf s aggPort k = true := by
  have hI : IndexAgrees s := by
    induction hReach with
    | initial =>
      intro k a
      unfold isMemberOf
      rw [hHandles, hIndex]
      simp [Table.find]
    | addLag aggregatePort lagSaiId _ hAbsent hN h ih => exact addLag_agrees h hAbsent ih hN
    | changeLag oldAggregatePort newAggregatePort _ hId hN h ih =>
      exact changeLag_agrees h hId ih hN
    | removeMember aggPort subPort _ h ih => exact removeMember_agrees h ih
    | removeLag aggregatePort _ h ih => exact removeLag_agrees h ih
  exact hI

end SaiLagManager

/-! ## Destruction of the MACsec handles -/

theorem destroyMembers_pair (a b : List MacsecRelease) : destroyMembers [a, b] = b ++ a := by
  simp [destroyMembers]

theorem destroyMembers_triple (a b c : List MacsecRelease) :
    destroyMembers [a, b, c] = c ++ (b ++ a) := by
  simp [destroyMembers]

theorem destroyMap_append {K V : Type} (destroy : V → List MacsecRelease)
    (l1 l2 : List (K × V)) :
    destroyMap destroy (l1 ++ l2) = destroyMap destroy l1 ++ destroyMap destroy l2 := by
  simp [destroyMap]

theorem destroyMap_cons {K V : Type} (destroy : V → List MacsecRelease)
    (entry : K × V) (l : List (K × V)) :
    destroyMap destroy (entry :: l) = destroy entry.2 ++ destroyMap destroy l := by
  simp [destroyMap]

theorem channel_destroy_eq (channel : SaiMacsecSecureChannelHandle) :
    channel.destroy = channelReleases channel := by
  unfold SaiMacsecSecureChannelHandle.destroy channelReleases
  rw [destroyMembers_triple]

theorem port_destroy_eq (portHandle : SaiMacsecPortHandle) :
    portHandle.destroy =
      destroyMap (destroyUnique SaiMacsecSecureChannelHandle.destroy) portHandle.secureChannels ++
        destroyShared .port portHandle.port := by
  unfold SaiMacsecPortHandle.destroy
  rw [destroyMembers_pair]

theorem macsec_destroy_eq (handle : SaiMacsecHandle) :
    handle.destroy =
      destroyMap (destroyUnique SaiMacsecPortHandle.destroy) handle.ports ++
        destroyShared .macsec handle.macsec := by
  unfold SaiMacsecHandle.destroy
  rw [destroyMembers_pair]

theorem destroyMap_split {K V : Type} (destroy : V → List MacsecRelease)
    (entry : K × V) (l : List (K × V)) (h : entry ∈ l) :
    ∃ before after, destroyMap destroy l = before ++ destroy entry.2 ++ after := by
  obtain ⟨l1, l2, rfl⟩ := List.append_of_mem h
  exact ⟨destroyMap destroy l1, destroyMap destroy l2, by
    rw [destroyMap_append, destroyMap_cons, List.append_assoc]⟩

/-- C21 (amended): destroying a MACsec handle releases its objects depth first. The whole
sequence is, for each port in turn, for each secure channel of the port in turn the secure
associations of that channel, then its secure channel, then its flow, and after the channels
of the port the MACsec port; the top-level MACsec object comes last. So for every secure
channel of every port of the handle, the releases of its associations, of its secure channel
and of its flow stand together in this order, the MACsec port of its port handle is released
later, and the top-level MACsec object is released at the very end. -/
theorem macsec_destroy_depth_first (handle : SaiMacsecHandle) :
    handle.destroy =
      handle.ports.flatMap (fun portEntry =>
        destroyUnique (fun portHandle =>
          portHandle.secureChannels.flatMap (fun channelEntry =>
            destroyUnique channelReleases channelEntry.2) ++
          destroyShared .port portHandle.port) portEntry.2) ++
      destroyShared .macsec handle.macsec ∧
    ∀ portEntry ∈ handle.ports, ∀ portHandle, portEntry.2 = some portHandle →
      ∀ channelEntry ∈ portHandle.secureChannels, ∀ channel, channelEntry.2 = some channel →
        ∃ before between after,
          handle.destroy =
            before ++ channelReleases channel ++ between ++
              destroyShared .port portHandle.port ++ after ++
              destroyShared .macsec handle.macsec := by
  have hchan : SaiMacsecSecureChannelHandle.destroy = channelReleases :=
    funext channel_destroy_eq
  have hport : SaiMacsecPortHandle.destroy = fun portHandle =>
      portHandle.secureChannels.flatMap (fun channelEntry =>
        destroyUnique channelReleases channelEntry.2) ++
      destroyShared .port portHandle.port := by
    funext portHandle
    rw [port_destroy_eq, hchan]
    rfl
  constructor
  · rw [macsec_destroy_eq, hport]
    rfl
  · intro portEntry hp portHandle hph channelEntry hc channel hch
    obtain ⟨b1, a1, h1⟩ :=
      destroyMap_split (destroyUnique SaiMacsecPortHandle.destroy) portEntry handle.ports hp
    obtain ⟨b2, a2, h2⟩ :=
      destroyMap_split (destroyUnique SaiMacsecSecureChannelHandle.destroy) channelEntry
        portHandle.secureChannels hc
    rw [macsec_destroy_eq, h1, hph]
    simp only [destroyUnique]
    rw [port_destroy_eq, h2, hch]
    simp only [destroyUnique]
    rw [channel_destroy_eq]
    exact ⟨b1 ++ b2, a2, a1, by simp only [List.append_assoc]⟩

theorem destroyShared_eq (kind : Nat → MacsecRelease) (pointer : Option Nat) :
    destroyShared kind pointer = (pointer.map kind).toList := by
  cases pointer <;> rfl

theorem destroyMap_owned_split {K H : Type} (destroy : H → List MacsecRelease)
    (entry : K × Option H) (owned : H) (l : List (K × Option H)) (h : entry ∈ l)
    (ho : entry.2 = some owned) :
    ∃ before after, destroyMap (destroyUnique destroy) l = before ++ destroy owned ++ after := by
  obtain ⟨before, after, hs⟩ := destroyMap_split (destroyUnique destroy) entry l h
  rw [ho] at hs
  exact ⟨before, after, hs⟩

theorem channel_destroy_no_port (channel : SaiMacsecSecureChannelHandle) :
    ∀ release ∈ channel.destroy, (∀ id, release ≠ .port id) ∧ (∀ id, release ≠ .macsec id) := by
  intro release hr
  rw [channel_destroy_eq, channelReleases] at hr
  simp only [List.mem_append, destroyMap, List.mem_flatMap] at hr
  rcases hr with ⟨entry, -, hr⟩ | hr | hr
  · cases h2 : entry.2 with
    | none => rw [h2] at hr; simp [destroyShared] at hr
    | some id =>
      rw [h2] at hr
      simp only [destroyShared, List.mem_singleton] at hr
      subst hr
      exact ⟨fun _ h => (by cases h), fun _ h => (by cases h)⟩
  · cases h2 : channel.secureChannel with
    | none => rw [h2] at hr; simp [destroyShared] at hr
    | some id =>
      rw [h2] at hr
      simp only [destroyShared, List.mem_singleton] at hr
      subst hr
      exact ⟨fun _ h => (by cases h), fun _ h => (by cases h)⟩
  · cases h2 : channel.flow with
    | none => rw [h2] at hr; simp [destroyShared] at hr
    | some id =>
      rw [h2] at hr
      simp only [destroyShared, List.mem_singleton] at hr
      subst hr
      exact ⟨fun _ h => (by cases h), fun _ h => (by cases h)⟩

theorem port_destroy_no_macsec (portHandle : SaiMacsecPortHandle) :
    ∀ release ∈ portHandle.destroy, ∀ id, release ≠ .macsec id := by
  intro release hr
  rw [port_destroy_eq] at hr
  simp only [List.mem_append, destroyMap, List.mem_flatMap] at hr
  rcases hr with ⟨entry, -, hr⟩ | hr
  · cases h2 : entry.2 with
    | none => rw [h2] at hr; simp [destroyUnique] at hr
    | some channel =>
      rw [h2] at hr
      exact (channel_destroy_no_port channel release hr).2
  · cases h2 : portHandle.port with
    | none => rw [h2] at hr; simp [destroyShared] at hr
    | some id =>
      rw [h2] at hr
      simp only [destroyShared, List.mem_singleton] at hr
      subst hr
      exact fun _ h => by cases h

/-- C22: the destruction of a secure-channel handle releases exactly its secure associations,
in the order of the map, then its secure channel, then its flow, the reverse of the order in
which the members flow, secureChannel and secureAssocs are declared. The destruction of a port
handle releases nothing but what the destruction of each secure-channel handle it owns
releases, channel after channel, and then its MACsec port: for every channel it owns, all that
the destruction of this channel releases stands before the release of the MACsec port, and no
MACsec port is released before that. The destruction of a MACsec handle releases nothing but
what the destruction of each port handle it owns releases, port after port, and then its
top-level MACsec object: for every port it owns, all that the destruction of this port
releases stands before the release of the top-level object, and no top-level object is
released before that. -/
theorem destroy_leaf_to_root (channel : SaiMacsecSecureChannelHandle)
    (portHandle : SaiMacsecPortHandle) (handle : SaiMacsecHandle) :
    channel.destroy =
      channel.secureAssocs.filterMap (fun assoc => assoc.2.map MacsecRelease.secureAssoc) ++
        (channel.secureChannel.map MacsecRelease.secureChannel).toList ++
        (channel.flow.map MacsecRelease.flow).toList ∧
    (portHandle.destroy =
        portHandle.secureChannels.flatMap (fun entry =>
          match entry.2 with
          | some owned => owned.destroy
          | none => []) ++
        (portHandle.port.map MacsecRelease.port).toList ∧
      ∀ entry ∈ portHandle.secureChannels, ∀ owned, entry.2 = some owned →
        ∃ before after,
          portHandle.destroy =
            before ++ owned.destroy ++ after ++
              (portHandle.port.map MacsecRelease.port).toList ∧
          ∀ release ∈ before ++ owned.destroy ++ after, ∀ id, release ≠ .port id) ∧
    (handle.destroy =
        handle.ports.flatMap (fun entry =>
          match entry.2 with
          | some owned => owned.destroy
          | none => []) ++
        (handle.macsec.map MacsecRelease.macsec).toList ∧
      ∀ entry ∈ handle.ports, ∀ owned, entry.2 = some owned →
        ∃ before after,
          handle.destroy =
            before ++ owned.destroy ++ after ++
              (handle.macsec.map MacsecRelease.macsec).toList ∧
          ∀ release ∈ before ++ owned.destroy ++ after, ∀ id, release ≠ .macsec id) := by
  have hUniqueChannel : ∀ pointer : Option SaiMacsecSecureChannelHandle,
      destroyUnique SaiMacsecSecureChannelHandle.destroy pointer =
        (match pointer with
          | some owned => owned.destroy
          | none => []) := by
    intro pointer
    cases pointer <;> rfl
  have hUniquePort : ∀ pointer : Option SaiMacsecPortHandle,
      destroyUnique SaiMacsecPortHandle.destroy pointer =
        (match pointer with
          | some owned => owned.destroy
          | none => []) := by
    intro pointer
    cases pointer <;> rfl
  refine ⟨?_, ⟨?_, ?_⟩, ⟨?_, ?_⟩⟩
  · rw [channel_destroy_eq, channelReleases, destroyShared_eq, destroyShared_eq,
      List.append_assoc]
    congr 1
    unfold destroyMap
    induction channel.secureAssocs with
    | nil => rfl
    | cons assoc rest ih =>
      rw [List.flatMap_cons, ih]
      cases h2 : assoc.2 <;> simp [destroyShared, List.filterMap_cons, h2]
  · rw [port_destroy_eq, destroyShared_eq]
    congr 1
    unfold destroyMap
    congr 1
    funext entry
    exact hUniqueChannel entry.2
  · intro entry he owned ho
    obtain ⟨before, after, hs⟩ := destroyMap_owned_split SaiMacsecSecureChannelHandle.destroy
      entry owned portHandle.secureChannels he ho
    refine ⟨before, after, ?_, ?_⟩
    · rw [port_destroy_eq, hs, destroyShared_eq]
    · intro release hr
      rw [← hs] at hr
      simp only [destroyMap, List.mem_flatMap] at hr
      obtain ⟨entry1, -, hr⟩ := hr
      cases h2 : entry1.2 with
      | none => rw [h2] at hr; simp [destroyUnique] at hr
      | some channel1 =>
        rw [h2] at hr
        exact (channel_destroy_no_port channel1 release hr).1
  · rw [macsec_destroy_eq, destroyShared_eq]
    congr 1
    unfold destroyMap
    congr 1
    funext entry
    exact hUniquePort entry.2
  · intro entry he owned ho
    obtain ⟨before, after, hs⟩ := destroyMap_owned_split SaiMacsecPortHandle.destroy
      entry owned handle.ports he ho
    refine ⟨before, after, ?_, ?_⟩
    · rw [macsec_destroy_eq, hs, destroyShared_eq]
    · intro release hr
      rw [← hs] at hr
      simp only [destroyMap, List.mem_flatMap] at hr
      obtain ⟨entry1, -, hr⟩ := hr
      cases h2 : entry1.2 with
      | none => rw [h2] at hr; simp [destroyUnique] at hr
      | some port1 =>
        rw [h2] at hr
        exact port_destroy_no_macsec port1 release hr

/-! ## Duplicate ACL tables and entries -/

namespace SaiAclTableManager

/-- C23: when the table of the given name exists, `addAclEntry` of an entry whose priority
already has an entry in that table fails with the duplicate-entry error, whatever the new
entry matches on and whatever the existing entry was created with, and `addAclTable` of a
table of that name fails with the duplicate-table error. -/
theorem add_duplicate_fails (m : SaiAclTableManager) (aclTableName : List Nat)
    (aclTableHandle : SaiAclTableHandle)
    (hTable : getAclTableHandle aclTableName m = some aclTableHandle) :
    (∀ (addedAclEntry : AclEntry) (existing : SaiAclEntryHandle),
      getAclEntryHandle aclTableHandle addedAclEntry.priority = some existing →
      addAclEntry addedAclEntry aclTableName m = .error .duplicateAclEntry) ∧
    (∀ (addedAclTable : AclTable) (aclStage : Nat), addedAclTable.name = aclTableName →
      addAclTable addedAclTable aclStage m = .error .duplicateAclTable) := by
  constructor
  · intro addedAclEntry existing hEntry
    unfold addAclEntry
    simp only [hTable, hEntry]
  · intro addedAclTable aclStage hName
    unfold addAclTable
    simp only [hName, hTable]

end SaiAclTableManager

/-! ## The pending queues of the statistics updater -/

namespace BcmStatUpdater

theorem find_applyAdd (aclStats : List (BcmAclStatHandle × List (CounterType × MonotonicCounter)))
    (added : BcmAclStatDescriptor × CounterType) (handle : BcmAclStatHandle) :
    Table.find handle (applyAdd aclStats added) =
      if handle = added.1.handle then
        some (Table.emplace added.2 { name := added.1.aclStatName, value := 0 }
          ((Table.find added.1.handle aclStats).getD []))
      else Table.find handle aclStats := by
  unfold applyAdd
  simp only []
  rw [Table.find_assign, Table.find_emplace, Table.find_emplace]
  by_cases h : handle = added.1.handle
  · simp only [h, if_true, Option.map_some', Option.getD_some]
  · simp only [h, if_false]

theorem hasCounter_applyAdd_self
    (aclStats : List (BcmAclStatHandle × List (CounterType × MonotonicCounter)))
    (added : BcmAclStatDescriptor × CounterType) :
    hasCounter (applyAdd aclStats added) added.1.handle added.2 = true := by
  unfold hasCounter
  rw [find_applyAdd, if_pos rfl]
  simp only []
  rw [Table.find_emplace, if_pos rfl]
  rfl

theorem hasCounter_applyAdd_of
    (aclStats : List (BcmAclStatHandle × List (CounterType × MonotonicCounter)))
    (added : BcmAclStatDescriptor × CounterType) (handle : BcmAclStatHandle)
    (counterType : CounterType) (h : hasCounter aclStats handle counterType = true) :
    hasCounter (applyAdd aclStats added) handle counterType = true := by
  unfold hasCounter at h ⊢
  rw [find_applyAdd]
  by_cases hh : handle = added.1.handle
  · rw [if_pos hh]
    simp only []
    rw [Table.find_emplace]
    by_cases ht : counterType = added.2
    · rw [if_pos ht]; rfl
    · rw [if_neg ht]
      rw [hh] at h
      cases hf : Table.find added.1.handle aclStats with
      | none => rw [hf] at h; cases h
      | some counters => rw [hf] at h; exact h
  · rw [if_neg hh]; exact h

theorem hasCounter_foldl_applyAdd (adds : List (BcmAclStatDescriptor × CounterType)) :
    ∀ (aclStats : List (BcmAclStatHandle × List (CounterType × MonotonicCounter)))
      (handle : BcmAclStatHandle) (counterType : CounterType),
      (hasCounter aclStats handle counterType = true ∨
        ∃ added ∈ adds, added.1.handle = handle ∧ added.2 = counterType) →
      hasCounter (adds.foldl applyAdd aclStats) handle counterType = true := by
  induction adds with
  | nil =>
    intro aclStats handle counterType h
    rcases h with h | ⟨added, hm, -⟩
    · exact h
    · cases hm
  | cons a rest ih =>
    intro aclStats handle counterType h
    rw [List.foldl_cons]
    apply ih
    rcases h with h | ⟨added, hm, hh, ht⟩
    · exact Or.inl (hasCounter_applyAdd_of aclStats a handle counterType h)
    · rcases List.mem_cons.1 hm with hEq | hIn
      · left
        rw [← hh, ← ht, hEq]
        exact hasCounter_applyAdd_self aclStats a
      · exact Or.inr ⟨added, hIn, hh, ht⟩

theorem find_foldl_applyAdd_of_ne (adds : List (BcmAclStatDescriptor × CounterType))
    (handle : BcmAclStatHandle) (hne : ∀ added ∈ adds, added.1.handle ≠ handle) :
    ∀ (aclStats : List (BcmAclStatHandle × List (CounterType × MonotonicCounter))),
      Table.find handle (adds.foldl applyAdd aclStats) = Table.find handle aclStats := by
  induction adds with
  | nil => intro aclStats; rfl
  | cons a rest ih =>
    intro aclStats
    rw [List.foldl_cons, ih (fun added hm => hne added (List.mem_cons_of_mem _ hm)),
      find_applyAdd, if_neg (fun h => hne a (List.mem_cons_self _ _) h.symm)]

theorem find_foldl_applyRemove (removes : List BcmAclStatHandle) (handle : BcmAclStatHandle) :
    ∀ (aclStats : List (BcmAclStatHandle × List (CounterType × MonotonicCounter))),
      Table.find handle (removes.foldl applyRemove aclStats) =
        if handle ∈ removes then none else Table.find handle aclStats := by
  induction removes with
  | nil => intro aclStats; simp
  | cons r rest ih =>
    intro aclStats
    rw [List.foldl_cons, ih]
    unfold applyRemove
    rw [Table.find_erase]
    by_cases h1 : handle ∈ rest
    · simp [h1]
    · by_cases h2 : handle = r
      · simp [h2]
      · simp [h1, h2]

/-- C24: `toBeAddedAclStat` and `toBeRemovedAclStat` append to their pending queue and leave
the other queue and the committed set of ACL statistics as they are. The refresh leaves both
pending queues empty; after it the committed set has a counter for every pending add, has no
entry for the handle of a pending remove that no pending add names, and keeps every other
entry as it was. `updateStats` leaves both queues and the structure of the committed set, its
handles with their counter types and counter names, as they are. -/
theorem aclStats_change_only_in_refresh (u : BcmStatUpdater) (handle : BcmAclStatHandle)
    (aclStatName : List Nat) (counterTypes : List CounterType)
    (getAclTrafficStats : BcmAclStatHandle → CounterType → Nat) :
    ((toBeAddedAclStat handle aclStatName counterTypes u).aclStats = u.aclStats ∧
      (toBeAddedAclStat handle aclStatName counterTypes u).toBeRemovedAclStats =
        u.toBeRemovedAclStats ∧
      (toBeAddedAclStat handle aclStatName counterTypes u).toBeAddedAclStats =
        u.toBeAddedAclStats ++ counterTypes.map (fun counterType =>
          ({ handle := handle, aclStatName := aclStatName }, counterType))) ∧
    ((toBeRemovedAclStat handle u).aclStats = u.aclStats ∧
      (toBeRemovedAclStat handle u).toBeAddedAclStats = u.toBeAddedAclStats ∧
      (toBeRemovedAclStat handle u).toBeRemovedAclStats = u.toBeRemovedAclStats ++ [handle]) ∧
    ((refreshAclStats u).toBeAddedAclStats = [] ∧
      (refreshAclStats u).toBeRemovedAclStats = [] ∧
      (∀ added ∈ u.toBeAddedAclStats,
        hasCounter (refreshAclStats u).aclStats added.1.handle added.2 = true) ∧
      (∀ removed ∈ u.toBeRemovedAclStats,
        (∀ added ∈ u.toBeAddedAclStats, added.1.handle ≠ removed) →
        Table.find removed (refreshAclStats u).aclStats = none) ∧
      (∀ other, other ∉ u.toBeRemovedAclStats →
        (∀ added ∈ u.toBeAddedAclStats, added.1.handle ≠ other) →
        Table.find other (refreshAclStats u).aclStats = Table.find other u.aclStats)) ∧
    ((updateAclStats getAclTrafficStats u).toBeAddedAclStats = u.toBeAddedAclStats ∧
      (updateAclStats getAclTrafficStats u).toBeRemovedAclStats = u.toBeRemovedAclStats ∧
      structureOf (updateAclStats getAclTrafficStats u) = structureOf u) := by
  refine ⟨⟨rfl, rfl, rfl⟩, ⟨rfl, rfl, rfl⟩, ⟨rfl, rfl, ?_, ?_, ?_⟩, ⟨rfl, rfl, ?_⟩⟩
  · intro added hm
    exact hasCounter_foldl_applyAdd _ _ _ _ (Or.inr ⟨added, hm, rfl, rfl⟩)
  · intro removed hm hne
    show Table.find removed (u.toBeAddedAclStats.foldl applyAdd _) = none
    rw [find_foldl_applyAdd_of_ne _ _ hne, find_foldl_applyRemove, if_pos hm]
  · intro other hm hne
    show Table.find other (u.toBeAddedAclStats.foldl applyAdd _) = _
    rw [find_foldl_applyAdd_of_ne _ _ hne, find_foldl_applyRemove, if_neg hm]
  · unfold structureOf updateAclStats
    simp only [List.map_map]
    apply List.map_congr_left
    intro entry _
    simp only [Function.comp, List.map_map]
    rfl

end BcmStatUpdater

/-! ## Applying a new state through the ensemble -/

namespace HwSwitchEnsemble

/-- C30: `applyNewStateImpl` with a null new state returns the pointer `programmedState_`
and leaves the ensemble as it is, so the hardware switch is not called. With a new state, when
the hardware switch returns a state for the delta from the programmed state to the published
new state, the hardware switch is called once and then the static-L2 updater, the programmed
state becomes the published state that the hardware switch returned, and the call returns
this state when it is the new state (the same address) and otherwise fails with
`FbossHwUpdateError` of the new state and the returned state, the programmed state being the
returned state at the throw. -/
theorem applyNewStateImpl_outcome (hwSwitch : HwSwitch) (transaction : Bool)
    (e : HwSwitchEnsemble) :
    applyNewStateImpl hwSwitch none transaction e = .ok (e.programmedState, e) ∧
    ∀ newState returned : SwitchState,
      (if transaction then hwSwitch.stateChangedTransaction else hwSwitch.stateChanged)
        (e.programmedState.map (SwitchState.publishedAt newState.address)) newState.publish =
        some returned →
      ∃ e1 : HwSwitchEnsemble,
        e1.programmedState = some returned.publish ∧
        e1.hwEventObservers = e.hwEventObservers ∧
        e1.trace = e.trace ++
          [(if transaction then EnsembleEvent.hwSwitchStateChangedTransaction
              else EnsembleEvent.hwSwitchStateChanged)
              (e.programmedState.map (SwitchState.publishedAt newState.address))
              newState.publish,
            .staticL2UpdaterStateUpdated
              ((e.programmedState.map (SwitchState.publishedAt newState.address)).map
                (SwitchState.publishedAt returned.address)) returned.publish] ∧
        (returned.address = newState.address →
          applyNewStateImpl hwSwitch (some newState) transaction e =
            .ok (some returned.publish, e1)) ∧
        (returned.address ≠ newState.address →
          applyNewStateImpl hwSwitch (some newState) transaction e =
            .error (.hwUpdateError
              { desiredState := newState.publish, appliedState := returned.publish }, e1)) := by
  refine ⟨rfl, ?_⟩
  intro newState returned hReturned
  cases transaction with
  | false =>
    simp only [Bool.false_eq_true, if_false] at hReturned ⊢
    refine ⟨{ e with
        programmedState := some returned.publish
        trace := e.trace ++
          [.hwSwitchStateChanged
              (e.programmedState.map (SwitchState.publishedAt newState.address))
              newState.publish,
            .staticL2UpdaterStateUpdated
              ((e.programmedState.map (SwitchState.publishedAt newState.address)).map
                (SwitchState.publishedAt returned.address)) returned.publish] },
      rfl, rfl, rfl, ?_, ?_⟩
    · intro hEq
      unfold applyNewStateImpl
      simp only [Bool.false_eq_true, if_false, emit, SwitchState.publish] at hReturned ⊢
      rw [hReturned]
      simp only [hEq, ne_eq, not_true_eq_false, if_false, List.append_assoc, List.singleton_append]
    · intro hNe
      unfold applyNewStateImpl
      simp only [Bool.false_eq_true, if_false, emit, SwitchState.publish] at hReturned ⊢
      rw [hReturned]
      have hNe2 : newState.address ≠ returned.address := fun h => hNe h.symm
      simp only [ne_eq, hNe2, not_false_eq_true, if_true, List.append_assoc,
        List.singleton_append]
  | true =>
    simp only [if_true] at hReturned ⊢
    refine ⟨{ e with
        programmedState := some returned.publish
        trace := e.trace ++
          [.hwSwitchStateChangedTransaction
              (e.programmedState.map (SwitchState.publishedAt newState.address))
              newState.publish,
            .staticL2UpdaterStateUpdated
              ((e.programmedState.map (SwitchState.publishedAt newState.address)).map
                (SwitchState.publishedAt returned.address)) returned.publish] },
      rfl, rfl, rfl, ?_, ?_⟩
    · intro hEq
      unfold applyNewStateImpl
      simp only [if_true, emit, SwitchState.publish] at hReturned ⊢
      rw [hReturned]
      simp only [hEq, ne_eq, not_true_eq_false, if_false, List.append_assoc, List.singleton_append]
    · intro hNe
      unfold applyNewStateImpl
      simp only [if_true, emit, SwitchState.publish] at hReturned ⊢
      rw [hReturned]
      have hNe2 : newState.address ≠ returned.address := fun h => hNe h.symm
      simp only [ne_eq, hNe2, not_false_eq_true, if_true, List.append_assoc,
        List.singleton_append]

end HwSwitchEnsemble

/-! ## The order of the calls of `addLag` -/

theorem find_setObject_owners {K A : Type} [DecidableEq K] (k : K) (attributes : A)
    (freshKey : Nat) (store : List (K × StoredObject A)) :
    (setObject k attributes freshKey store).2.1 = (Table.find k store).isNone ∧
    ∃ object, Table.find k (setObject k attributes freshKey store).2.2 = some object ∧
      1 ≤ object.owners ∧
      ((∃ before, Table.find k store = some before ∧ 1 ≤ before.owners) →
        2 ≤ object.owners) := by
  unfold setObject
  cases hf : Table.find k store with
  | none =>
    refine ⟨rfl, { adapterKey := freshKey, attributes := attributes, owners := 1 }, ?_,
      Nat.le_refl 1, ?_⟩
    · simp only []
      rw [Table.find_emplace, if_pos rfl, hf]
      rfl
    · rintro ⟨before, hb, -⟩
      cases hb
  | some object =>
    refine ⟨rfl, { object with attributes := attributes, owners := object.owners + 1 }, ?_,
      Nat.succ_le_succ (Nat.zero_le _), ?_⟩
    · simp only []
      rw [Table.find_assign, if_pos rfl, hf]
      rfl
    · rintro ⟨before, hb, ho⟩
      cases hb
      exact Nat.succ_le_succ ho

theorem find_release_self {K A : Type} [DecidableEq K] (k : K)
    (store : List (K × StoredObject A)) (object : StoredObject A)
    (hf : Table.find k store = some object) (ho : 2 ≤ object.owners) :
    ∃ object1, Table.find k (release k store).2 = some object1 ∧ 1 ≤ object1.owners := by
  unfold release
  rw [hf]
  have hn : ¬ object.owners ≤ 1 := by omega
  simp only [hn, if_false]
  rw [Table.find_assign, if_pos rfl, hf]
  exact ⟨_, rfl, by show 1 ≤ object.owners - 1; omega⟩

namespace SaiLagManager

theorem standaloneBridgePort_assign {s s1 : SaiLagManager} {p : PortID}
    {portHandle : SaiPortHandle}
    (hPort : Table.find p s.portHandles = some portHandle)
    (h1 : s1.portHandles = Table.assign p { portHandle with bridgePort := none } s.portHandles)
    (q : PortID) :
    standaloneBridgePort s1 q = if q = p then none else standaloneBridgePort s q := by
  unfold standaloneBridgePort
  rw [h1, Table.find_assign]
  by_cases hq : q = p
  · subst hq; simp [hPort]
  · simp [hq]

theorem releaseLagMembers_trace (members : List (PortSaiId × SaiLagMember)) :
    ∀ s : SaiLagManager, ∃ rest, (releaseLagMembers members s).trace = s.trace ++ rest := by
  induction members with
  | nil => intro s; exact ⟨[], by simp [releaseLagMembers]⟩
  | cons e others ih =>
    intro s
    obtain ⟨rest, hrest⟩ := ih (releaseLagMember e.2 s)
    obtain ⟨x, hx⟩ : ∃ x, (releaseLagMember e.2 s).trace = s.trace ++ [x] := ⟨_, rfl⟩
    refine ⟨x :: rest, ?_⟩
    simp only [releaseLagMembers, hrest, hx]
    simp

theorem destroyHandle_trace (handle : SaiLagHandle) (s : SaiLagManager) :
    ∃ rest, (destroyHandle handle s).trace = s.trace ++ rest := by
  obtain ⟨rest, hrest⟩ := releaseLagMembers_trace handle.members
    (releaseBridgePort handle.bridgePort s)
  have hb : ∃ pre, (releaseBridgePort handle.bridgePort s).trace = s.trace ++ pre := by
    cases handle.bridgePort with
    | none => exact ⟨[], by simp [releaseBridgePort]⟩
    | some b => exact ⟨[_], rfl⟩
  obtain ⟨pre, hpre⟩ := hb
  unfold destroyHandle
  cases handle.lag with
  | none =>
    refine ⟨pre ++ rest, ?_⟩
    simp only [hrest, hpre, List.append_assoc]
  | some lag =>
    obtain ⟨x, hx⟩ : ∃ x, (releaseLag lag
        (releaseLagMembers handle.members (releaseBridgePort handle.bridgePort s))).trace =
        (releaseLagMembers handle.members (releaseBridgePort handle.bridgePort s)).trace ++ [x] :=
      ⟨_, rfl⟩
    refine ⟨pre ++ rest ++ [x], ?_⟩
    simp only [hx, hrest, hpre, List.append_assoc]

theorem addLagMembers_step (lag : SaiLag) (aggregatePortID : AggregatePortID) (p : PortID)
    (fwdState : Forwarding) (members : List (PortSaiId × SaiLagMember)) (s : SaiLagManager)
    (portHandle : SaiPortHandle) (hPort : Table.find p s.portHandles = some portHandle) :
    ∃ (a : MemberAddition) (s2 : SaiLagManager),
      (∀ rest, addLagMembers lag aggregatePortID ((p, fwdState) :: rest) members s =
        addLagMembers lag aggregatePortID rest
          (Table.orderedEmplace portHandle.port
            { lag := lag.adapterKey, port := portHandle.port } members) s2) ∧
      (a.port = portHandle.port ∧ a.lag = lag.adapterKey ∧ a.aggPort = aggregatePortID ∧
        a.egressDisable = decide (fwdState = Forwarding.DISABLED)) ∧
      a.released = portHandle.bridgePort.map (fun b => b.portDescriptor) ∧
      a.created = (Table.find ({ lag := lag.adapterKey, port := portHandle.port } : SaiLagMember)
        s.lagMemberStore).isNone ∧
      a.dropped.isSome = (Table.find portHandle.port members).isSome ∧
      s2.trace = s.trace ++ a.effects ∧
      s2.handles = s.handles ∧
      s2.portHandles = Table.assign p { portHandle with bridgePort := none } s.portHandles ∧
      (∀ k : SaiLagMember, k ≠ { lag := lag.adapterKey, port := portHandle.port } →
        Table.find k s2.lagMemberStore = Table.find k s.lagMemberStore) ∧
      (((Table.find portHandle.port members).isSome = true →
          ∃ before, Table.find ({ lag := lag.adapterKey, port := portHandle.port } : SaiLagMember)
            s.lagMemberStore = some before ∧ 1 ≤ before.owners) →
        ∃ object, Table.find ({ lag := lag.adapterKey, port := portHandle.port } : SaiLagMember)
          s2.lagMemberStore = some object ∧ 1 ≤ object.owners) := by
  obtain ⟨sM, hM, hHandlesM, hPortHandlesM, hStoreM, -, -, -⟩ :=
    addMember_of_portHandle (s := s) lag aggregatePortID hPort
  obtain ⟨hCreated, object, hObject, hOwners1, hOwners2⟩ := find_setObject_owners
    ({ lag := lag.adapterKey, port := portHandle.port } : SaiLagMember)
    ({ egressDisable := true } : SaiLagMemberAttributes)
    s.nextAdapterKey s.lagMemberStore
  have hObjectM : Table.find
      ({ lag := lag.adapterKey, port := portHandle.port } : SaiLagMember)
      sM.lagMemberStore = some object := by
    rw [hStoreM]; exact hObject
  have hS := setMemberState_of_object fwdState hObjectM
  have htraceM : sM.trace = s.trace ++
      (match portHandle.bridgePort with
        | some b => [Effect.bridgePortRelease b.portDescriptor]
        | none => []) ++
      [.lagMemberSetObject lag.adapterKey portHandle.port
          (setObject ({ lag := lag.adapterKey, port := portHandle.port } : SaiLagMember)
            ({ egressDisable := true } : SaiLagMemberAttributes)
            s.nextAdapterKey s.lagMemberStore).2.1,
       .memberPort2AggregatePortIdsEmplace portHandle.port aggregatePortID] := by
    simp only [addMember, hPort] at hM
    cases hM
    cases portHandle.bridgePort <;> simp [emit, releaseBridgePort, updatePortHandle]
  have hfindA : Table.find ({ lag := lag.adapterKey, port := portHandle.port } : SaiLagMember)
      (Table.assign ({ lag := lag.adapterKey, port := portHandle.port } : SaiLagMember)
        { object with
          attributes := { egressDisable := decide (fwdState = Forwarding.DISABLED) } }
        sM.lagMemberStore) =
      some { object with
        attributes := { egressDisable := decide (fwdState = Forwarding.DISABLED) } } := by
    rw [Table.find_assign, if_pos rfl, hObjectM]
    rfl
  refine ⟨{ lag := lag.adapterKey, port := portHandle.port, aggPort := aggregatePortID,
            released := portHandle.bridgePort.map (fun b => b.portDescriptor),
            created := (setObject
              ({ lag := lag.adapterKey, port := portHandle.port } : SaiLagMember)
              ({ egressDisable := true } : SaiLagMemberAttributes)
              s.nextAdapterKey s.lagMemberStore).2.1,
            egressDisable := decide (fwdState = Forwarding.DISABLED),
            dropped := (Table.find portHandle.port members).map
              (fun _ => (release
                ({ lag := lag.adapterKey, port := portHandle.port } : SaiLagMember)
                (Table.assign
                  ({ lag := lag.adapterKey, port := portHandle.port } : SaiLagMember)
                  { object with
                    attributes :=
                      { egressDisable := decide (fwdState = Forwarding.DISABLED) } }
                  sM.lagMemberStore)).1) },
    dropUnplaced (portHandle.port, { lag := lag.adapterKey, port := portHandle.port })
      members
      (emit (.lagMemberSetEgressDisable lag.adapterKey portHandle.port
          (decide (fwdState = Forwarding.DISABLED)))
        { sM with
          lagMemberStore :=
            Table.assign
              ({ lag := lag.adapterKey, port := portHandle.port } : SaiLagMember)
              { object with
                attributes :=
                  { egressDisable := decide (fwdState = Forwarding.DISABLED) } }
              sM.lagMemberStore }),
    ?_, ⟨rfl, rfl, rfl, rfl⟩, rfl, hCreated, ?_, ?_, ?_, ?_, ?_, ?_⟩
  · intro rest
    simp only [addLagMembers, hM, hS]
  · cases Table.find portHandle.port members <;> rfl
  · cases hd : Table.find portHandle.port members <;>
      cases hb : portHandle.bridgePort <;>
      simp [dropUnplaced, hd, emit, releaseLagMember, htraceM, hb, MemberAddition.effects]
  · rw [(dropUnplaced_frame _ _ _).1]
    exact hHandlesM
  · rw [(dropUnplaced_frame _ _ _).2.1]
    exact hPortHandlesM
  · intro k hk
    have hbase : Table.find k
        (Table.assign ({ lag := lag.adapterKey, port := portHandle.port } : SaiLagMember)
          { object with
            attributes := { egressDisable := decide (fwdState = Forwarding.DISABLED) } }
          sM.lagMemberStore) = Table.find k s.lagMemberStore := by
      rw [Table.find_assign, if_neg hk, hStoreM, find_setObject_of_ne _ _ _ _ _ hk]
    unfold dropUnplaced
    cases Table.find portHandle.port members with
    | none => exact hbase
    | some m =>
      show Table.find k (release _ _).2 = _
      rw [find_release_of_ne _ _ _ hk]
      exact hbase
  · intro hInv
    unfold dropUnplaced
    cases hd : Table.find portHandle.port members with
    | none => exact ⟨_, hfindA, hOwners1⟩
    | some m =>
      have h2 : 2 ≤ object.owners := hOwners2 (hInv (by rw [hd]; rfl))
      exact find_release_self _ _ _ hfindA h2

theorem addLagMembers_trace (lag : SaiLag) (aggregatePortID : AggregatePortID)
    (xs : List (PortID × Forwarding)) :
    ∀ (members members1 : List (PortSaiId × SaiLagMember)) (s s1 : SaiLagManager),
      (∀ k, (Table.find k members).isSome = true →
        ∃ before, Table.find ({ lag := lag.adapterKey, port := k } : SaiLagMember)
          s.lagMemberStore = some before ∧ 1 ≤ before.owners) →
      addLagMembers lag aggregatePortID xs members s = .ok (members1, s1) →
      ∃ additions : List MemberAddition,
        List.Forall₂ (fun e a => portSaiIdOf s e.1 = some a.port ∧ a.lag = lag.adapterKey ∧
          a.aggPort = aggregatePortID ∧
          a.egressDisable = decide (e.2 = Forwarding.DISABLED)) xs additions ∧
        s1.trace = s.trace ++ additions.flatMap MemberAddition.effects ∧
        s1.handles = s.handles ∧
        (∀ (i : Nat) (e : PortID × Forwarding) (a : MemberAddition),
          xs[i]? = some e → additions[i]? = some a →
          a.released =
            (if e.1 ∈ (xs.take i).map Prod.fst then none else standaloneBridgePort s e.1) ∧
          (a.created = true ↔
            (Table.find ({ lag := lag.adapterKey, port := a.port } : SaiLagMember)
                s.lagMemberStore = none ∧
              a.port ∉ (additions.take i).map (fun b => b.port))) ∧
          (a.dropped.isSome = true ↔
            ((Table.find a.port members).isSome = true ∨
              a.port ∈ (additions.take i).map (fun b => b.port)))) := by
  induction xs with
  | nil =>
    intro members members1 s s1 _ h
    simp only [addLagMembers] at h
    cases h
    refine ⟨[], List.Forall₂.nil, by simp, rfl, ?_⟩
    intro i e a he
    simp at he
  | cons x rest ih =>
    intro members members1 s s1 hInv h
    obtain ⟨p, fwdState⟩ := x
    cases hPort : Table.find p s.portHandles with
    | none => simp [addLagMembers, addMember, hPort] at h
    | some portHandle =>
      obtain ⟨a0, s2, hStep, ⟨hPortA, hLagA, hAggA, hEgressA⟩, hReleased, hCreated, hDropped,
        hTrace2, hHandles2, hPortHandles2, hOther, hSelf⟩ :=
        addLagMembers_step lag aggregatePortID p fwdState members s portHandle hPort
      rw [hStep] at h
      have hSelf2 := hSelf (hInv portHandle.port)
      have hInv2 : ∀ k, (Table.find k (Table.orderedEmplace portHandle.port
          ({ lag := lag.adapterKey, port := portHandle.port } : SaiLagMember)
          members)).isSome = true →
          ∃ before, Table.find ({ lag := lag.adapterKey, port := k } : SaiLagMember)
            s2.lagMemberStore = some before ∧ 1 ≤ before.owners := by
        intro k hk
        by_cases hkp : k = portHandle.port
        · rw [hkp]; exact hSelf2
        · rcases (Table.find_orderedEmplace_isSome_iff _ _ _ _).1 hk with hk1 | hk1
          · rw [hOther _ (by
              intro hEq
              exact hkp (congrArg SaiLagMember.port hEq))]
            exact hInv k hk1
          · exact absurd hk1 hkp
      obtain ⟨additions, hAll, hTrace, hHandles, hIdx⟩ := ih _ _ _ _ hInv2 h
      have hsame : ∀ q, portSaiIdOf s2 q = portSaiIdOf s q :=
        portSaiIdOf_eq_of_assign { portHandle with bridgePort := none } hPort rfl hPortHandles2
      refine ⟨a0 :: additions, ?_, ?_, ?_, ?_⟩
      · refine List.Forall₂.cons ⟨?_, hLagA, hAggA, hEgressA⟩ ?_
        · rw [hPortA]; simp [portSaiIdOf, hPort]
        · refine hAll.imp ?_
          intro e a hea
          rw [← hsame e.1]
          exact hea
      · rw [hTrace, hTrace2, List.flatMap_cons, List.append_assoc]
      · rw [hHandles, hHandles2]
      · intro i e a he ha
        cases i with
        | zero =>
          simp only [List.getElem?_cons_zero, Option.some.injEq] at he ha
          subst he
          subst ha
          refine ⟨?_, ?_, ?_⟩
          · rw [hReleased]
            simp [standaloneBridgePort, hPort]
          · rw [hCreated, hPortA]
            simp
          · rw [hDropped, hPortA]
            simp
        | succ i =>
          simp only [List.getElem?_cons_succ] at he ha
          obtain ⟨hR, hC, hD⟩ := hIdx i e a he ha
          refine ⟨?_, ?_, ?_⟩
          · rw [hR, standaloneBridgePort_assign hPort hPortHandles2]
            simp only [List.take_succ_cons, List.map_cons, List.mem_cons]
            by_cases hep : e.1 = p
            · simp [hep]
            · simp [hep]
          · rw [hC]
            simp only [List.take_succ_cons, List.map_cons, List.mem_cons, hPortA, not_or]
            by_cases hap : a.port = portHandle.port
            · obtain ⟨object, hObject, -⟩ := hSelf2
              rw [hap, hObject]
              simp
            · rw [hOther _ (by
                intro hEq
                exact hap (congrArg SaiLagMember.port hEq))]
              simp [hap]
          · rw [hD, Table.find_orderedEmplace_isSome_iff]
            simp only [List.take_succ_cons, List.map_cons, List.mem_cons, hPortA]
            tauto

/-- C11, as the code has it: whenever `addLag` returns, the calls it made are, in this order:
`setObject` for the LAG object under the label of the aggregate port, which creates the object
exactly when the store holds none with that label; then for each sub-port, in the order of the
sub-port list, the release of its standalone bridge port, `setObject` for its member object,
the emplace of its member index entry and the write of its egress attribute; then the emplace
of the vlanIds entry and of the aggregatePortIds entry of the LAG, with the VLAN of the first
sub-port; only after that `addBridgePort` for the LAG itself; then `createVlanMember`. The
release of the standalone bridge port of a sub-port is made exactly when the port handle of the
sub-port holds one before the call and the sub-port did not occur earlier in the list, and it
names that bridge port; the member object is created exactly when the member store held none
for the LAG and the hardware port id and the id did not occur earlier; the member pointer is
released again exactly when the hardware port id occurred earlier. When no handle existed for
the id nothing follows. -/
theorem addLag_order_of_calls (s s1 : SaiLagManager) (aggregatePort : AggregatePort)
    (lagSaiId : LagSaiId) (h : addLag aggregatePort s = .ok (lagSaiId, s1)) :
    ∃ (first : PortID) (portSaiId : PortSaiId) (vlanID : VlanSaiId)
      (additions : List MemberAddition) (rest : List Effect),
      aggregatePort.sortedSubports.head? = some first ∧
      Table.find first s.concurrentIndices.portSaiIds = some portSaiId ∧
      Table.find (PortDescriptorSaiId.physical portSaiId) s.concurrentIndices.vlanIds =
        some vlanID ∧
      lagSaiId = lagSaiIdFor aggregatePort s ∧
      List.Forall₂ (fun e a => portSaiIdOf s e.1 = some a.port ∧ a.lag = lagSaiId ∧
        a.aggPort = aggregatePort.id ∧
        a.egressDisable = decide (e.2 = Forwarding.DISABLED))
        aggregatePort.subportAndFwdState additions ∧
      (∀ (i : Nat) (e : PortID × Forwarding) (a : MemberAddition),
        aggregatePort.subportAndFwdState[i]? = some e → additions[i]? = some a →
        a.released =
          (if e.1 ∈ (aggregatePort.subportAndFwdState.take i).map Prod.fst then none
            else standaloneBridgePort s e.1) ∧
        (a.created = true ↔
          (Table.find ({ lag := lagSaiId, port := a.port } : SaiLagMember)
              s.lagMemberStore = none ∧
            a.port ∉ (additions.take i).map (fun b => b.port))) ∧
        (a.dropped.isSome = true ↔ a.port ∈ (additions.take i).map (fun b => b.port))) ∧
      s1.trace = s.trace ++
        [.lagSetObject (lagLabel aggregatePort) lagSaiId
          (Table.find (lagLabel aggregatePort) s.lagStore).isNone] ++
        additions.flatMap MemberAddition.effects ++
        [.vlanIdsEmplace (.aggregate lagSaiId) vlanID,
         .aggregatePortIdsEmplace lagSaiId aggregatePort.id,
         .addBridgePort (.aggregate aggregatePort.id) (.aggregate lagSaiId),
         .createVlanMember vlanID (.aggregate aggregatePort.id)] ++ rest ∧
      (getLagHandleIf aggregatePort.id s = none → rest = []) := by
  cases hS : aggregatePort.sortedSubports with
  | nil => simp [addLag, hS] at h
  | cons subPort others =>
    cases hidx : Table.find subPort s.concurrentIndices.portSaiIds with
    | none => simp [addLag, hS, hidx] at h
    | some portSaiId =>
      cases hVlan : Table.find (PortDescriptorSaiId.physical portSaiId)
          s.concurrentIndices.vlanIds with
      | none => simp [addLag, hS, hidx, hVlan] at h
      | some vlanID =>
        simp only [addLag, hS, hidx, hVlan] at h
        generalize hlabel : aggregatePort.name.take 32 ++
          List.replicate (32 - (aggregatePort.name.take 32).length) 0 = label at h
        have hl : lagLabel aggregatePort = label := hlabel
        generalize hr : setObject label ({ label := label, vlan := vlanID } : SaiLagAttributes)
          s.nextAdapterKey s.lagStore = r at h
        have hr1 : r.1 = lagSaiIdFor aggregatePort s ∧
            r.2.1 = (Table.find label s.lagStore).isNone := by
          rw [← hr]
          unfold lagSaiIdFor setObject
          rw [hl]
          cases Table.find label s.lagStore <;> exact ⟨rfl, rfl⟩
        generalize hrun : addLagMembers _ aggregatePort.id aggregatePort.subportAndFwdState []
          _ = run at h
        cases run with
        | error e => simp only [] at h; cases h
        | ok res =>
          obtain ⟨members1, s2⟩ := res
          obtain ⟨additions, hAll, hTrace, hHandles, hIdx⟩ :=
            addLagMembers_trace _ _ _ _ _ _ _ (fun k hk => by simp [Table.find] at hk) hrun
          simp only [Except.ok.injEq, Prod.mk.injEq] at h
          obtain ⟨hid, hs1⟩ := h
          subst hid
          have hTrace2 : s2.trace = s.trace ++ [.lagSetObject label r.1 r.2.1] ++
              additions.flatMap MemberAddition.effects := hTrace
          rw [hl, ← hr1.2]
          have hIdx2 : ∀ (i : Nat) (e : PortID × Forwarding) (a : MemberAddition),
              aggregatePort.subportAndFwdState[i]? = some e → additions[i]? = some a →
              a.released =
                (if e.1 ∈ (aggregatePort.subportAndFwdState.take i).map Prod.fst then none
                  else standaloneBridgePort s e.1) ∧
              (a.created = true ↔
                (Table.find ({ lag := r.1, port := a.port } : SaiLagMember)
                    s.lagMemberStore = none ∧
                  a.port ∉ (additions.take i).map (fun b => b.port))) ∧
              (a.dropped.isSome = true ↔
                a.port ∈ (additions.take i).map (fun b => b.port)) := by
            intro i e a he ha
            obtain ⟨hR, hC, hD⟩ := hIdx i e a he ha
            refine ⟨hR, hC, ?_⟩
            rw [hD]
            simp [Table.find]
          by_cases ht : (Table.find aggregatePort.id s2.handles).isNone = true
          · refine ⟨subPort, portSaiId, vlanID, additions, [], rfl, hidx, hVlan, hr1.1, hAll,
              hIdx2, ?_, fun _ => rfl⟩
            rw [← hs1]
            simp only [addBridgePort, emit, ht, if_true, hTrace2, List.append_assoc,
              List.append_nil]
            rfl
          · obtain ⟨rest, hrest⟩ := destroyHandle_trace
              { lag := some { label := label, adapterKey := r.1 }
                bridgePort := some
                  { portDescriptor := .aggregate aggregatePort.id, saiId := .aggregate r.1 }
                members := members1
                minimumLinkCount := aggregatePort.minimumLinkCount
                vlanId := vlanID }
              (emit (.createVlanMember vlanID (.aggregate aggregatePort.id))
                { (addBridgePort (.aggregate aggregatePort.id) (.aggregate r.1)
                    (emit (.aggregatePortIdsEmplace r.1 aggregatePort.id)
                      { (emit (.vlanIdsEmplace (.aggregate r.1) vlanID)
                          { s2 with
                            concurrentIndices :=
                              { s2.concurrentIndices with
                                vlanIds := Table.emplace (PortDescriptorSaiId.aggregate r.1)
                                  vlanID s2.concurrentIndices.vlanIds } }) with
                        concurrentIndices :=
                          { s2.concurrentIndices with
                            vlanIds := Table.emplace (PortDescriptorSaiId.aggregate r.1)
                              vlanID s2.concurrentIndices.vlanIds
                            aggregatePortIds := Table.emplace r.1 aggregatePort.id
                              s2.concurrentIndices.aggregatePortIds } })).2 with
                  handles := Table.emplace aggregatePort.id
                    { lag := some { label := label, adapterKey := r.1 }
                      bridgePort := some
                        { portDescriptor := .aggregate aggregatePort.id,
                          saiId := .aggregate r.1 }
                      members := members1
                      minimumLinkCount := aggregatePort.minimumLinkCount
                      vlanId := vlanID } s2.handles })
            refine ⟨subPort, portSaiId, vlanID, additions, rest, rfl, hidx, hVlan, hr1.1, hAll,
              hIdx2, ?_, ?_⟩
            · rw [← hs1]
              simp only [addBridgePort, emit, ht, if_false] at hrest ⊢
              refine Eq.trans hrest ?_
              simp only [hTrace2, List.append_assoc]
              rfl
            · intro hnone
              exfalso
              apply ht
              rw [hHandles]
              simp only [getLagHandleIf] at hnone
              show (Table.find aggregatePort.id s.handles).isNone = true
              rw [hnone]
              rfl

/-! ## The scenario of the specification, evaluated -/

set_option maxRecDepth 100000

/-- C1, at the inputs where the code departs from it: with the handle holding exactly the
members 1, 2, 3 of the old list, `changeLag` to an empty new list returns and leaves the three
members in the handle; and with a handle without members and an empty old list, `changeLag` to
the new list 2, 3, 4 returns and leaves the handle without members. -/
theorem changeLag_empty_side_changes_nothing :
    memberKeys 7 scenarioAdded = some [101, 102, 103] ∧
    (match changeLag scenarioOld scenarioEmpty scenarioAdded with
      | .ok s => memberKeys 7 s
      | .error _ => none) = some [101, 102, 103] ∧
    memberKeys 7 scenarioDrained = some [] ∧
    (match changeLag scenarioEmpty scenarioNew scenarioDrained with
      | .ok s => memberKeys 7 s
      | .error _ => none) = some [] := by
  refine ⟨by decide, by decide, by decide, by decide⟩

/-- The scenario as an instance of C2: after `addLag` of (1, ENABLED), (2, ENABLED),
(3, DISABLED) and `changeLag` to (2, ENABLED), (3, ENABLED), (4, DISABLED) the active member
count is 2. -/
theorem changeLag_after_addLag_scenario :
    ∃ lagSaiId s1 s2,
      addLag scenarioOld scenarioInitial = .ok (lagSaiId, s1) ∧
      changeLag scenarioOld scenarioNew s1 = .ok s2 ∧
      getActiveMemberCount scenarioOld.id s2 = .ok 2 := by
  obtain ⟨lagSaiId, s1, s2, -, h1, h2, -, -, -, -, h7⟩ :=
    changeLag_after_addLag_members_and_active_count scenarioInitial scenarioOld scenarioNew
      (by decide) (by decide) (by decide) (by decide) (by decide) (by decide) (by decide)
      (by decide)
  exact ⟨lagSaiId, s1, s2, h1, h2, h7⟩

/-- C3, at the scenario: the member operations `changeLag` issues are three removals followed
by three additions, while the classic sorted-merge diff of the same sequences is one removal,
one state update and one addition. -/
theorem changeLag_ops_differ_from_classic_merge :
    changeLag scenarioOld scenarioNew scenarioAdded = .ok scenarioChanged ∧
    scenarioAdded.memberOps = [] ∧
    scenarioChanged.memberOps =
      [.removeMember 1, .removeMember 2, .removeMember 3,
       .addMember 2, .setMemberState 2 .ENABLED,
       .addMember 3, .setMemberState 3 .ENABLED,
       .addMember 4, .setMemberState 4 .DISABLED] ∧
    classicMergeDiff scenarioOld.subportAndFwdState scenarioNew.subportAndFwdState =
      [.removeMember 1, .setMemberState 3 .ENABLED,
       .addMember 4, .setMemberState 4 .DISABLED] ∧
    scenarioChanged.memberOps ≠
      classicMergeDiff scenarioOld.subportAndFwdState scenarioNew.subportAndFwdState := by
  have hClassic : classicMergeDiff scenarioOld.subportAndFwdState
      scenarioNew.subportAndFwdState =
      [.removeMember 1, .setMemberState 3 .ENABLED,
       .addMember 4, .setMemberState 4 .DISABLED] := by
    simp [classicMergeDiff, scenarioOld, scenarioNew]
  refine ⟨by rfl, by decide, by decide, hClassic, ?_⟩
  rw [hClassic]
  decide

/-- C4, at the scenario: port 2 is in the old and the new list with state ENABLED, and the
calls `changeLag` makes release its member object (which destroys it), set up its standalone
bridge port, release that bridge port again, create a member object for it anew and set the
egress attribute of that object. -/
theorem changeLag_recreates_unchanged_member :
    changeLag scenarioOld scenarioNew scenarioAdded = .ok scenarioChanged ∧
    (2, Forwarding.ENABLED) ∈ scenarioOld.subportAndFwdState ∧
    (2, Forwarding.ENABLED) ∈ scenarioNew.subportAndFwdState ∧
    scenarioChanged.trace = scenarioAdded.trace ++
      [.lagMemberRelease 500 101 true,
       .memberPort2AggregatePortIdsErase 101,
       .addBridgePort (.physical 1) (.physical 101),
       .lagMemberRelease 500 102 true,
       .memberPort2AggregatePortIdsErase 102,
       .addBridgePort (.physical 2) (.physical 102),
       .lagMemberRelease 500 103 true,
       .memberPort2AggregatePortIdsErase 103,
       .addBridgePort (.physical 3) (.physical 103),
       .bridgePortRelease (.physical 2),
       .lagMemberSetObject 500 102 true,
       .memberPort2AggregatePortIdsEmplace 102 7,
       .lagMemberSetEgressDisable 500 102 false,
       .bridgePortRelease (.physical 3),
       .lagMemberSetObject 500 103 true,
       .memberPort2AggregatePortIdsEmplace 103 7,
       .lagMemberSetEgressDisable 500 103 false,
       .bridgePortRelease (.physical 4),
       .lagMemberSetObject 500 104 true,
       .memberPort2AggregatePortIdsEmplace 104 7,
       .lagMemberSetEgressDisable 500 104 true] := by
  refine ⟨by rfl, by decide, by decide, by decide⟩

/-- An instance of C5: port 4 is not a member of aggregate port A after `addLag`, and
`removeMember` of it returns the state unchanged. -/
theorem removeMember_absent_scenario :
    Table.find 7 scenarioAdded.handles = some scenarioHandle ∧
    Table.find 4 scenarioAdded.portHandles = some scenarioPortHandle4 ∧
    Table.find scenarioPortHandle4.port scenarioHandle.members = none ∧
    removeMember 7 4 scenarioAdded = .ok scenarioAdded :=
  ⟨by decide, by decide, by decide,
    (removeMember_absent_is_noop scenarioAdded 7 4 scenarioHandle scenarioPortHandle4
      (by decide) (by decide) (by decide)).1⟩

/-- An instance of C6: port 1 is a member of aggregate port A after `addLag`; `removeMember`
of it returns, and afterwards the handle has no member and the member index no entry under
hardware id 101. -/
theorem removeMember_member_scenario :
    Table.find 7 scenarioAdded.handles = some scenarioHandle ∧
    Table.find 1 scenarioAdded.portHandles = some scenarioPortHandle1 ∧
    Table.find scenarioPortHandle1.port scenarioHandle.members =
      some { lag := 500, port := 101 } ∧
    ∃ s1 handle1, removeMember 7 1 scenarioAdded = .ok s1 ∧
      Table.find 7 s1.handles = some handle1 ∧
      Table.find 101 handle1.members = none ∧
      Table.find 101 s1.concurrentIndices.memberPort2AggregatePortIds = none := by
  refine ⟨by decide, by decide, by decide, ?_⟩
  obtain ⟨s1, handle1, -, -, hrun, hHandle, hGone, -, -, -, -, -, -, -, hIdx, -⟩ :=
    removeMember_removes_exactly_member scenarioAdded 7 1 scenarioHandle scenarioPortHandle1
      { lag := 500, port := 101 } (by decide) (by decide) (by decide)
  exact ⟨s1, handle1, hrun, hHandle, hGone, hIdx⟩

/-- C7, as stated, fails at the scenario: after `addLag` of aggregate port A a handle exists for
its id, and a second `addLag` of A returns the LAG id 500 instead of failing. -/
theorem addLag_existing_id_counterexample :
    (getLagHandleIf scenarioOld.id scenarioAdded).isSome = true ∧
    (match addLag scenarioOld scenarioAdded with
      | .ok r => some r.1
      | .error _ => none) = some 500 := by
  refine ⟨by decide, by decide⟩

/-- An instance of the amended C7: the second `addLag` of aggregate port A returns and leaves
the handle table as it was. -/
theorem addLag_existing_id_scenario :
    getLagHandleIf scenarioOld.id scenarioAdded = some scenarioHandle ∧
    ∃ lagSaiId s1, addLag scenarioOld scenarioAdded = .ok (lagSaiId, s1) ∧
      s1.handles = scenarioAdded.handles :=
  ⟨by decide,
    addLag_existing_id_returns scenarioAdded scenarioOld scenarioHandle (by decide) (by decide)
      (by decide) (by decide)⟩

/-- An instance of C8: `removeLag` of aggregate port A fails before `addLag` and returns after
it, leaving no handle for the id. -/
theorem removeLag_scenario :
    getLagHandleIf scenarioOld.id scenarioInitial = none ∧
    removeLag scenarioOld scenarioInitial =
      .error (.thrown (.removeNonExistingLag 7), scenarioInitial) ∧
    getLagHandleIf scenarioOld.id scenarioAdded = some scenarioHandle ∧
    ∃ s1, removeLag scenarioOld scenarioAdded = .ok s1 ∧ getLagHandleIf scenarioOld.id s1 = none :=
  ⟨by decide,
    (removeLag_absent_fails_present_removes scenarioInitial scenarioOld).1 (by decide),
    by decide,
    ((removeLag_absent_fails_present_removes scenarioAdded scenarioOld).2 scenarioHandle
      (by decide)).2.2 (by decide) (by decide)⟩

/-- An instance of C9: aggregate port A is added with three sub-ports of which one is DISABLED,
and the active member count is 2. -/
theorem addLag_active_member_count_scenario :
    ∃ lagSaiId s1, addLag scenarioOld scenarioInitial = .ok (lagSaiId, s1) ∧
      getActiveMemberCount scenarioOld.id s1 = .ok 2 := by
  obtain ⟨lagSaiId, s1, h1, h2⟩ :=
    addLag_active_member_count scenarioInitial scenarioOld (by decide) (by decide) (by decide)
      (by decide) (by decide) (by decide)
  exact ⟨lagSaiId, s1, h1, h2⟩

/-- An instance of C10: after `addLag` the active member count 2 meets the minimum link count 2
of the handle, and `isMinimumLinkMet` returns true. -/
theorem isMinimumLinkMet_scenario :
    getLagHandleIf 7 scenarioAdded = some scenarioHandle ∧
    getActiveMemberCount 7 scenarioAdded = .ok 2 ∧
    isMinimumLinkMet 7 scenarioAdded = .ok true := by
  refine ⟨by decide, by rfl, ?_⟩
  obtain ⟨met, hmet, hiff⟩ :=
    (isMinimumLinkMet_iff scenarioAdded 7 scenarioHandle (by decide)).1 2 (by rfl)
  have : met = true := hiff.2 (by decide)
  rw [this] at hmet
  exact hmet

/-- C11, as stated, fails at the scenario: in `addLag` of aggregate port A the entries of
vlanIds and aggregatePortIds for the LAG are recorded before the bridge port of the LAG is
created. -/
theorem addLag_order_counterexample :
    addLag scenarioOld scenarioInitial = .ok (500, scenarioAdded) ∧
    scenarioAdded.trace =
      [.lagSetObject (65 :: List.replicate 31 0) 500 true,
       .bridgePortRelease (.physical 1), .lagMemberSetObject 500 101 true,
       .memberPort2AggregatePortIdsEmplace 101 7, .lagMemberSetEgressDisable 500 101 false,
       .bridgePortRelease (.physical 2), .lagMemberSetObject 500 102 true,
       .memberPort2AggregatePortIdsEmplace 102 7, .lagMemberSetEgressDisable 500 102 false,
       .bridgePortRelease (.physical 3), .lagMemberSetObject 500 103 true,
       .memberPort2AggregatePortIdsEmplace 103 7, .lagMemberSetEgressDisable 500 103 true,
       .vlanIdsEmplace (.aggregate 500) 2000, .aggregatePortIdsEmplace 500 7,
       .addBridgePort (.aggregate 7) (.aggregate 500),
       .createVlanMember 2000 (.aggregate 7)] ∧
    scenarioAdded.trace.indexOf (Effect.vlanIdsEmplace (.aggregate 500) 2000) <
      scenarioAdded.trace.indexOf (Effect.addBridgePort (.aggregate 7) (.aggregate 500)) ∧
    scenarioAdded.trace.indexOf (Effect.aggregatePortIdsEmplace 500 7) <
      scenarioAdded.trace.indexOf (Effect.addBridgePort (.aggregate 7) (.aggregate 500)) :=
  ⟨by rfl, by decide, by decide, by decide⟩

/-- An instance of the amended C11: the calls of `addLag` of aggregate port A on the initial
state of the scenario, in which the ports 1, 2 and 3 each hold their standalone bridge
port. -/
theorem addLag_order_scenario :
    standaloneBridgePort scenarioInitial 1 = some (.physical 1) ∧
    ∃ (first : PortID) (portSaiId : PortSaiId) (vlanID : VlanSaiId)
      (additions : List MemberAddition) (rest : List Effect),
      scenarioOld.sortedSubports.head? = some first ∧
      Table.find first scenarioInitial.concurrentIndices.portSaiIds = some portSaiId ∧
      Table.find (PortDescriptorSaiId.physical portSaiId)
        scenarioInitial.concurrentIndices.vlanIds = some vlanID ∧
      500 = lagSaiIdFor scenarioOld scenarioInitial ∧
      List.Forall₂
        (fun e a => portSaiIdOf scenarioInitial e.1 = some a.port ∧ a.lag = 500 ∧
          a.aggPort = scenarioOld.id ∧ a.egressDisable = decide (e.2 = Forwarding.DISABLED))
        scenarioOld.subportAndFwdState additions ∧
      (∀ (i : Nat) (e : PortID × Forwarding) (a : MemberAddition),
        scenarioOld.subportAndFwdState[i]? = some e → additions[i]? = some a →
        a.released =
          (if e.1 ∈ (scenarioOld.subportAndFwdState.take i).map Prod.fst then none
            else standaloneBridgePort scenarioInitial e.1) ∧
        (a.created = true ↔
          (Table.find ({ lag := 500, port := a.port } : SaiLagMember)
              scenarioInitial.lagMemberStore = none ∧
            a.port ∉ (additions.take i).map (fun b => b.port))) ∧
        (a.dropped.isSome = true ↔ a.port ∈ (additions.take i).map (fun b => b.port))) ∧
      scenarioAdded.trace = scenarioInitial.trace ++
        [.lagSetObject (lagLabel scenarioOld) 500
          (Table.find (lagLabel scenarioOld) scenarioInitial.lagStore).isNone] ++
        additions.flatMap MemberAddition.effects ++
        [.vlanIdsEmplace (.aggregate 500) vlanID,
         .aggregatePortIdsEmplace 500 scenarioOld.id,
         .addBridgePort (.aggregate scenarioOld.id) (.aggregate 500),
         .createVlanMember vlanID (.aggregate scenarioOld.id)] ++ rest ∧
      (getLagHandleIf scenarioOld.id scenarioInitial = none → rest = []) :=
  ⟨by decide, addLag_order_of_calls scenarioInitial scenarioAdded scenarioOld 500 (by rfl)⟩

/-- An instance of C13: after `addLag` of aggregate port A the member keys are the hardware ids
101, 102 and 103 and the member count is 3. -/
theorem addLag_member_keys_scenario :
    ∃ lagSaiId s1 handle,
      addLag scenarioOld scenarioInitial = .ok (lagSaiId, s1) ∧
      getLagHandleIf scenarioOld.id s1 = some handle ∧
      (handle.members.map Prod.fst).Nodup ∧
      (∀ k, k ∈ handle.members.map Prod.fst ↔
        ∃ p ∈ scenarioOld.sortedSubports, portSaiIdOf scenarioInitial p = some k) ∧
      getLagMemberCount scenarioOld.id s1 = .ok scenarioOld.sortedSubports.length :=
  addLag_member_keys_and_count scenarioInitial scenarioOld (by decide) (by decide) (by decide)
    (by decide) (by decide) (by decide)

/-- C14, as stated, fails at the scenario: from the initial state, which has no aggregate
port, `addLag` of aggregate port A, `addLag` of an aggregate port that shares sub-port 1 with
it, and `removeMember` of port 1 from aggregate port A lead to a state in which port 1 holds a
standalone bridge port and its hardware id 101 is a member key of the handle of the second
aggregate port. -/
theorem reachable_overlap_counterexample :
    scenarioInitial.handles = [] ∧
    addLag scenarioOld scenarioInitial = .ok (500, scenarioAdded) ∧
    addLag scenarioOverlap scenarioAdded = .ok (504, scenarioOverlapAdded) ∧
    removeMember 7 1 scenarioOverlapAdded = .ok scenarioOverlapRemoved ∧
    holdsBridgePort scenarioOverlapRemoved 1 = true ∧
    portSaiIdOf scenarioOverlapRemoved 1 = some 101 ∧
    isMemberOf scenarioOverlapRemoved 9 101 = true :=
  ⟨by rfl, by rfl, by rfl, by rfl, by decide, by decide, by decide⟩

/-- An instance of the amended C14: after `addLag` and `removeLag` of aggregate port A port 1
holds its standalone bridge port and is a member of no handle. -/
theorem reachable_bridgePort_scenario :
    holdsBridgePort scenarioRemoved 1 = true ∧ portSaiIdOf scenarioRemoved 1 = some 101 ∧
    isMemberOf scenarioRemoved 7 101 = false :=
  ⟨by decide, by decide,
    reachable_bridgePort_excludes_member scenarioInitial scenarioRemoved (by rfl) (by decide)
      (ReachableDisjoint.removeLag scenarioOld
        (ReachableDisjoint.addLag scenarioOld 500 ReachableDisjoint.initial
          (fun _ _ _ _ _ _ => rfl) (by rfl))
        (by rfl))
      1 101 7 (by decide) (by decide)⟩

/-- C15, as stated, fails at the scenario: after `addLag` of aggregate port A the id 8 has no
handle and port 4 belongs to no LAG, yet `addLag` followed by `removeLag` of an aggregate port
of id 8 that carries the name of aggregate port A shares the LAG object 500, and leaves vlanIds
and aggregatePortIds without the entries of LAG 500 that they held before. -/
theorem addLag_removeLag_counterexample :
    getLagHandleIf scenarioSameName.id scenarioAdded = none ∧
    Table.find 104 scenarioAdded.concurrentIndices.memberPort2AggregatePortIds = none ∧
    isMemberOf scenarioAdded 7 104 = false ∧
    addLag scenarioSameName scenarioAdded = .ok (500, scenarioSameNameAdded) ∧
    removeLag scenarioSameName scenarioSameNameAdded = .ok scenarioSameNameRemoved ∧
    Table.find (PortDescriptorSaiId.aggregate 500) scenarioAdded.concurrentIndices.vlanIds =
      some 2000 ∧
    Table.find (PortDescriptorSaiId.aggregate 500)
      scenarioSameNameRemoved.concurrentIndices.vlanIds = none ∧
    scenarioSameNameRemoved.concurrentIndices.vlanIds ≠
      scenarioAdded.concurrentIndices.vlanIds ∧
    scenarioAdded.concurrentIndices.aggregatePortIds = [(500, 7)] ∧
    scenarioSameNameRemoved.concurrentIndices.aggregatePortIds = [] :=
  ⟨by decide, by decide, by decide, by rfl, by rfl, by decide, by decide, by decide,
    by decide, by decide⟩

/-- An instance of the amended C15: `addLag` and `removeLag` of aggregate port A on the initial
state of the scenario. -/
theorem addLag_removeLag_scenario :
    ∃ lagSaiId s1 s2,
      addLag scenarioOld scenarioInitial = .ok (lagSaiId, s1) ∧
      removeLag scenarioOld s1 = .ok s2 ∧
      getLagHandleIf scenarioOld.id s2 = none ∧
      s2.concurrentIndices.vlanIds = scenarioInitial.concurrentIndices.vlanIds ∧
      s2.concurrentIndices.aggregatePortIds =
        scenarioInitial.concurrentIndices.aggregatePortIds ∧
      s2.concurrentIndices.memberPort2AggregatePortIds =
        scenarioInitial.concurrentIndices.memberPort2AggregatePortIds ∧
      ∀ p ∈ scenarioOld.sortedSubports, holdsBridgePort s2 p = true :=
  addLag_removeLag_restores scenarioInitial scenarioOld (by decide) (by decide) (by decide)
    (by decide) (by decide) (by decide) (by decide) (by decide) (by decide) (by decide)

/-- An instance of C16: aggregate port 8 has no handle after `addLag` of aggregate port A, and
the direct lookup and the three queries fail with the same error. -/
theorem getLagHandle_fails_scenario :
    getLagHandleIf 8 scenarioAdded = none ∧
    getLagHandle 8 scenarioAdded = .error (.thrown (.handleNotFound 8)) ∧
    getLagMemberCount 8 scenarioAdded = .error (.thrown (.handleNotFound 8)) ∧
    getActiveMemberCount 8 scenarioAdded = .error (.thrown (.handleNotFound 8)) ∧
    isMinimumLinkMet 8 scenarioAdded = .error (.thrown (.handleNotFound 8)) ∧
    getLagHandle 7 scenarioAdded = .ok scenarioHandle :=
  have h := getLagHandle_fails_iff_absent scenarioAdded 8
  have h7 := getLagHandle_fails_iff_absent scenarioAdded 7
  have hNone : getLagHandleIf 8 scenarioAdded = none := by decide
  ⟨hNone, by rfl, h.2.2.2.1.2 hNone, h.2.2.2.2.1.2 hNone, h.2.2.2.2.2.2 hNone,
    (h7.2.2.1 scenarioHandle).1 (by decide)⟩

end SaiLagManager

namespace HwSwitchEnsemble

/-- An instance of C17: with the observers 5, 3 and 9 registered, adding observer 3 again and
removing observer 7 fail in the unchanged state, and adding observer 7 and removing observer 3
return. -/
theorem observer_add_remove_scenario :
    (∃ failure e1, addHwEventObserver 3 scenarioObserved = .error (failure, e1) ∧
      failure = .thrown .observerAlreadyAdded ∧ e1 = scenarioObserved) ∧
    (∃ failure e1, removeHwEventObserver 7 scenarioObserved = .error (failure, e1) ∧
      failure = .thrown .observerEraseFailed ∧ e1 = scenarioObserved) ∧
    (∀ e1, addHwEventObserver 7 scenarioObserved = .ok e1 → 7 ∈ e1.hwEventObservers) ∧
    (∀ e1, removeHwEventObserver 3 scenarioObserved = .ok e1 → 3 ∉ e1.hwEventObservers) := by
  have h3 := observer_add_remove_failures scenarioObserved 3
  have h7 := observer_add_remove_failures scenarioObserved 7
  refine ⟨?_, ?_, fun e1 h => (h7.2.2.1 e1 h).1, fun e1 h => (h3.2.2.2.2.2 e1 h).1⟩
  · obtain ⟨failure, e1, h⟩ := h3.1.2 (by decide)
    exact ⟨failure, e1, h, h3.2.1 failure e1 h⟩
  · obtain ⟨failure, e1, h⟩ := h7.2.2.2.1.2 (by decide)
    exact ⟨failure, e1, h, h7.2.2.2.2.1 failure e1 h⟩

/-- An instance of C18: the observers 5, 3 and 9 are registered in this order, and each
callback calls them in this order. -/
theorem callbacks_notify_scenario :
    scenarioObserved.hwEventObservers = [5, 3, 9] ∧ [5, 3, 9].Nodup ∧
    (linkStateChanged 1 true scenarioObserved).trace =
      scenarioObserved.trace ++ [.linkTogglerLinkStateChanged 1 true] ++
        [5, 3, 9].map (fun observer => .changeLinkState observer 1 true) ∧
    (packetReceived 77 scenarioObserved).trace =
      scenarioObserved.trace ++ [5, 3, 9].map (fun observer => .receivePacket observer 77) ∧
    (l2LearningUpdateReceived 88 .L2_ENTRY_UPDATE_TYPE_ADD scenarioObserved).trace =
      scenarioObserved.trace ++
        [5, 3, 9].map (fun observer =>
          .updateL2EntryState observer 88 .L2_ENTRY_UPDATE_TYPE_ADD) :=
  callbacks_notify_in_registration_order scenarioEnsemble scenarioObserved [5, 3, 9] 1 true 77
    88 .L2_ENTRY_UPDATE_TYPE_ADD (by rfl) (by rfl)

/-- An instance of C19: `gracefulExit` of the ensemble of the scenario with the observers 5, 3
and 9. -/
theorem gracefulExit_order_scenario :
    (∃ e1, gracefulExit scenarioObserved = .ok e1) ∧
    ∀ e1, gracefulExit scenarioObserved = .ok e1 →
      e1.trace =
        [.thriftThreadJoin, .functionSchedulerShutdown, .unregisterCallbacks,
         .stopObserving 5, .stopObserving 3, .stopObserving 9, .gracefulExitState,
         .hwSwitchGracefulExit
           [(.kSwSwitch, .switchState 42),
            (.kRib, .routes [{ network := 20, resolved := false },
              { network := 30, resolved := false }])]] := by
  have h := gracefulExit_order_of_calls scenarioObserved
  refine ⟨h.2 { address := 1, content := 42, published := true } (by rfl) (by rfl), ?_⟩
  intro e1 h1
  obtain ⟨record, hrec, he1⟩ := h.1 e1 h1
  have hr : record = [(.kSwSwitch, .switchState 42),
      (.kRib, .routes [{ network := 20, resolved := false },
        { network := 30, resolved := false }])] := by
    have : gracefulExitState scenarioObserved = .ok [(.kSwSwitch, .switchState 42),
        (.kRib, .routes [{ network := 20, resolved := false },
          { network := 30, resolved := false }])] := by rfl
    rw [this] at hrec
    exact (Except.ok.inj hrec).symm
  rw [he1, hr]
  rfl

/-- An instance of C20: the record of the ensemble of the scenario holds the programmed state
and the two unresolved routes. -/
theorem gracefulExitState_scenario :
    ∃ record, gracefulExitState scenarioEnsemble = .ok record ∧
      Table.find RecordKey.kSwSwitch record = some (Dynamic.switchState 42) ∧
      Table.find RecordKey.kRib record =
        some (Dynamic.routes [{ network := 20, resolved := false },
          { network := 30, resolved := false }]) := by
  have h := gracefulExitState_record scenarioEnsemble
  obtain ⟨record, hrec⟩ := h.2 { address := 1, content := 42, published := true } (by rfl) (by rfl)
  obtain ⟨⟨state, hstate, -, hsw⟩, -, hrib, -⟩ := h.1 record hrec
  refine ⟨record, hrec, ?_, ?_⟩
  · have : state = { address := 1, content := 42, published := true } := by
      have hx : scenarioEnsemble.programmedState = some { address := 1, content := 42, published := true } :=
        rfl
      rw [hx] at hstate
      exact (Option.some.inj hstate).symm
    rw [hsw, this]
    rfl
  · rw [hrib _ rfl]
    rfl

end HwSwitchEnsemble

/-- C21, as stated, fails at a handle with one port and two secure channels of one association
each: the secure channel and the flow of the first channel are released before the
association of the second channel, so the releases do not proceed in global phases. -/
theorem macsec_destroy_phases_counterexample :
    scenarioMacsec.destroy =
      [.secureAssoc 1, .secureChannel 10, .flow 20, .secureAssoc 2, .secureChannel 11,
        .flow 21, .port 30, .macsec 40] ∧
    scenarioMacsec.destroy.map MacsecRelease.phase = [0, 1, 1, 0, 1, 1, 2, 3] ∧
    ¬ InGlobalPhases scenarioMacsec.destroy :=
  ⟨by decide, by decide, by decide⟩

/-- An instance of the amended C21: the second secure channel of the port of the scenario. -/
theorem macsec_destroy_depth_first_scenario :
    ∃ before between after,
      scenarioMacsec.destroy =
        before ++ channelReleases scenarioChannelB ++ between ++
          destroyShared .port scenarioMacsecPort.port ++ after ++
          destroyShared .macsec scenarioMacsec.macsec :=
  (macsec_destroy_depth_first scenarioMacsec).2 (1, some scenarioMacsecPort) (by decide)
    scenarioMacsecPort rfl (2, some scenarioChannelB) (by decide) scenarioChannelB rfl

/-- An instance of C22: the port handle of the scenario releases the objects of its two secure
channels, each leaf to root, and then its MACsec port 30; all that the destruction of the
second channel releases stands before the release of the port. -/
theorem destroy_leaf_to_root_scenario :
    scenarioMacsecPort.destroy =
      [.secureAssoc 1, .secureChannel 10, .flow 20, .secureAssoc 2, .secureChannel 11,
        .flow 21, .port 30] ∧
    ∃ before after,
      scenarioMacsecPort.destroy =
        before ++ scenarioChannelB.destroy ++ after ++
          (scenarioMacsecPort.port.map MacsecRelease.port).toList ∧
      ∀ release ∈ before ++ scenarioChannelB.destroy ++ after, ∀ id, release ≠ .port id :=
  ⟨by decide,
    (destroy_leaf_to_root scenarioChannelA scenarioMacsecPort scenarioMacsec).2.1.2
      (2, some scenarioChannelB) (by decide) scenarioChannelB rfl⟩

namespace SaiAclTableManager

/-- An instance of C23, the test `addDupAclEntry`: after the entry of priority 1 that matches
01:02:03:04:05:06 is added to `AclTable1`, adding the entry of priority 1 that matches
00:02:03:04:05:06 fails, and so does adding a table named `AclTable1`. -/
theorem add_duplicate_scenario :
    addAclEntry scenarioAclEntry kAclTable1 scenarioAcl = .ok (2, scenarioAclAdded) ∧
    scenarioAclEntry.dstMac ≠ scenarioDupAclEntry.dstMac ∧
    addAclEntry scenarioDupAclEntry kAclTable1 scenarioAclAdded = .error .duplicateAclEntry ∧
    addAclTable { priority := 0, name := kAclTable1 } 0 scenarioAclAdded =
      .error .duplicateAclTable :=
  ⟨by rfl, by decide,
    (add_duplicate_fails scenarioAclAdded kAclTable1
      { aclTable := 1, stage := 0,
        aclTableMembers := [(1, { aclEntry := 2, fieldDstMac := some [1, 2, 3, 4, 5, 6] })] }
      (by rfl)).1 scenarioDupAclEntry { aclEntry := 2, fieldDstMac := some [1, 2, 3, 4, 5, 6] }
      (by rfl),
    (add_duplicate_fails scenarioAclAdded kAclTable1
      { aclTable := 1, stage := 0,
        aclTableMembers := [(1, { aclEntry := 2, fieldDstMac := some [1, 2, 3, 4, 5, 6] })] }
      (by rfl)).2 { priority := 0, name := kAclTable1 } 0 rfl⟩

end SaiAclTableManager

namespace BcmStatUpdater

/-- An instance of C24: at the updater of the scenario the refresh removes the counters of the
handle 1, keeps those of the handle 2 and adds the two counters of the handle 3. -/
theorem aclStats_refresh_scenario :
    Table.find 1 (refreshAclStats scenarioStats).aclStats = none ∧
    Table.find 2 (refreshAclStats scenarioStats).aclStats = Table.find 2 scenarioStats.aclStats ∧
    hasCounter (refreshAclStats scenarioStats).aclStats 3 .PACKETS = true ∧
    hasCounter (refreshAclStats scenarioStats).aclStats 3 .BYTES = true ∧
    (refreshAclStats scenarioStats).aclStats =
      [(2, [(.BYTES, { name := [98], value := 7 })]),
       (3, [(.PACKETS, { name := [99], value := 0 }), (.BYTES, { name := [99], value := 0 })])] :=
  have h := (aclStats_change_only_in_refresh scenarioStats 0 [] [] (fun _ _ => 0)).2.2.1
  ⟨h.2.2.2.1 1 (by decide) (by decide), h.2.2.2.2 2 (by decide) (by decide),
    h.2.2.1 ({ handle := 3, aclStatName := [99] }, .PACKETS) (by decide),
    h.2.2.1 ({ handle := 3, aclStatName := [99] }, .BYTES) (by decide), by decide⟩

end BcmStatUpdater

namespace SaiLagManager

set_option maxRecDepth 100000

/-- An instance of C26: `removeLagHandle` of aggregate port A after `addLag`, whose handle has
three members. -/
theorem removeLagHandle_terminates_scenario :
    ∃ (s1 s2 : SaiLagManager) (removals : List MemberRemoval),
      (∀ fuel, scenarioHandle.members.length ≤ fuel →
        removeLagHandleMembers 7 fuel scenarioAdded = .ok s1) ∧
      (∀ fuel, fuel < scenarioHandle.members.length →
        ∃ s3, removeLagHandleMembers 7 fuel scenarioAdded = .error (.nonTermination, s3)) ∧
      removals.length = scenarioHandle.members.length ∧
      removals.map (fun r => r.key) = scenarioHandle.members.map Prod.fst ∧
      s1.trace = scenarioAdded.trace ++ removals.flatMap MemberRemoval.effects ∧
      Table.find 7 s1.handles = some { scenarioHandle with members := [] } ∧
      removeLagHandle 7 scenarioAdded = .ok s2 ∧
      Table.find 7 s2.handles =
        some { scenarioHandle with members := [], bridgePort := none, lag := none } :=
  removeLagHandle_terminates scenarioAdded 7 scenarioHandle
    { label := 65 :: List.replicate 31 0, adapterKey := 500 } (by decide) rfl (by decide)
    (by decide)

/-- An instance of C27: in the state of the scenario after `addLag` of aggregate port A on the
initial state, the index maps the hardware port id 101 to the aggregate port 7, of whose
handle 101 is a member key, and has no entry for the hardware port id 104, which is a member
key of no handle. -/
theorem reachable_index_agrees_scenario :
    Table.find 101 scenarioAdded.concurrentIndices.memberPort2AggregatePortIds = some 7 ∧
    (Table.find 101 scenarioAdded.concurrentIndices.memberPort2AggregatePortIds = some 7 ↔
      isMemberOf scenarioAdded 7 101 = true) ∧
    Table.find 104 scenarioAdded.concurrentIndices.memberPort2AggregatePortIds = none ∧
    (Table.find 104 scenarioAdded.concurrentIndices.memberPort2AggregatePortIds = some 7 ↔
      isMemberOf scenarioAdded 7 104 = true) :=
  have h := reachable_index_agrees scenarioInitial scenarioAdded rfl rfl
    (ReachableFresh.addLag scenarioOld 500 .initial (by decide)
      (fun _ _ _ _ _ _ => rfl) (by rfl))
  ⟨by decide, h 101 7, by decide, h 104 7⟩

/-- C28, as stated, fails where aggregate port A is given to `addLag` again after port 4 moved
to VLAN 3000: the sub-port list is not empty, its first sub-port 4 has the hardware id 104,
which has a vlanIds entry, and a port handle; `addLag` returns the LAG id 500, and the handle
of aggregate port A and the vlanIds entry of the LAG still hold VLAN 2000, not the VLAN 3000 of
the first sub-port. -/
theorem addLag_vlan_counterexample :
    scenarioReadded.subportAndFwdState ≠ [] ∧
    scenarioReadded.sortedSubports.head? = some 4 ∧
    Table.find 4 scenarioMoved.concurrentIndices.portSaiIds = some 104 ∧
    Table.find (PortDescriptorSaiId.physical 104) scenarioMoved.concurrentIndices.vlanIds =
      some 3000 ∧
    (∀ p ∈ scenarioReadded.sortedSubports, (Table.find p scenarioMoved.portHandles).isSome) ∧
    (match addLag scenarioReadded scenarioMoved with
      | .ok r =>
        (some r.1, (getLagHandleIf 7 r.2).map (fun handle => handle.vlanId),
          Table.find (PortDescriptorSaiId.aggregate 500) r.2.concurrentIndices.vlanIds)
      | .error _ => (none, none, none)) = (some 500, some 2000, some 2000) :=
  ⟨by decide, by decide, by decide, by decide, by decide, by decide⟩

/-- An instance of the amended C28: `addLag` of aggregate port A on the initial state of the
scenario. -/
theorem addLag_checks_pass_scenario :
    ∃ (lagSaiId : LagSaiId) (s1 : SaiLagManager) (first : PortID) (portSaiId : PortSaiId)
      (vlanID : VlanSaiId),
      scenarioOld.sortedSubports.head? = some first ∧
      Table.find first scenarioInitial.concurrentIndices.portSaiIds = some portSaiId ∧
      Table.find (PortDescriptorSaiId.physical portSaiId)
        scenarioInitial.concurrentIndices.vlanIds = some vlanID ∧
      addLag scenarioOld scenarioInitial = .ok (lagSaiId, s1) ∧
      lagSaiId = lagSaiIdFor scenarioOld scenarioInitial ∧
      (getLagHandleIf scenarioOld.id scenarioInitial = none →
        ∃ handle, getLagHandleIf scenarioOld.id s1 = some handle ∧
          handle.vlanId = vlanID) ∧
      (Table.find (PortDescriptorSaiId.aggregate lagSaiId)
          scenarioInitial.concurrentIndices.vlanIds = none →
        Table.find (PortDescriptorSaiId.aggregate lagSaiId) s1.concurrentIndices.vlanIds =
          some vlanID) :=
  addLag_checks_pass scenarioInitial scenarioOld (by decide) (by decide) (by decide)

/-- An instance of C29: `changeLag` of aggregate port A to no sub-port and the minimum link
count 3, after `addLag`. -/
theorem changeLag_sets_minimumLinkCount_scenario :
    ((scenarioOld.subportAndFwdState = [] ∨ scenarioRaised.subportAndFwdState = []) →
      changeLag scenarioOld scenarioRaised scenarioAdded =
        .ok (updateHandle scenarioOld.id
          { scenarioHandle with minimumLinkCount := scenarioRaised.minimumLinkCount }
          scenarioAdded)) ∧
    (∀ s1, changeLag scenarioOld scenarioRaised scenarioAdded = .ok s1 →
      ∃ handle1, getLagHandleIf scenarioOld.id s1 = some handle1 ∧
        handle1.minimumLinkCount = scenarioRaised.minimumLinkCount ∧
        (∀ active, getActiveMemberCount scenarioOld.id s1 = .ok active →
          isMinimumLinkMet scenarioOld.id s1 =
            .ok (decide (scenarioRaised.minimumLinkCount ≤ active)))) :=
  changeLag_sets_minimumLinkCount scenarioAdded scenarioOld scenarioRaised scenarioHandle
    (by decide)

end SaiLagManager

namespace HwSwitchEnsemble

/-- An instance of C30: the hardware switch of the scenario does not apply the new state of
odd content and returns its own state at address 9, so `applyNewStateImpl` fails with
`FbossHwUpdateError` and the programmed state is the published state at address 9. -/
theorem applyNewStateImpl_scenario :
    applyNewStateImpl scenarioHwSwitch none false scenarioEnsemble =
      .ok (scenarioEnsemble.programmedState, scenarioEnsemble) ∧
    ∃ e1 : HwSwitchEnsemble,
      e1.programmedState = some { address := 9, content := 0, published := true } ∧
      applyNewStateImpl scenarioHwSwitch (some scenarioRefused) false scenarioEnsemble =
        .error (.hwUpdateError
          { desiredState := { address := 2, content := 43, published := true },
            appliedState := { address := 9, content := 0, published := true } }, e1) := by
  obtain ⟨h0, h⟩ := applyNewStateImpl_outcome scenarioHwSwitch false scenarioEnsemble
  obtain ⟨e1, h1, -, -, -, h2⟩ :=
    h scenarioRefused { address := 9, content := 0, published := false } (by rfl)
  exact ⟨h0, e1, h1, h2 (by decide)⟩

end HwSwitchEnsemble

end Fboss
